import Mathlib

/-!
# Mach-O object-file emitter (`output/outmacho.c`): embedding and verified properties

The C module keeps its state in file-level variables; here they are the fields of one
`State` record that every operation takes and returns.  Pointers into the section list
and the symbol list are positions in those lists.  A routine that can stop the assembler
(`nasm_assert`, `nasm_panic`, `nasm_fatal`) returns `Option`, `none` being the stop;
diagnostics that let assembly continue are appended to `State.errs`.

Integer conventions.  Object counts and table indices (symbol numbers, file indices,
relocation counts, string offsets) are carried as unbounded numbers: the format caps them
far below the width of their C types.  Sizes, addresses and operand values are 64-bit in
C and are carried unbounded as well; every narrowing the code performs on them is
explicit: the mask that clears the scattered bit of a relocation address, the conversion
of a signed operand into an unsigned tree key, and the 1/2/4/8-byte little-endian stores.
C strings are lists of byte values, the end of the list being the terminating NUL.
-/

namespace Macho

/-! ## Constants -/

def NO_SEG : Int := -1

def GENERIC_RELOC_VANILLA : Nat := 0
def GENERIC_RELOC_TLV : Nat := 5
def X86_64_RELOC_UNSIGNED : Nat := 0
def X86_64_RELOC_SIGNED : Nat := 1
def X86_64_RELOC_BRANCH : Nat := 2
def X86_64_RELOC_GOT_LOAD : Nat := 3
def X86_64_RELOC_GOT : Nat := 4
def X86_64_RELOC_SUBTRACTOR : Nat := 5
def X86_64_RELOC_TLV : Nat := 9

def MACHO_HEADER_SIZE : Nat := 28
def MACHO_SEGCMD_SIZE : Nat := 56
def MACHO_SECTCMD_SIZE : Nat := 68
def MACHO_SYMCMD_SIZE : Nat := 24
def MACHO_NLIST_SIZE : Nat := 12
def MACHO_RELINFO_SIZE : Nat := 8
def MACHO_HEADER64_SIZE : Nat := 32
def MACHO_SEGCMD64_SIZE : Nat := 72
def MACHO_SECTCMD64_SIZE : Nat := 80
def MACHO_NLIST64_SIZE : Nat := 16

def MH_MAGIC : Nat := 0xfeedface
def MH_MAGIC_64 : Nat := 0xfeedfacf
def CPU_TYPE_I386 : Nat := 7
def CPU_TYPE_X86_64 : Nat := 0x01000007
def CPU_SUBTYPE_I386_ALL : Nat := 3
def MH_OBJECT : Nat := 1
def LC_SEGMENT : Nat := 0x1
def LC_SEGMENT_64 : Nat := 0x19
def LC_SYMTAB : Nat := 0x2

def SECTION_TYPE : Nat := 0x000000ff
def S_REGULAR : Nat := 0x0
def S_ZEROFILL : Nat := 0x1
def S_ATTR_SOME_INSTRUCTIONS : Nat := 0x00000400
def S_ATTR_EXT_RELOC : Nat := 0x00000200
def S_ATTR_LOC_RELOC : Nat := 0x00000100
def S_ATTR_PURE_INSTRUCTIONS : Nat := 0x80000000

def R_ABS : Int := 0
def R_SCATTERED : Nat := 0x80000000

def N_EXT : Nat := 0x01
def N_UNDF : Nat := 0x0
def N_ABS : Nat := 0x2
def N_SECT : Nat := 0xe
def N_TYPE : Nat := 0x0e

def DEFAULT_SECTION_ALIGNMENT : Int := 0
def NO_SECT : Nat := 0
def MAX_SECT : Nat := 255

/-! ## Data model -/

/-- Internal relocation kinds, `enum reltype`, in declaration order. -/
inductive reltype where
  | RL_ABS
  | RL_REL
  | RL_TLV
  | RL_BRANCH
  | RL_SUB
  | RL_GOT
  | RL_GOTLOAD
deriving DecidableEq, Repr

/-- Value of an `enum reltype` constant as the C compiler numbers it. -/
def reltype.toNat : reltype → Nat
  | .RL_ABS => 0
  | .RL_REL => 1
  | .RL_TLV => 2
  | .RL_BRANCH => 3
  | .RL_SUB => 4
  | .RL_GOT => 5
  | .RL_GOTLOAD => 6

def RL_MAX_32 : reltype := .RL_TLV
def RL_MAX_64 : reltype := .RL_GOTLOAD

/-- Format descriptor, `struct macho_fmt`. -/
structure macho_fmt where
  ptrsize : Nat
  mh_magic : Nat
  cpu_type : Nat
  lc_segment : Nat
  header_size : Nat
  segcmd_size : Nat
  sectcmd_size : Nat
  nlist_size : Nat
  maxreltype : reltype
  reloc_abs : Nat
  reloc_rel : Nat
  reloc_tlv : Nat
deriving DecidableEq, Repr

def macho32_fmt : macho_fmt :=
  { ptrsize := 4, mh_magic := MH_MAGIC, cpu_type := CPU_TYPE_I386, lc_segment := LC_SEGMENT,
    header_size := MACHO_HEADER_SIZE, segcmd_size := MACHO_SEGCMD_SIZE,
    sectcmd_size := MACHO_SECTCMD_SIZE, nlist_size := MACHO_NLIST_SIZE,
    maxreltype := RL_MAX_32, reloc_abs := GENERIC_RELOC_VANILLA,
    reloc_rel := GENERIC_RELOC_VANILLA, reloc_tlv := GENERIC_RELOC_TLV }

def macho64_fmt : macho_fmt :=
  { ptrsize := 8, mh_magic := MH_MAGIC_64, cpu_type := CPU_TYPE_X86_64,
    lc_segment := LC_SEGMENT_64, header_size := MACHO_HEADER64_SIZE,
    segcmd_size := MACHO_SEGCMD64_SIZE, sectcmd_size := MACHO_SECTCMD64_SIZE,
    nlist_size := MACHO_NLIST64_SIZE, maxreltype := RL_MAX_64,
    reloc_abs := X86_64_RELOC_UNSIGNED, reloc_rel := X86_64_RELOC_SIGNED,
    reloc_tlv := X86_64_RELOC_TLV }

/-- Pending relocation, `struct reloc` (the `next` link is the list the record sits in). -/
structure reloc where
  addr : Nat
  snum : Int
  pcrel : Nat
  length : Nat
  ext : Nat
  type : Nat
deriving DecidableEq, Repr

/-- Symbol record, `struct symbol`; `key` is `symv.key`, the tree key embedded in it. -/
structure symbol where
  key : Nat
  name : List Nat
  initial_snum : Int
  snum : Int
  strx : Nat
  type : Nat
  sect : Nat
  desc : Nat
deriving DecidableEq, Repr

/-- Section record, `struct section`.  `data` is the byte buffer (`struct SAA`), `relocs`
the relocation chain from its head, `gsyms` the tree of global symbols as the positions
(in the symbol list) of the symbols whose embedded nodes were inserted, oldest first. -/
structure Section where
  data : List Nat
  index : Int
  fileindex : Nat
  relocs : List reloc
  gsyms : List Nat
  align : Int
  by_name : Bool
  sectname : List Nat
  segname : List Nat
  addr : Nat
  size : Nat
  offset : Nat
  pad : Nat
  nreloc : Nat
  flags : Nat
  extreloc : Nat
deriving DecidableEq, Repr

/-- Diagnostics the module reports and then carries on from (`nasm_error` with
`ERR_NONFATAL` or `ERR_WARNING`), one constructor per message. -/
inductive diag where
  | no_suitable_symbol
  | rel_to_absolute
  | wrt_needs_symbol
  | code_in_absolute
  | unknown_section_defaulting
  | init_in_bss
  | reserve_in_nonbss
  | section_base_ref
  | abs32_on_64
  | wrt_unsupported
  | rel16_on_64
  | unrepresentable
  | special_symbol_type
  | forward_ref_fixup
  | unrecognized_special
  | no_sections
  | empty_segment_name
  | segment_name_too_long
  | empty_section_name
  | section_name_too_long
  | unknown_section_name
  | bad_alignment_value
  | alignment_not_power_of_two
  | unknown_section_attribute
  | inconsistent_section_attributes
deriving DecidableEq, Repr

/-- Severity of a diagnostic: `true` for `ERR_NONFATAL`, `false` for `ERR_WARNING`. -/
def diag.is_error : diag → Bool
  | .unknown_section_defaulting => false
  | .init_in_bss => false
  | .reserve_in_nonbss => false
  | .no_sections => false
  | _ => true

/-- Entry of `sectstab`: a pointer to the fake absolute section or to a listed section. -/
inductive sectptr where
  | absolute
  | real (i : Nat)
deriving DecidableEq, Repr

/-- The file-level variables of the module, plus the collaborators' state it drives:
the segment-number allocator (`next_seg`), the diagnostic channel (`errs`) and the
output file (`ofile`). -/
structure State where
  fmt : macho_fmt
  sects : List Section
  absolute_sect : Section
  sectstab : List sectptr
  syms : List symbol
  nsyms : Nat
  ilocalsym : Nat
  iextdefsym : Nat
  iundefsym : Nat
  nlocalsym : Nat
  nextdefsym : Nat
  nundefsym : Nat
  extdefsyms : List Nat
  undefsyms : List Nat
  extsyms : List (Int × Int)
  strs : List Nat
  strslen : Nat
  head_ncmds : Nat
  head_sizeofcmds : Nat
  seg_filesize : Nat
  seg_vmsize : Nat
  seg_nsects : Nat
  rel_padcnt : Nat
  macho_tlvp_sect : Int
  macho_gotpcrel_sect : Int
  next_seg : Int
  errs : List diag
  ofile : List Nat
deriving DecidableEq, Repr

/-! ## Collaborators -/

/-- Modelled from the spec: `raa_read` of the sparse integer map behind `extsyms`
("a sparse map from section-index to `initial_snum`"); a key never written reads 0. -/
def raa_read : List (Int × Int) → Int → Int
  | [], _ => 0
  | (k, v) :: rest, posn => if k = posn then v else raa_read rest posn

/-- Modelled from the spec: `raa_write` of the sparse integer map; the newest binding of
a key is the one read back. -/
def raa_write (r : List (Int × Int)) (posn : Int) (value : Int) : List (Int × Int) :=
  (posn, value) :: r

/-- Number of times `n` can be halved before it drops below 2, within `fuel` halvings. -/
def log2_halving : Nat → Nat → Nat
  | 0, _ => 0
  | fuel + 1, n => if 2 ≤ n then log2_halving fuel (n / 2) + 1 else 0

/-- Modelled from the spec: `ilog2_32`, matching "byte count 1, 2, 4, 8 to length codes
0, 1, 2, 3" (`length = log2(bytes)`), on the argument converted to `uint32_t`. -/
def ilog2_32 (v : Int) : Nat :=
  log2_halving 32 (v % 2 ^ 32).toNat

/-- Conversion of a signed 64-bit value to `uint64_t`. -/
def u64 (x : Int) : Nat :=
  (x % 2 ^ 64).toNat

/-- Key of the tree node embedded in the symbol at position `i`. -/
def node_key (syms : List symbol) (i : Nat) : Option Nat :=
  (syms[i]?).map (fun sym => sym.key)

/-- One step of the search below: keep the better of the best node so far and node `i`. -/
def rb_better (syms : List symbol) (key : Nat) (best : Option Nat) (i : Nat) : Option Nat :=
  match node_key syms i with
  | none => best
  | some k =>
    if k ≤ key then
      match best.bind (node_key syms) with
      | none => some i
      | some kb => if kb < k then some i else best
    else best

/-- Modelled from the spec: `rb_search` of the by-key tree ("largest-key-≤-query
lookup"): the node with the largest key not above `key`, if there is one; among nodes of
equal key the one inserted first. -/
def rb_search (syms : List symbol) (tree : List Nat) (key : Nat) : Option Nat :=
  tree.foldl (rb_better syms key) none

/-- Modelled from the spec: `rb_insert` of the by-key tree, adding the node embedded in
the symbol at position `node`. -/
def rb_insert (tree : List Nat) (node : Nat) : List Nat :=
  tree ++ [node]

/-! ## Byte buffers and C strings -/

/-- The `n` low-order bytes of `v`, least significant first (`WRITESHORT`, `WRITELONG`,
`WRITEDLONG`, `WRITEADDR` into a zeroed buffer). -/
def le_bytes (n : Nat) (v : Nat) : List Nat :=
  (List.range n).map (fun i => v / 256 ^ i % 256)

/-- Little-endian value of a byte list. -/
def le_value : List Nat → Nat
  | [] => 0
  | b :: rest => b + 256 * le_value rest

/-- Conversion of a 64-bit pattern to `int64_t`. -/
def to_int64 (v : Nat) : Int :=
  if v % 2 ^ 64 < 2 ^ 63 then (v % 2 ^ 64 : Nat) else (v % 2 ^ 64 : Nat) - 2 ^ 64

/-- Conversion to `int`, as in the cast `(int)size`. -/
def to_int32 (v : Nat) : Int :=
  if v % 2 ^ 32 < 2 ^ 31 then (v % 2 ^ 32 : Nat) else (v % 2 ^ 32 : Nat) - 2 ^ 32

/-- Read of `len` bytes at `posn` from a buffer (`saa_fread`); bytes past the end of the
buffer read as zero. -/
def saa_fread (buf : List Nat) (posn : Nat) (len : Nat) : List Nat :=
  (List.range len).map (fun i => buf.getD (posn + i) 0)

/-- Overwrite of the bytes at `posn` with `bytes` (`saa_fwrite`), within the buffer. -/
def saa_fwrite : List Nat → Nat → List Nat → List Nat
  | [], _, _ => []
  | b :: buf, 0, [] => b :: buf
  | _ :: buf, 0, x :: xs => x :: saa_fwrite buf 0 xs
  | b :: buf, posn + 1, xs => b :: saa_fwrite buf posn xs

/-- The C string held in a byte list: the bytes before the first NUL. -/
def cstr (s : List Nat) : List Nat :=
  s.takeWhile (fun b => b != 0)

/-- Modelled from the spec: `strlen` of the C library. -/
def strlen (s : List Nat) : Nat :=
  (cstr s).length

/-- Modelled from the spec: `strcmp` of the C library, the byte-wise comparison that
`layout_compare` and the section lookup rely on: the difference of the first pair of
bytes that differ, the end of a string counting as a NUL byte. -/
def strcmp : List Nat → List Nat → Int
  | [], [] => 0
  | [], b :: _ => -(b : Int)
  | a :: _, [] => (a : Int)
  | a :: as, b :: bs =>
    if a = b then (if a = 0 then 0 else strcmp as bs) else (a : Int) - (b : Int)

/-- Effect of the macro `xstrncpy` on a 16-byte name field: the first 15 bytes of the
string, the field being NUL-terminated. -/
def xstrncpy (src : List Nat) : List Nat :=
  (cstr src).take 15

/-- What the `data` pointer of an output event points at: the bytes of a raw-data event,
or the 64-bit operand of an address event. -/
inductive out_data where
  | bytes (b : List Nat)
  | operand (v : Int)
deriving DecidableEq, Repr

/-- The operand `*(int64_t *)data`. -/
def out_data.int64 : out_data → Int
  | .operand v => v
  | .bytes b => to_int64 (le_value (saa_fread b 0 8))

/-- The first `len` bytes at `data`. -/
def out_data.raw (d : out_data) (len : Nat) : List Nat :=
  match d with
  | .bytes b => saa_fread b 0 len
  | .operand v => le_bytes len (u64 v)

/-- Modelled from the spec: `enum out_type` of the assembler core, the event kinds
RAWDATA, ADDRESS, RESERVE and the relative-address kinds of each width. -/
inductive out_type where
  | OUT_RAWDATA
  | OUT_ADDRESS
  | OUT_RESERVE
  | OUT_REL1ADR
  | OUT_REL2ADR
  | OUT_REL4ADR
  | OUT_REL8ADR
deriving DecidableEq, Repr

/-- Modelled from the spec: `realsize(kind, n)` of the assembler core, the number of
bytes an event of that kind stands for. -/
def realsize (type : out_type) (size : Nat) : Nat :=
  match type with
  | .OUT_REL1ADR => 1
  | .OUT_REL2ADR => 2
  | .OUT_REL4ADR => 4
  | .OUT_REL8ADR => 8
  | _ => size

/-- Modelled from the spec: `seg_alloc`, the collaborator that hands out "fresh section
identities": successive even numbers. -/
def seg_alloc (st : State) : State × Int :=
  ({ st with next_seg := st.next_seg + 2 }, st.next_seg)

/-! ## Section lookup -/

/-- Position of the first section in the list whose `index` is the given one. -/
def find_by_index (index : Int) : List Section → Option Nat
  | [] => none
  | s :: rest => if index = s.index then some 0 else (find_by_index index rest).map (· + 1)

/-- Lookup `get_section_by_index`: first listed section with that `index`. -/
def get_section_by_index (st : State) (index : Int) : Option Nat :=
  find_by_index index st.sects

/-- Apply `f` to the section at position `i` of the list. -/
def update_sect (st : State) (i : Nat) (f : Section → Section) : State :=
  { st with sects := st.sects.modify f i }

/-- Report a diagnostic through `nasm_error`. -/
def nasm_error (st : State) (d : diag) : State :=
  { st with errs := st.errs ++ [d] }

/-! ## Relocation classifier -/

/-- Routine `macho_find_gsym`: the global symbol of section `s` for a `..gotpcrel` or
`..tlvp` reference; on failure a diagnostic is reported and no symbol returned. -/
def macho_find_gsym (st : State) (s : Section) (offset : Nat) (exact : Bool) :
    State × Option Nat :=
  match rb_search st.syms s.gsyms offset with
  | none => (nasm_error st .no_suitable_symbol, none)
  | some srb =>
    if exact && node_key st.syms srb != some offset then
      (nasm_error st .no_suitable_symbol, none)
    else (st, some srb)

/-- Tail of `add_reloc` after the `switch`: link the record at the head of the section's
chain, note an external relocation, count it, return the adjustment. -/
def reloc_link (st : State) (sect : Nat) (r : reloc) (adjust : Int) : State × Int :=
  (update_sect st sect (fun sc =>
    { sc with relocs := r :: sc.relocs,
              extreloc := if r.ext ≠ 0 then 1 else sc.extreloc,
              nreloc := sc.nreloc + 1 }), adjust)

/-- Routine `add_reloc(sect, section, offset, reltype, bytes)`; `sect` is the position of
the section being written, `section_` the segment number referred to.  The result is
`none` when the assertion on the relocation kind fails. -/
def add_reloc (st : State) (sect : Nat) (section_ : Int) (offset : Int) (rt : reltype)
    (bytes : Int) : Option (State × Int) :=
  if ¬ (rt.toNat ≤ st.fmt.maxreltype.toNat) then none
  else
    match st.sects[sect]? with
    | none => none
    | some sc =>
      let r : reloc :=
        { addr := sc.size &&& (2 ^ 32 - 1 - R_SCATTERED), ext := 1,
          length := ilog2_32 bytes, type := st.fmt.reloc_abs, pcrel := 0, snum := R_ABS }
      let adjust : Int := bytes
      let s : Option Nat := if section_ ≠ NO_SEG then get_section_by_index st section_ else none
      let fi : Nat :=
        match s.bind (fun i => st.sects[i]?) with
        | some t => t.fileindex
        | none => NO_SECT
      match rt with
      | .RL_ABS =>
        if section_ = NO_SEG then
          some (reloc_link st sect { r with ext := 0, snum := R_ABS } adjust)
        else if fi = NO_SECT then
          some (reloc_link st sect { r with snum := raa_read st.extsyms section_ } adjust)
        else
          some (reloc_link st sect { r with ext := 0, snum := (fi : Int) } (-(sc.size : Int)))
      | .RL_REL | .RL_BRANCH =>
        let r := { r with type := st.fmt.reloc_rel, pcrel := 1 }
        if section_ = NO_SEG then
          some (nasm_error st .rel_to_absolute, 0)
        else if fi = NO_SECT then
          let st := update_sect st sect (fun sc => { sc with extreloc := 1 })
          let r := { r with snum := raa_read st.extsyms section_ }
          if rt = .RL_BRANCH then
            some (reloc_link st sect { r with type := X86_64_RELOC_BRANCH } adjust)
          else if r.type = GENERIC_RELOC_VANILLA then
            some (reloc_link st sect r (-(sc.size : Int)))
          else
            some (reloc_link st sect r adjust)
        else
          some (reloc_link st sect { r with ext := 0, snum := (fi : Int) } (-(sc.size : Int)))
      | .RL_SUB =>
        some (reloc_link st sect { r with pcrel := 0, type := X86_64_RELOC_SUBTRACTOR } adjust)
      | .RL_GOT | .RL_GOTLOAD | .RL_TLV =>
        let ty : Nat :=
          match rt with
          | .RL_GOT => X86_64_RELOC_GOT
          | .RL_GOTLOAD => X86_64_RELOC_GOT_LOAD
          | _ => st.fmt.reloc_tlv
        let r := { r with type := ty, pcrel := 1 }
        if section_ = NO_SEG then
          some (reloc_link (nasm_error st .wrt_needs_symbol) sect r adjust)
        else if fi = NO_SECT then
          some (reloc_link st sect { r with snum := raa_read st.extsyms section_ } adjust)
        else
          match s.bind (fun i => st.sects[i]?) with
          | none => none
          | some t =>
            match macho_find_gsym st t (u64 offset) (decide (rt ≠ .RL_TLV)) with
            | (st1, none) => some (st1, 0)
            | (st1, some sym) =>
              match st1.syms[sym]? with
              | none => none
              | some sy => some (reloc_link st1 sect { r with snum := sy.initial_snum } adjust)

/-! ## Emitter -/

/-- Routine `sect_write(sect, data, len)`: append the `len` bytes at `data` to the section's
buffer and add `len` to its size.  `data` is the list of those `len` bytes. -/
def sect_write (st : State) (sect : Nat) (data : List Nat) (len : Nat) : State :=
  update_sect st sect (fun sc => { sc with data := sc.data ++ data, size := sc.size + len })

/-- Position of the first section in the list with the given segment and section names. -/
def find_by_name (segname sectname : List Nat) : List Section → Option Nat
  | [] => none
  | s :: rest =>
    if strcmp s.segname segname = 0 ∧ strcmp s.sectname sectname = 0 then some 0
    else (find_by_name segname sectname rest).map (· + 1)

/-- Lookup `get_section_by_name`. -/
def get_section_by_name (st : State) (segname sectname : List Nat) : Option Nat :=
  find_by_name segname sectname st.sects

/-- The segment name `"__TEXT"`. -/
def seg_TEXT : List Nat := [0x5f, 0x5f, 0x54, 0x45, 0x58, 0x54]

/-- The segment name `"__DATA"`. -/
def seg_DATA : List Nat := [0x5f, 0x5f, 0x44, 0x41, 0x54, 0x41]

/-- The section name `"__text"`. -/
def sect_text : List Nat := [0x5f, 0x5f, 0x74, 0x65, 0x78, 0x74]

/-- The section name `"__data"`. -/
def sect_data : List Nat := [0x5f, 0x5f, 0x64, 0x61, 0x74, 0x61]

/-- The section name `"__const"`. -/
def sect_const : List Nat := [0x5f, 0x5f, 0x63, 0x6f, 0x6e, 0x73, 0x74]

/-- The section name `"__bss"`. -/
def sect_bss : List Nat := [0x5f, 0x5f, 0x62, 0x73, 0x73]

/-- The opcode window of the branch test in `macho_output`: the last two bytes of the
buffer, the first being 0 when the buffer holds one byte, both when it is empty. -/
def peek_opcode (data : List Nat) : Nat × Nat :=
  if 2 ≤ data.length then
    (data.getD (data.length - 2) 0, data.getD (data.length - 1) 0)
  else if data.length = 1 then (0, data.getD 0 0)
  else (0, 0)

/-- The branch test of `macho_output`: direct call, jmp or jcc. -/
def is_branch_opcode (op : Nat × Nat) : Bool :=
  (op.1 != 0x0f && (op.2 &&& 0xfe) == 0xe8) || (op.1 == 0x0f && (op.2 &&& 0xf0) == 0x80)

/-- The GOT-load test of `macho_output` on the last three bytes of the buffer. -/
def is_gotload (g : List Nat) : Bool :=
  (g.getD 0 0 &&& 0xf8) == 0x48 && g.getD 1 0 == 0x8b && (g.getD 2 0 &&& 0o307) == 0o005

/-- The relocation kind `macho_output` chooses for a `OUT_REL4ADR` event, with the
diagnostic flag for an unsupported `WRT`. -/
def rel4_reltype (st : State) (s : Section) (wrt : Int) : reltype × Bool :=
  if wrt = NO_SEG then
    if st.fmt.ptrsize = 8 ∧ (s.flags &&& S_ATTR_SOME_INSTRUCTIONS) ≠ 0 then
      if is_branch_opcode (peek_opcode s.data) then (.RL_BRANCH, false) else (.RL_REL, false)
    else (.RL_REL, false)
  else if wrt = st.macho_gotpcrel_sect then
    if (s.flags &&& S_ATTR_SOME_INSTRUCTIONS) ≠ 0 ∧ 3 ≤ s.data.length then
      if is_gotload (saa_fread s.data (s.data.length - 3) 3) then (.RL_GOTLOAD, false)
      else (.RL_GOT, false)
    else (.RL_GOT, false)
  else if wrt = st.macho_tlvp_sect then (.RL_TLV, false)
  else (.RL_REL, true)

/-- Routine `macho_output(secto, data, type, size, section, wrt)`.  The result is `none`
when the routine stops the assembler (panic or failed assertion). -/
def macho_output (st : State) (secto : Int) (data : out_data) (type : out_type) (size : Nat)
    (section_ : Int) (wrt : Int) : Option State :=
  if secto = NO_SEG then
    if type ≠ .OUT_RESERVE then some (nasm_error st .code_in_absolute) else some st
  else
    let found : Option (State × Nat) :=
      match get_section_by_index st secto with
      | some i => some (st, i)
      | none =>
        match get_section_by_name st seg_TEXT sect_text with
        | some i => some (nasm_error st .unknown_section_defaulting, i)
        | none => none
    match found with
    | none => none
    | some (st, si) =>
      match st.sects[si]? with
      | none => none
      | some s =>
        let is_bss : Bool := (s.flags &&& SECTION_TYPE) == S_ZEROFILL
        if is_bss ∧ type ≠ .OUT_RESERVE then
          some (update_sect (nasm_error st .init_in_bss) si (fun sc =>
            { sc with size := sc.size + realsize type size }))
        else
          match type with
          | .OUT_RESERVE =>
            if ¬ is_bss then
              some (sect_write (nasm_error st .reserve_in_nonbss) si
                (List.replicate (size % 2 ^ 32) 0) (size % 2 ^ 32))
            else
              some (update_sect st si (fun sc => { sc with size := sc.size + size }))
          | .OUT_RAWDATA =>
            if section_ ≠ NO_SEG then none
            else some (sect_write st si (data.raw (size % 2 ^ 32)) (size % 2 ^ 32))
          | .OUT_ADDRESS =>
            let asize : Nat := (to_int32 size).natAbs
            let addr : Int := data.int64
            let st1 : Option State :=
              if section_ ≠ NO_SEG then
                if section_ % 2 ≠ 0 then some (nasm_error st .section_base_ref)
                else if wrt = NO_SEG then
                  if st.fmt.ptrsize = 8 ∧ asize ≠ 8 then some (nasm_error st .abs32_on_64)
                  else (add_reloc st si section_ addr .RL_ABS asize).map (fun p => p.1)
                else some (nasm_error st .wrt_unsupported)
              else some st
            st1.map (fun st => sect_write st si (le_bytes asize (u64 addr)) asize)
          | .OUT_REL2ADR =>
            if section_ = secto then none
            else
              let offset : Int := data.int64
              let addr : Int := offset - size
              let res : Option (State × Int) :=
                if section_ ≠ NO_SEG ∧ section_ % 2 ≠ 0 then
                  some (nasm_error st .section_base_ref, addr)
                else if st.fmt.ptrsize = 8 then some (nasm_error st .rel16_on_64, addr)
                else if wrt ≠ NO_SEG then some (nasm_error st .wrt_unsupported, addr)
                else
                  (add_reloc st si section_ (addr + size) .RL_REL 2).map
                    (fun p => (p.1, addr + p.2))
              res.map (fun p => sect_write p.1 si (le_bytes 2 (u64 p.2)) 2)
          | .OUT_REL4ADR =>
            if section_ = secto then none
            else
              let offset : Int := data.int64
              let addr : Int := offset - size
              let res : Option (State × Int) :=
                if section_ ≠ NO_SEG ∧ section_ % 2 ≠ 0 then
                  (add_reloc (nasm_error st .section_base_ref) si section_ offset .RL_REL 4).map
                    (fun p => (p.1, addr + p.2))
                else
                  let k := rel4_reltype st s wrt
                  let st := if k.2 then nasm_error st .wrt_unsupported else st
                  (add_reloc st si section_ offset k.1 4).map (fun p => (p.1, addr + p.2))
              res.map (fun p => sect_write p.1 si (le_bytes 4 (u64 p.2)) 4)
          | _ => some (nasm_error st .unrepresentable)

/-! ## Section creation and symbol definition -/

/-- The block of `macho_section` that creates a section not yet in the list: a fresh
record with the given names and flags, appended at the tail. -/
def new_section (st : State) (segment section_ : List Nat) (flags : Nat) : State × Nat :=
  let (st, idx) := seg_alloc st
  let st := { st with seg_nsects := st.seg_nsects + 1 }
  let s : Section :=
    { data := [], index := idx, fileindex := st.seg_nsects, relocs := [], gsyms := [],
      align := -1, by_name := false, sectname := xstrncpy section_,
      segname := xstrncpy segment, addr := 0, size := 0, offset := 2 ^ 64 - 1,
      pad := 2 ^ 32 - 1, nreloc := 0, flags := flags, extreloc := 0 }
  ({ st with sects := st.sects ++ [s] }, st.sects.length)

/-- The name `"..gotpcrel"`. -/
def name_gotpcrel : List Nat := [0x2e, 0x2e, 0x67, 0x6f, 0x74, 0x70, 0x63, 0x72, 0x65, 0x6c]

/-- The name `"..tlvp"`. -/
def name_tlvp : List Nat := [0x2e, 0x2e, 0x74, 0x6c, 0x76, 0x70]

/-- Routine `macho_symdef(name, section, offset, is_global, special)`; `special` is
`none` for a null pointer.  The result is `none` when the routine panics.  The field
`sect` of a symbol is a `uint8_t`, so it gets the `fileindex` of the section modulo 2^8. -/
def macho_symdef (st : State) (name : List Nat) (section_ : Int) (offset : Int)
    (is_global : Int) (special : Option (List Nat)) : Option State :=
  if special.isSome then some (nasm_error st .special_symbol_type)
  else if is_global = 3 then some (nasm_error st .forward_ref_fixup)
  else if name.getD 0 0 = 0x2e ∧ name.getD 1 0 = 0x2e ∧ name.getD 2 0 ≠ 0x40 then
    if strcmp name name_gotpcrel ≠ 0 ∧ strcmp name name_tlvp ≠ 0 then
      some (nasm_error st .unrecognized_special)
    else some st
  else
    let node : Nat := st.syms.length
    let sym : symbol :=
      { key := u64 offset, name := name, initial_snum := -1, snum := 0, strx := st.strslen,
        type := 0, sect := 0, desc := 0 }
    let sym := if is_global ≠ 0 then { sym with type := sym.type ||| N_EXT } else sym
    if section_ = NO_SEG then
      let sym := { sym with type := sym.type ||| N_ABS, sect := NO_SECT }
      some { st with syms := st.syms ++ [sym],
                     absolute_sect :=
                       { st.absolute_sect with gsyms := rb_insert st.absolute_sect.gsyms node },
                     nsyms := st.nsyms + 1 }
    else
      let s : Option Nat := get_section_by_index st section_
      let sym := { sym with type := sym.type ||| N_SECT }
      match s.bind (fun i => (st.sects[i]?).map (fun sc => (i, sc))) with
      | none =>
        let sym := { sym with sect := NO_SECT, initial_snum := st.nsyms }
        if is_global = 1 ∨ is_global = 2 then
          some { st with syms := st.syms ++ [{ sym with type := N_EXT }],
                         extsyms := raa_write st.extsyms section_ st.nsyms,
                         nsyms := st.nsyms + 1 }
        else none
      | some (i, sc) =>
        let sym := { sym with sect := sc.fileindex % 2 ^ 8, initial_snum := st.nsyms }
        let st := { st with syms := st.syms ++ [sym], nsyms := st.nsyms + 1 }
        if is_global ≠ 0 then
          some (update_sect st i (fun sc => { sc with gsyms := rb_insert sc.gsyms node }))
        else some st

/-- The module's variables as the C program starts: every static zero or null. -/
def program_start : State :=
  { fmt := { ptrsize := 0, mh_magic := 0, cpu_type := 0, lc_segment := 0, header_size := 0,
             segcmd_size := 0, sectcmd_size := 0, nlist_size := 0, maxreltype := .RL_ABS,
             reloc_abs := 0, reloc_rel := 0, reloc_tlv := 0 },
    sects := [],
    absolute_sect :=
      { data := [], index := 0, fileindex := 0, relocs := [], gsyms := [], align := 0,
        by_name := false, sectname := [], segname := [], addr := 0, size := 0, offset := 0,
        pad := 0, nreloc := 0, flags := 0, extreloc := 0 },
    sectstab := [], syms := [], nsyms := 0, ilocalsym := 0, iextdefsym := 0, iundefsym := 0,
    nlocalsym := 0, nextdefsym := 0, nundefsym := 0, extdefsyms := [], undefsyms := [],
    extsyms := [], strs := [], strslen := 0, head_ncmds := 0, head_sizeofcmds := 0,
    seg_filesize := 0, seg_vmsize := 0, seg_nsects := 0, rel_padcnt := 0,
    macho_tlvp_sect := 0, macho_gotpcrel_sect := 0, next_seg := 0, errs := [], ofile := [] }

/-- Modelled from the spec: `define_label` as used at initialisation, "used once at init
to register `..tlvp` (always) and `..gotpcrel` (64-bit only)": the label manager hands
the name back to this module's symbol-definition callback. -/
def define_label (st : State) (name : List Nat) (section_ : Int) : State :=
  (macho_symdef st name section_ 0 0 none).getD st

/-- Routine `macho_init`. -/
def macho_init (st : State) : State :=
  let st :=
    { st with sects := [], absolute_sect := { st.absolute_sect with index := NO_SEG },
              syms := [], nsyms := 0, nlocalsym := 0, nextdefsym := 0, nundefsym := 0,
              extsyms := [], strs := [0], strslen := 1 }
  let (st, seg) := seg_alloc st
  let st := { st with macho_tlvp_sect := seg + 1 }
  define_label st name_tlvp st.macho_tlvp_sect

/-- Routine `macho32_init`. -/
def macho32_init (st : State) : State :=
  let st := macho_init { st with fmt := macho32_fmt }
  { st with macho_gotpcrel_sect := NO_SEG }

/-- Routine `macho64_init`. -/
def macho64_init (st : State) : State :=
  let st := macho_init { st with fmt := macho64_fmt }
  let (st, seg) := seg_alloc st
  let st := { st with macho_gotpcrel_sect := seg + 1 }
  define_label st name_gotpcrel st.macho_gotpcrel_sect

/-! ## Layout pass -/

/-- Name of the symbol a pointer (list position) refers to. -/
def name_of (syms : List symbol) (p : Nat) : List Nat :=
  ((syms[p]?).map (fun sym => sym.name)).getD []

/-- Comparison `layout_compare` for the symbol sort: `strcmp` of the two names. -/
def layout_compare (syms : List symbol) (s1 s2 : Nat) : Int :=
  strcmp (name_of syms s1) (name_of syms s2)

/-- Order that `layout_compare` induces: `s1` may come before `s2`. -/
def layout_le (syms : List symbol) (s1 s2 : Nat) : Prop :=
  layout_compare syms s1 s2 ≤ 0

instance layout_le_decidable (syms : List symbol) : DecidableRel (layout_le syms) :=
  fun s1 s2 => inferInstanceAs (Decidable (layout_compare syms s1 s2 ≤ 0))

/-- Modelled from the spec: `qsort` of the C library on the first `n` entries of an
array of symbol pointers ("sort each array lexicographically by name"), as an insertion
sort under `layout_compare`. -/
def qsort (syms : List symbol) (arr : List Nat) (n : Nat) : List Nat :=
  (arr.take n).insertionSort (layout_le syms) ++ arr.drop n

/-- Append a symbol's name and its NUL to the string table, advancing `*strtabsize`. -/
def strs_append (st : State) (name : List Nat) : State :=
  { st with strs := st.strs ++ (cstr name ++ [0]), strslen := st.strslen + (strlen name + 1) }

/-- Body of the first loop of `macho_layout_symbols` for one symbol: promote an
undefined symbol to external, number a local symbol, count an external one and put its
name in the string table.  `*numsyms` is `nsyms`, `*strtabsize` is `strslen`. -/
def layout_step1 (sym : symbol) (st : State) : symbol × State :=
  let sym := if sym.type = N_UNDF then { sym with type := sym.type ||| N_EXT } else sym
  if sym.type &&& N_EXT = 0 then
    ({ sym with snum := (st.nsyms : Int) },
      { st with nsyms := st.nsyms + 1, nlocalsym := st.nlocalsym + 1 })
  else
    let st :=
      if sym.type &&& N_TYPE ≠ N_UNDF then { st with nextdefsym := st.nextdefsym + 1 }
      else { st with nundefsym := st.nundefsym + 1 }
    ({ sym with strx := st.strslen }, strs_append st sym.name)

/-- First loop of `macho_layout_symbols` over the symbol list. -/
def layout_scan1 : List symbol → State → List symbol × State
  | [], st => ([], st)
  | sym :: rest, st =>
    let r := layout_step1 sym st
    let tail := layout_scan1 rest r.2
    (r.1 :: tail.1, tail.2)

/-- Body of the second loop of `macho_layout_symbols` for the symbol at list position
`idx`: put the name of a local symbol in the string table, store a pointer to an
external symbol in the array of the defined or of the undefined ones. -/
def layout_step2 (sym : symbol) (idx : Nat) (st : State) : symbol × State :=
  if sym.type &&& N_EXT = 0 then
    ({ sym with strx := st.strslen }, strs_append st sym.name)
  else if sym.type &&& N_TYPE ≠ N_UNDF then
    (sym, { st with extdefsyms := st.extdefsyms ++ [idx] })
  else
    (sym, { st with undefsyms := st.undefsyms ++ [idx] })

/-- Second loop of `macho_layout_symbols`; `idx` is the list position of the head. -/
def layout_scan2 : List symbol → Nat → State → List symbol × State
  | [], _, st => ([], st)
  | sym :: rest, idx, st =>
    let r := layout_step2 sym idx st
    let tail := layout_scan2 rest (idx + 1) r.2
    (r.1 :: tail.1, tail.2)

/-- The numbering loops at the end of `macho_layout_symbols`: each symbol of the array,
in array order, gets the next symbol number. -/
def layout_number : List Nat → State → State
  | [], st => st
  | p :: rest, st =>
    layout_number rest
      { st with syms := st.syms.modify (fun sym => { sym with snum := (st.nsyms : Int) }) p,
                nsyms := st.nsyms + 1 }

/-- First part of `macho_layout_symbols`: reset `*numsyms` and `*strtabsize`, run the
first loop, set the indices of the symbol groups. -/
def layout_classify (st : State) : State :=
  let r := layout_scan1 st.syms { st with nsyms := 0, strslen := 1 }
  { r.2 with syms := r.1, ilocalsym := 0, iextdefsym := r.2.nlocalsym,
             iundefsym := r.2.nlocalsym + r.2.nextdefsym }

/-- Second part of `macho_layout_symbols`: allocate the two arrays and run the second
loop, which fills them. -/
def layout_collect (st : State) : State :=
  let r := layout_scan2 st.syms 0 { st with extdefsyms := [], undefsyms := [] }
  { r.2 with syms := r.1 }

/-- Third part of `macho_layout_symbols`: sort `nextdefsym` entries of the first array
and `nundefsym` entries of the second by name. -/
def layout_sort (st : State) : State :=
  { st with extdefsyms := qsort st.syms st.extdefsyms st.nextdefsym,
            undefsyms := qsort st.syms st.undefsyms st.nundefsym }

/-- Last part of `macho_layout_symbols`: number `nextdefsym` entries of the first array,
then `nundefsym` entries of the second. -/
def layout_assign (st : State) : State :=
  let st := layout_number (st.extdefsyms.take st.nextdefsym) st
  layout_number (st.undefsyms.take st.nundefsym) st

/-- Routine `macho_layout_symbols(&nsyms, &strslen)`. -/
def macho_layout_symbols (st : State) : State :=
  layout_assign (layout_sort (layout_collect (layout_classify st)))

/-- Inner loop of `macho_fixup_relocs`: the final number of the first symbol of the list
whose `initial_snum` is the given one. -/
def fixup_find (snum : Int) : List symbol → Option Int
  | [] => none
  | sym :: rest => if sym.initial_snum = snum then some sym.snum else fixup_find snum rest

/-- Routine `macho_fixup_relocs` on one relocation chain. -/
def macho_fixup_relocs (syms : List symbol) (relocs : List reloc) : List reloc :=
  relocs.map (fun r =>
    if r.ext ≠ 0 then
      match fixup_find r.snum syms with
      | some n => { r with snum := n }
      | none => r
    else r)

/-- The loop of `macho_cleanup` that applies `macho_fixup_relocs` to every section. -/
def fixup_all (st : State) : State :=
  { st with sects := st.sects.map (fun sc =>
      { sc with relocs := macho_fixup_relocs st.syms sc.relocs }) }

/-! ## Sizing pass -/

/-- Modelled from the spec: the macro `ALIGN(v, a)`, "align_up": the least multiple of
`a` that is at least `v`. -/
def ALIGN (v a : Nat) : Nat :=
  (v + (a - 1)) / a * a

/-- Body of the section loop of `macho_calculate_sizes` for one section, with the running
`seg_vmsize` and `seg_filesize`. -/
def size_section (s : Section) (vmsize filesize : Nat) : Section × Nat × Nat :=
  let s := { s with addr := vmsize }
  let s := if s.align = -1 then { s with align := DEFAULT_SECTION_ALIGNMENT } else s
  let newaddr := ALIGN s.addr (2 ^ s.align.toNat)
  let s := { s with addr := newaddr }
  let vmsize := newaddr + s.size
  if s.flags &&& SECTION_TYPE ≠ S_ZEROFILL then
    let pad := ALIGN filesize 4 - filesize
    ({ s with pad := pad, offset := filesize + pad }, vmsize, filesize + (s.size + pad))
  else (s, vmsize, filesize)

/-- The section loop of `macho_calculate_sizes`. -/
def size_sections : List Section → Nat → Nat → List Section × Nat × Nat
  | [], vmsize, filesize => ([], vmsize, filesize)
  | s :: rest, vmsize, filesize =>
    let r := size_section s vmsize filesize
    let tail := size_sections rest r.2.1 r.2.2
    (r.1 :: tail.1, tail.2)

/-- Routine `macho_calculate_sizes`; `none` is the fatal error for more than `MAX_SECT`
sections. -/
def macho_calculate_sizes (st : State) : Option State :=
  let r := size_sections st.sects st.seg_vmsize st.seg_filesize
  let st := { st with sects := r.1, seg_vmsize := r.2.1, seg_filesize := r.2.2 }
  let st :=
    if st.seg_nsects > 0 then
      { st with head_ncmds := st.head_ncmds + 1,
                head_sizeofcmds :=
                  st.head_sizeofcmds + (st.fmt.segcmd_size + st.seg_nsects * st.fmt.sectcmd_size) }
    else st
  let st :=
    if st.nsyms > 0 then
      { st with head_ncmds := st.head_ncmds + 1,
                head_sizeofcmds := st.head_sizeofcmds + MACHO_SYMCMD_SIZE }
    else st
  if st.seg_nsects > MAX_SECT then none
  else
    some { st with sectstab :=
      sectptr.absolute :: (List.range st.sects.length).map (fun i => sectptr.real i) }

/-! ## Writer -/

/-- The section a `sectstab` entry points at. -/
def deref (st : State) : sectptr → Option Section
  | .absolute => some st.absolute_sect
  | .real i => st.sects[i]?

/-- The lookup `sectstab[n]->addr`. -/
def sectstab_addr (st : State) (n : Nat) : Option Nat :=
  ((st.sectstab[n]?).bind (deref st)).map (fun s => s.addr)

/-- Append bytes to the output file. -/
def nasm_write (st : State) (bytes : List Nat) : State :=
  { st with ofile := st.ofile ++ bytes }

/-- Writer `fwriteint16_t`. -/
def fwriteint16_t (st : State) (v : Nat) : State := nasm_write st (le_bytes 2 v)

/-- Writer `fwriteint32_t`. -/
def fwriteint32_t (st : State) (v : Nat) : State := nasm_write st (le_bytes 4 v)

/-- Writer `fwriteptr`: a value of the format's pointer width. -/
def fwriteptr (st : State) (v : Nat) : State := nasm_write st (le_bytes st.fmt.ptrsize v)

/-- Writer `fwritezero`. -/
def fwritezero (st : State) (n : Nat) : State := nasm_write st (List.replicate n 0)

/-- The second word of a relocation entry as `macho_write_relocs` packs it. -/
def reloc_word2 (r : reloc) : Nat :=
  (r.snum % 2 ^ 24).toNat ||| (r.pcrel % 2) <<< 24 ||| (r.length % 4) <<< 25 |||
    (r.ext % 2) <<< 27 ||| (r.type % 16) <<< 28

/-- Routine `macho_write_relocs`: the entries of one chain, head first. -/
def macho_write_relocs (st : State) : List reloc → State
  | [] => st
  | r :: rest =>
    macho_write_relocs (fwriteint32_t (fwriteint32_t st r.addr) (reloc_word2 r)) rest

/-- The width in bytes that `macho_write_section` patches for a relocation. -/
def patch_len (r : reloc) : Nat :=
  if 2 ^ r.length > 4 then 8 else 2 ^ r.length

/-- The offset computation of the relocation loop of `macho_write_section`: the value to
store for relocation `r` of section `s` when the bytes read are `l`; `none` when the
assertion on `snum` fails. -/
def patch_value (st : State) (s : Section) (r : reloc) (l : Int) : Option Int :=
  if r.ext = 0 then
    if 0 ≤ r.snum ∧ r.snum ≤ (st.seg_nsects : Int) then
      (sectstab_addr st r.snum.toNat).map (fun a =>
        if r.pcrel ≠ 0 then l + a - s.addr else l + a)
    else none
  else if r.pcrel ≠ 0 ∧ r.type = GENERIC_RELOC_VANILLA then some (l - s.addr)
  else some l

/-- Body of the relocation loop of `macho_write_section` for one relocation of the
section `s`, on the section's buffer: read, compute, write back. -/
def patch_reloc (st : State) (s : Section) (data : List Nat) (r : reloc) :
    Option (List Nat) :=
  let len := patch_len r
  let l : Int := to_int64 (le_value (saa_fread data r.addr len))
  (patch_value st s r l).map (fun l => saa_fwrite data r.addr (le_bytes len (u64 l)))

/-- The relocation loop of `macho_write_section` over a chain. -/
def patch_relocs (st : State) (s : Section) : List reloc → List Nat → Option (List Nat)
  | [], data => some data
  | r :: rest, data => (patch_reloc st s data r).bind (patch_relocs st s rest)

/-- The first loop of `macho_write_section` from section position `i` on: patch each
non-zerofill section's buffer and dump it after its padding. -/
def write_section_data : List Section → Nat → State → Option State
  | [], _, st => some st
  | s :: rest, i, st =>
    if s.flags &&& SECTION_TYPE = S_ZEROFILL then write_section_data rest (i + 1) st
    else
      match patch_relocs st s s.relocs s.data with
      | none => none
      | some data =>
        let st := update_sect st i (fun sc => { sc with data := data })
        write_section_data rest (i + 1) (nasm_write (fwritezero st s.pad) data)

/-- Routine `macho_write_section`. -/
def macho_write_section (st : State) : Option State :=
  (write_section_data st.sects 0 st).map (fun st =>
    st.sects.foldl (fun acc s => macho_write_relocs acc s.relocs) (fwritezero st st.rel_padcnt))

/-- One entry of the symbol table as the three loops of `macho_write_symtab` write it:
the symbol at list position `p`, its value fixed up first; `none` when the assertion on
`sect` fails. -/
def write_nlist (st : State) (p : Nat) : Option State :=
  match st.syms[p]? with
  | none => none
  | some sym =>
    let st := fwriteint32_t st sym.strx
    let st := nasm_write st [sym.type % 256]
    let st := nasm_write st [sym.sect % 256]
    let st := fwriteint16_t st sym.desc
    let key : Option Nat :=
      if sym.type &&& N_TYPE = N_SECT ∧ sym.sect ≠ NO_SECT then
        if sym.sect ≤ st.seg_nsects then
          (sectstab_addr st sym.sect).map (fun a => sym.key + a)
        else none
      else some sym.key
    key.map (fun k =>
      fwriteptr { st with syms := st.syms.modify (fun sy => { sy with key := k }) p } k)

/-- A loop of `macho_write_symtab` over a list of symbol pointers. -/
def write_nlists : List Nat → State → Option State
  | [], st => some st
  | p :: rest, st => (write_nlist st p).bind (write_nlists rest)

/-- The list positions of the symbols with `N_EXT` clear, in list order. -/
def local_positions : List symbol → Nat → List Nat
  | [], _ => []
  | sym :: rest, idx =>
    if sym.type &&& N_EXT = 0 then idx :: local_positions rest (idx + 1)
    else local_positions rest (idx + 1)

/-- Routine `macho_write_symtab`: the local symbols in list order, then the two sorted
arrays. -/
def macho_write_symtab (st : State) : Option State :=
  ((write_nlists (local_positions st.syms 0) st).bind
    (fun st => write_nlists (st.extdefsyms.take st.nextdefsym) st)).bind
    (fun st => write_nlists (st.undefsyms.take st.nundefsym) st)

/-- The protection `VM_PROT_DEFAULT`: read, write and execute. -/
def VM_PROT_DEFAULT : Nat := 0x07

/-- The macro `alignptr(x)`: `ALIGN(x, fmt.ptrsize)`. -/
def alignptr (st : State) (x : Nat) : Nat :=
  ALIGN x st.fmt.ptrsize

/-- The 16 bytes of a `sectname` or `segname` field: the name, zero filled. -/
def name_field (name : List Nat) : List Nat :=
  saa_fread name 0 16

/-- An `int` as the 32-bit pattern that `fwriteint32_t` receives. -/
def u32 (x : Int) : Nat :=
  (x % 2 ^ 32).toNat

/-- Routine `macho_write_header`. -/
def macho_write_header (st : State) : State :=
  let st := fwriteint32_t st st.fmt.mh_magic
  let st := fwriteint32_t st st.fmt.cpu_type
  let st := fwriteint32_t st CPU_SUBTYPE_I386_ALL
  let st := fwriteint32_t st MH_OBJECT
  let st := fwriteint32_t st st.head_ncmds
  let st := fwriteint32_t st st.head_sizeofcmds
  let st := fwriteint32_t st 0
  fwritezero st (st.fmt.header_size - 7 * 4)

/-- Head of the section loop of `macho_write_segment` for the section at position `i`:
a section with relocations gets the relocation attributes, and a `__DATA,__const` section
without relocations that was not named explicitly moves to `__TEXT` when there is no
`__TEXT,__const`; `none` when the assertion on a zerofill section fails. -/
def sectcmd_flags (st : State) (i : Nat) (s : Section) : Option State :=
  if s.nreloc ≠ 0 then
    if s.flags &&& SECTION_TYPE = S_ZEROFILL then none
    else
      let st := update_sect st i (fun sc => { sc with flags := sc.flags ||| S_ATTR_LOC_RELOC })
      if s.extreloc ≠ 0 then
        some (update_sect st i (fun sc => { sc with flags := sc.flags ||| S_ATTR_EXT_RELOC }))
      else some st
  else if strcmp s.segname seg_DATA = 0 ∧ strcmp s.sectname sect_const = 0 ∧
      s.by_name = false ∧ (get_section_by_name st seg_TEXT sect_const).isNone then
    some (update_sect st i (fun sc => { sc with segname := xstrncpy seg_TEXT }))
  else some st

/-- Rest of the section loop of `macho_write_segment` for the section `s`: the section
header, with the running `offset` and `s_reloff`, which are returned updated; `none` when
the assertion on `pad` fails. -/
def sectcmd_write (st : State) (s : Section) (rel_base offset s_reloff : Nat) :
    Option (State × Nat × Nat) :=
  let st := nasm_write st (name_field s.sectname)
  let st := nasm_write st (name_field s.segname)
  let st := fwriteptr st s.addr
  let st := fwriteptr st s.size
  let r : Option (State × Nat × Nat) :=
    if s.flags &&& SECTION_TYPE ≠ S_ZEROFILL then
      if s.pad = 2 ^ 32 - 1 then none
      else
        let offset := offset + s.pad
        let st := fwriteint32_t st offset
        let offset := offset + s.size
        let st := fwriteint32_t st (u32 s.align)
        let st := fwriteint32_t st (if s.nreloc ≠ 0 then rel_base + s_reloff else 0)
        let st := fwriteint32_t st s.nreloc
        some (st, offset, s_reloff + s.nreloc * MACHO_RELINFO_SIZE)
    else
      let st := fwriteint32_t st 0
      let st := fwriteint32_t st (u32 s.align)
      let st := fwriteint32_t st 0
      let st := fwriteint32_t st 0
      some (st, offset, s_reloff)
  r.map (fun p =>
    let st := fwriteint32_t p.1 s.flags
    let st := fwriteint32_t st 0
    (fwriteptr st 0, p.2))

/-- Body of the section loop of `macho_write_segment` for the section at position `i`. -/
def write_sectcmd (st : State) (i : Nat) (rel_base offset s_reloff : Nat) :
    Option (State × Nat × Nat) :=
  match st.sects[i]? with
  | none => none
  | some s =>
    (sectcmd_flags st i s).bind (fun st =>
      match st.sects[i]? with
      | none => none
      | some s => sectcmd_write st s rel_base offset s_reloff)

/-- The section loop of `macho_write_segment` over the section positions of a list. -/
def write_sectcmds (rel_base : Nat) : List Nat → State → Nat → Nat → Option (State × Nat × Nat)
  | [], st, offset, s_reloff => some (st, offset, s_reloff)
  | i :: rest, st, offset, s_reloff =>
    (write_sectcmd st i rel_base offset s_reloff).bind (fun r =>
      write_sectcmds rel_base rest r.1 r.2.1 r.2.2)

/-- Routine `macho_write_segment(offset)`: the segment command and the section headers;
sets `rel_padcnt` (an unsigned 64-bit difference) and returns the offset after the
relocation entries. -/
def macho_write_segment (st : State) (offset : Nat) : Option (State × Nat) :=
  let rel_base := alignptr st (offset + st.seg_filesize)
  let st := fwriteint32_t st st.fmt.lc_segment
  let st := fwriteint32_t st (st.fmt.segcmd_size + st.seg_nsects * st.fmt.sectcmd_size)
  let st := fwritezero st 16
  let st := fwriteptr st 0
  let st := fwriteptr st st.seg_vmsize
  let st := fwriteptr st offset
  let st := fwriteptr st st.seg_filesize
  let st := fwriteint32_t st VM_PROT_DEFAULT
  let st := fwriteint32_t st VM_PROT_DEFAULT
  let st := fwriteint32_t st st.seg_nsects
  let st := fwriteint32_t st 0
  (write_sectcmds rel_base (List.range st.sects.length) st offset 0).map (fun r =>
    ({ r.1 with rel_padcnt := (((rel_base : Int) - (r.2.1 : Int)) % 2 ^ 64).toNat },
      rel_base + r.2.2))

/-- The symbol table command that `macho_write` emits, for the symbol table at `offset`;
returns the offset of the string table. -/
def write_symtab_command (st : State) (offset : Nat) : State × Nat :=
  let st := fwriteint32_t st LC_SYMTAB
  let st := fwriteint32_t st MACHO_SYMCMD_SIZE
  let st := fwriteint32_t st offset
  let st := fwriteint32_t st st.nsyms
  let offset := offset + st.nsyms * st.fmt.nlist_size
  let st := fwriteint32_t st offset
  (fwriteint32_t st st.strslen, offset)

/-- First part of `macho_write`: the header and the load commands; returns the offset
the routine has reached. -/
def write_load_commands (st : State) : Option (State × Nat) :=
  let st := macho_write_header st
  let offset := st.fmt.header_size + st.head_sizeofcmds
  let r : Option (State × Nat) :=
    if st.seg_nsects > 0 then macho_write_segment st offset
    else some (nasm_error st .no_sections, offset)
  r.map (fun p => if p.1.nsyms > 0 then write_symtab_command p.1 p.2 else p)

/-- Routine `macho_write`: the load commands, then the section data with the relocation
entries, the symbol table and the string table. -/
def macho_write (st : State) : Option State :=
  (write_load_commands st).bind (fun p =>
    ((if p.1.seg_nsects > 0 then macho_write_section p.1 else some p.1).bind (fun st =>
      if st.nsyms > 0 then macho_write_symtab st else some st)).map (fun st =>
        nasm_write st st.strs))

/-- The passes of `macho_cleanup` that produce the file: layout, relocation fix-up,
sizing, writing. -/
def macho_cleanup_write (st : State) : Option State :=
  (macho_calculate_sizes (fixup_all (macho_layout_symbols st))).bind macho_write

/-- Routine `macho_cleanup`: the passes that produce the file, then the release of the
memory.  The loop that releases the sections starts by reading `sects->next`, so the
routine stops (`none`) when there is no section; the release changes no variable of the
model otherwise. -/
def macho_cleanup (st : State) : Option State :=
  (macho_cleanup_write st).bind (fun st1 => if st1.sects = [] then none else some st1)

/-! ## Section directive -/

/-- Modelled from the spec: `nasm_strsep(&stringp, delim)`, which cuts the next token off
a string of "whitespace-separated attributes": the token runs up to the first byte of
`delim`, and the pointer moves past that byte, or becomes null when the string ends
first.  The result is the token and the new pointer; both are null for a null pointer. -/
def nasm_strsep (stringp : Option (List Nat)) (delim : List Nat) :
    Option (List Nat) × Option (List Nat) :=
  match stringp with
  | none => (none, none)
  | some s =>
    match (cstr s).dropWhile (fun b => !delim.contains b) with
    | [] => (some ((cstr s).takeWhile (fun b => !delim.contains b)), none)
    | _ :: rest => (some ((cstr s).takeWhile (fun b => !delim.contains b)), some rest)

/-- The tokens that successive calls of `nasm_strsep` cut off a non-null string until the
pointer becomes null, in order; a string always gives at least one token and two
neighbouring delimiters give an empty one. -/
def strsep_tokens (delim : List Nat) : List Nat → List (List Nat)
  | [] => [[]]
  | b :: rest =>
    if delim.contains b then [] :: strsep_tokens delim rest
    else
      match strsep_tokens delim rest with
      | [] => [[b]]
      | t :: ts => (b :: t) :: ts

/-- Modelled from the spec: `strchr` of the C library, as the split of a string at the
first occurrence of the byte `c`: the part before it and the part after it; `none`
when the byte does not occur. -/
def strchr (s : List Nat) (c : Nat) : Option (List Nat × List Nat) :=
  match (cstr s).dropWhile (fun b => b != c) with
  | [] => none
  | _ :: rest => some ((cstr s).takeWhile (fun b => b != c), rest)

/-- Modelled from the spec: `nasm_tolower`, on the ASCII letters. -/
def nasm_tolower (b : Nat) : Nat :=
  if 0x41 ≤ b ∧ b ≤ 0x5a then b + 0x20 else b

/-- Modelled from the spec: `nasm_stricmp`, the comparison of two strings without regard
to the case of letters (attribute words are matched this way). -/
def nasm_stricmp (s1 s2 : List Nat) : Int :=
  strcmp (s1.map nasm_tolower) (s2.map nasm_tolower)

/-- Modelled from the spec: `nasm_strnicmp`, the same comparison on at most the first `n`
bytes of each string. -/
def nasm_strnicmp (s1 s2 : List Nat) (n : Nat) : Int :=
  strcmp ((s1.take n).map nasm_tolower) ((s2.take n).map nasm_tolower)

/-- Value of a byte as a digit of `strtoul`: `0`-`9`, then the letters from ten on. -/
def digit_value (b : Nat) : Option Nat :=
  if 0x30 ≤ b ∧ b ≤ 0x39 then some (b - 0x30)
  else if 0x61 ≤ b ∧ b ≤ 0x7a then some (b - 0x61 + 10)
  else if 0x41 ≤ b ∧ b ≤ 0x5a then some (b - 0x41 + 10)
  else none

/-- The digits of `strtoul` in the given base: the value read so far, whether a digit was
read, and the bytes left from the first one that is not a digit. -/
def strtoul_digits (base : Nat) : List Nat → Nat → Bool → Nat × Bool × List Nat
  | [], acc, any => (acc, any, [])
  | b :: rest, acc, any =>
    match digit_value b with
    | some d =>
      if d < base then strtoul_digits base rest (acc * base + d) true
      else (acc, any, b :: rest)
    | none => (acc, any, b :: rest)

/-- Modelled from the spec: `strtoul(nptr, &end, 0)` of the C library with a 64-bit
`unsigned long`, the reader of "`align=N` (decimal/0x)": white space and a sign are
skipped, a leading `0x` selects base 16 and another leading `0` base 8, a value too large
reads as `ULONG_MAX`, a minus sign negates the value, and `end` is left at the first byte
not read (at `nptr` when there is no digit).  The result is the value and the string at
`end`. -/
def strtoul (nptr : List Nat) : Nat × List Nat :=
  let s := (cstr nptr).dropWhile (fun b => b == 0x20 || (0x09 ≤ b && b ≤ 0x0d))
  let neg := s.head? == some 0x2d
  let s := if s.head? == some 0x2d || s.head? == some 0x2b then s.tail else s
  let hex := s.head? == some 0x30 && (s.tail.head? == some 0x78 || s.tail.head? == some 0x58) &&
    ((s.tail.tail.head?.bind digit_value).any (fun d => d < 16))
  let base := if hex then 16 else if s.head? == some 0x30 then 8 else 10
  let r := strtoul_digits base (if hex then s.tail.tail else s) 0 false
  if r.2.1 then
    let v := if r.1 < 2 ^ 64 then (if neg then (2 ^ 64 - r.1) % 2 ^ 64 else r.1) else 2 ^ 64 - 1
    (v, r.2.2)
  else (0, cstr nptr)

/-- Modelled from the spec: `alignlog2_32(v)`, the base-2 logarithm of an alignment
("must be a power of two"): `-1` when the argument, converted to `uint32_t`, has more than
one bit set, and `ilog2_32` of it otherwise. -/
def alignlog2_32 (v : Int) : Int :=
  if u32 v &&& ((u32 v + (2 ^ 32 - 1)) % 2 ^ 32) ≠ 0 then -1 else (ilog2_32 v : Int)

/-- Modelled from the spec: the macro `is_power2(v)` on an `unsigned int`: the argument
is not zero and has one bit set. -/
def is_power2 (v : Nat) : Bool :=
  v % 2 ^ 32 ≠ 0 && (v % 2 ^ 32) &&& ((v % 2 ^ 32 + (2 ^ 32 - 1)) % 2 ^ 32) == 0

/-- The name `".text"`. -/
def alias_text : List Nat := [0x2e, 0x74, 0x65, 0x78, 0x74]

/-- The name `".data"`. -/
def alias_data : List Nat := [0x2e, 0x64, 0x61, 0x74, 0x61]

/-- The name `".rodata"`. -/
def alias_rodata : List Nat := [0x2e, 0x72, 0x6f, 0x64, 0x61, 0x74, 0x61]

/-- The name `".bss"`. -/
def alias_bss : List Nat := [0x2e, 0x62, 0x73, 0x73]

/-- The table `sectmap`: the assembler's name of a section, its segment and section
names, and its flags. -/
def sectmap : List (List Nat × List Nat × List Nat × Nat) :=
  [(alias_text, seg_TEXT, sect_text,
      (S_REGULAR ||| S_ATTR_SOME_INSTRUCTIONS) ||| S_ATTR_PURE_INSTRUCTIONS),
    (alias_data, seg_DATA, sect_data, S_REGULAR),
    (alias_rodata, seg_DATA, sect_const, S_REGULAR),
    (alias_bss, seg_DATA, sect_bss, S_ZEROFILL)]

/-- The string `"align="`. -/
def attr_align : List Nat := [0x61, 0x6c, 0x69, 0x67, 0x6e, 0x3d]

/-- The string `"data"`. -/
def attr_data : List Nat := [0x64, 0x61, 0x74, 0x61]

/-- The string `"code"`. -/
def attr_code : List Nat := [0x63, 0x6f, 0x64, 0x65]

/-- The string `"text"`. -/
def attr_text : List Nat := [0x74, 0x65, 0x78, 0x74]

/-- The string `"mixed"`. -/
def attr_mixed : List Nat := [0x6d, 0x69, 0x78, 0x65, 0x64]

/-- The string `"bss"`. -/
def attr_bss : List Nat := [0x62, 0x73, 0x73]

/-- First part of `macho_section`, the names and flags that the section name stands for:
the two halves of a name with a comma, with the flags that the section name implies and
a diagnostic for each half that is empty or has 16 bytes or more, or the entry of
`sectmap` for the name; `none` for a name that is neither. -/
def section_target (st : State) (name : List Nat) :
    State × Option (List Nat × List Nat × Nat) :=
  match strchr name 0x2c with
  | some (segment, section_) =>
    let st :=
      if strlen segment = 0 then nasm_error st .empty_segment_name
      else if strlen segment ≥ 16 then nasm_error st .segment_name_too_long
      else st
    let st :=
      if strlen section_ = 0 then nasm_error st .empty_section_name
      else if strlen section_ ≥ 16 then nasm_error st .section_name_too_long
      else st
    let flags :=
      if strcmp section_ sect_text = 0 then
        (S_REGULAR ||| S_ATTR_SOME_INSTRUCTIONS) ||| S_ATTR_PURE_INSTRUCTIONS
      else if strcmp section_ sect_bss = 0 then S_ZEROFILL
      else S_REGULAR
    (st, some (segment, section_, flags))
  | none =>
    match sectmap.find? (fun sm => strcmp name sm.1 = 0) with
    | some sm => (st, some (sm.2.1, sm.2.2.1, sm.2.2.2))
    | none => (nasm_error st .unknown_section_name, none)

/-- Body of the attribute loop of `macho_section` for the token `cur`, on the section at
position `i`; `flags` is the local variable of that name, which starts at
`(uint32_t)-1` and keeps its value from one token to the next. -/
def section_attribute (i : Nat) (new_seg : Bool) (p : State × Nat) (cur : List Nat) :
    State × Nat :=
  let st := p.1
  let flags := p.2
  let r : State × Nat :=
    if cur.head?.getD 0 ≠ 0 then
      if nasm_strnicmp attr_align cur 6 = 0 then
        let e := strtoul (cur.drop 6)
        let value := to_int32 e.1
        let newAlignment := alignlog2_32 value
        let st :=
          if e.2.head?.getD 0 ≠ 0 then nasm_error st .bad_alignment_value
          else if 0 > newAlignment then nasm_error st .alignment_not_power_of_two
          else st
        (update_sect st i (fun s =>
          if s.align < newAlignment then { s with align := newAlignment } else s), flags)
      else if nasm_stricmp attr_data cur = 0 then (st, S_REGULAR)
      else if nasm_stricmp attr_code cur = 0 ∨ nasm_stricmp attr_text cur = 0 then
        (st, (S_REGULAR ||| S_ATTR_SOME_INSTRUCTIONS) ||| S_ATTR_PURE_INSTRUCTIONS)
      else if nasm_stricmp attr_mixed cur = 0 then (st, S_REGULAR ||| S_ATTR_SOME_INSTRUCTIONS)
      else if nasm_stricmp attr_bss cur = 0 then (st, S_ZEROFILL)
      else (nasm_error st .unknown_section_attribute, flags)
    else (st, flags)
  if r.2 ≠ 2 ^ 32 - 1 then
    if !new_seg ∧ (r.1.sects[i]?).map (fun s => s.flags) ≠ some r.2 then
      (nasm_error r.1 .inconsistent_section_attributes, r.2)
    else (update_sect r.1 i (fun s => { s with flags := r.2 }), r.2)
  else r

/-- The start of `macho_section`: the section name, which is `".text"` for a null pointer
and the first token of the string otherwise, and the tokens after it, which the
attribute loop goes through. -/
def section_tokens (name : Option (List Nat)) : List Nat × List (List Nat) :=
  match name with
  | none => (alias_text, [])
  | some n =>
    let p := nasm_strsep (some n) [0x20, 0x09]
    (p.1.getD [],
      match p.2 with
      | none => []
      | some rest => strsep_tokens [0x20, 0x09] rest)

/-- Routine `macho_section(name, pass, bits)`; `name` is `none` for a null pointer, and
the result is the state, the value left in `*bits` and the segment number returned. -/
def macho_section (st : State) (name : Option (List Nat)) (bits : Nat) : State × Nat × Int :=
  let bits := if name.isNone then st.fmt.ptrsize <<< 3 else bits
  let tokens := section_tokens name
  let t := section_target st tokens.1
  match t.2 with
  | none => (t.1, bits, NO_SEG)
  | some (segment, section_, flags) =>
    let st := t.1
    let found := get_section_by_name st segment section_
    let c : State × Nat :=
      match found with
      | some i => (st, i)
      | none => new_section st segment section_ flags
    let comma := (strchr tokens.1 0x2c).isSome
    let st := update_sect c.1 c.2 (fun s => { s with by_name := s.by_name || comma })
    let r := tokens.2.foldl (section_attribute c.2 found.isNone) (st, 2 ^ 32 - 1)
    (r.1, bits, ((r.1.sects[c.2]?).map (fun s => s.index)).getD NO_SEG)

/-- Routine `macho_sectalign(seg, value)`; `none` when the assertion on `seg` fails. -/
def macho_sectalign (st : State) (seg : Int) (value : Nat) : Option State :=
  if seg % 2 ≠ 0 then none
  else
    match get_section_by_index st seg with
    | none => some st
    | some i =>
      if !is_power2 value then some st
      else
        some (update_sect st i (fun s =>
          if s.align < alignlog2_32 (value : Int) then
            { s with align := alignlog2_32 (value : Int) }
          else s))

/-! ## Runs -/

/-- The calls made into the module before the final write: a symbol definition
(`macho_symdef`), an output event (`macho_output`), the creation of a section
(`new_section`), the section directive with its attributes (`macho_section`, a null
pointer for the name being `none`) and the alignment request (`macho_sectalign`). -/
inductive event where
  | symdef (name : List Nat) (section_ : Int) (offset : Int) (is_global : Int)
      (special : Option (List Nat))
  | output (secto : Int) (data : out_data) (type : out_type) (size : Nat) (section_ : Int)
      (wrt : Int)
  | new_section (segment sectname : List Nat) (flags : Nat)
  | section_ (name : Option (List Nat)) (bits : Nat)
  | sectalign (seg : Int) (value : Nat)

/-- Effect of one call; `none` when the module stops the assembler. -/
def step (st : State) : event → Option State
  | .symdef name section_ offset is_global special =>
    macho_symdef st name section_ offset is_global special
  | .output secto data type size section_ wrt =>
    macho_output st secto data type size section_ wrt
  | .new_section segment sectname flags => some (new_section st segment sectname flags).1
  | .section_ name bits => some (macho_section st name bits).1
  | .sectalign seg value => macho_sectalign st seg value

/-- Effect of a sequence of calls. -/
def run : List event → State → Option State
  | [], st => some st
  | e :: rest, st => (step st e).bind (run rest)

/-- A state the module reaches: some sequence of calls after one of the two
initialisations. -/
def reachable (st : State) : Prop :=
  ∃ evs, run evs (macho32_init program_start) = some st ∨
    run evs (macho64_init program_start) = some st

/-- A call of the module by the assembler: the section directive, the alignment request,
a symbol definition or an output event. -/
inductive call where
  | section_ (name : Option (List Nat)) (bits : Nat)
  | sectalign (seg : Int) (value : Nat)
  | symdef (name : List Nat) (section_ : Int) (offset : Int) (is_global : Int)
      (special : Option (List Nat))
  | output (secto : Int) (data : out_data) (type : out_type) (size : Nat) (section_ : Int)
      (wrt : Int)

/-- Effect of one call on the module; `none` when the module stops the assembler. -/
def do_call (st : State) : call → Option State
  | .section_ name bits => some (macho_section st name bits).1
  | .sectalign seg value => macho_sectalign st seg value
  | .symdef name section_ offset is_global special =>
    macho_symdef st name section_ offset is_global special
  | .output secto data type size section_ wrt =>
    macho_output st secto data type size section_ wrt

/-- Effect of a sequence of calls. -/
def do_calls : List call → State → Option State
  | [], st => some st
  | c :: rest, st => (do_call st c).bind (do_calls rest)

/-! ## Specification vocabulary -/

/-- State `st1` is `st` with relocation `r` registered in section `sect`: `r` is the new
head of that section's chain, its count grew by one, and no other section changed. -/
def registered (st : State) (sect : Nat) (r : reloc) (st1 : State) : Prop :=
  ∃ sc sc1, st.sects[sect]? = some sc ∧ st1.sects[sect]? = some sc1 ∧
    sc1.relocs = r :: sc.relocs ∧ sc1.nreloc = sc.nreloc + 1 ∧
    st1.sects.length = st.sects.length ∧ ∀ i, i ≠ sect → st1.sects[i]? = st.sects[i]?

/-- No relocation chain and no relocation count differs between `st` and `st1`. -/
def relocs_unchanged (st st1 : State) : Prop :=
  st1.sects.map (fun sc => (sc.relocs, sc.nreloc)) = st.sects.map (fun sc => (sc.relocs, sc.nreloc))

/-- Search invariant: `best` is the answer of the tree search among the nodes `seen`: no
node of `seen` has a key at most `key` when it is `none`, otherwise it is a node of `seen`
whose key is the largest one at most `key`. -/
def search_inv (syms : List symbol) (key : Nat) (seen : List Nat) (best : Option Nat) : Prop :=
  match best with
  | none => ∀ i ∈ seen, ∀ k, node_key syms i = some k → ¬ k ≤ key
  | some b => b ∈ seen ∧ ∃ kb, node_key syms b = some kb ∧ kb ≤ key ∧
      ∀ i ∈ seen, ∀ k, node_key syms i = some k → k ≤ key → k ≤ kb

/-- The Mach-O type code `add_reloc` stores for a symbol-targeting kind. -/
def needsym_type (fmt : macho_fmt) (rt : reltype) : Nat :=
  match rt with
  | .RL_GOT => X86_64_RELOC_GOT
  | .RL_GOTLOAD => X86_64_RELOC_GOT_LOAD
  | _ => fmt.reloc_tlv

/-- The symbol is local: `N_EXT` is clear. -/
def sym_local (sym : symbol) : Bool :=
  sym.type &&& N_EXT == 0

/-- The symbol is a defined external: `N_EXT` set and `(type & N_TYPE) != N_UNDF`. -/
def sym_extdef (sym : symbol) : Bool :=
  !(sym.type &&& N_EXT == 0) && (sym.type &&& N_TYPE != N_UNDF)

/-- The symbol is an undefined external: `N_EXT` set and `(type & N_TYPE) = N_UNDF`. -/
def sym_undef (sym : symbol) : Bool :=
  !(sym.type &&& N_EXT == 0) && (sym.type &&& N_TYPE == N_UNDF)

/-- The list positions, counted from `idx`, of the symbols that satisfy `pred`. -/
def positions (pred : symbol → Bool) : List symbol → Nat → List Nat
  | [], _ => []
  | sym :: rest, idx =>
    if pred sym then idx :: positions pred rest (idx + 1) else positions pred rest (idx + 1)

/-- The promotion at the head of the layout pass: a symbol of type `N_UNDF` gets `N_EXT`. -/
def promote (sym : symbol) : symbol :=
  if sym.type = N_UNDF then { sym with type := sym.type ||| N_EXT } else sym

/-- The fields of a symbol that the layout pass never writes. -/
def sym_ident (sym : symbol) : Nat × List Nat × Int × Nat × Nat :=
  (sym.key, sym.name, sym.initial_snum, sym.sect, sym.desc)

/-- Final symbol number of the symbol at list position `p`. -/
def snum_at (syms : List symbol) (p : Nat) : Option Int :=
  (syms[p]?).map (fun sym => sym.snum)

/-- The symbol list is numbered as `macho_symdef` numbers it: `nsyms` is its length, and
the symbol at position `p` has `initial_snum` equal to `p`, or -1 when it is absolute. -/
def syms_numbered (st : State) : Prop :=
  st.nsyms = st.syms.length ∧
  ∀ (p : Nat) (sym : symbol), st.syms[p]? = some sym →
    sym.initial_snum = -1 ∨ sym.initial_snum = (p : Int)

/-- Relocation `r1` is relocation `r` after the fix-up, `syms` being the symbol list
before layout and `symsF` the list after it: only `snum` may differ; an internal
relocation keeps it; an external relocation whose `snum` is the `initial_snum` of the
symbol at position `p` gets that symbol's final number; and the new `snum` is the old one
or the final number of one symbol whose `initial_snum` was the old one. -/
def fixed_up (syms symsF : List symbol) (r r1 : reloc) : Prop :=
  r1.addr = r.addr ∧ r1.pcrel = r.pcrel ∧ r1.length = r.length ∧ r1.ext = r.ext ∧
  r1.type = r.type ∧
  (r.ext = 0 → r1.snum = r.snum) ∧
  (r.ext ≠ 0 → ∀ (p : Nat) (sym : symbol), syms[p]? = some sym →
    sym.initial_snum = r.snum → snum_at symsF p = some r1.snum) ∧
  (r1.snum = r.snum ∨ ∃ symF ∈ symsF, symF.initial_snum = r.snum ∧ r1.snum = symF.snum)

/-- The group counters and group start indices that the layout pass computes. -/
def layout_counters (st : State) : Nat × Nat × Nat × Nat × Nat × Nat :=
  (st.nlocalsym, st.nextdefsym, st.nundefsym, st.ilocalsym, st.iextdefsym, st.iundefsym)

/-- The order of the symbol table after layout: the local symbols in list order, then the
array of defined externals, then the array of undefined externals (list positions). -/
def layout_order (st : State) : List Nat :=
  positions sym_local st.syms 0 ++ (st.extdefsyms ++ st.undefsyms)

/-- States `st` and `st1` agree on what the patch computation reads: the section count
and every address reachable through `sectstab`. -/
def same_tables (st st1 : State) : Prop :=
  st1.seg_nsects = st.seg_nsects ∧ ∀ n, sectstab_addr st1 n = sectstab_addr st n

/-- State `st1` has the section count, the `sectstab` table, the absolute section and
every section address of `st`. -/
def tables_inv (st st1 : State) : Prop :=
  st1.seg_nsects = st.seg_nsects ∧ st1.sectstab = st.sectstab ∧
  st1.absolute_sect = st.absolute_sect ∧
  ∀ k : Nat, (st1.sects[k]?).map (fun sc => sc.addr) = (st.sects[k]?).map (fun sc => sc.addr)

/-- Relocations `a` and `b` patch byte ranges that do not overlap. -/
def relocs_disjoint (a b : reloc) : Prop :=
  a.addr + patch_len a ≤ b.addr ∨ b.addr + patch_len b ≤ a.addr

/-- Section `s` can be patched: each relocation's bytes lie inside the buffer, no two
relocations overlap, and each internal relocation names an entry of `sectstab` (the
assertion `r->snum <= seg_nsects` holds). -/
def patchable (st : State) (s : Section) : Prop :=
  (∀ r ∈ s.relocs, r.addr + patch_len r ≤ s.data.length) ∧
  s.relocs.Pairwise relocs_disjoint ∧
  (∀ r ∈ s.relocs, r.ext = 0 →
    0 ≤ r.snum ∧ r.snum ≤ (st.seg_nsects : Int) ∧ (sectstab_addr st r.snum.toNat).isSome)

/-- The byte pattern of `MOV r64,[rip+disp32]`: REX prefix `48..4f`, opcode `8B`, ModRM
with mod = 00 and rm = 101. -/
def mov_got_pattern (b0 b1 b2 : Nat) : Prop :=
  b0 &&& 0xf8 = 0x48 ∧ b1 = 0x8b ∧ b2 &&& 0xc7 = 0x05

/-- The bytes a symbol's name takes in the string table: the C string and its NUL. -/
def name_entry (sym : symbol) : List Nat :=
  cstr sym.name ++ [0]

/-- The bytes `bs` lie at offset `off` of the buffer `buf`. -/
def bytes_at (buf : List Nat) (off : Nat) (bs : List Nat) : Prop :=
  (buf.drop off).take bs.length = bs

/-- The names, each with its NUL, of the symbols of a list that satisfy `pred`, one after
the other in list order. -/
def names_of (pred : symbol → Bool) : List symbol → List Nat
  | [] => []
  | sym :: rest =>
    if pred sym then name_entry sym ++ names_of pred rest else names_of pred rest

/-- The type and the name of a symbol. -/
def sym_tn (sym : symbol) : Nat × List Nat :=
  (sym.type, sym.name)

/-- The type, the name and the string-table offset of a symbol. -/
def sym_str (sym : symbol) : Nat × List Nat × Nat :=
  (sym.type, sym.name, sym.strx)

/-- Number `m` is the least multiple of `a` that is at least `v`. -/
def least_multiple (a v m : Nat) : Prop :=
  a ∣ m ∧ v ≤ m ∧ ∀ k, a ∣ k → v ≤ k → m ≤ k

/-- The end `addr + size` of the section before position `i` of a list; `base` for the
first section. -/
def prev_end (base : Nat) (l : List Section) : Nat → Nat
  | 0 => base
  | i + 1 => ((l[i]?).map (fun s => s.addr + s.size)).getD base

/-- The variables that no call made before the final write assigns: the format, the group
counters and string table of the layout pass, the totals of the sizing pass, the special
segment numbers, the section table and the output file. -/
def untouched (st : State) :=
  (st.fmt, st.nlocalsym, st.nextdefsym, st.nundefsym, st.strs, st.strslen, st.head_ncmds,
    st.head_sizeofcmds, st.seg_filesize, st.seg_vmsize, st.rel_padcnt, st.sectstab,
    st.macho_tlvp_sect, st.macho_gotpcrel_sect, st.ofile)

/-- A relocation as the emitter registers them on format `fmt` with `nsects` sections:
the type code is one the format has, `ext` is a flag, an internal relocation names a
section by its file index, an external one carries a symbol number. -/
def reloc_ok (fmt : macho_fmt) (nsects : Nat) (r : reloc) : Prop :=
  (fmt = macho32_fmt → r.type = 0 ∨ r.type = 5) ∧
  (fmt = macho64_fmt → r.type ∈ [0, 1, 2, 3, 4, 9]) ∧
  (r.ext = 0 ∨ r.ext = 1) ∧
  (r.ext = 0 → 1 ≤ r.snum ∧ r.snum ≤ (nsects : Int)) ∧
  (r.ext ≠ 0 → 0 ≤ r.snum)

/-- A section as the emitter keeps it: `nreloc` counts the chain, a zerofill section has
no relocation, another section holds `size` bytes, every relocation is well formed, and
every node of `gsyms` is a symbol that carries its own list position as `initial_snum`. -/
def sect_ok (fmt : macho_fmt) (syms : List symbol) (nsects : Nat) (s : Section) : Prop :=
  s.nreloc = s.relocs.length ∧
  (s.flags &&& SECTION_TYPE = S_ZEROFILL → s.relocs = []) ∧
  (s.flags &&& SECTION_TYPE ≠ S_ZEROFILL → s.data.length = s.size) ∧
  (∀ r ∈ s.relocs, reloc_ok fmt nsects r) ∧
  (∀ g ∈ s.gsyms, ∃ sy, syms[g]? = some sy ∧ sy.initial_snum = (g : Int))

/-- What holds of the module's variables between two calls: the format is one of the
two, `..gotpcrel` being unknown to the 32-bit one; symbols are numbered by position;
`seg_nsects` counts the section list and file indices run from 1 in list order; `extsyms`
holds symbol numbers; every symbol's `sect` is a file index or `NO_SECT`; every section
is well kept; and the variables of the later passes are as `macho_init` left them. -/
def run_inv (st : State) : Prop :=
  ((st.fmt = macho32_fmt ∧ st.macho_gotpcrel_sect = NO_SEG) ∨ st.fmt = macho64_fmt) ∧
  syms_numbered st ∧
  st.seg_nsects = st.sects.length ∧
  (∀ k, 0 ≤ raa_read st.extsyms k) ∧
  (∀ sym ∈ st.syms, sym.sect ≤ st.sects.length) ∧
  (∀ (i : Nat) (s : Section), st.sects[i]? = some s →
    s.fileindex = i + 1 ∧ sect_ok st.fmt st.syms st.sects.length s) ∧
  st.nlocalsym = 0 ∧ st.nextdefsym = 0 ∧ st.nundefsym = 0 ∧ st.strs = [0] ∧
  st.head_ncmds = 0 ∧ st.head_sizeofcmds = 0 ∧ st.seg_filesize = 0 ∧ st.seg_vmsize = 0 ∧
  st.ofile = []

/-- State `st1` comes from `st` by output events only: the symbols, the section count and
the untouched variables are the same, and each section keeps its identity and stays well
kept. -/
def emit_frame (st st1 : State) : Prop :=
  st1.syms = st.syms ∧ st1.nsyms = st.nsyms ∧ st1.extsyms = st.extsyms ∧
  st1.seg_nsects = st.seg_nsects ∧ untouched st1 = untouched st ∧
  st1.sects.length = st.sects.length ∧
  ∀ (i : Nat) (s : Section), st.sects[i]? = some s → ∃ s1, st1.sects[i]? = some s1 ∧
    s1.fileindex = s.fileindex ∧ s1.index = s.index ∧ s1.flags = s.flags ∧
    s1.gsyms = s.gsyms ∧
    (sect_ok st.fmt st.syms st.sects.length s → sect_ok st.fmt st.syms st.sects.length s1)

/-- The variables the layout pass never assigns. -/
def kept_by_layout (st : State) :=
  (st.fmt, st.sects, st.absolute_sect, st.sectstab, st.extsyms, st.head_ncmds,
    st.head_sizeofcmds, st.seg_filesize, st.seg_vmsize, st.seg_nsects, st.rel_padcnt,
    st.macho_tlvp_sect, st.macho_gotpcrel_sect, st.next_seg, st.errs, st.ofile)

/-- What the writer reads of a section after the sizing pass: everything but the names
and the attribute bits of `flags`. -/
def sect_core (s : Section) :=
  (s.data, s.relocs, s.addr, s.size, s.offset, s.pad, s.nreloc, s.align,
    s.flags &&& SECTION_TYPE, s.fileindex, s.index, s.extreloc)

/-- The variables the writer never assigns: all but the section list, `rel_padcnt`, the
symbol values, the diagnostics and the output file. -/
def kept_by_writer (st : State) :=
  (st.fmt, st.absolute_sect, st.sectstab, st.nsyms, st.ilocalsym, st.iextdefsym,
    st.iundefsym, st.nlocalsym, st.nextdefsym, st.nundefsym, st.extdefsyms, st.undefsyms,
    st.strs, st.strslen, st.head_ncmds, st.head_sizeofcmds, st.seg_filesize, st.seg_vmsize,
    st.seg_nsects)

/-- Section lists `l` and `l1` hold the same sections as far as the writer reads them. -/
def same_cores (l l1 : List Section) : Prop :=
  l1.map sect_core = l.map sect_core

/-- The bytes a section takes in the file: its padding and its contents, nothing for a
zerofill section. -/
def file_span (s : Section) : Nat :=
  if s.flags &&& SECTION_TYPE ≠ S_ZEROFILL then s.pad + s.size else 0

/-- The bytes the relocation entries of a section take in the file, as the segment
writer counts them. -/
def reloc_span (s : Section) : Nat :=
  if s.flags &&& SECTION_TYPE ≠ S_ZEROFILL then s.nreloc * MACHO_RELINFO_SIZE else 0

/-- The bytes `B` are a section header of pointer width `p` that records the file offset
`foff`, the relocation offset `reloff` and the relocation count `nreloc`. -/
def sectcmd_shape (p : Nat) (B : List Nat) (foff reloff nreloc : Nat) : Prop :=
  B.length = 56 + 3 * p ∧ bytes_at B (32 + 2 * p) (le_bytes 4 foff) ∧
  bytes_at B (40 + 2 * p) (le_bytes 4 reloff) ∧ bytes_at B (44 + 2 * p) (le_bytes 4 nreloc)

/-- State `st1` differs from `st` at most in the names and attribute bits of its sections,
in `rel_padcnt`, in the diagnostics and in the output file. -/
def seg_frame (st st1 : State) : Prop :=
  kept_by_writer st1 = kept_by_writer st ∧ st1.syms = st.syms ∧ same_cores st.sects st1.sects

/-- The segment writer gets past its two assertions on section `s`: a section with
relocations is not zerofill, and a section with contents has been given its padding. -/
def sect_writable (s : Section) : Prop :=
  (s.nreloc ≠ 0 → s.flags &&& SECTION_TYPE ≠ S_ZEROFILL) ∧
  (s.flags &&& SECTION_TYPE ≠ S_ZEROFILL → s.pad ≠ 2 ^ 32 - 1)

/-- Section `s1` is section `s` after the sizing pass: only `addr`, `align`, `pad` and
`offset` may differ. -/
def sect_sized (s s1 : Section) : Prop :=
  s1.data = s.data ∧ s1.relocs = s.relocs ∧ s1.size = s.size ∧ s1.nreloc = s.nreloc ∧
  s1.flags = s.flags ∧ s1.fileindex = s.fileindex ∧ s1.index = s.index ∧
  s1.extreloc = s.extreloc ∧ s1.gsyms = s.gsyms

/-- The eight bytes of a relocation entry: the address word, then the packed word. -/
def reloc_entry (r : reloc) : List Nat :=
  le_bytes 4 r.addr ++ le_bytes 4 (reloc_word2 r)

/-- The relocation entries of a chain, head first. -/
def reloc_entries (R : List reloc) : List Nat :=
  (R.map reloc_entry).flatten

/-- Every internal relocation of the list names an entry of `sectstab` in state `st`. -/
def snums_valid (st : State) (R : List reloc) : Prop :=
  ∀ r ∈ R, r.ext = 0 →
    0 ≤ r.snum ∧ r.snum ≤ (st.seg_nsects : Int) ∧ (sectstab_addr st r.snum.toNat).isSome

/-- State `st1` is `st` but for the section buffers and the output file. -/
def dump_frame (st st1 : State) : Prop :=
  { st1 with sects := st.sects, ofile := st.ofile } = st ∧
  st1.sects.map (fun s => { s with data := [] }) = st.sects.map (fun s => { s with data := [] })

/-- The value `macho_write_symtab` writes for a symbol: its `key`, with the address of
its section added when the symbol is defined in a section. -/
def nlist_value (st : State) (sym : symbol) : Nat :=
  if sym.type &&& N_TYPE = N_SECT ∧ sym.sect ≠ NO_SECT then
    sym.key + (sectstab_addr st sym.sect).getD 0
  else sym.key

/-- The symbol table entry of a symbol: `strx`, `type`, `sect`, `desc` and the value. -/
def nlist_entry (st : State) (sym : symbol) : List Nat :=
  le_bytes 4 sym.strx ++ ([sym.type % 256] ++ ([sym.sect % 256] ++
    (le_bytes 2 sym.desc ++ le_bytes st.fmt.ptrsize (nlist_value st sym))))

/-- State `st1` is `st` but for the symbol values and the output file. -/
def value_frame (st st1 : State) : Prop :=
  { st1 with syms := st.syms, ofile := st.ofile } = st ∧
  st1.syms.map (fun s => { s with key := 0 }) = st.syms.map (fun s => { s with key := 0 })

/-- The symbol at list position `p` can be written: it exists, and when it is defined in
a section the assertion `sect <= seg_nsects` holds and `sectstab` has the entry. -/
def nlist_writable (st : State) (p : Nat) : Prop :=
  ∃ sym, st.syms[p]? = some sym ∧
    (sym.type &&& N_TYPE = N_SECT ∧ sym.sect ≠ NO_SECT →
      sym.sect ≤ st.seg_nsects ∧ (sectstab_addr st sym.sect).isSome)

/-- The entries of the symbols at the list positions `L`, in that order. -/
def nlist_entries (st : State) (L : List Nat) : List Nat :=
  (L.map (fun p => ((st.syms[p]?).map (nlist_entry st)).getD [])).flatten

/-- The variables that neither the fix-up nor the sizing pass assigns. -/
def kept_by_sizing (st : State) :=
  (st.fmt, st.absolute_sect, st.syms, st.nsyms, st.ilocalsym, st.iextdefsym, st.iundefsym,
    st.nlocalsym, st.nextdefsym, st.nundefsym, st.extdefsyms, st.undefsyms, st.extsyms,
    st.strs, st.strslen, st.seg_nsects, st.rel_padcnt, st.errs, st.ofile)

/-- The condition under which `add_reloc` takes its `bail` exit: a relative kind with no
target section, or a symbol-targeting kind that refers to an emitted section in which
`macho_find_gsym` finds no symbol. -/
def reloc_bails (st : State) (section_ offset : Int) (rt : reltype) : Prop :=
  ((rt = .RL_REL ∨ rt = .RL_BRANCH) ∧ section_ = NO_SEG) ∨
  ((rt = .RL_GOT ∨ rt = .RL_GOTLOAD ∨ rt = .RL_TLV) ∧ section_ ≠ NO_SEG ∧
    ∃ j t, get_section_by_index st section_ = some j ∧ st.sects[j]? = some t ∧
      (macho_find_gsym st t (u64 offset) (decide (rt ≠ .RL_TLV))).2 = none)

/-- The branch test as the specification words it, for a section with the given flags
and buffer on a target of the given pointer width: the target is 64-bit, the section has
`S_ATTR_SOME_INSTRUCTIONS`, and with `b0 b1` the last two bytes of the buffer (`b0 = 0`
when it holds one byte, both 0 when it is empty), `b0 != 0x0F` and `(b1 & 0xFE) = 0xE8`,
or `b0 = 0x0F` and `(b1 & 0xF0) = 0x80`. -/
def branch_test_spec (ptrsize flags : Nat) (data : List Nat) : Prop :=
  ptrsize = 8 ∧ flags &&& S_ATTR_SOME_INSTRUCTIONS ≠ 0 ∧
  (((if 2 ≤ data.length then data.getD (data.length - 2) 0 else 0) ≠ 0x0f ∧
    (if 2 ≤ data.length then data.getD (data.length - 1) 0
      else if data.length = 1 then data.getD 0 0 else 0) &&& 0xfe = 0xe8) ∨
   ((if 2 ≤ data.length then data.getD (data.length - 2) 0 else 0) = 0x0f ∧
    (if 2 ≤ data.length then data.getD (data.length - 1) 0
      else if data.length = 1 then data.getD 0 0 else 0) &&& 0xf0 = 0x80))

/-- The branch test of the specification can be decided. -/
instance branch_test_dec (ptrsize flags : Nat) (data : List Nat) :
    Decidable (branch_test_spec ptrsize flags data) := by
  unfold branch_test_spec
  exact inferInstance

/-- Every zerofill section of the state has an empty buffer. -/
def bss_empty (st : State) : Prop :=
  ∀ s ∈ st.sects, s.flags &&& SECTION_TYPE = S_ZEROFILL → s.data = []

/-- Segment name, section name and segment number of each section, in list order. -/
def sect_names (l : List Section) : List (List Nat × List Nat × Int) :=
  l.map (fun s => (s.segname, s.sectname, s.index))

/-- Every section listed in `l` is at the same position of `l1`, which may list more
sections, with an `align` that is not lower. -/
def align_kept (l l1 : List Section) : Prop :=
  ∀ (i : Nat) (s : Section), l[i]? = some s → ∃ s1, l1[i]? = some s1 ∧ s.align ≤ s1.align

/-- Section `s1` is section `s` later in the run: the buffer has grown at its end only,
the relocation chain at its head only, the size has not shrunk and the flags are the
same. -/
def sect_grown (s s1 : Section) : Prop :=
  s.data <+: s1.data ∧ s.relocs <:+ s1.relocs ∧ s1.flags = s.flags ∧ s.size ≤ s1.size

/-- Every section of `st` is at the same position of `st1`, grown. -/
def grown (st st1 : State) : Prop :=
  ∀ (i : Nat) (s : Section), st.sects[i]? = some s →
    ∃ s1, st1.sects[i]? = some s1 ∧ sect_grown s s1

/-- An address event carries 1, 2, 4 or 8 bytes (`abs((int)size)`); any other call
qualifies. -/
def address_sized : event → Prop
  | .output _ _ .OUT_ADDRESS size _ _ => (to_int32 size).natAbs ∈ [1, 2, 4, 8]
  | _ => True

instance address_sized_dec (e : event) : Decidable (address_sized e) := by
  unfold address_sized
  split <;> exact inferInstance

/-- The relocations of section `s` patch bytes below its `size`, and no two of them patch
the same byte. -/
def relocs_fit (s : Section) : Prop :=
  (∀ r ∈ s.relocs, r.addr + patch_len r ≤ s.size) ∧ s.relocs.Pairwise relocs_disjoint

/-- In every section that is not zerofill and is shorter than 2^31 bytes the relocations
fit. -/
def fit_inv (st : State) : Prop :=
  ∀ (k : Nat) (s : Section), st.sects[k]? = some s → s.flags &&& SECTION_TYPE ≠ S_ZEROFILL →
    s.size < 2 ^ 31 → relocs_fit s

/-- The flags an attribute token of `macho_section` stands for, by the chain of
comparisons of the attribute loop: none for an empty token, for an `align=` token and for
an unknown word. -/
def keyword_flags (cur : List Nat) : Option Nat :=
  if cur.head?.getD 0 = 0 then none
  else if nasm_strnicmp attr_align cur 6 = 0 then none
  else if nasm_stricmp attr_data cur = 0 then some S_REGULAR
  else if nasm_stricmp attr_code cur = 0 ∨ nasm_stricmp attr_text cur = 0 then
    some ((S_REGULAR ||| S_ATTR_SOME_INSTRUCTIONS) ||| S_ATTR_PURE_INSTRUCTIONS)
  else if nasm_stricmp attr_mixed cur = 0 then some (S_REGULAR ||| S_ATTR_SOME_INSTRUCTIONS)
  else if nasm_stricmp attr_bss cur = 0 then some S_ZEROFILL
  else none

/-- State `st1` is `st` but for the diagnostics and for the `align`, `flags` and `by_name`
of its sections. -/
def attrs_frame (st st1 : State) : Prop :=
  { st1 with sects := st.sects, errs := st.errs } = st ∧
  st1.sects.map (fun s => { s with align := 0, flags := 0, by_name := false }) =
    st.sects.map (fun s => { s with align := 0, flags := 0, by_name := false })

/-- The flags of every section of `a` are the same in `b`, but possibly for a newly
created section at position `i`. -/
def flags_kept (i : Nat) (new_seg : Bool) (a b : State) : Prop :=
  ∀ (k : Nat) (s s1 : Section), a.sects[k]? = some s → b.sects[k]? = some s1 →
    (k ≠ i ∨ new_seg = false) → s1.flags = s.flags

/-- The relocations of section `s` patch bytes below its `size`, and each relocation of
the chain starts at or after the end of the bytes of every relocation behind it. -/
def relocs_sorted (s : Section) : Prop :=
  (∀ r ∈ s.relocs, r.addr + patch_len r ≤ s.size) ∧
    s.relocs.Pairwise (fun a b => b.addr + patch_len b ≤ a.addr)

/-- In every section that is not zerofill and is shorter than 2^31 bytes the relocation
chain is sorted. -/
def sorted_inv (st : State) : Prop :=
  ∀ (k : Nat) (s : Section), st.sects[k]? = some s → s.flags &&& SECTION_TYPE ≠ S_ZEROFILL →
    s.size < 2 ^ 31 → relocs_sorted s

/-- State `st1` holds every section of `st` at the same position with the same buffer,
relocation chain, size and flags, and any further section of `st1` is empty. -/
def sects_kept (st st1 : State) : Prop :=
  (∀ (k : Nat) (s : Section), st.sects[k]? = some s → ∃ s1, st1.sects[k]? = some s1 ∧
    s1.data = s.data ∧ s1.relocs = s.relocs ∧ s1.size = s.size ∧ s1.flags = s.flags) ∧
  (∀ (k : Nat) (s1 : Section), st1.sects[k]? = some s1 → st.sects.length ≤ k →
    s1.data = [] ∧ s1.relocs = [] ∧ s1.size = 0)

/-- The name `"printf"`. -/
def name_printf : List Nat := [0x70, 0x72, 0x69, 0x6e, 0x74, 0x66]

/-- A 64-bit run: sections `__TEXT,__text` and `__DATA,__data` created (segment numbers
4 and 6), then the global symbol `v` defined at offset 8 of `__data`. -/
def st64_text_data_v : Option State :=
  let st := macho64_init program_start
  let st := (new_section st seg_TEXT sect_text
    (S_REGULAR ||| S_ATTR_SOME_INSTRUCTIONS ||| S_ATTR_PURE_INSTRUCTIONS)).1
  let st := (new_section st seg_DATA sect_data S_REGULAR).1
  macho_symdef st [0x76] 6 8 1 none

/-- The state reached by `st64_text_data_v`. -/
def s64v : State := st64_text_data_v.getD program_start

/-- A 64-bit run: section `__TEXT,__text` created (segment number 4), then `printf`
declared external under segment number 6. -/
def st64_text_printf : Option State :=
  let st := macho64_init program_start
  let st := (new_section st seg_TEXT sect_text
    (S_REGULAR ||| S_ATTR_SOME_INSTRUCTIONS ||| S_ATTR_PURE_INSTRUCTIONS)).1
  macho_symdef st name_printf 6 0 2 none

/-- Scenario S3: in the run above, the raw byte `E8` is written to `__text`, then a
`OUT_REL4ADR` event with operand 0 and instruction-tail size 4 refers to `printf`. -/
def scenario_S3 : Option State :=
  (st64_text_printf.bind (fun st =>
    macho_output st 4 (.bytes [0xe8]) .OUT_RAWDATA 1 NO_SEG NO_SEG)).bind (fun st =>
    macho_output st 4 (.operand 0) .OUT_REL4ADR 4 6 NO_SEG)

/-- The 64-bit run of S4 before the reference: the bytes `48 b1 05` are in `__text`. -/
def st64_mov (b1 : Nat) : State :=
  (st64_text_printf.bind (fun st =>
    macho_output st 4 (.bytes [0x48, b1, 0x05]) .OUT_RAWDATA 3 NO_SEG NO_SEG)).getD
    program_start

/-- A 64-bit run with a data section only: `__DATA,__data` created (segment number 4),
an external declared under segment number 6, the bytes `48 8B 05` written to `__data`. -/
def st64_data_mov : Option State :=
  let st := macho64_init program_start
  let st := (new_section st seg_DATA sect_data S_REGULAR).1
  (macho_symdef st name_printf 6 0 2 none).bind (fun st =>
    macho_output st 4 (.bytes [0x48, 0x8b, 0x05]) .OUT_RAWDATA 3 NO_SEG NO_SEG)

/-- Scenario S2, emission: a 32-bit run with `__TEXT,__text` (segment number 2) and
`__DATA,__data` (segment number 4), the label `D` defined at offset 0 of `__data`,
`B8` and a 4-byte address of `D` written to `__text`, `DE AD BE EF` written to `__data`. -/
def scenario_S2_emitted : Option State :=
  let st := macho32_init program_start
  let st := (new_section st seg_TEXT sect_text
    (S_REGULAR ||| S_ATTR_SOME_INSTRUCTIONS ||| S_ATTR_PURE_INSTRUCTIONS)).1
  let st := (new_section st seg_DATA sect_data S_REGULAR).1
  (((macho_symdef st [0x44] 4 0 0 none).bind (fun st =>
    macho_output st 2 (.bytes [0xb8]) .OUT_RAWDATA 1 NO_SEG NO_SEG)).bind (fun st =>
    macho_output st 2 (.operand 0) .OUT_ADDRESS 4 4 NO_SEG)).bind (fun st =>
    macho_output st 4 (.bytes [0xde, 0xad, 0xbe, 0xef]) .OUT_RAWDATA 4 NO_SEG NO_SEG)

/-- Scenario S2 after the layout pass, the relocation fix-up and the sizing pass. -/
def scenario_S2_sized : State :=
  (scenario_S2_emitted.bind (fun st =>
    macho_calculate_sizes (fixup_all (macho_layout_symbols st)))).getD program_start

/-- The names of scenario S6. -/
def name_beta : List Nat := [0x62, 0x65, 0x74, 0x61]

/-- The name `"alpha"`. -/
def name_alpha : List Nat := [0x61, 0x6c, 0x70, 0x68, 0x61]

/-- The name `"zeta"`. -/
def name_zeta : List Nat := [0x7a, 0x65, 0x74, 0x61]

/-- The name `"omicron"`. -/
def name_omicron : List Nat := [0x6f, 0x6d, 0x69, 0x63, 0x72, 0x6f, 0x6e]

/-- Scenario S6 before layout: a 64-bit run with `__TEXT,__text` (segment number 4),
global `beta` at offset 0 and global `alpha` at offset 8 of it, then the externals `zeta`
and `omicron` (segment numbers 6 and 8). -/
def scenario_S6 : State :=
  let st := macho64_init program_start
  let st := (new_section st seg_TEXT sect_text
    (S_REGULAR ||| S_ATTR_SOME_INSTRUCTIONS ||| S_ATTR_PURE_INSTRUCTIONS)).1
  ((((macho_symdef st name_beta 4 0 1 none).bind (fun st =>
    macho_symdef st name_alpha 4 8 1 none)).bind (fun st =>
    macho_symdef st name_zeta 6 0 2 none)).bind (fun st =>
    macho_symdef st name_omicron 8 0 2 none)).getD program_start

/-- Scenario S6 with one more definition at the end: the local label `L` at offset 4 of
`__text`. -/
def scenario_S6_local : State :=
  (macho_symdef scenario_S6 [0x4c] 4 4 0 none).getD program_start

/-- A 64-bit run in which two global symbols of `__text` carry the same name `a`. -/
def scenario_same_name : State :=
  let st := macho64_init program_start
  let st := (new_section st seg_TEXT sect_text
    (S_REGULAR ||| S_ATTR_SOME_INSTRUCTIONS ||| S_ATTR_PURE_INSTRUCTIONS)).1
  ((macho_symdef st [0x61] 4 0 1 none).bind (fun st =>
    macho_symdef st [0x61] 4 8 1 none)).getD program_start

/-- Scenario S3 as a sequence of calls: `__TEXT,__text` is created (segment number 4),
`printf` is declared external under segment number 6, the byte `E8` and then a 4-byte
relative reference to `printf` are written to `__text`. -/
def events_S3 : List event :=
  [.new_section seg_TEXT sect_text
      (S_REGULAR ||| S_ATTR_SOME_INSTRUCTIONS ||| S_ATTR_PURE_INSTRUCTIONS),
    .symdef name_printf 6 0 2 none,
    .output 4 (.bytes [0xe8]) .OUT_RAWDATA 1 NO_SEG NO_SEG,
    .output 4 (.operand 0) .OUT_REL4ADR 4 6 NO_SEG]

/-- The state the 64-bit module reaches by `events_S3`. -/
def run_S3 : State :=
  (run events_S3 (macho64_init program_start)).getD program_start

/-- A 64-bit run with two external references: `__TEXT,__text` is created (segment number
4) and `__DATA,__data` (6), the global `beta` is defined at offset 0 of `__text`, `zeta`
and `omicron` are declared external under segment numbers 8 and 10, and `__text` gets a
call of `zeta`, a call of `omicron` and the 8-byte address of `__data`. -/
def events_calls : List event :=
  [.new_section seg_TEXT sect_text
      (S_REGULAR ||| S_ATTR_SOME_INSTRUCTIONS ||| S_ATTR_PURE_INSTRUCTIONS),
    .new_section seg_DATA sect_data S_REGULAR,
    .symdef name_beta 4 0 1 none,
    .symdef name_zeta 8 0 2 none,
    .symdef name_omicron 10 0 2 none,
    .output 4 (.bytes [0xe8]) .OUT_RAWDATA 1 NO_SEG NO_SEG,
    .output 4 (.operand 0) .OUT_REL4ADR 4 8 NO_SEG,
    .output 4 (.bytes [0xe8]) .OUT_RAWDATA 1 NO_SEG NO_SEG,
    .output 4 (.operand 0) .OUT_REL4ADR 4 10 NO_SEG,
    .output 4 (.operand 0) .OUT_ADDRESS 8 6 NO_SEG,
    .output 6 (.bytes [1, 2, 3]) .OUT_RAWDATA 3 NO_SEG NO_SEG]

/-- The state the 64-bit module reaches by `events_calls`. -/
def run_calls : State :=
  (run events_calls (macho64_init program_start)).getD program_start

/-- Scenario S1 as a sequence of calls: `__TEXT,__text` is created (segment number 4), the
local label `L` is defined at its offset 0, and 4 bytes are reserved in it. -/
def events_S1 : List event :=
  [.new_section seg_TEXT sect_text
      (S_REGULAR ||| S_ATTR_SOME_INSTRUCTIONS ||| S_ATTR_PURE_INSTRUCTIONS),
    .symdef [0x4c] 4 0 0 none,
    .output 4 (.bytes []) .OUT_RESERVE 4 NO_SEG NO_SEG]

/-- The state the 64-bit module reaches by `events_S1`. -/
def run_S1 : State :=
  (run events_S1 (macho64_init program_start)).getD program_start

/-- Scenario S5 as a sequence of calls: the zerofill section `__DATA,__bss` is created
(segment number 4), 8 raw bytes are written to it, then 16 bytes are reserved. -/
def events_S5 : List event :=
  [.new_section seg_DATA sect_bss S_ZEROFILL,
    .output 4 (.bytes [1, 2, 3, 4, 5, 6, 7, 8]) .OUT_RAWDATA 8 NO_SEG NO_SEG,
    .output 4 (.bytes []) .OUT_RESERVE 16 NO_SEG NO_SEG]

/-- The state the 64-bit module reaches by `events_S5`. -/
def run_S5 : State :=
  (run events_S5 (macho64_init program_start)).getD program_start

/-- The file that `macho_cleanup` writes for a state, empty when the routine stops. -/
def emitted (st : State) : List Nat :=
  ((macho_cleanup st).map (fun s => s.ofile)).getD []

/-- The 32-bit field at byte position `off` of a file. -/
def field32 (file : List Nat) (off : Nat) : Nat :=
  le_value (saa_fread file off 4)

/-- Scenario S2 as a sequence of calls of a 32-bit run: `__TEXT,__text` (segment number
2) and `__DATA,__data` (4) are created, the label `D` is defined at offset 0 of `__data`,
`B8` and the 4-byte address of `D` are written to `__text`, and `DE AD BE EF` to
`__data`. -/
def events_S2 : List event :=
  [.new_section seg_TEXT sect_text
      (S_REGULAR ||| S_ATTR_SOME_INSTRUCTIONS ||| S_ATTR_PURE_INSTRUCTIONS),
    .new_section seg_DATA sect_data S_REGULAR,
    .symdef [0x44] 4 0 0 none,
    .output 2 (.bytes [0xb8]) .OUT_RAWDATA 1 NO_SEG NO_SEG,
    .output 2 (.operand 0) .OUT_ADDRESS 4 4 NO_SEG,
    .output 4 (.bytes [0xde, 0xad, 0xbe, 0xef]) .OUT_RAWDATA 4 NO_SEG NO_SEG]

/-- The state the 32-bit module reaches by `events_S2`. -/
def run_S2 : State :=
  (run events_S2 (macho32_init program_start)).getD program_start

/-- A 32-bit run in which `__TEXT,__text` (segment number 2) grows to 2^31 bytes:
the section is created, `printf` is declared external under segment number 4, and 2^31
bytes are reserved in `__text`. -/
def events_2g : List event :=
  [.new_section seg_TEXT sect_text
      (S_REGULAR ||| S_ATTR_SOME_INSTRUCTIONS ||| S_ATTR_PURE_INSTRUCTIONS),
    .symdef name_printf 4 0 2 none,
    .output 2 (.bytes []) .OUT_RESERVE (2 ^ 31) NO_SEG NO_SEG]

/-- The state the 32-bit module reaches by `events_2g`. -/
def run_2g : State :=
  (run events_2g (macho32_init program_start)).getD program_start

/-- Scenario S3 before its last event: a 64-bit run with `__TEXT,__text` (segment number
4), the external `printf` (6) and the byte `E8` in `__text`. -/
def events_call : List event :=
  [.new_section seg_TEXT sect_text
      (S_REGULAR ||| S_ATTR_SOME_INSTRUCTIONS ||| S_ATTR_PURE_INSTRUCTIONS),
    .symdef name_printf 6 0 2 none,
    .output 4 (.bytes [0xe8]) .OUT_RAWDATA 1 NO_SEG NO_SEG]

/-- The state the 64-bit module reaches by `events_call`. -/
def run_call : State :=
  (run events_call (macho64_init program_start)).getD program_start

/-- The 64-bit run in which only the zerofill section `__DATA,__bss` has been created
(segment number 4): scenario S5 before its two output events. -/
def run_bss : State :=
  (run [.new_section seg_DATA sect_bss S_ZEROFILL] (macho64_init program_start)).getD
    program_start

/-- A 64-bit run with a relocation in `__DATA,__const`: the section is created (segment
number 4) as the alias `.rodata` creates it, then `__DATA,__data` (6), and the 8-byte
address of `__data` is written to `__const`. -/
def events_const : List event :=
  [.new_section seg_DATA sect_const S_REGULAR,
    .new_section seg_DATA sect_data S_REGULAR,
    .output 4 (.operand 0) .OUT_ADDRESS 8 6 NO_SEG]

/-- The state the 64-bit module reaches by `events_const`. -/
def run_const : State :=
  (run events_const (macho64_init program_start)).getD program_start

/-- The run `run_const` after the layout pass, the relocation fix-up and the sizing
pass. -/
def sized_const : State :=
  (macho_calculate_sizes (fixup_all (macho_layout_symbols run_const))).getD program_start

/-- The section specification `".data align=16"`. -/
def spec_data_align16 : List Nat :=
  alias_data ++ [0x20] ++ attr_align ++ [0x31, 0x36]

/-- The digits `"4294967296"` of 2^32. -/
def digits_2_32 : List Nat := [0x34, 0x32, 0x39, 0x34, 0x39, 0x36, 0x37, 0x32, 0x39, 0x36]

/-- The section specification `".data align=4294967296"`, an alignment of 2^32. -/
def spec_data_align_2_32 : List Nat :=
  alias_data ++ [0x20] ++ attr_align ++ digits_2_32

/-- The section specification `"__DATA,__a_sixteen_byte"`, whose section name has 16
bytes. -/
def spec_long : List Nat :=
  seg_DATA ++ [0x2c] ++
    [0x5f, 0x5f, 0x61, 0x5f, 0x73, 0x69, 0x78, 0x74, 0x65, 0x65, 0x6e, 0x5f, 0x62, 0x79, 0x74, 0x65]

/-- The section specification `"__DATA,__mine align=8 data"`. -/
def spec_mine : List Nat :=
  seg_DATA ++ [0x2c] ++ [0x5f, 0x5f, 0x6d, 0x69, 0x6e, 0x65] ++ [0x20] ++ attr_align ++
    [0x38] ++ [0x20] ++ attr_data

/-- A fresh 64-bit module after the directive `.data`: one section, `__DATA,__data`. -/
def state_data : State :=
  (macho_section (macho64_init program_start) (some alias_data) 64).1

/-- A 32-bit run in which a relative reference is emitted 2^31 bytes into `__TEXT,__text`
(segment number 2): `__DATA,__data` (segment number 4) is created, 2^31 bytes are reserved
in `__text`, and a `OUT_REL4ADR` event with operand 0 and tail size 4 refers to `__data`. -/
def events_far : List event :=
  [.new_section seg_TEXT sect_text
      ((S_REGULAR ||| S_ATTR_SOME_INSTRUCTIONS) ||| S_ATTR_PURE_INSTRUCTIONS),
    .new_section seg_DATA sect_data S_REGULAR,
    .output 2 (.bytes []) .OUT_RESERVE (2 ^ 31) NO_SEG NO_SEG,
    .output 2 (.operand 0) .OUT_REL4ADR 4 4 NO_SEG]

/-- The state the 32-bit module reaches by `events_far`. -/
def run_far : State :=
  (run events_far (macho32_init program_start)).getD program_start

/-- The run `run_far` after the layout pass, the relocation fix-up and the sizing pass. -/
def sized_far : State :=
  (macho_calculate_sizes (fixup_all (macho_layout_symbols run_far))).getD program_start

/-- The section specification `".data bss"`. -/
def spec_data_bss : List Nat :=
  alias_data ++ [0x20] ++ attr_bss

/-- Calls of a 64-bit module around a zerofill section: the directive `.bss` (segment
number 4), the directive `.data` (6), a reserve of 16 bytes in `.bss` and an 8-byte
address of `.data` emitted into `.bss`. -/
def calls_bss : List call :=
  [.section_ (some alias_bss) 64,
    .section_ (some alias_data) 64,
    .output 4 (.bytes []) .OUT_RESERVE 16 NO_SEG NO_SEG,
    .output 4 (.operand 0) .OUT_ADDRESS 8 6 NO_SEG]

/-- The state the 64-bit module reaches by `calls_bss`. -/
def state_bss : State :=
  (do_calls calls_bss (macho64_init program_start)).getD program_start

/-- A 32-bit run with two relocations of `__TEXT,__text` (segment number 2) that get the
same `addr`: the 4-byte address of `__DATA,__data` (segment number 4) is emitted at
position 0, 2^31 - 4 bytes are reserved, and the same address is emitted again, at
position 2^31. -/
def events_twice : List event :=
  [.new_section seg_TEXT sect_text
      ((S_REGULAR ||| S_ATTR_SOME_INSTRUCTIONS) ||| S_ATTR_PURE_INSTRUCTIONS),
    .new_section seg_DATA sect_data S_REGULAR,
    .output 2 (.operand 0) .OUT_ADDRESS 4 4 NO_SEG,
    .output 2 (.bytes []) .OUT_RESERVE (2 ^ 31 - 4) NO_SEG NO_SEG,
    .output 2 (.operand 0) .OUT_ADDRESS 4 4 NO_SEG]

/-- The state the 32-bit module reaches by `events_twice`. -/
def run_twice : State :=
  (run events_twice (macho32_init program_start)).getD program_start

/-- The run `run_twice` after the layout pass, the relocation fix-up and the sizing pass. -/
def sized_twice : State :=
  (macho_calculate_sizes (fixup_all (macho_layout_symbols run_twice))).getD program_start

/-- A 32-bit run whose file passes 4 GiB: `__TEXT,__text` (segment number 2) and
`__DATA,__data` (4) are created, 2^31 bytes are reserved in `__text` twice, and the 4-byte
address of `__data` is emitted into `__text`, which registers a relocation. -/
def events_4g : List event :=
  [.new_section seg_TEXT sect_text
      ((S_REGULAR ||| S_ATTR_SOME_INSTRUCTIONS) ||| S_ATTR_PURE_INSTRUCTIONS),
    .new_section seg_DATA sect_data S_REGULAR,
    .output 2 (.bytes []) .OUT_RESERVE (2 ^ 31) NO_SEG NO_SEG,
    .output 2 (.bytes []) .OUT_RESERVE (2 ^ 31) NO_SEG NO_SEG,
    .output 2 (.operand 0) .OUT_ADDRESS 4 4 NO_SEG]

/-- The state the 32-bit module reaches by `events_4g`. -/
def run_4g : State :=
  (run events_4g (macho32_init program_start)).getD program_start

/-- The run `run_4g` after the layout pass, the relocation fix-up and the sizing pass. -/
def sized_4g : State :=
  (macho_calculate_sizes (fixup_all (macho_layout_symbols run_4g))).getD program_start

/-- A 64-bit run with 256 sections: `__DATA,__data` is created 256 times; the last section
has the segment number 514 and the file index 256. -/
def events_256 : List event :=
  List.replicate 256 (.new_section seg_DATA sect_data S_REGULAR)

/-- The state the 64-bit module reaches by `events_256`. -/
def run_256 : State :=
  (run events_256 (macho64_init program_start)).getD program_start

/-- A 64-bit run through the section directive: `.text` (segment number 4), `.data
align=16` (segment number 6), a request to align `.text` to 8 bytes, then a call from
`.text` to offset 16 of `.data`: the opcode `E8`, a `OUT_REL4ADR` event with operand 16 and
tail size 4, and 20 bytes of data. -/
def events_aligned : List event :=
  [.section_ (some alias_text) 64,
    .section_ (some spec_data_align16) 64,
    .sectalign 4 8,
    .output 4 (.bytes [0xe8]) .OUT_RAWDATA 1 NO_SEG NO_SEG,
    .output 4 (.operand 16) .OUT_REL4ADR 4 6 NO_SEG,
    .output 6 (.bytes (List.replicate 20 0x90)) .OUT_RAWDATA 20 NO_SEG NO_SEG]

/-- The state the 64-bit module reaches by `events_aligned`. -/
def run_aligned : State :=
  (run events_aligned (macho64_init program_start)).getD program_start

/-- The state of `run_aligned` before the `OUT_REL4ADR` event. -/
def before_aligned : State :=
  (run (events_aligned.take 4) (macho64_init program_start)).getD program_start

/-- The run `run_aligned` after the layout pass, the relocation fix-up and the sizing
pass. -/
def sized_aligned : State :=
  (macho_calculate_sizes (fixup_all (macho_layout_symbols run_aligned))).getD program_start

/-! ## Theorems -/

theorem land_scattered (n : Nat) : n &&& (2 ^ 32 - 1 - R_SCATTERED) = n % 2 ^ 31 := by
  have h : (2 ^ 32 - 1 - R_SCATTERED) = 2 ^ 31 - 1 := by decide
  rw [h, Nat.and_pow_two_sub_one_eq_mod]

@[simp] theorem update_sect_sects (st : State) (i : Nat) (f : Section → Section) :
    (update_sect st i f).sects = st.sects.modify f i := rfl

@[simp] theorem update_sect_fmt (st : State) (i : Nat) (f : Section → Section) :
    (update_sect st i f).fmt = st.fmt := rfl

@[simp] theorem update_sect_syms (st : State) (i : Nat) (f : Section → Section) :
    (update_sect st i f).syms = st.syms := rfl

@[simp] theorem update_sect_extsyms (st : State) (i : Nat) (f : Section → Section) :
    (update_sect st i f).extsyms = st.extsyms := rfl

@[simp] theorem update_sect_errs (st : State) (i : Nat) (f : Section → Section) :
    (update_sect st i f).errs = st.errs := rfl

@[simp] theorem nasm_error_sects (st : State) (d : diag) : (nasm_error st d).sects = st.sects :=
  rfl

@[simp] theorem nasm_error_fmt (st : State) (d : diag) : (nasm_error st d).fmt = st.fmt := rfl

@[simp] theorem nasm_error_syms (st : State) (d : diag) : (nasm_error st d).syms = st.syms := rfl

@[simp] theorem nasm_error_extsyms (st : State) (d : diag) :
    (nasm_error st d).extsyms = st.extsyms := rfl

@[simp] theorem nasm_error_errs (st : State) (d : diag) :
    (nasm_error st d).errs = st.errs ++ [d] := rfl

theorem land_scattered_norm (n : Nat) : n &&& (4294967295 - R_SCATTERED) = n % 2147483648 :=
  land_scattered n

theorem reloc_link_registered (st : State) (sect : Nat) (sc : Section) (r : reloc) (adj : Int)
    (h : st.sects[sect]? = some sc) : registered st sect r (reloc_link st sect r adj).1 := by
  refine ⟨sc, { sc with relocs := r :: sc.relocs,
                        extreloc := if r.ext ≠ 0 then 1 else sc.extreloc,
                        nreloc := sc.nreloc + 1 }, h, ?_, rfl, rfl, ?_, ?_⟩
  · simp [reloc_link, update_sect, List.getElem?_modify_eq, h]
  · simp [reloc_link, update_sect]
  · intro i hi
    simp [reloc_link, update_sect, List.getElem?_modify_ne _ _ (Ne.symm hi)]

theorem find_by_index_some (index : Int) (l : List Section) (j : Nat)
    (h : find_by_index index l = some j) : ∃ t, l[j]? = some t ∧ t ∈ l ∧ t.index = index := by
  induction l generalizing j with
  | nil => simp [find_by_index] at h
  | cons s rest ih =>
    unfold find_by_index at h
    split at h
    · rename_i hidx
      cases h
      exact ⟨s, by simp, by simp, hidx.symm⟩
    · cases hr : find_by_index index rest with
      | none => simp [hr] at h
      | some k =>
        simp [hr] at h
        subst h
        obtain ⟨t, h1, h2, h3⟩ := ih k hr
        exact ⟨t, by simpa using h1, by simp [h2], h3⟩

theorem registered_after_flag (st : State) (sect : Nat) (sc : Section) (r : reloc) (adj : Int)
    (g : Section → Section) (hg1 : ∀ x, (g x).relocs = x.relocs)
    (hg2 : ∀ x, (g x).nreloc = x.nreloc) (h : st.sects[sect]? = some sc) :
    registered st sect r (reloc_link (update_sect st sect g) sect r adj).1 := by
  have h2 : (update_sect st sect g).sects[sect]? = some (g sc) := by
    simp [update_sect, List.getElem?_modify_eq, h]
  obtain ⟨a, b, ha, hb, hc, hd, he, hf⟩ := reloc_link_registered _ sect (g sc) r adj h2
  rw [h2] at ha
  cases ha
  refine ⟨sc, b, h, hb, ?_, ?_, ?_, ?_⟩
  · rw [hc, hg1]
  · rw [hd, hg2]
  · rw [he]; simp [update_sect]
  · intro i hi
    rw [hf i hi]
    simp [update_sect, List.getElem?_modify_ne _ _ (Ne.symm hi)]

theorem add_reloc_rel_external (st : State) (sect : Nat) (sc : Section)
    (section_ offset : Int) (rt : reltype) (bytes : Int)
    (hk : rt = .RL_REL ∨ rt = .RL_BRANCH)
    (hmax : rt.toNat ≤ st.fmt.maxreltype.toNat) (href : section_ ≠ NO_SEG)
    (hsect : st.sects[sect]? = some sc) (hg : get_section_by_index st section_ = none) :
    add_reloc st sect section_ offset rt bytes =
      some (reloc_link (update_sect st sect (fun x => { x with extreloc := 1 })) sect
        { addr := sc.size % 2 ^ 31, snum := raa_read st.extsyms section_, pcrel := 1,
          length := ilog2_32 bytes, ext := 1,
          type := if rt = .RL_BRANCH then X86_64_RELOC_BRANCH else st.fmt.reloc_rel }
        (if rt = .RL_REL ∧ st.fmt.reloc_rel = GENERIC_RELOC_VANILLA then -(sc.size : Int)
         else bytes)) := by
  rcases hk with rfl | rfl
  · by_cases hv : st.fmt.reloc_rel = GENERIC_RELOC_VANILLA
    · simp [add_reloc, hmax, hsect, href, hg, hv, land_scattered_norm, NO_SECT]
    · simp [add_reloc, hmax, hsect, href, hg, hv, land_scattered_norm, NO_SECT]
  · simp [add_reloc, hmax, hsect, href, hg, land_scattered_norm, NO_SECT]

theorem add_reloc_rel_local (st : State) (sect : Nat) (sc : Section)
    (section_ offset : Int) (rt : reltype) (bytes : Int) (j : Nat) (t : Section)
    (hk : rt = .RL_REL ∨ rt = .RL_BRANCH)
    (hmax : rt.toNat ≤ st.fmt.maxreltype.toNat) (href : section_ ≠ NO_SEG)
    (hsect : st.sects[sect]? = some sc) (hg : get_section_by_index st section_ = some j)
    (ht : st.sects[j]? = some t) (hfi : t.fileindex ≠ NO_SECT) :
    add_reloc st sect section_ offset rt bytes =
      some (reloc_link st sect
        { addr := sc.size % 2 ^ 31, snum := (t.fileindex : Int), pcrel := 1,
          length := ilog2_32 bytes, ext := 0, type := st.fmt.reloc_rel }
        (-(sc.size : Int))) := by
  rcases hk with rfl | rfl
  · simp [add_reloc, hmax, hsect, href, hg, ht, hfi, land_scattered_norm]
  · simp [add_reloc, hmax, hsect, href, hg, ht, hfi, land_scattered_norm]

theorem add_reloc_abs_eq (st : State) (sect : Nat) (sc : Section)
    (section_ offset : Int) (bytes : Int) (hsect : st.sects[sect]? = some sc) :
    add_reloc st sect section_ offset .RL_ABS bytes =
      some (reloc_link st sect
        { addr := sc.size % 2 ^ 31,
          snum :=
            if section_ = NO_SEG then 0
            else match (get_section_by_index st section_).bind (fun i => st.sects[i]?) with
              | none => raa_read st.extsyms section_
              | some t => if t.fileindex = NO_SECT then raa_read st.extsyms section_
                          else (t.fileindex : Int),
          pcrel := 0, length := ilog2_32 bytes,
          ext :=
            if section_ = NO_SEG then 0
            else match (get_section_by_index st section_).bind (fun i => st.sects[i]?) with
              | none => 1
              | some t => if t.fileindex = NO_SECT then 1 else 0,
          type := st.fmt.reloc_abs }
        (if section_ = NO_SEG then bytes
         else match (get_section_by_index st section_).bind (fun i => st.sects[i]?) with
           | none => bytes
           | some t => if t.fileindex = NO_SECT then bytes else -(sc.size : Int))) := by
  by_cases href : section_ = NO_SEG
  · simp [add_reloc, reltype.toNat, hsect, href, land_scattered_norm, R_ABS]
  · cases hb : (get_section_by_index st section_).bind (fun i => st.sects[i]?) with
    | none => simp [add_reloc, reltype.toNat, hsect, href, hb, land_scattered_norm, NO_SECT]
    | some t =>
      by_cases hfi : t.fileindex = NO_SECT
      · have h0 : t.fileindex = 0 := hfi
        simp [add_reloc, reltype.toNat, hsect, href, hb, land_scattered_norm, NO_SECT, h0]
      · have h0 : ¬ t.fileindex = 0 := hfi
        simp [add_reloc, reltype.toNat, hsect, href, hb, land_scattered_norm, NO_SECT, h0]

theorem rb_better_inv (syms : List symbol) (key : Nat) (seen : List Nat) (best : Option Nat)
    (i : Nat) (h : search_inv syms key seen best) :
    search_inv syms key (seen ++ [i]) (rb_better syms key best i) := by
  unfold rb_better
  cases hk : node_key syms i with
  | none =>
    simp only
    cases best with
    | none =>
      intro j hj k hjk
      rcases List.mem_append.1 hj with hj | hj
      · exact h j hj k hjk
      · simp at hj; subst hj; rw [hk] at hjk; cases hjk
    | some b =>
      obtain ⟨hb, kb, hkb, hle, hmax⟩ := h
      refine ⟨List.mem_append_left _ hb, kb, hkb, hle, ?_⟩
      intro j hj k hjk hkk
      rcases List.mem_append.1 hj with hj | hj
      · exact hmax j hj k hjk hkk
      · simp at hj; subst hj; rw [hk] at hjk; cases hjk
  | some k =>
    simp only
    by_cases hle : k ≤ key
    · simp only [hle, if_true]
      cases best with
      | none =>
        simp only [Option.bind]
        refine ⟨by simp, k, hk, hle, ?_⟩
        intro j hj k2 hjk hkk
        rcases List.mem_append.1 hj with hj | hj
        · exact absurd hkk (h j hj k2 hjk)
        · simp at hj; subst hj; rw [hk] at hjk; cases hjk; exact Nat.le_refl _
      | some b =>
        obtain ⟨hb, kb, hkb, hleb, hmax⟩ := h
        simp only [Option.bind, hkb]
        by_cases hlt : kb < k
        · simp only [hlt, if_true]
          refine ⟨by simp, k, hk, hle, ?_⟩
          intro j hj k2 hjk hkk
          rcases List.mem_append.1 hj with hj | hj
          · exact Nat.le_trans (hmax j hj k2 hjk hkk) (Nat.le_of_lt hlt)
          · simp at hj; subst hj; rw [hk] at hjk; cases hjk; exact Nat.le_refl _
        · simp only [hlt, if_false]
          refine ⟨List.mem_append_left _ hb, kb, hkb, hleb, ?_⟩
          intro j hj k2 hjk hkk
          rcases List.mem_append.1 hj with hj | hj
          · exact hmax j hj k2 hjk hkk
          · simp at hj; subst hj; rw [hk] at hjk; cases hjk; exact Nat.le_of_not_lt hlt
    · simp only [hle, if_false]
      cases best with
      | none =>
        intro j hj k2 hjk
        rcases List.mem_append.1 hj with hj | hj
        · exact h j hj k2 hjk
        · simp at hj; subst hj; rw [hk] at hjk; cases hjk; exact hle
      | some b =>
        obtain ⟨hb, kb, hkb, hleb, hmax⟩ := h
        refine ⟨List.mem_append_left _ hb, kb, hkb, hleb, ?_⟩
        intro j hj k2 hjk hkk
        rcases List.mem_append.1 hj with hj | hj
        · exact hmax j hj k2 hjk hkk
        · simp at hj; subst hj; rw [hk] at hjk; cases hjk; exact absurd hkk hle

theorem rb_fold_inv (syms : List symbol) (key : Nat) (tree seen : List Nat)
    (best : Option Nat) (h : search_inv syms key seen best) :
    search_inv syms key (seen ++ tree) (tree.foldl (rb_better syms key) best) := by
  induction tree generalizing seen best with
  | nil => simpa using h
  | cons i rest ih =>
    have := ih (seen ++ [i]) _ (rb_better_inv syms key seen best i h)
    simpa using this

theorem rb_search_inv (syms : List symbol) (key : Nat) (tree : List Nat) :
    search_inv syms key tree (rb_search syms tree key) := by
  have h0 : search_inv syms key [] none := by
    intro i hi
    cases hi
  simpa [rb_search] using rb_fold_inv syms key tree [] none h0

theorem add_reloc_needsym_eq (st : State) (sect : Nat) (sc : Section)
    (section_ offset : Int) (rt : reltype) (bytes : Int) (j : Nat) (t : Section)
    (hk : rt = .RL_GOT ∨ rt = .RL_GOTLOAD ∨ rt = .RL_TLV)
    (hmax : rt.toNat ≤ st.fmt.maxreltype.toNat) (href : section_ ≠ NO_SEG)
    (hsect : st.sects[sect]? = some sc)
    (hg : get_section_by_index st section_ = some j) (ht : st.sects[j]? = some t)
    (hfi : t.fileindex ≠ NO_SECT) :
    add_reloc st sect section_ offset rt bytes =
      match macho_find_gsym st t (u64 offset) (decide (rt ≠ .RL_TLV)) with
      | (st1, none) => some (st1, 0)
      | (st1, some sym) =>
        match st1.syms[sym]? with
        | none => none
        | some sy =>
          some (reloc_link st1 sect
            { addr := sc.size % 2 ^ 31, snum := sy.initial_snum, pcrel := 1,
              length := ilog2_32 bytes, ext := 1, type := needsym_type st.fmt rt } bytes) := by
  have h0 : ¬ t.fileindex = 0 := hfi
  rcases hk with rfl | rfl | rfl <;>
    simp [add_reloc, hmax, hsect, href, hg, ht, h0, land_scattered_norm, NO_SECT,
      needsym_type, R_ABS]

theorem not_registered_of_sects_eq (st st1 : State) (sect : Nat) (r : reloc)
    (h : st1.sects = st.sects) : ¬ registered st sect r st1 := by
  rintro ⟨sc, sc1, h1, h2, h3, _⟩
  rw [h, h1] at h2
  cases h2
  have := congrArg List.length h3
  simp at this

theorem node_key_some (syms : List symbol) (i k : Nat) (h : node_key syms i = some k) :
    ∃ sy, syms[i]? = some sy ∧ sy.key = k := by
  unfold node_key at h
  cases hs : syms[i]? with
  | none => simp [hs] at h
  | some sy =>
    simp [hs] at h
    exact ⟨sy, rfl, h⟩

/-- C4 (counterexample): in scenario S3 the four payload bytes written after `E8` are
`00 00 00 00`, not `FC FF FF FF`. -/
theorem scenario_S3_payload_not_minus4 :
    scenario_S3.map (fun st => st.sects.map (fun sc => sc.data)) =
      some [[0xe8, 0x00, 0x00, 0x00, 0x00]] ∧
    scenario_S3.map (fun st => st.sects.map (fun sc => sc.data)) ≠
      some [[0xe8, 0xfc, 0xff, 0xff, 0xff]] := by
  decide

/-- C4 (amended): in scenario S3 exactly one relocation is registered, at offset 1, with
`ext = 1`, `length = 2`, `pcrel = 1`, `type = X86_64_RELOC_BRANCH = 2`, and the four
payload bytes at offsets 1..4 of `__text` are `00 00 00 00`: the value written is
operand - tail size + adjust = 0 - 4 + 4, the adjust of an external reference on the
64-bit target being `bytes`. -/
theorem scenario_S3_result :
    scenario_S3.map (fun st => st.sects.map (fun sc => (sc.relocs, sc.nreloc, sc.data))) =
      some [([{ addr := 1, snum := 0, pcrel := 1, length := 2, ext := 1,
                type := X86_64_RELOC_BRANCH }], 1, [0xe8, 0x00, 0x00, 0x00, 0x00])] ∧
    X86_64_RELOC_BRANCH = 2 ∧
    (((st64_text_printf.bind (fun st =>
      macho_output st 4 (.bytes [0xe8]) .OUT_RAWDATA 1 NO_SEG NO_SEG)).bind (fun st =>
      add_reloc st 0 6 0 .RL_BRANCH 4)).map (fun p => p.2)) = some 4 := by
  decide

theorem registered_link_inj (st st2 : State) (sect : Nat) (r r2 : reloc) (adj : Int)
    (hs : st2.sects = st.sects) (h : registered st sect r (reloc_link st2 sect r2 adj).1) :
    r = r2 := by
  obtain ⟨sc, sc1, h1, h2, h3, _⟩ := h
  rw [← hs] at h1
  simp [reloc_link, update_sect, List.getElem?_modify_eq, h1] at h2
  rw [← h2] at h3
  simp at h3
  exact h3.symm

theorem add_reloc_needsym_type (st : State) (sect : Nat) (section_ offset : Int)
    (rt : reltype) (bytes : Int) (st2 : State) (adj : Int) (r : reloc)
    (hk : rt = .RL_GOT ∨ rt = .RL_GOTLOAD ∨ rt = .RL_TLV)
    (h : add_reloc st sect section_ offset rt bytes = some (st2, adj))
    (hr : registered st sect r st2) : r.type = needsym_type st.fmt rt := by
  obtain ⟨sc, _, hsect, _⟩ := id hr
  by_cases hmax : rt.toNat ≤ st.fmt.maxreltype.toNat
  swap
  · simp [add_reloc, hmax] at h
  have hext : ∀ st3 r3 a3, st3.sects = st.sects → r3.type = needsym_type st.fmt rt →
      reloc_link st3 sect r3 a3 = (st2, adj) → r.type = needsym_type st.fmt rt := by
    intro st3 r3 a3 hs3 ht3 he
    have he2 : (reloc_link st3 sect r3 a3).1 = st2 := by rw [he]
    rw [← he2] at hr
    rw [registered_link_inj st st3 sect r r3 a3 hs3 hr, ht3]
  have hbail : ∀ st3 : State, st3.sects = st.sects → st3 = st2 →
      r.type = needsym_type st.fmt rt := by
    intro st3 hs3 he
    rw [← he] at hr
    exact absurd hr (not_registered_of_sects_eq st _ sect r hs3)
  by_cases href : section_ = NO_SEG
  · rcases hk with rfl | rfl | rfl <;>
      · simp [add_reloc, hmax, hsect, href] at h
        exact hext _ _ _ (by rfl) (by rfl) h
  · cases hg : get_section_by_index st section_ with
    | none =>
      rcases hk with rfl | rfl | rfl <;>
        · simp [add_reloc, hmax, hsect, href, hg, NO_SECT] at h
          exact hext _ _ _ (by rfl) (by rfl) h
    | some j =>
      obtain ⟨t, ht, _, _⟩ := find_by_index_some section_ st.sects j hg
      by_cases hfi : t.fileindex = NO_SECT
      · have h0 : t.fileindex = 0 := hfi
        rcases hk with rfl | rfl | rfl <;>
          · simp [add_reloc, hmax, hsect, href, hg, ht, h0, NO_SECT] at h
            exact hext _ _ _ (by rfl) (by rfl) h
      · rw [add_reloc_needsym_eq st sect sc section_ offset rt bytes j t hk hmax href hsect hg
          ht hfi] at h
        unfold macho_find_gsym at h
        cases hs : rb_search st.syms t.gsyms (u64 offset) with
        | none =>
          rw [hs] at h
          simp only [Option.some.injEq, Prod.mk.injEq] at h
          exact hbail _ (by rfl) h.1
        | some b =>
          rw [hs] at h
          dsimp only at h
          by_cases hex :
              (decide (rt ≠ .RL_TLV) && node_key st.syms b != some (u64 offset)) = true
          · rw [if_pos hex] at h
            simp only [Option.some.injEq, Prod.mk.injEq] at h
            exact hbail _ (by rfl) h.1
          · rw [if_neg hex] at h
            dsimp only at h
            cases hsy : st.syms[b]? with
            | none => simp [hsy] at h
            | some sy =>
              simp only [hsy, Option.some.injEq] at h
              exact hext _ _ _ (by rfl) (by rfl) h

theorem saa_fread_tail3 (pre : List Nat) (b0 b1 b2 : Nat) :
    saa_fread (pre ++ [b0, b1, b2]) ((pre ++ [b0, b1, b2]).length - 3) 3 = [b0, b1, b2] := by
  have h : (pre ++ [b0, b1, b2]).length - 3 = pre.length := by simp
  rw [h]
  simp [saa_fread, List.range_succ, List.getD_eq_getElem?_getD, List.getElem?_append_right]

theorem is_gotload_iff (b0 b1 b2 : Nat) :
    is_gotload [b0, b1, b2] = true ↔ mov_got_pattern b0 b1 b2 := by
  simp [is_gotload, mov_got_pattern, and_assoc]

theorem add_reloc_needsym_some (st : State) (sect : Nat) (sc : Section)
    (section_ offset : Int) (rt : reltype) (bytes : Int)
    (hk : rt = .RL_GOT ∨ rt = .RL_GOTLOAD ∨ rt = .RL_TLV)
    (hmax : rt.toNat ≤ st.fmt.maxreltype.toNat) (hsect : st.sects[sect]? = some sc) :
    ∃ st2 adj, add_reloc st sect section_ offset rt bytes = some (st2, adj) := by
  by_cases href : section_ = NO_SEG
  · rcases hk with rfl | rfl | rfl <;>
      · simp [add_reloc, hmax, hsect, href]
        exact ⟨_, _, rfl⟩
  · cases hg : get_section_by_index st section_ with
    | none =>
      rcases hk with rfl | rfl | rfl <;>
        · simp [add_reloc, hmax, hsect, href, hg, NO_SECT]
          exact ⟨_, _, rfl⟩
    | some j =>
      obtain ⟨t, ht, _, _⟩ := find_by_index_some section_ st.sects j hg
      by_cases hfi : t.fileindex = NO_SECT
      · have h0 : t.fileindex = 0 := hfi
        rcases hk with rfl | rfl | rfl <;>
          · simp [add_reloc, hmax, hsect, href, hg, ht, h0, NO_SECT]
            exact ⟨_, _, rfl⟩
      · rw [add_reloc_needsym_eq st sect sc section_ offset rt bytes j t hk hmax href hsect hg
          ht hfi]
        unfold macho_find_gsym
        have hinv := rb_search_inv st.syms (u64 offset) t.gsyms
        cases hs : rb_search st.syms t.gsyms (u64 offset) with
        | none => exact ⟨_, _, rfl⟩
        | some b =>
          rw [hs] at hinv
          obtain ⟨_, kb, hkb, _, _⟩ := hinv
          obtain ⟨sy, hsy, _⟩ := node_key_some st.syms b kb hkb
          dsimp only
          by_cases hex :
              (decide (rt ≠ .RL_TLV) && node_key st.syms b != some (u64 offset)) = true
          · rw [if_pos hex]
            exact ⟨_, _, rfl⟩
          · rw [if_neg hex]
            dsimp only
            rw [hsy]
            exact ⟨_, _, rfl⟩

/-- C5 (counterexample): a `OUT_REL4ADR` event with `wrt = ..gotpcrel` into the
non-instruction section `__DATA,__data` whose payload ends in `48 8B 05` registers a
relocation of type `X86_64_RELOC_GOT` (4), not `X86_64_RELOC_GOT_LOAD` (3). -/
theorem gotload_needs_instruction_section :
    (st64_data_mov.bind (fun st => macho_output st 4 (.operand 0) .OUT_REL4ADR 4 6 3)).map
      (fun st => st.sects.map (fun sc => (sc.flags, sc.data, sc.relocs.map (fun r => r.type)))) =
      some [(S_REGULAR, [0x48, 0x8b, 0x05, 0, 0, 0, 0], [4])] ∧
    st64_data_mov.map (fun st => st.macho_gotpcrel_sect) = some 3 := by
  decide

/-- C5 (amended): on the 64-bit target, for every `OUT_REL4ADR` event with
`wrt = ..gotpcrel` and a reference that is `NO_SEG` or even, into a non-zerofill section
whose payload ends in the three bytes `b0 b1 b2`: the kind passed to `add_reloc` is
`RL_GOTLOAD` if the section has `S_ATTR_SOME_INSTRUCTIONS` and `(b0 & 0xF8) = 0x48`,
`b1 = 0x8B`, `(b2 & 0xC7) = 0x05`, and `RL_GOT` otherwise (in particular in every
non-instruction section), and the relocation it registers has type
`X86_64_RELOC_GOT_LOAD` (3) in the first case and `X86_64_RELOC_GOT` (4) in the second. -/
theorem rel4_gotpcrel_type (st : State) (secto : Int) (data : out_data) (size : Nat)
    (section_ wrt : Int) (si : Nat) (s : Section) (pre : List Nat) (b0 b1 b2 : Nat)
    (hfmt : st.fmt = macho64_fmt) (hwrt : wrt = st.macho_gotpcrel_sect) (hw : wrt ≠ NO_SEG)
    (hsecto : secto ≠ NO_SEG) (hg : get_section_by_index st secto = some si)
    (hs : st.sects[si]? = some s) (hbss : s.flags &&& SECTION_TYPE ≠ S_ZEROFILL)
    (hne : section_ ≠ secto) (heven : section_ = NO_SEG ∨ section_ % 2 = 0)
    (htail : s.data = pre ++ [b0, b1, b2]) :
    ∃ kind, macho_output st secto data .OUT_REL4ADR size section_ wrt =
        (add_reloc st si section_ data.int64 kind 4).map
          (fun p => sect_write p.1 si (le_bytes 4 (u64 (data.int64 - size + p.2))) 4) ∧
      (∃ st2 adj, add_reloc st si section_ data.int64 kind 4 = some (st2, adj)) ∧
      (s.flags &&& S_ATTR_SOME_INSTRUCTIONS ≠ 0 ∧ mov_got_pattern b0 b1 b2 →
        kind = .RL_GOTLOAD ∧
        ∀ st2 adj r, add_reloc st si section_ data.int64 kind 4 = some (st2, adj) →
          registered st si r st2 → r.type = 3) ∧
      (¬ (s.flags &&& S_ATTR_SOME_INSTRUCTIONS ≠ 0 ∧ mov_got_pattern b0 b1 b2) →
        kind = .RL_GOT ∧
        ∀ st2 adj r, add_reloc st si section_ data.int64 kind 4 = some (st2, adj) →
          registered st si r st2 → r.type = 4) := by
  have hodd : ¬ (section_ ≠ NO_SEG ∧ section_ % 2 ≠ 0) := by
    rintro ⟨h1, h2⟩
    rcases heven with h | h
    · exact h1 h
    · exact h2 h
  have hodd2 : ¬ (¬ section_ = NO_SEG ∧ section_ % 2 = 1) := by
    rintro ⟨h1, h2⟩
    rcases heven with h | h
    · exact h1 h
    · omega
  have hlen : 3 ≤ s.data.length := by rw [htail]; simp
  have hout : ∀ kind, rel4_reltype st s wrt = (kind, false) →
      macho_output st secto data .OUT_REL4ADR size section_ wrt =
        (add_reloc st si section_ data.int64 kind 4).map
          (fun p => sect_write p.1 si (le_bytes 4 (u64 (data.int64 - size + p.2))) 4) := by
    intro kind hkind
    have hb : ¬ (s.flags &&& SECTION_TYPE) = S_ZEROFILL := hbss
    simp [macho_output, hsecto, hg, hs, hb, hne, hodd, hodd2, hkind, Option.map_map,
      Function.comp_def]
  by_cases hp : s.flags &&& S_ATTR_SOME_INSTRUCTIONS ≠ 0 ∧ mov_got_pattern b0 b1 b2
  · refine ⟨.RL_GOTLOAD, hout _ ?_,
      add_reloc_needsym_some st si s section_ _ _ 4 (Or.inr (Or.inl rfl))
        (by rw [hfmt]; decide) hs,
      fun _ => ⟨rfl, fun st2 adj r h hr => ?_⟩, fun h => absurd hp h⟩
    · have hgl : is_gotload (saa_fread s.data (s.data.length - 3) 3) = true := by
        rw [htail, saa_fread_tail3, is_gotload_iff]
        exact hp.2
      simp [rel4_reltype, hw, ← hwrt, hp.1, hlen, hgl]
    · exact add_reloc_needsym_type st si section_ _ .RL_GOTLOAD 4 st2 adj r
        (Or.inr (Or.inl rfl)) h hr
  · refine ⟨.RL_GOT, hout _ ?_,
      add_reloc_needsym_some st si s section_ _ _ 4 (Or.inl rfl) (by rw [hfmt]; decide) hs,
      fun h => absurd h hp, fun _ => ⟨rfl, fun st2 adj r h hr => ?_⟩⟩
    · by_cases hi : s.flags &&& S_ATTR_SOME_INSTRUCTIONS ≠ 0
      · have hgl : ¬ is_gotload (saa_fread s.data (s.data.length - 3) 3) = true := by
          rw [htail, saa_fread_tail3, is_gotload_iff]
          exact fun h => hp ⟨hi, h⟩
        simp [rel4_reltype, hw, ← hwrt, hi, hlen, hgl]
      · simp [rel4_reltype, hw, ← hwrt, hi]
    · exact add_reloc_needsym_type st si section_ _ .RL_GOT 4 st2 adj r (Or.inl rfl) h hr

/-- C5 (witness): scenario S4.  The amended statement applied to the 64-bit run whose
`__text` holds `48 8B 05`, for a `..gotpcrel` reference to an external; evaluated, the
event registers type 3 there and type 4 when `8B` is replaced by `89`. -/
theorem rel4_gotpcrel_type_witness :
    ((st64_mov 0x8b).fmt = macho64_fmt ∧ (3 : Int) = (st64_mov 0x8b).macho_gotpcrel_sect ∧
      (3 : Int) ≠ NO_SEG ∧ (4 : Int) ≠ NO_SEG ∧
      get_section_by_index (st64_mov 0x8b) 4 = some 0 ∧
      (st64_mov 0x8b).sects[0]? = some ((st64_mov 0x8b).sects.getD 0 program_start.absolute_sect) ∧
      ((st64_mov 0x8b).sects.getD 0 program_start.absolute_sect).flags &&& SECTION_TYPE
        ≠ S_ZEROFILL ∧
      (6 : Int) ≠ 4 ∧ ((6 : Int) = NO_SEG ∨ (6 : Int) % 2 = 0) ∧
      ((st64_mov 0x8b).sects.getD 0 program_start.absolute_sect).data = [] ++ [0x48, 0x8b, 0x05]) ∧
    (∃ kind, macho_output (st64_mov 0x8b) 4 (.operand 0) .OUT_REL4ADR 4 6 3 =
        (add_reloc (st64_mov 0x8b) 0 6 (out_data.operand 0).int64 kind 4).map
          (fun p => sect_write p.1 0
            (le_bytes 4 (u64 ((out_data.operand 0).int64 - (4 : Nat) + p.2))) 4) ∧
      (∃ st2 adj, add_reloc (st64_mov 0x8b) 0 6 (out_data.operand 0).int64 kind 4 =
        some (st2, adj)) ∧
      (((st64_mov 0x8b).sects.getD 0 program_start.absolute_sect).flags &&&
          S_ATTR_SOME_INSTRUCTIONS ≠ 0 ∧ mov_got_pattern 0x48 0x8b 0x05 →
        kind = .RL_GOTLOAD ∧
        ∀ st2 adj r, add_reloc (st64_mov 0x8b) 0 6 (out_data.operand 0).int64 kind 4 =
            some (st2, adj) →
          registered (st64_mov 0x8b) 0 r st2 → r.type = 3) ∧
      (¬ (((st64_mov 0x8b).sects.getD 0 program_start.absolute_sect).flags &&&
          S_ATTR_SOME_INSTRUCTIONS ≠ 0 ∧ mov_got_pattern 0x48 0x8b 0x05) →
        kind = .RL_GOT ∧
        ∀ st2 adj r, add_reloc (st64_mov 0x8b) 0 6 (out_data.operand 0).int64 kind 4 =
            some (st2, adj) →
          registered (st64_mov 0x8b) 0 r st2 → r.type = 4)) ∧
    (macho_output (st64_mov 0x8b) 4 (.operand 0) .OUT_REL4ADR 4 6 3).map
      (fun st => st.sects.map (fun sc => sc.relocs.map (fun r => r.type))) = some [[3]] ∧
    (macho_output (st64_mov 0x89) 4 (.operand 0) .OUT_REL4ADR 4 6 3).map
      (fun st => st.sects.map (fun sc => sc.relocs.map (fun r => r.type))) = some [[4]] :=
  ⟨⟨by decide, by decide, by decide, by decide, by decide, by decide, by decide, by decide,
      by decide, by decide⟩,
    rel4_gotpcrel_type (st64_mov 0x8b) 4 (.operand 0) 4 6 3 0
      ((st64_mov 0x8b).sects.getD 0 program_start.absolute_sect) [] 0x48 0x8b 0x05
      (by decide) (by decide) (by decide) (by decide) (by decide) (by decide) (by decide)
      (by decide) (by decide) (by decide),
    by decide, by decide⟩

/-! ### Buffer lemmas -/

theorem le_bytes_length (n v : Nat) : (le_bytes n v).length = n := by
  simp [le_bytes]

theorem saa_fwrite_length (d : List Nat) (p : Nat) (xs : List Nat) :
    (saa_fwrite d p xs).length = d.length := by
  induction d generalizing p xs with
  | nil => simp [saa_fwrite]
  | cons b buf ih =>
    cases p with
    | zero =>
      cases xs with
      | nil => simp [saa_fwrite]
      | cons x xs => simp [saa_fwrite, ih]
    | succ p => simp [saa_fwrite, ih]

theorem saa_fwrite_get (d : List Nat) (p : Nat) (xs : List Nat) (i : Nat) :
    (saa_fwrite d p xs)[i]? =
      if p ≤ i ∧ i < p + xs.length ∧ i < d.length then xs[i - p]? else d[i]? := by
  induction d generalizing p xs i with
  | nil => simp [saa_fwrite]
  | cons b buf ih =>
    cases p with
    | zero =>
      cases xs with
      | nil => simp [saa_fwrite]
      | cons x xs =>
        cases i with
        | zero => simp [saa_fwrite]
        | succ i =>
          simp only [saa_fwrite, List.getElem?_cons_succ, ih]
          simp
    | succ p =>
      cases i with
      | zero => simp [saa_fwrite]
      | succ i =>
        simp only [saa_fwrite, List.getElem?_cons_succ, ih]
        have e : (i + 1 < p + 1 + xs.length) = (i < p + xs.length) := by
          apply propext; constructor <;> intro h <;> omega
        simp [e]

theorem saa_fread_congr (a b : List Nat) (p len : Nat)
    (h : ∀ i, p ≤ i → i < p + len → a[i]? = b[i]?) : saa_fread a p len = saa_fread b p len := by
  unfold saa_fread
  apply List.map_congr_left
  intro i hi
  rw [List.mem_range] at hi
  simp only [List.getD_eq_getElem?_getD]
  rw [h (p + i) (by omega) (by omega)]

theorem saa_fread_fwrite (d : List Nat) (p : Nat) (xs : List Nat) (h : p + xs.length ≤ d.length) :
    saa_fread (saa_fwrite d p xs) p xs.length = xs := by
  apply List.ext_getElem?
  intro i
  unfold saa_fread
  by_cases hi : i < xs.length
  · rw [List.getElem?_map, List.getElem?_range hi]
    simp only [Option.map_some', List.getD_eq_getElem?_getD, saa_fwrite_get]
    have hc : p ≤ p + i ∧ p + i < p + xs.length ∧ p + i < d.length := ⟨by omega, by omega, by omega⟩
    rw [if_pos hc]
    have : p + i - p = i := by omega
    rw [this, List.getElem?_eq_getElem hi]
    rfl
  · rw [List.getElem?_eq_none (by simpa using hi), List.getElem?_eq_none (by simpa using hi)]

theorem patch_value_some (st : State) (s : Section) (r : reloc) (l : Int)
    (h : r.ext = 0 →
      0 ≤ r.snum ∧ r.snum ≤ (st.seg_nsects : Int) ∧ (sectstab_addr st r.snum.toNat).isSome) :
    ∃ v, patch_value st s r l = some v := by
  unfold patch_value
  by_cases he : r.ext = 0
  · obtain ⟨h1, h2, h3⟩ := h he
    obtain ⟨a, ha⟩ := Option.isSome_iff_exists.1 h3
    simp [he, h1, h2, ha]
  · simp only [he, if_false]
    split <;> exact ⟨_, rfl⟩

theorem patch_relocs_spec (st : State) (s : Section) (R : List reloc) (data : List Nat)
    (hb : ∀ r ∈ R, r.addr + patch_len r ≤ data.length)
    (hd : R.Pairwise relocs_disjoint)
    (hv : ∀ r ∈ R, ∀ l, ∃ v, patch_value st s r l = some v) :
    ∃ D, patch_relocs st s R data = some D ∧ D.length = data.length ∧
      (∀ i, (∀ r ∈ R, i < r.addr ∨ r.addr + patch_len r ≤ i) → D[i]? = data[i]?) ∧
      (∀ r ∈ R, ∃ l,
        patch_value st s r (to_int64 (le_value (saa_fread data r.addr (patch_len r)))) = some l ∧
        saa_fread D r.addr (patch_len r) = le_bytes (patch_len r) (u64 l)) := by
  induction R generalizing data with
  | nil =>
    exact ⟨data, rfl, rfl, fun _ _ => rfl, fun r hr => by cases hr⟩
  | cons r rest ih =>
    obtain ⟨l, hl⟩ := hv r (List.mem_cons_self _ _)
      (to_int64 (le_value (saa_fread data r.addr (patch_len r))))
    have hrb := hb r (List.mem_cons_self _ _)
    have hpw := List.pairwise_cons.1 hd
    let d1 := saa_fwrite data r.addr (le_bytes (patch_len r) (u64 l))
    have hd1 : patch_reloc st s data r = some d1 := by
      simp only [patch_reloc, hl, Option.map_some']
    have hlen1 : d1.length = data.length := saa_fwrite_length _ _ _
    have hout1 : ∀ i, (i < r.addr ∨ r.addr + patch_len r ≤ i) → d1[i]? = data[i]? := by
      intro i hi
      show (saa_fwrite data r.addr (le_bytes (patch_len r) (u64 l)))[i]? = data[i]?
      rw [saa_fwrite_get, le_bytes_length, if_neg]
      omega
    obtain ⟨D, hD, hDlen, hDout, hDval⟩ := ih d1
      (fun x hx => by rw [hlen1]; exact hb x (List.mem_cons_of_mem _ hx)) hpw.2
      (fun x hx => hv x (List.mem_cons_of_mem _ hx))
    refine ⟨D, ?_, by rw [hDlen, hlen1], ?_, ?_⟩
    · simp only [patch_relocs, hd1, Option.some_bind, hD]
    · intro i hi
      rw [hDout i (fun x hx => hi x (List.mem_cons_of_mem _ hx)),
        hout1 i (hi r (List.mem_cons_self _ _))]
    · intro x hx
      rcases List.mem_cons.1 hx with rfl | hx
      · refine ⟨l, hl, ?_⟩
        have h1 : saa_fread D x.addr (patch_len x) = saa_fread d1 x.addr (patch_len x) := by
          apply saa_fread_congr
          intro i hi1 hi2
          apply hDout
          intro y hy
          have := hpw.1 y hy
          unfold relocs_disjoint at this
          omega
        rw [h1]
        have := saa_fread_fwrite data x.addr (le_bytes (patch_len x) (u64 l))
          (by rw [le_bytes_length]; exact hrb)
        rw [le_bytes_length] at this
        exact this
      · obtain ⟨l2, hl2, hr2⟩ := hDval x hx
        refine ⟨l2, ?_, hr2⟩
        have h1 : saa_fread d1 x.addr (patch_len x) = saa_fread data x.addr (patch_len x) := by
          apply saa_fread_congr
          intro i hi1 hi2
          apply hout1
          have := hpw.1 x hx
          unfold relocs_disjoint at this
          omega
        rw [← h1]
        exact hl2

theorem patch_len_eq_min (r : reloc) : patch_len r = min (2 ^ r.length) 8 := by
  unfold patch_len
  rcases Nat.lt_or_ge r.length 3 with h | h
  · have : r.length = 0 ∨ r.length = 1 ∨ r.length = 2 := by omega
    rcases this with h0 | h0 | h0 <;> rw [h0] <;> decide
  · have h8 : 2 ^ 3 ≤ 2 ^ r.length := Nat.pow_le_pow_right (by decide) h
    have h8b : (8 : Nat) ≤ 2 ^ r.length := h8
    rw [if_pos (by omega), Nat.min_eq_right h8b]

theorem patch_len_cases (r : reloc) :
    patch_len r = 1 ∨ patch_len r = 2 ∨ patch_len r = 4 ∨ patch_len r = 8 := by
  unfold patch_len
  rcases Nat.lt_or_ge r.length 3 with h | h
  · have : r.length = 0 ∨ r.length = 1 ∨ r.length = 2 := by omega
    rcases this with h0 | h0 | h0 <;> rw [h0] <;> decide
  · have h8 : 2 ^ 3 ≤ 2 ^ r.length := Nat.pow_le_pow_right (by decide) h
    have h8b : (8 : Nat) ≤ 2 ^ r.length := h8
    rw [if_pos (by omega)]
    simp

theorem le_bytes_mod (n v : Nat) : le_bytes n v = le_bytes n (v % 256 ^ n) := by
  unfold le_bytes
  apply List.map_congr_left
  intro i hi
  rw [List.mem_range] at hi
  have hsplit : 256 ^ n = 256 ^ i * 256 ^ (n - i) := by
    rw [← Nat.pow_add]
    congr 1
    omega
  have hdvd : 256 ∣ 256 ^ (n - i) := by
    have : n - i = (n - i - 1) + 1 := by omega
    rw [this, Nat.pow_succ]
    exact Nat.dvd_mul_left _ _
  rw [hsplit, Nat.mod_mul_right_div_self, Nat.mod_mod_of_dvd _ hdvd]

theorem le_bytes_wrap (w : Nat) (V : Nat) (z : Int)
    (hw : w = 1 ∨ w = 2 ∨ w = 4 ∨ w = 8) :
    le_bytes w (u64 (to_int64 V + z)) = le_bytes w (((V : Int) + z) % 2 ^ (8 * w)).toNat := by
  rw [le_bytes_mod w (u64 _)]
  congr 1
  unfold u64 to_int64
  rcases hw with rfl | rfl | rfl | rfl <;> norm_num <;> split <;> omega

theorem patch_value_tables (st st1 : State) (s : Section) (r : reloc) (l : Int)
    (h : same_tables st st1) : patch_value st1 s r l = patch_value st s r l := by
  unfold patch_value
  rw [h.1, h.2]

theorem patch_relocs_tables (st st1 : State) (s : Section) (R : List reloc) (data : List Nat)
    (h : same_tables st st1) : patch_relocs st1 s R data = patch_relocs st s R data := by
  induction R generalizing data with
  | nil => rfl
  | cons r rest ih =>
    simp only [patch_relocs, patch_reloc, patch_value_tables st st1 s r _ h]
    cases patch_value st s r (to_int64 (le_value (saa_fread data r.addr (patch_len r)))) with
    | none => rfl
    | some v => simp [ih]

theorem tables_inv_same (st st1 : State) (h : tables_inv st st1) : same_tables st st1 := by
  obtain ⟨h1, h2, h3, h4⟩ := h
  refine ⟨h1, fun n => ?_⟩
  unfold sectstab_addr
  rw [h2]
  cases hs : st.sectstab[n]? with
  | none => rfl
  | some q =>
    cases q with
    | absolute => simp [deref, h3]
    | real k => simpa [deref] using h4 k

theorem write_section_data_spec (st : State) (l : List Section) (i : Nat) (stc : State)
    (hinv : tables_inv st stc)
    (hl : ∀ k S, l[k]? = some S → stc.sects[i + k]? = some S)
    (hp : ∀ S ∈ l, S.flags &&& SECTION_TYPE ≠ S_ZEROFILL → patchable st S) :
    ∃ st1, write_section_data l i stc = some st1 ∧ tables_inv st st1 ∧
      (∀ j, j < i → st1.sects[j]? = stc.sects[j]?) ∧
      (∀ k S, l[k]? = some S → ∃ S1, st1.sects[i + k]? = some S1 ∧
        (S.flags &&& SECTION_TYPE = S_ZEROFILL → S1 = S) ∧
        (S.flags &&& SECTION_TYPE ≠ S_ZEROFILL →
          ∃ D, patch_relocs st S S.relocs S.data = some D ∧ S1 = { S with data := D })) := by
  induction l generalizing i stc with
  | nil =>
    exact ⟨stc, rfl, hinv, fun _ _ => rfl, fun k S h => by simp at h⟩
  | cons s rest ih =>
    have hrest : ∀ stc2 : State, (∀ j, i < j → stc2.sects[j]? = stc.sects[j]?) →
        ∀ k S, rest[k]? = some S → stc2.sects[i + 1 + k]? = some S := by
      intro stc2 h2 k S hk
      rw [h2 _ (by omega)]
      have := hl (k + 1) S (by simpa using hk)
      rw [← this]
      congr 1
      omega
    have hs0 : stc.sects[i]? = some s := by simpa using hl 0 s (by simp)
    by_cases hz : s.flags &&& SECTION_TYPE = S_ZEROFILL
    · obtain ⟨st1, h1, h2, h3, h4⟩ := ih (i + 1) stc hinv (hrest stc (fun _ _ => rfl))
        (fun S hS => hp S (List.mem_cons_of_mem _ hS))
      refine ⟨st1, ?_, h2, fun j hj => h3 j (by omega), ?_⟩
      · simp only [write_section_data, hz, if_true, h1]
      · intro k S hk
        cases k with
        | zero =>
          simp at hk
          subst hk
          refine ⟨s, ?_, fun _ => rfl, fun h => absurd hz h⟩
          rw [Nat.add_zero, h3 i (by omega), hs0]
        | succ k =>
          have := h4 k S (by simpa using hk)
          have e : i + 1 + k = i + (k + 1) := by omega
          rw [e] at this
          exact this
    · obtain ⟨hb, hd, hv⟩ := hp s (List.mem_cons_self _ _) hz
      obtain ⟨D, hD, -, -, -⟩ := patch_relocs_spec st s s.relocs s.data hb hd
        (fun r hr l => patch_value_some st s r l (hv r hr))
      have hDc : patch_relocs stc s s.relocs s.data = some D := by
        rw [patch_relocs_tables st stc s _ _ (tables_inv_same st stc hinv), hD]
      let stc2 := nasm_write (fwritezero (update_sect stc i (fun sc => { sc with data := D }))
        s.pad) D
      have hsects2 : stc2.sects = stc.sects.modify (fun sc => { sc with data := D }) i := rfl
      have hinv2 : tables_inv st stc2 := by
        obtain ⟨a1, a2, a3, a4⟩ := hinv
        refine ⟨a1, a2, a3, fun k => ?_⟩
        rw [hsects2, List.getElem?_modify, ← a4 k]
        cases stc.sects[k]? with
        | none => rfl
        | some sc => by_cases hik : i = k <;> simp [hik]
      obtain ⟨st1, h1, h2, h3, h4⟩ := ih (i + 1) stc2 hinv2
        (hrest stc2 (fun j hj => by
          rw [hsects2, List.getElem?_modify_ne _ _ (by omega)]))
        (fun S hS => hp S (List.mem_cons_of_mem _ hS))
      refine ⟨st1, ?_, h2, fun j hj => ?_, ?_⟩
      · simp only [write_section_data, hz, if_false, hDc]
        exact h1
      · rw [h3 j (by omega), hsects2, List.getElem?_modify_ne _ _ (by omega)]
      · intro k S hk
        cases k with
        | zero =>
          simp at hk
          subst hk
          refine ⟨{ s with data := D }, ?_, fun h => absurd h hz, fun _ => ⟨D, hD, rfl⟩⟩
          rw [Nat.add_zero, h3 i (by omega), hsects2, List.getElem?_modify_eq, hs0]
          rfl
        | succ k =>
          have := h4 k S (by simpa using hk)
          have e : i + 1 + k = i + (k + 1) := by omega
          rw [e] at this
          exact this

theorem macho_write_relocs_sects (st : State) (R : List reloc) :
    (macho_write_relocs st R).sects = st.sects := by
  induction R generalizing st with
  | nil => rfl
  | cons r rest ih => simp only [macho_write_relocs, ih]; rfl

theorem write_relocs_fold_sects (l : List Section) (st : State) :
    (l.foldl (fun acc s => macho_write_relocs acc s.relocs) st).sects = st.sects := by
  induction l generalizing st with
  | nil => rfl
  | cons s rest ih => simp only [List.foldl_cons, ih, macho_write_relocs_sects]

/-- C6 (amended): in the write pass (`macho_write_section`), on a state in which the
relocations of every section that is not zerofill patch bytes of its buffer, no two of
them a common byte, and the internal ones name sections of the file, the pass returns,
and for every relocation `r` with `ext = 0` of a non-zerofill section `S`,
with `w = min(1 << r.length, 8)`, the `w` bytes at `r.addr` after patching are the
little-endian encoding of `(V + sectstab[r.snum].addr - (S.addr if r.pcrel else 0))
mod 2^(8w)`, `V` being the little-endian value of those bytes before patching; the
buffer keeps its length and every byte not covered by a relocation is unchanged. -/
theorem write_section_patches (st : State)
    (hp : ∀ S ∈ st.sects, S.flags &&& SECTION_TYPE ≠ S_ZEROFILL → patchable st S) :
    ∃ st1, macho_write_section st = some st1 ∧
      ∀ (i : Nat) (S : Section), st.sects[i]? = some S →
        S.flags &&& SECTION_TYPE ≠ S_ZEROFILL →
        ∃ S1, st1.sects[i]? = some S1 ∧ S1.data.length = S.data.length ∧
          (∀ r ∈ S.relocs, r.ext = 0 → ∃ a, sectstab_addr st r.snum.toNat = some a ∧
            saa_fread S1.data r.addr (min (2 ^ r.length) 8) =
              le_bytes (min (2 ^ r.length) 8)
                (((le_value (saa_fread S.data r.addr (min (2 ^ r.length) 8)) : Int) + a -
                  (if r.pcrel ≠ 0 then (S.addr : Int) else 0)) %
                    2 ^ (8 * min (2 ^ r.length) 8)).toNat) ∧
          (∀ j : Nat, (∀ r ∈ S.relocs, j < r.addr ∨ r.addr + min (2 ^ r.length) 8 ≤ j) →
            S1.data[j]? = S.data[j]?) := by
  obtain ⟨st1, h1, _, _, h4⟩ := write_section_data_spec st st.sects 0 st
    ⟨rfl, rfl, rfl, fun _ => rfl⟩ (fun k S h => by simpa using h) hp
  refine ⟨_, by rw [macho_write_section, h1]; rfl, ?_⟩
  intro i S hS hz
  obtain ⟨S1, hS1, -, hnz⟩ := h4 i S hS
  obtain ⟨D, hD, rfl⟩ := hnz hz
  obtain ⟨hb, hd, hv⟩ := hp S (List.getElem?_mem hS) hz
  obtain ⟨D2, hD2, hlen, hout, hval⟩ := patch_relocs_spec st S S.relocs S.data hb hd
    (fun r hr l => patch_value_some st S r l (hv r hr))
  rw [hD] at hD2
  cases hD2
  refine ⟨{ S with data := D }, ?_, hlen, ?_, ?_⟩
  · simp only [write_relocs_fold_sects]
    simpa using hS1
  · intro r hr he
    obtain ⟨l, hl, hrd⟩ := hval r hr
    obtain ⟨h1, h2, h3⟩ := hv r hr he
    obtain ⟨a, ha⟩ := Option.isSome_iff_exists.1 h3
    refine ⟨a, ha, ?_⟩
    rw [← patch_len_eq_min]
    show saa_fread D r.addr (patch_len r) = _
    rw [hrd]
    have hpv : ∀ x : Int, patch_value st S r x =
        some (if r.pcrel ≠ 0 then x + a - S.addr else x + a) := by
      intro x
      simp [patch_value, he, h1, h2, ha]
    rw [hpv] at hl
    rw [← Option.some.inj hl]
    by_cases hpc : r.pcrel ≠ 0
    · rw [if_pos hpc, if_pos hpc]
      have := le_bytes_wrap (patch_len r) (le_value (saa_fread S.data r.addr (patch_len r)))
        ((a : Int) - S.addr) (patch_len_cases r)
      rw [← add_sub_assoc, ← add_sub_assoc] at this
      exact this
    · rw [if_neg hpc, if_neg hpc]
      have := le_bytes_wrap (patch_len r) (le_value (saa_fread S.data r.addr (patch_len r)))
        (a : Int) (patch_len_cases r)
      simpa using this
  · intro j hj
    apply hout
    intro r hr
    have := hj r hr
    rw [← patch_len_eq_min] at this
    exact this

/-- C6 (witness): scenario S2.  The statement applied to the 32-bit run of `mov eax, D`
after layout and sizing; evaluated, `__data` is at address 5 and bytes 1..4 of `__text`
end up holding 5, while `B8` and the bytes of `__data` are unchanged. -/
theorem write_section_patches_witness :
    (∀ S ∈ scenario_S2_sized.sects, S.flags &&& SECTION_TYPE ≠ S_ZEROFILL →
      patchable scenario_S2_sized S) ∧
    (∃ st1, macho_write_section scenario_S2_sized = some st1 ∧
      ∀ (i : Nat) (S : Section), scenario_S2_sized.sects[i]? = some S →
        S.flags &&& SECTION_TYPE ≠ S_ZEROFILL →
        ∃ S1, st1.sects[i]? = some S1 ∧ S1.data.length = S.data.length ∧
          (∀ r ∈ S.relocs, r.ext = 0 →
            ∃ a, sectstab_addr scenario_S2_sized r.snum.toNat = some a ∧
            saa_fread S1.data r.addr (min (2 ^ r.length) 8) =
              le_bytes (min (2 ^ r.length) 8)
                (((le_value (saa_fread S.data r.addr (min (2 ^ r.length) 8)) : Int) + a -
                  (if r.pcrel ≠ 0 then (S.addr : Int) else 0)) %
                    2 ^ (8 * min (2 ^ r.length) 8)).toNat) ∧
          (∀ j : Nat, (∀ r ∈ S.relocs, j < r.addr ∨ r.addr + min (2 ^ r.length) 8 ≤ j) →
            S1.data[j]? = S.data[j]?)) ∧
    scenario_S2_sized.sects.map (fun sc => (sc.addr, sc.data, sc.relocs)) =
      [(0, [0xb8, 0, 0, 0, 0],
         [{ addr := 1, snum := 2, pcrel := 0, length := 2, ext := 0, type := 0 }]),
       (5, [0xde, 0xad, 0xbe, 0xef], [])] ∧
    (macho_write_section scenario_S2_sized).map
      (fun st => st.sects.map (fun sc => sc.data)) =
      some [[0xb8, 5, 0, 0, 0], [0xde, 0xad, 0xbe, 0xef]] :=
  ⟨by unfold patchable relocs_disjoint; decide,
    write_section_patches scenario_S2_sized (by unfold patchable relocs_disjoint; decide),
    by decide, by decide⟩

/-! ### Layout pass lemmas -/

theorem positions_perm (l : List symbol) (idx : Nat) :
    List.Perm (positions sym_local l idx ++ (positions sym_extdef l idx ++
      positions sym_undef l idx)) (List.range' idx l.length) := by
  induction l generalizing idx with
  | nil => simp [positions]
  | cons sym rest ih =>
    have ih1 := ih (idx + 1)
    rw [List.length_cons, List.range'_succ]
    by_cases hl : sym.type &&& N_EXT = 0
    · have h1 : sym_local sym = true := by simp [sym_local, hl]
      have h2 : sym_extdef sym = false := by simp [sym_extdef, hl]
      have h3 : sym_undef sym = false := by simp [sym_undef, hl]
      simp only [positions, h1, h2, h3, if_true, List.cons_append]
      exact List.Perm.cons _ ih1
    · have h1 : sym_local sym = false := by simp [sym_local, hl]
      by_cases hd : sym.type &&& N_TYPE = N_UNDF
      · have h2 : sym_extdef sym = false := by simp [sym_extdef, hd]
        have h3 : sym_undef sym = true := by simp [sym_undef, hl, hd]
        simp only [positions, h1, h2, h3, if_true]
        refine List.Perm.trans ?_ (List.Perm.cons _ ih1)
        rw [← List.append_assoc, ← List.append_assoc]
        exact List.perm_middle
      · have h2 : sym_extdef sym = true := by simp [sym_extdef, hl, hd]
        have h3 : sym_undef sym = false := by simp [sym_undef, hd]
        simp only [positions, h1, h2, h3, if_true]
        refine List.Perm.trans ?_ (List.Perm.cons _ ih1)
        exact List.perm_middle

theorem positions_bound (pred : symbol → Bool) (l : List symbol) (idx : Nat) :
    ∀ p ∈ positions pred l idx, idx ≤ p ∧ p < idx + l.length := by
  induction l generalizing idx with
  | nil => simp [positions]
  | cons sym rest ih =>
    intro p hp
    unfold positions at hp
    split at hp
    · rcases List.mem_cons.1 hp with rfl | hp
      · simp
      · have := ih (idx + 1) p hp
        simp only [List.length_cons]
        omega
    · have := ih (idx + 1) p hp
      simp only [List.length_cons]
      omega

theorem positions_pred (pred : symbol → Bool) (l : List symbol) (idx : Nat) :
    ∀ p ∈ positions pred l idx, ∃ sym, l[p - idx]? = some sym ∧ pred sym = true := by
  induction l generalizing idx with
  | nil => simp [positions]
  | cons sym rest ih =>
    intro p hp
    unfold positions at hp
    have hrec : p ∈ positions pred rest (idx + 1) →
        ∃ sy, (sym :: rest)[p - idx]? = some sy ∧ pred sy = true := by
      intro hp
      obtain ⟨sy, h1, h2⟩ := ih (idx + 1) p hp
      have hb := (positions_bound pred rest (idx + 1) p hp).1
      have : p - idx = (p - (idx + 1)) + 1 := by omega
      exact ⟨sy, by rw [this, List.getElem?_cons_succ]; exact h1, h2⟩
    split at hp
    · rename_i hpred
      rcases List.mem_cons.1 hp with rfl | hp
      · exact ⟨sym, by simp, hpred⟩
      · exact hrec hp
    · exact hrec hp

theorem positions_nodup (pred : symbol → Bool) (l : List symbol) (idx : Nat) :
    (positions pred l idx).Nodup := by
  induction l generalizing idx with
  | nil => simp [positions]
  | cons sym rest ih =>
    unfold positions
    split
    · refine List.nodup_cons.2 ⟨fun h => ?_, ih _⟩
      have := (positions_bound pred rest (idx + 1) idx h).1
      omega
    · exact ih _

theorem positions_map_filter (pred : symbol → Bool) (l : List symbol) (idx : Nat) {β : Type}
    (f : symbol → β) :
    (positions pred l idx).map (fun p => (l[p - idx]?).map f) = (l.filter pred).map (fun s => some (f s)) := by
  induction l generalizing idx with
  | nil => simp [positions]
  | cons sym rest ih =>
    have hrest : (positions pred rest (idx + 1)).map (fun p => ((sym :: rest)[p - idx]?).map f)
        = (rest.filter pred).map (fun s => some (f s)) := by
      rw [← ih (idx + 1)]
      apply List.map_congr_left
      intro p hp
      have hb := (positions_bound pred rest (idx + 1) p hp).1
      have : p - idx = (p - (idx + 1)) + 1 := by omega
      rw [this, List.getElem?_cons_succ]
    unfold positions
    by_cases hpred : pred sym = true
    · rw [if_pos hpred, List.map_cons, hrest, List.filter_cons_of_pos hpred]
      simp
    · rw [if_neg hpred, hrest, List.filter_cons_of_neg hpred]

theorem local_positions_eq (l : List symbol) (idx : Nat) :
    local_positions l idx = positions sym_local l idx := by
  induction l generalizing idx with
  | nil => rfl
  | cons sym rest ih =>
    unfold local_positions positions
    by_cases h : sym.type &&& N_EXT = 0
    · simp [h, sym_local, ih]
    · simp [h, sym_local, ih]

theorem strs_append_fields (st : State) (name : List Nat) :
    (strs_append st name).nsyms = st.nsyms ∧ (strs_append st name).nlocalsym = st.nlocalsym ∧
    (strs_append st name).nextdefsym = st.nextdefsym ∧
    (strs_append st name).nundefsym = st.nundefsym ∧
    (strs_append st name).extdefsyms = st.extdefsyms ∧
    (strs_append st name).undefsyms = st.undefsyms :=
  ⟨rfl, rfl, rfl, rfl, rfl, rfl⟩

theorem sym_class (x : symbol) :
    (sym_local x = true ∧ sym_extdef x = false ∧ sym_undef x = false) ∨
    (sym_local x = false ∧ sym_extdef x = true ∧ sym_undef x = false) ∨
    (sym_local x = false ∧ sym_extdef x = false ∧ sym_undef x = true) := by
  unfold sym_local sym_extdef sym_undef
  by_cases h1 : x.type &&& N_EXT = 0 <;> by_cases h2 : x.type &&& N_TYPE = N_UNDF <;>
    simp [h1, h2]

theorem layout_step1_spec (sym : symbol) (st : State) :
    sym_ident (layout_step1 sym st).1 = sym_ident sym ∧
    (layout_step1 sym st).1.type = (promote sym).type ∧
    (sym_local (layout_step1 sym st).1 = true →
      (layout_step1 sym st).1.snum = (st.nsyms : Int) ∧
      (layout_step1 sym st).2.nsyms = st.nsyms + 1 ∧
      (layout_step1 sym st).2.nlocalsym = st.nlocalsym + 1 ∧
      (layout_step1 sym st).2.nextdefsym = st.nextdefsym ∧
      (layout_step1 sym st).2.nundefsym = st.nundefsym) ∧
    (sym_extdef (layout_step1 sym st).1 = true →
      (layout_step1 sym st).2.nsyms = st.nsyms ∧
      (layout_step1 sym st).2.nlocalsym = st.nlocalsym ∧
      (layout_step1 sym st).2.nextdefsym = st.nextdefsym + 1 ∧
      (layout_step1 sym st).2.nundefsym = st.nundefsym) ∧
    (sym_undef (layout_step1 sym st).1 = true →
      (layout_step1 sym st).2.nsyms = st.nsyms ∧
      (layout_step1 sym st).2.nlocalsym = st.nlocalsym ∧
      (layout_step1 sym st).2.nextdefsym = st.nextdefsym ∧
      (layout_step1 sym st).2.nundefsym = st.nundefsym + 1) := by
  unfold layout_step1 promote sym_local sym_extdef sym_undef sym_ident
  by_cases h0 : sym.type = N_UNDF <;>
    by_cases h1 : (if sym.type = N_UNDF then { sym with type := sym.type ||| N_EXT }
      else sym).type &&& N_EXT = 0 <;>
    by_cases h2 : (if sym.type = N_UNDF then { sym with type := sym.type ||| N_EXT }
      else sym).type &&& N_TYPE = N_UNDF <;>
    simp [h0, h1, h2, strs_append] <;> simp_all

theorem layout_scan1_spec (l : List symbol) (st : State) :
    (layout_scan1 l st).1.length = l.length ∧
    (layout_scan1 l st).1.map sym_ident = l.map sym_ident ∧
    (layout_scan1 l st).1.map (fun s => s.type) = l.map (fun s => (promote s).type) ∧
    (layout_scan1 l st).2.nsyms = st.nsyms + ((layout_scan1 l st).1.filter sym_local).length ∧
    (layout_scan1 l st).2.nlocalsym =
      st.nlocalsym + ((layout_scan1 l st).1.filter sym_local).length ∧
    (layout_scan1 l st).2.nextdefsym =
      st.nextdefsym + ((layout_scan1 l st).1.filter sym_extdef).length ∧
    (layout_scan1 l st).2.nundefsym =
      st.nundefsym + ((layout_scan1 l st).1.filter sym_undef).length ∧
    ((layout_scan1 l st).1.filter sym_local).map (fun s => s.snum) =
      (List.range' st.nsyms ((layout_scan1 l st).1.filter sym_local).length).map
        (fun n : Nat => (n : Int)) := by
  induction l generalizing st with
  | nil => simp [layout_scan1]
  | cons sym rest ih =>
    have hstep : layout_scan1 (sym :: rest) st =
        ((layout_step1 sym st).1 :: (layout_scan1 rest (layout_step1 sym st).2).1,
          (layout_scan1 rest (layout_step1 sym st).2).2) := rfl
    rw [hstep]
    obtain ⟨a1, a2, a3, a4, a5⟩ := layout_step1_spec sym st
    obtain ⟨h1, h2, h3, h4, h5, h6, h7, h8⟩ := ih (layout_step1 sym st).2
    generalize layout_step1 sym st = r at *
    generalize layout_scan1 rest r.2 = t at *
    dsimp only
    refine ⟨by simp [h1], by simp [h2, a1], by simp [h3, a2], ?_⟩
    rcases sym_class r.1 with ⟨c1, c2, c3⟩ | ⟨c1, c2, c3⟩ | ⟨c1, c2, c3⟩
    · obtain ⟨b1, b2, b3, b4, b5⟩ := a3 c1
      rw [List.filter_cons_of_pos c1, List.filter_cons_of_neg (by simp [c2]),
        List.filter_cons_of_neg (by simp [c3])]
      rw [h4, h5, h6, h7, b2, b3, b4, b5]
      simp only [List.length_cons, List.map_cons, h8, List.range'_succ, b1, b2]
      refine ⟨by omega, by omega, trivial, trivial, by simp⟩
    · obtain ⟨b2, b3, b4, b5⟩ := a4 c2
      rw [List.filter_cons_of_neg (by simp [c1]), List.filter_cons_of_pos c2,
        List.filter_cons_of_neg (by simp [c3])]
      rw [h4, h5, h6, h7, b2, b3, b4, b5]
      simp only [List.length_cons, h8, b2]
      refine ⟨trivial, trivial, by omega, trivial, trivial⟩
    · obtain ⟨b2, b3, b4, b5⟩ := a5 c3
      rw [List.filter_cons_of_neg (by simp [c1]), List.filter_cons_of_neg (by simp [c2]),
        List.filter_cons_of_pos c3]
      rw [h4, h5, h6, h7, b2, b3, b4, b5]
      simp only [List.length_cons, h8, b2]
      refine ⟨trivial, trivial, trivial, by omega, trivial⟩

theorem layout_step2_spec (sym : symbol) (idx : Nat) (st : State) :
    sym_ident (layout_step2 sym idx st).1 = sym_ident sym ∧
    (layout_step2 sym idx st).1.type = sym.type ∧
    (layout_step2 sym idx st).1.snum = sym.snum ∧
    (layout_step2 sym idx st).2.nsyms = st.nsyms ∧
    layout_counters (layout_step2 sym idx st).2 = layout_counters st ∧
    (layout_step2 sym idx st).2.extdefsyms =
      st.extdefsyms ++ (if sym_extdef sym then [idx] else []) ∧
    (layout_step2 sym idx st).2.undefsyms =
      st.undefsyms ++ (if sym_undef sym then [idx] else []) := by
  unfold layout_step2 sym_extdef sym_undef sym_ident layout_counters
  by_cases h1 : sym.type &&& N_EXT = 0 <;> by_cases h2 : sym.type &&& N_TYPE = N_UNDF <;>
    simp [h1, h2, strs_append]

theorem layout_scan2_spec (l : List symbol) (idx : Nat) (st : State) :
    (layout_scan2 l idx st).1.map sym_ident = l.map sym_ident ∧
    (layout_scan2 l idx st).1.map (fun s => s.type) = l.map (fun s => s.type) ∧
    (layout_scan2 l idx st).1.map (fun s => s.snum) = l.map (fun s => s.snum) ∧
    (layout_scan2 l idx st).2.nsyms = st.nsyms ∧
    layout_counters (layout_scan2 l idx st).2 = layout_counters st ∧
    (layout_scan2 l idx st).2.extdefsyms = st.extdefsyms ++ positions sym_extdef l idx ∧
    (layout_scan2 l idx st).2.undefsyms = st.undefsyms ++ positions sym_undef l idx := by
  induction l generalizing idx st with
  | nil => simp [layout_scan2, positions]
  | cons sym rest ih =>
    have hstep : layout_scan2 (sym :: rest) idx st =
        ((layout_step2 sym idx st).1 ::
          (layout_scan2 rest (idx + 1) (layout_step2 sym idx st).2).1,
          (layout_scan2 rest (idx + 1) (layout_step2 sym idx st).2).2) := rfl
    rw [hstep]
    obtain ⟨a1, a2, a3, a4, a5, a6, a7⟩ := layout_step2_spec sym idx st
    obtain ⟨h1, h2, h3, h4, h5, h6, h7⟩ := ih (idx + 1) (layout_step2 sym idx st).2
    generalize layout_step2 sym idx st = r at *
    generalize layout_scan2 rest (idx + 1) r.2 = t at *
    dsimp only
    refine ⟨by simp [h1, a1], by simp [h2, a2], by simp [h3, a3], by rw [h4, a4],
      by rw [h5, a5], ?_, ?_⟩
    · have hpos : positions sym_extdef (sym :: rest) idx =
          if sym_extdef sym = true then idx :: positions sym_extdef rest (idx + 1)
          else positions sym_extdef rest (idx + 1) := rfl
      rw [h6, a6, hpos]
      by_cases c : sym_extdef sym = true <;> simp [c]
    · have hpos : positions sym_undef (sym :: rest) idx =
          if sym_undef sym = true then idx :: positions sym_undef rest (idx + 1)
          else positions sym_undef rest (idx + 1) := rfl
      rw [h7, a7, hpos]
      by_cases c : sym_undef sym = true <;> simp [c]

theorem layout_number_spec (arr : List Nat) (st : State) :
    (layout_number arr st).syms.length = st.syms.length ∧
    (layout_number arr st).nsyms = st.nsyms + arr.length ∧
    (layout_number arr st).syms.map sym_ident = st.syms.map sym_ident ∧
    (layout_number arr st).syms.map (fun s => s.type) = st.syms.map (fun s => s.type) ∧
    layout_counters (layout_number arr st) = layout_counters st ∧
    (layout_number arr st).extdefsyms = st.extdefsyms ∧
    (layout_number arr st).undefsyms = st.undefsyms ∧
    (∀ p, p ∉ arr → (layout_number arr st).syms[p]? = st.syms[p]?) ∧
    (arr.Nodup → ∀ j p, arr[j]? = some p → p < st.syms.length →
      snum_at (layout_number arr st).syms p = some ((st.nsyms + j : Nat) : Int)) := by
  induction arr generalizing st with
  | nil =>
    refine ⟨rfl, rfl, rfl, rfl, rfl, rfl, rfl, fun _ _ => rfl, fun _ j p h => by simp at h⟩
  | cons q rest ih =>
    obtain ⟨h1, h2, h3, h4, h5, h6, h7, h8, h9⟩ := ih
      { st with syms := st.syms.modify (fun sym => { sym with snum := (st.nsyms : Int) }) q,
                nsyms := st.nsyms + 1 }
    have hmap : ∀ {β : Type} (f : symbol → β),
        (∀ sym n, f { sym with snum := n } = f sym) →
        (st.syms.modify (fun sym => { sym with snum := (st.nsyms : Int) }) q).map f =
          st.syms.map f := by
      intro β f hf
      apply List.ext_getElem?
      intro k
      simp only [List.getElem?_map, List.getElem?_modify]
      cases st.syms[k]? with
      | none => rfl
      | some sy => by_cases hk : q = k <;> simp [hk, hf]
    simp only [layout_number]
    refine ⟨by rw [h1]; simp, by rw [h2]; simp; omega, by rw [h3]; exact hmap _ (fun _ _ => rfl),
      by rw [h4]; exact hmap _ (fun _ _ => rfl), by rw [h5]; rfl, by rw [h6], by rw [h7], ?_, ?_⟩
    · intro p hp
      rw [h8 p (fun h => hp (List.mem_cons_of_mem _ h))]
      simp only
      rw [List.getElem?_modify_ne]
      intro h
      exact hp (h ▸ List.mem_cons_self _ _)
    · intro hnd j p hj hp
      have hnd2 := List.nodup_cons.1 hnd
      cases j with
      | zero =>
        simp at hj
        subst hj
        unfold snum_at
        rw [h8 q hnd2.1]
        simp only
        rw [List.getElem?_modify_eq, List.getElem?_eq_getElem hp]
        simp
      | succ j =>
        have := h9 hnd2.2 j p (by simpa using hj) (by simpa using hp)
        rw [this]
        simp only
        congr 1
        push_cast
        omega

theorem positions_congr (pred : symbol → Bool) (hpred : ∀ a b : symbol, a.type = b.type → pred a = pred b)
    (l l2 : List symbol) (idx : Nat)
    (h : l.map (fun s => s.type) = l2.map (fun s => s.type)) :
    positions pred l idx = positions pred l2 idx := by
  induction l generalizing l2 idx with
  | nil =>
    cases l2 with
    | nil => rfl
    | cons b r => simp at h
  | cons a r ih =>
    cases l2 with
    | nil => simp at h
    | cons b r2 =>
      simp only [List.map_cons, List.cons.injEq] at h
      simp only [positions, hpred a b h.1, ih r2 (idx + 1) h.2]

theorem sym_local_type (a b : symbol) (h : a.type = b.type) : sym_local a = sym_local b := by
  simp [sym_local, h]

theorem sym_extdef_type (a b : symbol) (h : a.type = b.type) : sym_extdef a = sym_extdef b := by
  simp [sym_extdef, h]

theorem sym_undef_type (a b : symbol) (h : a.type = b.type) : sym_undef a = sym_undef b := by
  simp [sym_undef, h]

theorem positions_length (pred : symbol → Bool) (l : List symbol) (idx : Nat) :
    (positions pred l idx).length = (l.filter pred).length := by
  induction l generalizing idx with
  | nil => rfl
  | cons a r ih =>
    unfold positions
    by_cases h : pred a = true
    · rw [if_pos h, List.filter_cons_of_pos h, List.length_cons, List.length_cons, ih]
    · rw [if_neg h, List.filter_cons_of_neg h, ih]

theorem filter_length_congr (pred : symbol → Bool)
    (hpred : ∀ a b : symbol, a.type = b.type → pred a = pred b) (l l2 : List symbol)
    (h : l.map (fun s => s.type) = l2.map (fun s => s.type)) :
    (l.filter pred).length = (l2.filter pred).length := by
  rw [← positions_length pred l 0, ← positions_length pred l2 0,
    positions_congr pred hpred l l2 0 h]

theorem snum_at_congr (l l2 : List symbol) (p : Nat)
    (h : l.map (fun s => s.snum) = l2.map (fun s => s.snum)) : snum_at l p = snum_at l2 p := by
  have := congrArg (fun x => x[p]?) h
  simpa [snum_at, List.getElem?_map] using this

theorem name_of_congr (l l2 : List symbol) (p : Nat)
    (h : l.map sym_ident = l2.map sym_ident) : name_of l p = name_of l2 p := by
  have := congrArg (fun x => (x[p]?).map (fun t => t.2.1)) h
  simp only [List.getElem?_map, Option.map_map] at this
  unfold name_of
  have e : (fun t : Nat × List Nat × Int × Nat × Nat => t.2.1) ∘ sym_ident =
      fun sym => sym.name := rfl
  rw [e] at this
  rw [this]

theorem layout_le_congr (l l2 : List symbol) (h : l.map sym_ident = l2.map sym_ident) :
    layout_le l = layout_le l2 := by
  funext a b
  unfold layout_le layout_compare
  rw [name_of_congr l l2 a h, name_of_congr l l2 b h]

theorem locals_numbered (l : List symbol) (base : Nat)
    (h : (l.filter sym_local).map (fun s => s.snum) =
      (List.range' base (l.filter sym_local).length).map (fun n : Nat => (n : Int))) :
    ∀ k p, (positions sym_local l 0)[k]? = some p → snum_at l p = some ((base + k : Nat) : Int) := by
  intro k p hk
  have h1 := positions_map_filter sym_local l 0 (fun s => s.snum)
  have h2 := congrArg (fun x => x[k]?) h1
  simp only [List.getElem?_map, hk, Option.map_some', Nat.sub_zero] at h2
  have h3 := congrArg (fun x => (x[k]?).map some) h
  simp only [List.getElem?_map, Option.map_map] at h3
  have hklt : k < (l.filter sym_local).length := by
    rw [← positions_length sym_local l 0]
    exact (List.getElem?_eq_some_iff.1 hk).1
  rw [List.getElem?_range' _ _ hklt] at h3
  simp only [Option.map_some', Function.comp_def] at h3
  unfold snum_at
  have h4 : (List.filter sym_local l)[k]? = some ((List.filter sym_local l)[k]) :=
    List.getElem?_eq_getElem hklt
  rw [h4] at h2 h3
  simp only [Option.map_some', Option.some.injEq] at h2 h3
  rw [h2, h3]
  simp

theorem layout_classify_spec (st : State)
    (h0 : st.nlocalsym = 0 ∧ st.nextdefsym = 0 ∧ st.nundefsym = 0) :
    (layout_classify st).syms.map sym_ident = st.syms.map sym_ident ∧
    (layout_classify st).syms.map (fun s => s.type) = st.syms.map (fun s => (promote s).type) ∧
    (layout_classify st).nsyms = ((layout_classify st).syms.filter sym_local).length ∧
    (layout_classify st).nlocalsym = ((layout_classify st).syms.filter sym_local).length ∧
    (layout_classify st).nextdefsym = ((layout_classify st).syms.filter sym_extdef).length ∧
    (layout_classify st).nundefsym = ((layout_classify st).syms.filter sym_undef).length ∧
    (layout_classify st).ilocalsym = 0 ∧
    (layout_classify st).iextdefsym = (layout_classify st).nlocalsym ∧
    (layout_classify st).iundefsym =
      (layout_classify st).nlocalsym + (layout_classify st).nextdefsym ∧
    (∀ (k p : Nat), (positions sym_local (layout_classify st).syms 0)[k]? = some p →
      snum_at (layout_classify st).syms p = some (k : Int)) := by
  obtain ⟨a1, a2, a3, a4, a5, a6, a7, a8⟩ :=
    layout_scan1_spec st.syms { st with nsyms := 0, strslen := 1 }
  unfold layout_classify
  generalize layout_scan1 st.syms { st with nsyms := 0, strslen := 1 } = r at *
  dsimp only at a4 a5 a6 a7 a8 ⊢
  rw [h0.1] at a5
  rw [h0.2.1] at a6
  rw [h0.2.2] at a7
  refine ⟨a2, a3, by omega, by omega, by omega, by omega, rfl, rfl, rfl, ?_⟩
  intro k p hk
  have := locals_numbered r.1 0 a8 k p hk
  simpa using this

theorem layout_collect_spec (st : State) :
    (layout_collect st).syms.map sym_ident = st.syms.map sym_ident ∧
    (layout_collect st).syms.map (fun s => s.type) = st.syms.map (fun s => s.type) ∧
    (layout_collect st).syms.map (fun s => s.snum) = st.syms.map (fun s => s.snum) ∧
    (layout_collect st).nsyms = st.nsyms ∧
    layout_counters (layout_collect st) = layout_counters st ∧
    (layout_collect st).extdefsyms = positions sym_extdef st.syms 0 ∧
    (layout_collect st).undefsyms = positions sym_undef st.syms 0 := by
  obtain ⟨a1, a2, a3, a4, a5, a6, a7⟩ :=
    layout_scan2_spec st.syms 0 { st with extdefsyms := [], undefsyms := [] }
  unfold layout_collect
  generalize layout_scan2 st.syms 0 { st with extdefsyms := [], undefsyms := [] } = r at *
  dsimp only at a4 a5 a6 a7 ⊢
  exact ⟨a1, a2, a3, a4, a5, by simpa using a6, by simpa using a7⟩

theorem orderedInsert_layout_congr (l1 l2 : List symbol) (a : Nat) (arr : List Nat)
    (h : l1.map sym_ident = l2.map sym_ident) :
    arr.orderedInsert (layout_le l1) a = arr.orderedInsert (layout_le l2) a := by
  induction arr with
  | nil => rfl
  | cons b r ih =>
    have hiff : layout_le l1 a b ↔ layout_le l2 a b := by rw [layout_le_congr l1 l2 h]
    simp only [List.orderedInsert]
    by_cases hab : layout_le l1 a b
    · rw [if_pos hab, if_pos (hiff.1 hab)]
    · rw [if_neg hab, if_neg (fun h2 => hab (hiff.2 h2)), ih]

theorem insertionSort_layout_congr (l1 l2 : List symbol) (arr : List Nat)
    (h : l1.map sym_ident = l2.map sym_ident) :
    arr.insertionSort (layout_le l1) = arr.insertionSort (layout_le l2) := by
  induction arr with
  | nil => rfl
  | cons b r ih =>
    simp only [List.insertionSort, ih]
    exact orderedInsert_layout_congr l1 l2 b _ h

theorem qsort_full (syms : List symbol) (arr : List Nat) (n : Nat) (h : n = arr.length) :
    qsort syms arr n = arr.insertionSort (layout_le syms) := by
  subst h
  simp [qsort]

theorem layout_counters_eq (a b : State) (h : layout_counters a = layout_counters b) :
    a.nlocalsym = b.nlocalsym ∧ a.nextdefsym = b.nextdefsym ∧ a.nundefsym = b.nundefsym ∧
    a.ilocalsym = b.ilocalsym ∧ a.iextdefsym = b.iextdefsym ∧ a.iundefsym = b.iundefsym := by
  simp only [layout_counters, Prod.mk.injEq] at h
  exact h

theorem layout_collected_spec (st : State)
    (h0 : st.nlocalsym = 0 ∧ st.nextdefsym = 0 ∧ st.nundefsym = 0) (K : State)
    (hK : K = layout_collect (layout_classify st)) :
    K.syms.map sym_ident = st.syms.map sym_ident ∧
    K.syms.map (fun s => s.type) = st.syms.map (fun s => (promote s).type) ∧
    K.nsyms = (positions sym_local K.syms 0).length ∧
    K.nlocalsym = (positions sym_local K.syms 0).length ∧
    K.nextdefsym = (positions sym_extdef K.syms 0).length ∧
    K.nundefsym = (positions sym_undef K.syms 0).length ∧
    K.ilocalsym = 0 ∧ K.iextdefsym = K.nlocalsym ∧
    K.iundefsym = K.nlocalsym + K.nextdefsym ∧
    K.extdefsyms = positions sym_extdef K.syms 0 ∧
    K.undefsyms = positions sym_undef K.syms 0 ∧
    (∀ (k p : Nat), (positions sym_local K.syms 0)[k]? = some p →
      snum_at K.syms p = some (k : Int)) := by
  obtain ⟨c1, c2, c3, c4, c5, c6, c7, c8, c9, c10⟩ := layout_classify_spec st h0
  obtain ⟨k1, k2, k3, k4, k5, k6, k7⟩ := layout_collect_spec (layout_classify st)
  obtain ⟨kc1, kc2, kc3, kc4, kc5, kc6⟩ := layout_counters_eq _ _ k5
  rw [← hK] at k1 k2 k3 k4 k6 k7 kc1 kc2 kc3 kc4 kc5 kc6
  have hL := positions_congr sym_local sym_local_type K.syms (layout_classify st).syms 0 k2
  have hE := positions_congr sym_extdef sym_extdef_type K.syms (layout_classify st).syms 0 k2
  have hU := positions_congr sym_undef sym_undef_type K.syms (layout_classify st).syms 0 k2
  refine ⟨k1.trans c1, k2.trans c2, ?_, ?_, ?_, ?_, ?_, ?_, ?_, ?_, ?_, ?_⟩
  · rw [k4, c3, hL, positions_length]
  · rw [kc1, c4, hL, positions_length]
  · rw [kc2, c5, hE, positions_length]
  · rw [kc3, c6, hU, positions_length]
  · rw [kc4, c7]
  · rw [kc5, c8, kc1]
  · rw [kc6, c9, kc1, kc2]
  · rw [k6, hE]
  · rw [k7, hU]
  · intro k p hk
    rw [hL] at hk
    rw [snum_at_congr K.syms (layout_classify st).syms p k3]
    exact c10 k p hk

theorem sub_sub_index (a b k : Nat) (h1 : a ≤ k) (h2 : b ≤ k - a) :
    a + b + (k - a - b) = k := by omega

theorem layout_assign_sorted_spec (K S N F : State)
    (hS : S = layout_sort K) (hN : N = layout_number S.extdefsyms S)
    (hF : F = layout_number N.undefsyms N)
    (g3 : K.nsyms = (positions sym_local K.syms 0).length)
    (g4 : K.nlocalsym = (positions sym_local K.syms 0).length)
    (g5 : K.nextdefsym = (positions sym_extdef K.syms 0).length)
    (g6 : K.nundefsym = (positions sym_undef K.syms 0).length)
    (g7 : K.ilocalsym = 0) (g8 : K.iextdefsym = K.nlocalsym)
    (g9 : K.iundefsym = K.nlocalsym + K.nextdefsym)
    (gE : K.extdefsyms = positions sym_extdef K.syms 0)
    (gU : K.undefsyms = positions sym_undef K.syms 0)
    (gnum : ∀ (k p : Nat), (positions sym_local K.syms 0)[k]? = some p →
      snum_at K.syms p = some (k : Int)) :
    layout_assign S = F ∧
    F.syms.map sym_ident = K.syms.map sym_ident ∧
    F.syms.map (fun s => s.type) = K.syms.map (fun s => s.type) ∧
    F.nlocalsym = (positions sym_local F.syms 0).length ∧
    F.nextdefsym = (positions sym_extdef F.syms 0).length ∧
    F.nundefsym = (positions sym_undef F.syms 0).length ∧
    F.ilocalsym = 0 ∧ F.iextdefsym = F.nlocalsym ∧
    F.iundefsym = F.nlocalsym + F.nextdefsym ∧
    F.nsyms = K.syms.length ∧
    F.extdefsyms = (positions sym_extdef F.syms 0).insertionSort (layout_le F.syms) ∧
    F.undefsyms = (positions sym_undef F.syms 0).insertionSort (layout_le F.syms) ∧
    (∀ (k p : Nat), (layout_order F)[k]? = some p → snum_at F.syms p = some (k : Int)) := by
  have hSe : S.extdefsyms = K.extdefsyms.insertionSort (layout_le K.syms) := by
    rw [hS]; exact qsort_full K.syms K.extdefsyms K.nextdefsym (by rw [g5, gE])
  have hSu : S.undefsyms = K.undefsyms.insertionSort (layout_le K.syms) := by
    rw [hS]; exact qsort_full K.syms K.undefsyms K.nundefsym (by rw [g6, gU])
  have hSsyms : S.syms = K.syms := by rw [hS]; rfl
  have hSn : S.nsyms = K.nsyms := by rw [hS]; rfl
  have hSc : layout_counters S = layout_counters K := by rw [hS]; rfl
  obtain ⟨sc1, sc2, sc3, sc4, sc5, sc6⟩ := layout_counters_eq _ _ hSc
  have hEperm : List.Perm S.extdefsyms K.extdefsyms := by
    rw [hSe]; exact List.perm_insertionSort _ _
  have hUperm : List.Perm S.undefsyms K.undefsyms := by
    rw [hSu]; exact List.perm_insertionSort _ _
  have hElen : S.extdefsyms.length = (positions sym_extdef K.syms 0).length := by
    rw [hEperm.length_eq, gE]
  have hUlen : S.undefsyms.length = (positions sym_undef K.syms 0).length := by
    rw [hUperm.length_eq, gU]
  obtain ⟨n1, n2, n3, n4, n5, n6, n7, n8, n9⟩ := layout_number_spec S.extdefsyms S
  rw [← hN] at n1 n2 n3 n4 n5 n6 n7 n8 n9
  obtain ⟨nc1, nc2, nc3, nc4, nc5, nc6⟩ := layout_counters_eq _ _ n5
  obtain ⟨m1, m2, m3, m4, m5, m6, m7, m8, m9⟩ := layout_number_spec N.undefsyms N
  rw [← hF] at m1 m2 m3 m4 m5 m6 m7 m8 m9
  obtain ⟨mc1, mc2, mc3, mc4, mc5, mc6⟩ := layout_counters_eq _ _ m5
  have hid : F.syms.map sym_ident = K.syms.map sym_ident := by rw [m3, n3, hSsyms]
  have hty : F.syms.map (fun s => s.type) = K.syms.map (fun s => s.type) := by
    rw [m4, n4, hSsyms]
  have hpl : positions sym_local F.syms 0 = positions sym_local K.syms 0 :=
    positions_congr sym_local sym_local_type _ _ 0 hty
  have hpe : positions sym_extdef F.syms 0 = positions sym_extdef K.syms 0 :=
    positions_congr sym_extdef sym_extdef_type _ _ 0 hty
  have hpu : positions sym_undef F.syms 0 = positions sym_undef K.syms 0 :=
    positions_congr sym_undef sym_undef_type _ _ 0 hty
  have hpartlen := (positions_perm K.syms 0).length_eq
  simp only [List.length_append, List.length_range'] at hpartlen
  have hnodup : (positions sym_local K.syms 0 ++ (positions sym_extdef K.syms 0 ++
      positions sym_undef K.syms 0)).Nodup :=
    (positions_perm K.syms 0).nodup_iff.2 (List.nodup_range' _ _)
  have hnd1 := List.nodup_append.1 hnodup
  have hnd2 := List.nodup_append.1 hnd1.2.1
  have hEnd : S.extdefsyms.Nodup := by
    rw [hEperm.nodup_iff, gE]; exact hnd2.1
  have hUnd : N.undefsyms.Nodup := by
    rw [n7, hUperm.nodup_iff, gU]; exact hnd2.2.1
  have hEmem : ∀ p, p ∈ S.extdefsyms ↔ p ∈ positions sym_extdef K.syms 0 := by
    intro p; rw [hEperm.mem_iff, gE]
  have hUmem : ∀ p, p ∈ N.undefsyms ↔ p ∈ positions sym_undef K.syms 0 := by
    intro p; rw [n7, hUperm.mem_iff, gU]
  have hbound : ∀ (pred : symbol → Bool) (p : Nat), p ∈ positions pred K.syms 0 →
      p < K.syms.length := by
    intro pred p hp
    have := (positions_bound pred K.syms 0 p hp).2
    rwa [Nat.zero_add] at this
  have hFnsyms : F.nsyms = K.nsyms + S.extdefsyms.length + N.undefsyms.length := by
    rw [m2, n2, hSn]
  refine ⟨?_, hid, hty, ?_, ?_, ?_, ?_, ?_, ?_, ?_, ?_, ?_, ?_⟩
  · unfold layout_assign
    have htakeE : S.extdefsyms.take S.nextdefsym = S.extdefsyms :=
      List.take_of_length_le (by rw [sc2, g5, hElen])
    have htakeU : N.undefsyms.take N.nundefsym = N.undefsyms :=
      List.take_of_length_le (by rw [nc3, sc3, g6, n7, hUlen])
    simp only [htakeE, ← hN, htakeU, ← hF]
  · rw [hpl, mc1, nc1, sc1, g4]
  · rw [hpe, mc2, nc2, sc2, g5]
  · rw [hpu, mc3, nc3, sc3, g6]
  · rw [mc4, nc4, sc4, g7]
  · rw [mc5, nc5, sc5, g8, mc1, nc1, sc1]
  · rw [mc6, nc6, sc6, g9, mc1, nc1, sc1, mc2, nc2, sc2]
  · rw [hFnsyms, g3, n7, hElen, hUlen, ← hpartlen, Nat.add_assoc]
  · rw [m6, n6, hSe, hpe, gE]
    exact (insertionSort_layout_congr _ _ _ hid).symm
  · rw [m7, n7, hSu, hpu, gU]
    exact (insertionSort_layout_congr _ _ _ hid).symm
  · intro k p hk
    unfold layout_order at hk
    rw [hpl, m6, n6, m7] at hk
    rcases Nat.lt_or_ge k (positions sym_local K.syms 0).length with hk1 | hk1
    · rw [List.getElem?_append_left hk1] at hk
      have hpL : p ∈ positions sym_local K.syms 0 := List.getElem?_mem hk
      have hnE : p ∉ S.extdefsyms := by
        rw [hEmem]
        exact fun h => hnd1.2.2 hpL (List.mem_append_left _ h)
      have hnU : p ∉ N.undefsyms := by
        rw [hUmem]
        exact fun h => hnd1.2.2 hpL (List.mem_append_right _ h)
      unfold snum_at
      rw [m8 p hnU, n8 p hnE, hSsyms]
      exact gnum k p hk
    · rw [List.getElem?_append_right hk1] at hk
      rcases Nat.lt_or_ge (k - (positions sym_local K.syms 0).length) S.extdefsyms.length
        with hk2 | hk2
      · rw [List.getElem?_append_left hk2] at hk
        have hpE : p ∈ positions sym_extdef K.syms 0 := (hEmem p).1 (List.getElem?_mem hk)
        have hnU : p ∉ N.undefsyms := by
          rw [hUmem]
          exact fun h => hnd2.2.2 hpE h
        have h9 := n9 hEnd _ p hk (by rw [hSsyms]; exact hbound _ p hpE)
        have hkeq : S.nsyms + (k - (positions sym_local K.syms 0).length) = k := by
          rw [hSn, g3]; exact Nat.add_sub_cancel' hk1
        rw [hkeq] at h9
        unfold snum_at at h9 ⊢
        rw [m8 p hnU]
        exact h9
      · rw [List.getElem?_append_right hk2] at hk
        have hpU : p ∈ positions sym_undef K.syms 0 := (hUmem p).1 (List.getElem?_mem hk)
        have h9 := m9 hUnd _ p hk (by rw [n1, hSsyms]; exact hbound _ p hpU)
        have hkeq : N.nsyms + (k - (positions sym_local K.syms 0).length -
            S.extdefsyms.length) = k := by
          rw [n2, hSn, g3]; exact sub_sub_index _ _ k hk1 hk2
        rw [hkeq] at h9
        exact h9

theorem layout_spec (st : State)
    (h0 : st.nlocalsym = 0 ∧ st.nextdefsym = 0 ∧ st.nundefsym = 0) :
    (macho_layout_symbols st).syms.map sym_ident = st.syms.map sym_ident ∧
    (macho_layout_symbols st).syms.map (fun s => s.type) =
      st.syms.map (fun s => (promote s).type) ∧
    (macho_layout_symbols st).nlocalsym =
      (positions sym_local (macho_layout_symbols st).syms 0).length ∧
    (macho_layout_symbols st).nextdefsym =
      (positions sym_extdef (macho_layout_symbols st).syms 0).length ∧
    (macho_layout_symbols st).nundefsym =
      (positions sym_undef (macho_layout_symbols st).syms 0).length ∧
    (macho_layout_symbols st).ilocalsym = 0 ∧
    (macho_layout_symbols st).iextdefsym = (macho_layout_symbols st).nlocalsym ∧
    (macho_layout_symbols st).iundefsym =
      (macho_layout_symbols st).nlocalsym + (macho_layout_symbols st).nextdefsym ∧
    (macho_layout_symbols st).nsyms = st.syms.length ∧
    (macho_layout_symbols st).extdefsyms =
      (positions sym_extdef (macho_layout_symbols st).syms 0).insertionSort
        (layout_le (macho_layout_symbols st).syms) ∧
    (macho_layout_symbols st).undefsyms =
      (positions sym_undef (macho_layout_symbols st).syms 0).insertionSort
        (layout_le (macho_layout_symbols st).syms) ∧
    (∀ (k p : Nat), (layout_order (macho_layout_symbols st))[k]? = some p →
      snum_at (macho_layout_symbols st).syms p = some (k : Int)) := by
  obtain ⟨g1, g2, g3, g4, g5, g6, g7, g8, g9, gE, gU, gnum⟩ :=
    layout_collected_spec st h0 _ rfl
  obtain ⟨e, f1, f2, f3, f4, f5, f6, f7, f8, f9, f10, f11, f12⟩ :=
    layout_assign_sorted_spec (layout_collect (layout_classify st)) _ _ _ rfl rfl rfl
      g3 g4 g5 g6 g7 g8 g9 gE gU gnum
  have hF : macho_layout_symbols st = layout_assign (layout_sort (layout_collect
      (layout_classify st))) := rfl
  rw [hF, e]
  have hlen : (layout_collect (layout_classify st)).syms.length = st.syms.length := by
    have := congrArg List.length g1
    simpa using this
  exact ⟨f1.trans g1, f2.trans g2, f3, f4, f5, f6, f7, f8, f9.trans hlen, f10, f11, f12⟩

theorem map_getD_of_numbered (syms : List symbol) (P : List Nat) (base : Nat)
    (h : ∀ (j p : Nat), P[j]? = some p → snum_at syms p = some ((base + j : Nat) : Int)) :
    P.map (fun p => (snum_at syms p).getD 0) =
      (List.range' base P.length).map (fun n : Nat => (n : Int)) := by
  apply List.ext_getElem?
  intro j
  rcases Nat.lt_or_ge j P.length with hj | hj
  · have hp : P[j]? = some P[j] := List.getElem?_eq_getElem hj
    rw [List.getElem?_map, List.getElem?_map, hp, List.getElem?_range' _ _ hj]
    simp only [Option.map_some', h j _ hp, Option.getD_some]
    simp
  · rw [List.getElem?_eq_none (by simpa using hj), List.getElem?_eq_none (by simpa using hj)]

theorem positions_map_snum (pred : symbol → Bool) (syms : List symbol) :
    (positions pred syms 0).map (fun p => (snum_at syms p).getD 0) =
      (syms.filter pred).map (fun s => s.snum) := by
  have h := congrArg (List.map (fun o : Option Int => o.getD 0))
    (positions_map_filter pred syms 0 (fun s => s.snum))
  simp only [List.map_map, Function.comp_def, Nat.sub_zero, Option.getD_some] at h
  exact h

/-- C7: when `macho_layout_symbols` runs with the three group counters zero at entry, the
final `snum` values are a bijection from the symbols onto `[0, total)`: the local symbols
(`N_EXT` clear) get `0..nlocalsym-1` in list order, the defined externals the numbers
`nlocalsym..nlocalsym+nextdefsym-1`, the undefined externals the numbers from
`nlocalsym+nextdefsym` on, with `ilocalsym = 0`, `iextdefsym = nlocalsym`,
`iundefsym = nlocalsym + nextdefsym` and `nlocalsym + nextdefsym + nundefsym = total`,
the number of symbols defined. -/
theorem layout_snum_bijection (st : State)
    (h0 : st.nlocalsym = 0 ∧ st.nextdefsym = 0 ∧ st.nundefsym = 0) :
    List.Perm ((macho_layout_symbols st).syms.map (fun s => s.snum))
      ((List.range st.syms.length).map (fun n : Nat => (n : Int))) ∧
    ((macho_layout_symbols st).syms.filter sym_local).map (fun s => s.snum) =
      (List.range (macho_layout_symbols st).nlocalsym).map (fun n : Nat => (n : Int)) ∧
    List.Perm (((macho_layout_symbols st).syms.filter sym_extdef).map (fun s => s.snum))
      ((List.range' (macho_layout_symbols st).nlocalsym
        (macho_layout_symbols st).nextdefsym).map (fun n : Nat => (n : Int))) ∧
    List.Perm (((macho_layout_symbols st).syms.filter sym_undef).map (fun s => s.snum))
      ((List.range' ((macho_layout_symbols st).nlocalsym + (macho_layout_symbols st).nextdefsym)
        (macho_layout_symbols st).nundefsym).map (fun n : Nat => (n : Int))) ∧
    (macho_layout_symbols st).ilocalsym = 0 ∧
    (macho_layout_symbols st).iextdefsym = (macho_layout_symbols st).nlocalsym ∧
    (macho_layout_symbols st).iundefsym =
      (macho_layout_symbols st).nlocalsym + (macho_layout_symbols st).nextdefsym ∧
    (macho_layout_symbols st).nlocalsym + (macho_layout_symbols st).nextdefsym +
      (macho_layout_symbols st).nundefsym = (macho_layout_symbols st).nsyms ∧
    (macho_layout_symbols st).nsyms = st.syms.length ∧
    (macho_layout_symbols st).syms.length = st.syms.length := by
  obtain ⟨f1, f2, f3, f4, f5, f6, f7, f8, f9, f10, f11, f12⟩ := layout_spec st h0
  generalize macho_layout_symbols st = F at *
  have hlen : F.syms.length = st.syms.length := by
    have := congrArg List.length f1
    simpa using this
  have hpart := positions_perm F.syms 0
  have hpartlen := hpart.length_eq
  simp only [List.length_append, List.length_range'] at hpartlen
  have hEp : List.Perm F.extdefsyms (positions sym_extdef F.syms 0) := by
    rw [f10]; exact List.perm_insertionSort _ _
  have hUp : List.Perm F.undefsyms (positions sym_undef F.syms 0) := by
    rw [f11]; exact List.perm_insertionSort _ _
  have hOp : List.Perm (layout_order F) (List.range F.syms.length) := by
    rw [List.range_eq_range']
    refine List.Perm.trans ?_ hpart
    unfold layout_order
    exact List.Perm.append_left _ (List.Perm.append hEp hUp)
  -- locals
  have hLnum : ∀ (j p : Nat), (positions sym_local F.syms 0)[j]? = some p →
      snum_at F.syms p = some ((0 + j : Nat) : Int) := by
    intro j p hj
    rw [Nat.zero_add]
    apply f12
    unfold layout_order
    rw [List.getElem?_append_left (List.getElem?_eq_some_iff.1 hj).1]
    exact hj
  have hEnum : ∀ (j p : Nat), F.extdefsyms[j]? = some p →
      snum_at F.syms p = some ((F.nlocalsym + j : Nat) : Int) := by
    intro j p hj
    apply f12
    unfold layout_order
    rw [List.getElem?_append_right (by omega), ← f3, Nat.add_sub_cancel_left,
      List.getElem?_append_left (List.getElem?_eq_some_iff.1 hj).1]
    exact hj
  have hUnum : ∀ (j p : Nat), F.undefsyms[j]? = some p →
      snum_at F.syms p = some ((F.nlocalsym + F.nextdefsym + j : Nat) : Int) := by
    intro j p hj
    apply f12
    unfold layout_order
    rw [List.getElem?_append_right (by omega), ← f3,
      List.getElem?_append_right (by rw [hEp.length_eq, ← f4]; omega), hEp.length_eq, ← f4]
    have e : F.nlocalsym + F.nextdefsym + j - F.nlocalsym - F.nextdefsym = j := by omega
    rw [e]
    exact hj
  have hOnum : ∀ (j p : Nat), (layout_order F)[j]? = some p →
      snum_at F.syms p = some ((0 + j : Nat) : Int) := by
    intro j p hj
    rw [Nat.zero_add]
    exact f12 j p hj
  have hall : (List.range F.syms.length).map (fun p => (snum_at F.syms p).getD 0) =
      F.syms.map (fun s => s.snum) := by
    apply List.ext_getElem?
    intro j
    rcases Nat.lt_or_ge j F.syms.length with hj | hj
    · rw [List.getElem?_map, List.getElem?_map, List.getElem?_range hj,
        List.getElem?_eq_getElem hj]
      simp [snum_at, List.getElem?_eq_getElem hj]
    · rw [List.getElem?_eq_none (by simpa using hj), List.getElem?_eq_none (by simpa using hj)]
  refine ⟨?_, ?_, ?_, ?_, f6, f7, f8, ?_, f9, hlen⟩
  · rw [← hall]
    have h1 := (hOp.map (fun p => (snum_at F.syms p).getD 0)).symm
    rw [map_getD_of_numbered F.syms (layout_order F) 0 hOnum, hOp.length_eq,
      List.length_range, ← List.range_eq_range'] at h1
    rw [← hlen]
    exact h1
  · rw [← positions_map_snum, map_getD_of_numbered F.syms _ 0 hLnum, ← f3,
      List.range_eq_range']
  · rw [← positions_map_snum]
    have h1 := (hEp.map (fun p => (snum_at F.syms p).getD 0)).symm
    rw [map_getD_of_numbered F.syms F.extdefsyms F.nlocalsym hEnum, hEp.length_eq, ← f4] at h1
    exact h1
  · rw [← positions_map_snum]
    have h1 := (hUp.map (fun p => (snum_at F.syms p).getD 0)).symm
    rw [map_getD_of_numbered F.syms F.undefsyms (F.nlocalsym + F.nextdefsym) hUnum,
      hUp.length_eq, ← f5] at h1
    exact h1
  · rw [f3, f4, f5, f9, ← hlen]
    omega

/-- C7 (witness): the statement applied to scenario S6 followed by a local label (list
order `beta`, `alpha`, `zeta`, `omicron`, `L`); evaluated, the final numbers are
2, 1, 4, 3, 0 with one local, two defined and two undefined externals. -/
theorem layout_snum_bijection_witness :
    (scenario_S6_local.nlocalsym = 0 ∧ scenario_S6_local.nextdefsym = 0 ∧
      scenario_S6_local.nundefsym = 0) ∧
    (List.Perm ((macho_layout_symbols scenario_S6_local).syms.map (fun s => s.snum))
      ((List.range scenario_S6_local.syms.length).map (fun n : Nat => (n : Int))) ∧
    ((macho_layout_symbols scenario_S6_local).syms.filter sym_local).map (fun s => s.snum) =
      (List.range (macho_layout_symbols scenario_S6_local).nlocalsym).map
        (fun n : Nat => (n : Int)) ∧
    List.Perm
      (((macho_layout_symbols scenario_S6_local).syms.filter sym_extdef).map (fun s => s.snum))
      ((List.range' (macho_layout_symbols scenario_S6_local).nlocalsym
        (macho_layout_symbols scenario_S6_local).nextdefsym).map (fun n : Nat => (n : Int))) ∧
    List.Perm
      (((macho_layout_symbols scenario_S6_local).syms.filter sym_undef).map (fun s => s.snum))
      ((List.range' ((macho_layout_symbols scenario_S6_local).nlocalsym +
          (macho_layout_symbols scenario_S6_local).nextdefsym)
        (macho_layout_symbols scenario_S6_local).nundefsym).map (fun n : Nat => (n : Int))) ∧
    (macho_layout_symbols scenario_S6_local).ilocalsym = 0 ∧
    (macho_layout_symbols scenario_S6_local).iextdefsym =
      (macho_layout_symbols scenario_S6_local).nlocalsym ∧
    (macho_layout_symbols scenario_S6_local).iundefsym =
      (macho_layout_symbols scenario_S6_local).nlocalsym +
        (macho_layout_symbols scenario_S6_local).nextdefsym ∧
    (macho_layout_symbols scenario_S6_local).nlocalsym +
        (macho_layout_symbols scenario_S6_local).nextdefsym +
        (macho_layout_symbols scenario_S6_local).nundefsym =
      (macho_layout_symbols scenario_S6_local).nsyms ∧
    (macho_layout_symbols scenario_S6_local).nsyms = scenario_S6_local.syms.length ∧
    (macho_layout_symbols scenario_S6_local).syms.length = scenario_S6_local.syms.length) ∧
    (macho_layout_symbols scenario_S6_local).syms.map (fun s => (s.name, s.snum)) =
      [(name_beta, 2), (name_alpha, 1), (name_zeta, 4), (name_omicron, 3), ([0x4c], 0)] ∧
    ((macho_layout_symbols scenario_S6_local).nlocalsym,
      (macho_layout_symbols scenario_S6_local).nextdefsym,
      (macho_layout_symbols scenario_S6_local).nundefsym,
      (macho_layout_symbols scenario_S6_local).nsyms) = (1, 2, 2, 5) :=
  ⟨by decide, layout_snum_bijection scenario_S6_local (by decide), by decide, by decide⟩

/-! ### Name order -/

theorem strcmp_swap (a b : List Nat) : strcmp b a = -strcmp a b := by
  induction a generalizing b with
  | nil =>
    cases b with
    | nil => simp [strcmp]
    | cons y bs => simp [strcmp]
  | cons x as ih =>
    cases b with
    | nil => simp [strcmp]
    | cons y bs =>
      simp only [strcmp]
      by_cases hxy : x = y
      · subst hxy
        by_cases h0 : x = 0
        · simp [h0]
        · simp [h0, ih]
      · have hyx : ¬ y = x := fun h => hxy h.symm
        simp only [hxy, hyx, if_false]
        omega

theorem strcmp_trans (a b c : List Nat) (h1 : strcmp a b ≤ 0) (h2 : strcmp b c ≤ 0) :
    strcmp a c ≤ 0 := by
  induction a generalizing b c with
  | nil =>
    cases c with
    | nil => simp [strcmp]
    | cons z cs => simp [strcmp]
  | cons x as ih =>
    cases b with
    | nil =>
      simp only [strcmp] at h1
      cases c with
      | nil => simpa [strcmp] using h1
      | cons z cs =>
        simp only [strcmp]
        split_ifs <;> omega
    | cons y bs =>
      cases c with
      | nil =>
        simp only [strcmp] at h1 h2 ⊢
        split_ifs at h1 <;> omega
      | cons z cs =>
        simp only [strcmp] at h1 h2 ⊢
        by_cases hxy : x = y
        · subst hxy
          by_cases hxz : x = z
          · subst hxz
            by_cases h0 : x = 0
            · simp [h0]
            · simp only [h0, if_true, if_false] at h1 h2 ⊢
              exact ih bs cs h1 h2
          · simp only [hxz, if_false] at h2 ⊢
            exact h2
        · simp only [hxy, if_false] at h1
          by_cases hyz : y = z
          · subst hyz
            simp only [hxy, if_false]
            exact h1
          · simp only [hyz, if_false] at h2
            have hxz : ¬ x = z := by omega
            simp only [hxz, if_false]
            omega

theorem layout_le_total (syms : List symbol) (a b : Nat) :
    layout_le syms a b ∨ layout_le syms b a := by
  unfold layout_le layout_compare
  rw [strcmp_swap (name_of syms a) (name_of syms b)]
  omega

theorem layout_le_trans (syms : List symbol) (a b c : Nat)
    (h1 : layout_le syms a b) (h2 : layout_le syms b c) : layout_le syms a c :=
  strcmp_trans _ _ _ h1 h2

theorem qsort_sorted (syms : List symbol) (arr : List Nat) :
    (arr.insertionSort (layout_le syms)).Pairwise (layout_le syms) := by
  haveI : IsTotal Nat (layout_le syms) := ⟨layout_le_total syms⟩
  haveI : IsTrans Nat (layout_le syms) := ⟨layout_le_trans syms⟩
  exact List.sorted_insertionSort (layout_le syms) arr

theorem mem_positions (pred : symbol → Bool) (l : List symbol) (idx p : Nat) :
    p ∈ positions pred l idx ↔ idx ≤ p ∧ ∃ sym, l[p - idx]? = some sym ∧ pred sym = true := by
  constructor
  · intro h
    exact ⟨(positions_bound pred l idx p h).1, positions_pred pred l idx p h⟩
  · induction l generalizing idx with
    | nil => simp
    | cons a r ih =>
      rintro ⟨hle, sym, hs, hp⟩
      unfold positions
      rcases Nat.eq_or_lt_of_le hle with heq | hlt
      · subst heq
        simp at hs
        subst hs
        simp [hp]
      · have e : p - idx = (p - (idx + 1)) + 1 := by omega
        rw [e, List.getElem?_cons_succ] at hs
        have := ih (idx + 1) ⟨hlt, sym, hs, hp⟩
        split
        · exact List.mem_cons_of_mem _ this
        · exact this

theorem cstr_cons (x : Nat) (l : List Nat) :
    cstr (x :: l) = if x = 0 then [] else x :: cstr l := by
  unfold cstr
  by_cases h : x = 0
  · subst h
    rfl
  · have hb : (x != 0) = true := by simpa using h
    rw [List.takeWhile_cons, hb, if_neg h]
    rfl

theorem strcmp_eq_zero_iff (a b : List Nat) : strcmp a b = 0 ↔ cstr a = cstr b := by
  induction a generalizing b with
  | nil =>
    cases b with
    | nil => simp [strcmp]
    | cons y bs =>
      rw [cstr_cons]
      by_cases h : y = 0
      · simp [strcmp, h, cstr]
      · simp [strcmp, h, cstr]
  | cons x as ih =>
    cases b with
    | nil =>
      rw [cstr_cons]
      by_cases h : x = 0
      · simp [strcmp, h, cstr]
      · simp [strcmp, h, cstr]
    | cons y bs =>
      rw [cstr_cons, cstr_cons]
      simp only [strcmp]
      by_cases hxy : x = y
      · subst hxy
        by_cases h0 : x = 0
        · simp [h0]
        · simp [h0, ih]
      · simp only [hxy, if_false]
        have hne : ¬ ((x : Int) - (y : Int) = 0) := by omega
        by_cases hx : x = 0
        · have hy : ¬ y = 0 := fun h => hxy (hx.trans h.symm)
          simp [hx, hy, hne]
        · by_cases hy : y = 0
          · simp [hx, hy]
          · simp [hx, hy, hxy, hne]

/-- C8 (counterexample): with two global symbols of the same name `a`, the array of
defined externals after layout holds both, and their names compare equal: the order is
not strictly ascending. -/
theorem same_name_not_strict :
    (macho_layout_symbols scenario_same_name).extdefsyms = [0, 1] ∧
    layout_compare (macho_layout_symbols scenario_same_name).syms 0 1 = 0 ∧
    ¬ (macho_layout_symbols scenario_same_name).extdefsyms.Pairwise
      (fun a b => layout_compare (macho_layout_symbols scenario_same_name).syms a b < 0) := by
  decide

/-- C8 (amended): after layout (group counters zero at entry), the defined-external array
holds each symbol with `N_EXT` set and `(type & N_TYPE) != N_UNDF` exactly once and no
other, in ascending byte-wise name order (`strcmp <= 0` between any earlier and later
entry), strictly ascending when no two of those symbols have the same name; the
undefined-external array likewise for the symbols with `N_EXT` set and
`(type & N_TYPE) = N_UNDF`. -/
theorem layout_arrays_sorted (st : State)
    (h0 : st.nlocalsym = 0 ∧ st.nextdefsym = 0 ∧ st.nundefsym = 0) :
    ((macho_layout_symbols st).extdefsyms.Nodup ∧
      (∀ p, p ∈ (macho_layout_symbols st).extdefsyms ↔
        ∃ sym, (macho_layout_symbols st).syms[p]? = some sym ∧ sym_extdef sym = true) ∧
      (macho_layout_symbols st).extdefsyms.Pairwise
        (fun a b => layout_compare (macho_layout_symbols st).syms a b ≤ 0) ∧
      ((∀ a ∈ (macho_layout_symbols st).extdefsyms, ∀ b ∈ (macho_layout_symbols st).extdefsyms,
          a ≠ b → cstr (name_of (macho_layout_symbols st).syms a) ≠
            cstr (name_of (macho_layout_symbols st).syms b)) →
        (macho_layout_symbols st).extdefsyms.Pairwise
          (fun a b => layout_compare (macho_layout_symbols st).syms a b < 0))) ∧
    ((macho_layout_symbols st).undefsyms.Nodup ∧
      (∀ p, p ∈ (macho_layout_symbols st).undefsyms ↔
        ∃ sym, (macho_layout_symbols st).syms[p]? = some sym ∧ sym_undef sym = true) ∧
      (macho_layout_symbols st).undefsyms.Pairwise
        (fun a b => layout_compare (macho_layout_symbols st).syms a b ≤ 0) ∧
      ((∀ a ∈ (macho_layout_symbols st).undefsyms, ∀ b ∈ (macho_layout_symbols st).undefsyms,
          a ≠ b → cstr (name_of (macho_layout_symbols st).syms a) ≠
            cstr (name_of (macho_layout_symbols st).syms b)) →
        (macho_layout_symbols st).undefsyms.Pairwise
          (fun a b => layout_compare (macho_layout_symbols st).syms a b < 0))) := by
  obtain ⟨f1, f2, f3, f4, f5, f6, f7, f8, f9, f10, f11, f12⟩ := layout_spec st h0
  generalize macho_layout_symbols st = F at *
  have key : ∀ (pred : symbol → Bool) (arr : List Nat),
      arr = (positions pred F.syms 0).insertionSort (layout_le F.syms) →
      arr.Nodup ∧
      (∀ p, p ∈ arr ↔ ∃ sym, F.syms[p]? = some sym ∧ pred sym = true) ∧
      arr.Pairwise (fun a b => layout_compare F.syms a b ≤ 0) ∧
      ((∀ a ∈ arr, ∀ b ∈ arr, a ≠ b → cstr (name_of F.syms a) ≠ cstr (name_of F.syms b)) →
        arr.Pairwise (fun a b => layout_compare F.syms a b < 0)) := by
    intro pred arr harr
    have hperm : List.Perm arr (positions pred F.syms 0) := by
      rw [harr]; exact List.perm_insertionSort _ _
    have hnd : arr.Nodup := hperm.nodup_iff.2 (positions_nodup pred F.syms 0)
    have hsorted : arr.Pairwise (fun a b => layout_compare F.syms a b ≤ 0) := by
      rw [harr]; exact qsort_sorted F.syms _
    refine ⟨hnd, fun p => ?_, hsorted, fun hdist => ?_⟩
    · rw [hperm.mem_iff, mem_positions]
      simp
    · refine (hsorted.and hnd).imp_of_mem ?_
      intro a b ha hb hab
      have hne := hdist a ha b hb hab.2
      have h0' : layout_compare F.syms a b ≠ 0 := by
        intro h
        exact hne ((strcmp_eq_zero_iff _ _).1 h)
      have := hab.1
      omega
  exact ⟨key sym_extdef F.extdefsyms f10, key sym_undef F.undefsyms f11⟩

/-- C8 (witness): scenario S6.  The amended statement applied to the run that defines the
globals `beta`, `alpha` and the externals `zeta`, `omicron`; evaluated, the
defined-external array is `alpha, beta` and the undefined-external array `omicron, zeta`,
and no symbol is local. -/
theorem layout_arrays_sorted_witness :
    (scenario_S6.nlocalsym = 0 ∧ scenario_S6.nextdefsym = 0 ∧ scenario_S6.nundefsym = 0) ∧
    (((macho_layout_symbols scenario_S6).extdefsyms.Nodup ∧
      (∀ p, p ∈ (macho_layout_symbols scenario_S6).extdefsyms ↔
        ∃ sym, (macho_layout_symbols scenario_S6).syms[p]? = some sym ∧
          sym_extdef sym = true) ∧
      (macho_layout_symbols scenario_S6).extdefsyms.Pairwise
        (fun a b => layout_compare (macho_layout_symbols scenario_S6).syms a b ≤ 0) ∧
      ((∀ a ∈ (macho_layout_symbols scenario_S6).extdefsyms,
          ∀ b ∈ (macho_layout_symbols scenario_S6).extdefsyms,
          a ≠ b → cstr (name_of (macho_layout_symbols scenario_S6).syms a) ≠
            cstr (name_of (macho_layout_symbols scenario_S6).syms b)) →
        (macho_layout_symbols scenario_S6).extdefsyms.Pairwise
          (fun a b => layout_compare (macho_layout_symbols scenario_S6).syms a b < 0))) ∧
    ((macho_layout_symbols scenario_S6).undefsyms.Nodup ∧
      (∀ p, p ∈ (macho_layout_symbols scenario_S6).undefsyms ↔
        ∃ sym, (macho_layout_symbols scenario_S6).syms[p]? = some sym ∧
          sym_undef sym = true) ∧
      (macho_layout_symbols scenario_S6).undefsyms.Pairwise
        (fun a b => layout_compare (macho_layout_symbols scenario_S6).syms a b ≤ 0) ∧
      ((∀ a ∈ (macho_layout_symbols scenario_S6).undefsyms,
          ∀ b ∈ (macho_layout_symbols scenario_S6).undefsyms,
          a ≠ b → cstr (name_of (macho_layout_symbols scenario_S6).syms a) ≠
            cstr (name_of (macho_layout_symbols scenario_S6).syms b)) →
        (macho_layout_symbols scenario_S6).undefsyms.Pairwise
          (fun a b => layout_compare (macho_layout_symbols scenario_S6).syms a b < 0)))) ∧
    (macho_layout_symbols scenario_S6).extdefsyms.map
      (name_of (macho_layout_symbols scenario_S6).syms) = [name_alpha, name_beta] ∧
    (macho_layout_symbols scenario_S6).undefsyms.map
      (name_of (macho_layout_symbols scenario_S6).syms) = [name_omicron, name_zeta] ∧
    (macho_layout_symbols scenario_S6).nlocalsym = 0 :=
  ⟨by decide, layout_arrays_sorted scenario_S6 (by decide), by decide, by decide, by decide⟩

/-! ### The symbol list in a run -/

theorem reloc_link_syms (st : State) (sect : Nat) (r : reloc) (adj : Int) :
    (reloc_link st sect r adj).1.syms = st.syms ∧ (reloc_link st sect r adj).1.nsyms = st.nsyms :=
  ⟨rfl, rfl⟩

theorem macho_find_gsym_syms (st : State) (s : Section) (offset : Nat) (exact : Bool) :
    (macho_find_gsym st s offset exact).1.syms = st.syms ∧
    (macho_find_gsym st s offset exact).1.nsyms = st.nsyms := by
  unfold macho_find_gsym
  split
  · exact ⟨rfl, rfl⟩
  · split <;> exact ⟨rfl, rfl⟩

/-! ### Relocation entries -/

theorem word2_fields (pc len e ty : Nat) (hp : pc < 2) (hl : len < 4) (he : e < 2)
    (ht : ty < 16) :
    (pc ||| len <<< 1 ||| e <<< 3 ||| ty <<< 4) < 256 ∧
    (pc ||| len <<< 1 ||| e <<< 3 ||| ty <<< 4) &&& 1 = pc ∧
    ((pc ||| len <<< 1 ||| e <<< 3 ||| ty <<< 4) >>> 1) &&& 3 = len ∧
    ((pc ||| len <<< 1 ||| e <<< 3 ||| ty <<< 4) >>> 3) &&& 1 = e ∧
    (pc ||| len <<< 1 ||| e <<< 3 ||| ty <<< 4) >>> 4 = ty := by
  interval_cases pc <;> interval_cases len <;> interval_cases e <;> interval_cases ty <;>
    decide

theorem word2_shift (pc len e ty : Nat) (hp : pc < 2) (hl : len < 4) (he : e < 2)
    (ht : ty < 16) :
    pc <<< 24 ||| len <<< 25 ||| e <<< 27 ||| ty <<< 28 =
      (pc ||| len <<< 1 ||| e <<< 3 ||| ty <<< 4) <<< 24 := by
  interval_cases pc <;> interval_cases len <;> interval_cases e <;> interval_cases ty <;>
    decide

theorem reloc_word2_eq (r : reloc) (h0 : 0 ≤ r.snum) (h1 : r.snum < 2 ^ 24)
    (hp : r.pcrel < 2) (hl : r.length < 4) (he : r.ext < 2) (ht : r.type < 16) :
    reloc_word2 r =
      (r.pcrel ||| r.length <<< 1 ||| r.ext <<< 3 ||| r.type <<< 4) <<< 24 + r.snum.toNat := by
  unfold reloc_word2
  have hs : (r.snum % 2 ^ 24).toNat = r.snum.toNat := by omega
  have hlt : r.snum.toNat < 2 ^ 24 := by omega
  rw [hs, Nat.mod_eq_of_lt hp, Nat.mod_eq_of_lt hl, Nat.mod_eq_of_lt he, Nat.mod_eq_of_lt ht,
    Nat.or_assoc, Nat.or_assoc, Nat.or_assoc, Nat.or_comm,
    ← Nat.or_assoc, ← Nat.or_assoc, word2_shift _ _ _ _ hp hl he ht, Nat.shiftLeft_eq,
    Nat.mul_comm, ← Nat.mul_add_lt_is_or hlt]

/-- C13: for a relocation whose fields fit their bit-field widths (snum 24 bits, pcrel 1,
length 2, ext 1, type 4), `macho_write_relocs` writes the address word and then the word
`(snum & 0x00FFFFFF) | (pcrel << 24) | (length << 25) | (ext << 27) | (type << 28)`, which
is below 2^32, and the five fields are recovered from that word `w` as `w & 0xFFFFFF`,
`(w >> 24) & 1`, `(w >> 25) & 3`, `(w >> 27) & 1` and `w >> 28`. -/
theorem reloc_word2_lossless (st : State) (r : reloc)
    (h0 : 0 ≤ r.snum) (h1 : r.snum < 2 ^ 24) (hp : r.pcrel < 2) (hl : r.length < 4)
    (he : r.ext < 2) (ht : r.type < 16) :
    (macho_write_relocs st [r]).ofile =
      st.ofile ++ (le_bytes 4 r.addr ++ le_bytes 4 (reloc_word2 r)) ∧
    reloc_word2 r =
      ((r.snum.toNat &&& 0x00FFFFFF) ||| r.pcrel <<< 24 ||| r.length <<< 25 |||
        r.ext <<< 27 ||| r.type <<< 28) % 2 ^ 32 ∧
    ((reloc_word2 r &&& 0xFFFFFF : Nat) : Int) = r.snum ∧
    (reloc_word2 r >>> 24) &&& 1 = r.pcrel ∧
    (reloc_word2 r >>> 25) &&& 3 = r.length ∧
    (reloc_word2 r >>> 27) &&& 1 = r.ext ∧
    reloc_word2 r >>> 28 = r.type := by
  obtain ⟨k1, k2, k3, k4, k5⟩ := word2_fields r.pcrel r.length r.ext r.type hp hl he ht
  have hw := reloc_word2_eq r h0 h1 hp hl he ht
  have hlt : r.snum.toNat < 2 ^ 24 := by omega
  have hmask : (0xFFFFFF : Nat) = 2 ^ 24 - 1 := by decide
  have hsn : r.snum.toNat &&& 0x00FFFFFF = r.snum.toNat := by
    rw [hmask]; exact Nat.and_pow_two_sub_one_of_lt_two_pow hlt
  generalize r.pcrel ||| r.length <<< 1 ||| r.ext <<< 3 ||| r.type <<< 4 = K at *
  have hdiv : reloc_word2 r >>> 24 = K := by
    rw [hw, Nat.shiftRight_eq_div_pow, Nat.shiftLeft_eq]
    omega
  have hmod : reloc_word2 r &&& 0xFFFFFF = r.snum.toNat := by
    rw [hmask, Nat.and_pow_two_sub_one_eq_mod, hw, Nat.shiftLeft_eq]
    omega
  have hbound : reloc_word2 r < 2 ^ 32 := by
    rw [hw, Nat.shiftLeft_eq]
    omega
  refine ⟨?_, ?_, ?_, ?_, ?_, ?_, ?_⟩
  · simp [macho_write_relocs, fwriteint32_t, nasm_write, List.append_assoc]
  · have hw2 := reloc_word2_eq r h0 h1 hp hl he ht
    unfold reloc_word2 at hw2 ⊢
    have hs : (r.snum % 2 ^ 24).toNat = r.snum.toNat := by omega
    rw [hs, Nat.mod_eq_of_lt hp, Nat.mod_eq_of_lt hl, Nat.mod_eq_of_lt he,
      Nat.mod_eq_of_lt ht] at hw2 ⊢
    rw [hsn]
    have hb : r.snum.toNat ||| r.pcrel <<< 24 ||| r.length <<< 25 ||| r.ext <<< 27 |||
        r.type <<< 28 < 2 ^ 32 := by
      rw [hw2]
      have := word2_fields r.pcrel r.length r.ext r.type hp hl he ht
      rw [Nat.shiftLeft_eq]
      omega
    exact (Nat.mod_eq_of_lt hb).symm
  · rw [hmod]; omega
  · rw [hdiv]; exact k2
  · have : reloc_word2 r >>> 25 = K >>> 1 := by
      rw [← hdiv, ← Nat.shiftRight_add]
    rw [this]; exact k3
  · have : reloc_word2 r >>> 27 = K >>> 3 := by
      rw [← hdiv, ← Nat.shiftRight_add]
    rw [this]; exact k4
  · have : reloc_word2 r >>> 28 = K >>> 4 := by
      rw [← hdiv, ← Nat.shiftRight_add]
    rw [this]; exact k5

/-- C13 (witness): the relocation of scenario S3 (external branch at offset 1, symbol
number 0) packs to the word `0x2d000000` and unpacks to its fields. -/
theorem reloc_word2_lossless_witness :
    reloc_word2 { addr := 1, snum := 0, pcrel := 1, length := 2, ext := 1, type := 2 } =
      0x2d000000 ∧
    (macho_write_relocs program_start
      [{ addr := 1, snum := 0, pcrel := 1, length := 2, ext := 1, type := 2 }]).ofile =
      [1, 0, 0, 0, 0, 0, 0, 0x2d] :=
  ⟨by decide,
   by
    have h := (reloc_word2_lossless program_start
      { addr := 1, snum := 0, pcrel := 1, length := 2, ext := 1, type := 2 }
      (by decide) (by decide) (by decide) (by decide) (by decide) (by decide)).1
    rw [h]
    decide⟩

/-! ### String table -/

theorem bytes_at_mid (pre bs post : List Nat) : bytes_at (pre ++ bs ++ post) pre.length bs := by
  unfold bytes_at
  rw [List.append_assoc, List.drop_left, List.take_left]

theorem layout_step1_strs (sym : symbol) (st : State) :
    (layout_step1 sym st).1.name = sym.name ∧
    (sym_local (layout_step1 sym st).1 = true →
      (layout_step1 sym st).2.strs = st.strs ∧ (layout_step1 sym st).2.strslen = st.strslen) ∧
    (sym_local (layout_step1 sym st).1 = false →
      (layout_step1 sym st).1.strx = st.strslen ∧
      (layout_step1 sym st).2.strs = st.strs ++ name_entry (layout_step1 sym st).1 ∧
      (layout_step1 sym st).2.strslen =
        st.strslen + (name_entry (layout_step1 sym st).1).length) := by
  unfold layout_step1 sym_local name_entry
  by_cases h0 : sym.type = N_UNDF <;>
    by_cases h1 : (if sym.type = N_UNDF then { sym with type := sym.type ||| N_EXT }
      else sym).type &&& N_EXT = 0 <;>
    by_cases h2 : (if sym.type = N_UNDF then { sym with type := sym.type ||| N_EXT }
      else sym).type &&& N_TYPE = N_UNDF <;>
    simp [h0, h1, h2, strs_append, strlen] <;> simp_all

theorem layout_scan1_strs (l : List symbol) (st : State) (h : st.strslen = st.strs.length) :
    (layout_scan1 l st).2.strslen = (layout_scan1 l st).2.strs.length ∧
    (layout_scan1 l st).2.strs =
      st.strs ++ names_of (fun s => !sym_local s) (layout_scan1 l st).1 ∧
    (∀ s ∈ (layout_scan1 l st).1, sym_local s = false →
      ∀ post, bytes_at ((layout_scan1 l st).2.strs ++ post) s.strx (name_entry s)) := by
  induction l generalizing st with
  | nil => simp [layout_scan1, names_of, h]
  | cons sym rest ih =>
    have hstep : layout_scan1 (sym :: rest) st =
        ((layout_step1 sym st).1 :: (layout_scan1 rest (layout_step1 sym st).2).1,
          (layout_scan1 rest (layout_step1 sym st).2).2) := rfl
    obtain ⟨s1, s2, s3⟩ := layout_step1_strs sym st
    rw [hstep]
    generalize layout_step1 sym st = r at *
    by_cases hl : sym_local r.1 = true
    · obtain ⟨e1, e2⟩ := s2 hl
      obtain ⟨i1, i2, i3⟩ := ih r.2 (by rw [e1, e2]; exact h)
      refine ⟨i1, ?_, ?_⟩
      · simp only [names_of, hl, Bool.not_true, Bool.false_eq_true, if_false]
        rw [i2, e1]
      · intro s hs hsl post
        rcases List.mem_cons.1 hs with rfl | hs
        · rw [hl] at hsl; cases hsl
        · exact i3 s hs hsl post
    · have hl2 : sym_local r.1 = false := by simpa using hl
      obtain ⟨e0, e1, e2⟩ := s3 hl2
      obtain ⟨i1, i2, i3⟩ := ih r.2 (by rw [e1, e2, List.length_append, h])
      refine ⟨i1, ?_, ?_⟩
      · simp only [names_of, hl2, Bool.not_false, if_true]
        rw [i2, e1, List.append_assoc]
      · intro s hs hsl post
        rcases List.mem_cons.1 hs with rfl | hs
        · dsimp only
          rw [i2, e1, e0, h, List.append_assoc]
          exact bytes_at_mid _ _ _
        · exact i3 s hs hsl post

theorem layout_step2_strs (sym : symbol) (idx : Nat) (st : State) :
    sym_tn (layout_step2 sym idx st).1 = sym_tn sym ∧
    (sym_local sym = false →
      (layout_step2 sym idx st).1 = sym ∧
      (layout_step2 sym idx st).2.strs = st.strs ∧
      (layout_step2 sym idx st).2.strslen = st.strslen) ∧
    (sym_local sym = true →
      (layout_step2 sym idx st).1.strx = st.strslen ∧
      (layout_step2 sym idx st).2.strs = st.strs ++ name_entry sym ∧
      (layout_step2 sym idx st).2.strslen = st.strslen + (name_entry sym).length) := by
  unfold layout_step2 sym_local name_entry sym_tn
  by_cases h1 : sym.type &&& N_EXT = 0 <;> by_cases h2 : sym.type &&& N_TYPE = N_UNDF <;>
    simp [h1, h2, strs_append, strlen]

theorem sym_local_tn (a b : symbol) (h : sym_tn a = sym_tn b) : sym_local a = sym_local b := by
  unfold sym_tn at h
  unfold sym_local
  rw [(Prod.mk.inj h).1]

theorem name_entry_tn (a b : symbol) (h : sym_tn a = sym_tn b) : name_entry a = name_entry b := by
  unfold sym_tn at h
  unfold name_entry
  rw [(Prod.mk.inj h).2]

theorem layout_scan2_strs (l : List symbol) (idx : Nat) (st : State)
    (h : st.strslen = st.strs.length) :
    (layout_scan2 l idx st).2.strslen = (layout_scan2 l idx st).2.strs.length ∧
    (layout_scan2 l idx st).2.strs = st.strs ++ names_of sym_local l ∧
    (layout_scan2 l idx st).1.map sym_tn = l.map sym_tn ∧
    (∀ s ∈ (layout_scan2 l idx st).1, sym_local s = false → s ∈ l) ∧
    (∀ s ∈ (layout_scan2 l idx st).1, sym_local s = true →
      ∀ post, bytes_at ((layout_scan2 l idx st).2.strs ++ post) s.strx (name_entry s)) := by
  induction l generalizing idx st with
  | nil => simp [layout_scan2, names_of, h]
  | cons sym rest ih =>
    have hstep : layout_scan2 (sym :: rest) idx st =
        ((layout_step2 sym idx st).1 ::
          (layout_scan2 rest (idx + 1) (layout_step2 sym idx st).2).1,
          (layout_scan2 rest (idx + 1) (layout_step2 sym idx st).2).2) := rfl
    obtain ⟨s1, s2, s3⟩ := layout_step2_strs sym idx st
    rw [hstep]
    generalize layout_step2 sym idx st = r at *
    have hloc : sym_local r.1 = sym_local sym := sym_local_tn _ _ s1
    have hent : name_entry r.1 = name_entry sym := name_entry_tn _ _ s1
    by_cases hl : sym_local sym = true
    · obtain ⟨e0, e1, e2⟩ := s3 hl
      obtain ⟨i1, i2, i3, i4, i5⟩ := ih (idx + 1) r.2 (by rw [e1, e2, List.length_append, h])
      refine ⟨i1, ?_, ?_, ?_, ?_⟩
      · simp only [names_of, hl, if_true]
        rw [i2, e1, List.append_assoc]
      · simp only [List.map_cons, s1, i3]
      · intro s hs hsl
        rcases List.mem_cons.1 hs with rfl | hs
        · rw [hloc, hl] at hsl; cases hsl
        · exact List.mem_cons_of_mem _ (i4 s hs hsl)
      · intro s hs hsl post
        rcases List.mem_cons.1 hs with rfl | hs
        · dsimp only
          rw [i2, e1, e0, h, List.append_assoc, hent]
          exact bytes_at_mid _ _ _
        · exact i5 s hs hsl post
    · have hl2 : sym_local sym = false := by simpa using hl
      obtain ⟨e0, e1, e2⟩ := s2 hl2
      obtain ⟨i1, i2, i3, i4, i5⟩ := ih (idx + 1) r.2 (by rw [e1, e2]; exact h)
      refine ⟨i1, ?_, ?_, ?_, ?_⟩
      · simp only [names_of, hl2, Bool.false_eq_true, if_false]
        rw [i2, e1]
      · simp only [List.map_cons, s1, i3]
      · intro s hs hsl
        rcases List.mem_cons.1 hs with rfl | hs
        · rw [e0]; exact List.mem_cons_self _ _
        · exact List.mem_cons_of_mem _ (i4 s hs hsl)
      · intro s hs hsl post
        rcases List.mem_cons.1 hs with rfl | hs
        · rw [hloc, hl2] at hsl; cases hsl
        · exact i5 s hs hsl post

theorem layout_number_strs (arr : List Nat) (st : State) :
    (layout_number arr st).strs = st.strs ∧
    (layout_number arr st).strslen = st.strslen ∧
    (layout_number arr st).syms.map sym_str = st.syms.map sym_str := by
  induction arr generalizing st with
  | nil => exact ⟨rfl, rfl, rfl⟩
  | cons q rest ih =>
    obtain ⟨h1, h2, h3⟩ := ih
      { st with syms := st.syms.modify (fun sym => { sym with snum := (st.nsyms : Int) }) q,
                nsyms := st.nsyms + 1 }
    refine ⟨h1, h2, ?_⟩
    show (layout_number rest _).syms.map sym_str = _
    rw [h3]
    apply List.ext_getElem?
    intro k
    simp only [List.getElem?_map, List.getElem?_modify]
    by_cases hk : q = k
    · subst hk
      cases st.syms[q]? <;> simp [sym_str]
    · cases st.syms[k]? <;> simp [hk, sym_str]

theorem names_of_congr (pred : symbol → Bool)
    (hpred : ∀ a b : symbol, sym_tn a = sym_tn b → pred a = pred b) (l l2 : List symbol)
    (h : l.map sym_tn = l2.map sym_tn) : names_of pred l = names_of pred l2 := by
  induction l generalizing l2 with
  | nil =>
    cases l2 with
    | nil => rfl
    | cons b r => simp at h
  | cons a r ih =>
    cases l2 with
    | nil => simp at h
    | cons b r2 =>
      simp only [List.map_cons, List.cons.injEq] at h
      simp only [names_of, hpred a b h.1, name_entry_tn a b h.1, ih r2 h.2]

theorem names_of_length (l : List symbol) :
    (names_of (fun s => !sym_local s) l).length + (names_of sym_local l).length =
      (l.map (fun s => strlen s.name + 1)).sum := by
  induction l with
  | nil => rfl
  | cons a r ih =>
    by_cases h : sym_local a = true
    · simp only [names_of, h, Bool.not_true, Bool.false_eq_true, if_false, if_true,
        List.length_append, List.map_cons, List.sum_cons, name_entry,
        List.length_singleton]
      have hs : strlen a.name = (cstr a.name).length := rfl
      omega
    · have h2 : sym_local a = false := by simpa using h
      simp only [names_of, h2, Bool.not_false, Bool.false_eq_true, if_false, if_true,
        List.length_append, List.map_cons, List.sum_cons, name_entry,
        List.length_singleton]
      have hs : strlen a.name = (cstr a.name).length := rfl
      omega

theorem layout_classify_strs (st : State) (hs : st.strs = [0]) :
    (layout_classify st).strslen = (layout_classify st).strs.length ∧
    (layout_classify st).strs =
      [0] ++ names_of (fun s => !sym_local s) (layout_classify st).syms ∧
    (∀ s ∈ (layout_classify st).syms, sym_local s = false →
      ∀ post, bytes_at ((layout_classify st).strs ++ post) s.strx (name_entry s)) ∧
    (layout_classify st).syms.map (fun s => s.name) = st.syms.map (fun s => s.name) := by
  obtain ⟨a1, a2, a3⟩ := layout_scan1_strs st.syms { st with nsyms := 0, strslen := 1 }
    (by simp [hs])
  have a4 := (layout_scan1_spec st.syms { st with nsyms := 0, strslen := 1 }).2.1
  have a5 := congrArg (List.map (fun x : Nat × List Nat × Int × Nat × Nat => x.2.1)) a4
  simp only [List.map_map] at a5
  unfold layout_classify
  generalize layout_scan1 st.syms { st with nsyms := 0, strslen := 1 } = r at *
  dsimp only at a2 ⊢
  rw [hs] at a2
  exact ⟨a1, a2, a3, a5⟩

theorem layout_collect_strs (st : State) (h : st.strslen = st.strs.length) :
    (layout_collect st).strslen = (layout_collect st).strs.length ∧
    (layout_collect st).strs = st.strs ++ names_of sym_local st.syms ∧
    (layout_collect st).syms.map sym_tn = st.syms.map sym_tn ∧
    (∀ s ∈ (layout_collect st).syms, sym_local s = false → s ∈ st.syms) ∧
    (∀ s ∈ (layout_collect st).syms, sym_local s = true →
      ∀ post, bytes_at ((layout_collect st).strs ++ post) s.strx (name_entry s)) := by
  obtain ⟨a1, a2, a3, a4, a5⟩ :=
    layout_scan2_strs st.syms 0 { st with extdefsyms := [], undefsyms := [] } h
  unfold layout_collect
  generalize layout_scan2 st.syms 0 { st with extdefsyms := [], undefsyms := [] } = r at *
  exact ⟨a1, a2, a3, a4, a5⟩

theorem layout_assign_strs (st : State) :
    (layout_assign st).strs = st.strs ∧ (layout_assign st).strslen = st.strslen ∧
    (layout_assign st).syms.map sym_str = st.syms.map sym_str := by
  unfold layout_assign
  obtain ⟨a1, a2, a3⟩ := layout_number_strs (st.extdefsyms.take st.nextdefsym) st
  generalize layout_number (st.extdefsyms.take st.nextdefsym) st = N at *
  obtain ⟨b1, b2, b3⟩ := layout_number_strs (N.undefsyms.take N.nundefsym) N
  exact ⟨b1.trans a1, b2.trans a2, b3.trans a3⟩

theorem sym_str_tn (l l2 : List symbol) (h : l.map sym_str = l2.map sym_str) :
    l.map sym_tn = l2.map sym_tn := by
  have := congrArg (List.map (fun x : Nat × List Nat × Nat => (x.1, x.2.1))) h
  simpa only [List.map_map] using this

theorem layout_strs_spec (st : State) (hs : st.strs = [0]) :
    (macho_layout_symbols st).strslen = (macho_layout_symbols st).strs.length ∧
    (macho_layout_symbols st).strs =
      [0] ++ (names_of (fun s => !sym_local s) (macho_layout_symbols st).syms ++
        names_of sym_local (macho_layout_symbols st).syms) ∧
    (∀ s ∈ (macho_layout_symbols st).syms,
      bytes_at (macho_layout_symbols st).strs s.strx (name_entry s)) ∧
    (macho_layout_symbols st).syms.map (fun s => s.name) = st.syms.map (fun s => s.name) := by
  obtain ⟨c1, c2, c3, c4⟩ := layout_classify_strs st hs
  obtain ⟨k1, k2, k3, k4, k5⟩ := layout_collect_strs (layout_classify st) c1
  obtain ⟨f1, f2, f3⟩ := layout_assign_strs (layout_sort (layout_collect (layout_classify st)))
  have hF : macho_layout_symbols st =
      layout_assign (layout_sort (layout_collect (layout_classify st))) := rfl
  have hSs : (layout_sort (layout_collect (layout_classify st))).strs =
      (layout_collect (layout_classify st)).strs := rfl
  have hSl : (layout_sort (layout_collect (layout_classify st))).strslen =
      (layout_collect (layout_classify st)).strslen := rfl
  have hSy : (layout_sort (layout_collect (layout_classify st))).syms =
      (layout_collect (layout_classify st)).syms := rfl
  rw [hSs] at f1
  rw [hSl] at f2
  rw [hSy] at f3
  rw [← hF] at f1 f2 f3
  generalize macho_layout_symbols st = F at *
  generalize layout_collect (layout_classify st) = K at *
  generalize layout_classify st = C at *
  have htn : F.syms.map sym_tn = C.syms.map sym_tn := (sym_str_tn _ _ f3).trans k3
  have hext : ∀ a b : symbol, sym_tn a = sym_tn b →
      (fun s => !sym_local s) a = (fun s => !sym_local s) b := by
    intro a b hab
    simp only [sym_local_tn a b hab]
  refine ⟨by rw [f2, f1, k1], ?_, ?_, ?_⟩
  · rw [f1, k2, c2, names_of_congr _ hext _ _ htn, names_of_congr _ sym_local_tn _ _ htn,
      List.append_assoc]
  · intro s hsF
    have hmem : sym_str s ∈ K.syms.map sym_str := by
      rw [← f3]; exact List.mem_map_of_mem _ hsF
    obtain ⟨k, hk, hks⟩ := List.mem_map.1 hmem
    have hty : k.type = s.type := congrArg (fun x : Nat × List Nat × Nat => x.1) hks
    have hnm : k.name = s.name := congrArg (fun x : Nat × List Nat × Nat => x.2.1) hks
    have hsx : k.strx = s.strx := congrArg (fun x : Nat × List Nat × Nat => x.2.2) hks
    have hent : name_entry s = name_entry k := by unfold name_entry; rw [hnm]
    rw [f1, hent, ← hsx]
    by_cases hl : sym_local k = true
    · have := k5 k hk hl []
      rwa [List.append_nil] at this
    · have hl2 : sym_local k = false := by simpa using hl
      have := c3 k (k4 k hk hl2) hl2 (names_of sym_local C.syms)
      rwa [← k2] at this
  · have h1 := congrArg (List.map (fun x : Nat × List Nat => x.2)) htn
    simp only [List.map_map] at h1
    exact h1.trans c4

theorem cstr_of_nul_free (l : List Nat) (h : (0 : Nat) ∉ l) : cstr l = l := by
  unfold cstr
  rw [List.takeWhile_eq_self_iff]
  intro a ha
  have : a ≠ 0 := fun h0 => h (h0 ▸ ha)
  simpa using this

/-- C11: after layout of a symbol list with NUL-free names, starting from the string
table `macho_init` leaves (the single byte 0): byte 0 of the table is 0; every symbol
has the bytes of its name followed by a 0 at offset `strx`; the table is that byte 0
followed by the name of each external symbol, in list order, and then the name of each
local symbol, in list order, each with its NUL, so every name is appended exactly once;
and the reported size `strslen` is the length of the table, which is 1 plus the sum over
all symbols of the name length plus 1. -/
theorem layout_string_table (st : State) (hs : st.strs = [0])
    (hn : ∀ s ∈ st.syms, (0 : Nat) ∉ s.name) :
    (macho_layout_symbols st).strs[0]? = some 0 ∧
    (∀ s ∈ (macho_layout_symbols st).syms,
      bytes_at (macho_layout_symbols st).strs s.strx (s.name ++ [0])) ∧
    (macho_layout_symbols st).strs =
      [0] ++ (names_of (fun s => !sym_local s) (macho_layout_symbols st).syms ++
        names_of sym_local (macho_layout_symbols st).syms) ∧
    (macho_layout_symbols st).strslen = (macho_layout_symbols st).strs.length ∧
    (macho_layout_symbols st).strs.length =
      1 + (st.syms.map (fun s => s.name.length + 1)).sum := by
  obtain ⟨h1, h2, h3, h4⟩ := layout_strs_spec st hs
  have hlen := names_of_length (macho_layout_symbols st).syms
  generalize macho_layout_symbols st = F at *
  have hfree : ∀ s ∈ F.syms, (0 : Nat) ∉ s.name := by
    intro s hsF
    have hmem : s.name ∈ st.syms.map (fun s => s.name) := by
      rw [← h4]; exact List.mem_map_of_mem (fun s => s.name) hsF
    obtain ⟨t, ht, htn⟩ := List.mem_map.1 hmem
    rw [← htn]
    exact hn t ht
  refine ⟨by rw [h2]; simp, ?_, h2, h1, ?_⟩
  · intro s hsF
    have := h3 s hsF
    unfold name_entry at this
    rwa [cstr_of_nul_free _ (hfree s hsF)] at this
  · have e1 : F.syms.map (fun s => strlen s.name + 1) =
        (F.syms.map (fun s => s.name)).map (fun n => strlen n + 1) := by
      rw [List.map_map]; rfl
    have e2 : (st.syms.map (fun s => s.name)).map (fun n => strlen n + 1) =
        st.syms.map (fun s => s.name.length + 1) := by
      rw [List.map_map]
      apply List.map_congr_left
      intro s hs2
      show strlen s.name + 1 = s.name.length + 1
      unfold strlen
      rw [cstr_of_nul_free _ (hn s hs2)]
    rw [e1, h4, e2] at hlen
    rw [h2, List.length_append, List.length_append, hlen]
    rfl

/-- C11 (witness): scenario S6 with the local label `L` added: the table after layout
has 27 bytes, 1 plus the sum of the name lengths plus 1. -/
theorem layout_string_table_witness :
    scenario_S6_local.strs = [0] ∧
    (macho_layout_symbols scenario_S6_local).strs.length =
      1 + (scenario_S6_local.syms.map (fun s => s.name.length + 1)).sum ∧
    (macho_layout_symbols scenario_S6_local).strslen = 27 :=
  ⟨by decide, (layout_string_table scenario_S6_local (by decide) (by decide)).2.2.2.2,
    by decide⟩

/-- C12 (counterexample): in scenario S6 the string table after layout is not
`00 alpha 00 beta 00 omicron 00 zeta 00`: the names are not in sorted order. -/
theorem scenario_S6_strs_not_sorted :
    (macho_layout_symbols scenario_S6).strs ≠
      [0] ++ name_alpha ++ [0] ++ name_beta ++ [0] ++ name_omicron ++ [0] ++ name_zeta ++
        [0] := by
  decide

/-- C12 (amended): in scenario S6 the string table after layout is
`00 beta 00 alpha 00 zeta 00 omicron 00`, the external names in the order of definition,
while the symbol table order is alpha, beta, omicron, zeta, whose entries point at offsets
6, 1, 17 and 12 of the table. -/
theorem scenario_S6_strs :
    (macho_layout_symbols scenario_S6).strs =
      [0] ++ name_beta ++ [0] ++ name_alpha ++ [0] ++ name_zeta ++ [0] ++ name_omicron ++
        [0] ∧
    (macho_layout_symbols scenario_S6).strslen = 25 ∧
    (layout_order (macho_layout_symbols scenario_S6)).map (fun p =>
      ((macho_layout_symbols scenario_S6).syms[p]?).map (fun s => (s.name, s.strx))) =
      [some (name_alpha, 6), some (name_beta, 1), some (name_omicron, 17),
        some (name_zeta, 12)] := by
  decide

/-! ### Sizing pass -/

theorem ALIGN_least (v a : Nat) (ha : 0 < a) : least_multiple a v (ALIGN v a) := by
  unfold least_multiple ALIGN
  have h1 := Nat.div_add_mod (v + (a - 1)) a
  have h2 := Nat.mod_lt (v + (a - 1)) ha
  refine ⟨Dvd.intro_left _ rfl, ?_, ?_⟩
  · rw [Nat.mul_comm]
    omega
  · rintro k ⟨c, rfl⟩ hk
    have h3 : (v + (a - 1)) / a ≤ (a * c + (a - 1)) / a :=
      Nat.div_le_div_right (by omega)
    have h4 : (a * c + (a - 1)) / a = c := by
      rw [Nat.mul_add_div ha, Nat.div_eq_of_lt (by omega)]
      rfl
    rw [h4] at h3
    rw [Nat.mul_comm a c]
    exact Nat.mul_le_mul_right a h3

theorem size_section_spec (s : Section) (v f : Nat) :
    (size_section s v f).1.size = s.size ∧
    (size_section s v f).1.addr = ALIGN v (2 ^ (max s.align 0).toNat) ∧
    (size_section s v f).2.1 = (size_section s v f).1.addr + (size_section s v f).1.size := by
  unfold size_section
  have hal : (if s.align = -1 then DEFAULT_SECTION_ALIGNMENT else s.align).toNat =
      (max s.align 0).toNat := by
    unfold DEFAULT_SECTION_ALIGNMENT
    split <;> omega
  by_cases h1 : s.align = -1 <;>
    by_cases h2 : s.flags &&& SECTION_TYPE ≠ S_ZEROFILL <;>
    simp only [h1, h2, if_true, if_false, ne_eq, not_true_eq_false, not_false_eq_true] at hal ⊢ <;>
    simp [hal]

theorem size_sections_spec (l : List Section) (v f : Nat) :
    (size_sections l v f).1.length = l.length ∧
    (∀ (i : Nat) (s s1 : Section), l[i]? = some s → (size_sections l v f).1[i]? = some s1 →
      s1.size = s.size ∧
      s1.addr = ALIGN (prev_end v (size_sections l v f).1 i) (2 ^ (max s.align 0).toNat)) ∧
    (size_sections l v f).2.1 = prev_end v (size_sections l v f).1 l.length := by
  induction l generalizing v f with
  | nil =>
    refine ⟨rfl, ?_, rfl⟩
    intro i s s1 h
    simp at h
  | cons a rest ih =>
    have hstep : size_sections (a :: rest) v f =
        ((size_section a v f).1 ::
          (size_sections rest (size_section a v f).2.1 (size_section a v f).2.2).1,
          (size_sections rest (size_section a v f).2.1 (size_section a v f).2.2).2) := rfl
    obtain ⟨p1, p2, p3⟩ := size_section_spec a v f
    rw [hstep]
    generalize size_section a v f = r at *
    obtain ⟨i1, i2, i3⟩ := ih r.2.1 r.2.2
    generalize size_sections rest r.2.1 r.2.2 = t at *
    refine ⟨by simp [i1], ?_, ?_⟩
    · intro i s s1 hs hs1
      cases i with
      | zero =>
        simp only [List.getElem?_cons_zero, Option.some.injEq] at hs hs1
        subst hs hs1
        exact ⟨p1, p2⟩
      | succ j =>
        simp only [List.getElem?_cons_succ] at hs hs1
        obtain ⟨q1, q2⟩ := i2 j s s1 hs hs1
        refine ⟨q1, ?_⟩
        rw [q2]
        congr 1
        cases j with
        | zero => simp [prev_end, p3]
        | succ k =>
          simp only [prev_end, List.getElem?_cons_succ]
          have hk : k < t.1.length := by
            have := (List.getElem?_eq_some_iff.1 hs1).1
            omega
          rw [List.getElem?_eq_getElem hk]
          rfl
    · dsimp only
      rw [i3]
      cases rest with
      | nil => simp [prev_end, p3]
      | cons b r2 =>
        simp only [prev_end, List.length_cons, List.getElem?_cons_succ]
        have hk : r2.length < t.1.length := by
          rw [i1]; simp
        rw [List.getElem?_eq_getElem hk]
        rfl

theorem chain_ascending (l : List Section) (base : Nat)
    (h : ∀ (i : Nat) (s : Section), l[i]? = some s → prev_end base l i ≤ s.addr) :
    ∀ (i j : Nat) (si sj : Section), i < j → l[i]? = some si → l[j]? = some sj →
      si.addr + si.size ≤ sj.addr := by
  intro i j
  induction j with
  | zero => intro si sj hij; omega
  | succ k ih =>
    intro si sj hij hi hj
    have hk : k < l.length := by
      have := (List.getElem?_eq_some_iff.1 hj).1
      omega
    have hprev := h (k + 1) sj hj
    simp only [prev_end, List.getElem?_eq_getElem hk, Option.map_some', Option.getD_some]
      at hprev
    rcases Nat.lt_or_ge i k with hlt | hge
    · have := ih si (l[k]) hlt hi (List.getElem?_eq_getElem hk)
      omega
    · have hik : i = k := by omega
      subst hik
      rw [List.getElem?_eq_getElem hk] at hi
      cases hi
      exact hprev

theorem macho_calculate_sizes_spec (st st1 : State)
    (h : macho_calculate_sizes st = some st1) :
    st1.sects = (size_sections st.sects st.seg_vmsize st.seg_filesize).1 ∧
    st1.seg_vmsize = (size_sections st.sects st.seg_vmsize st.seg_filesize).2.1 ∧
    st1.seg_filesize = (size_sections st.sects st.seg_vmsize st.seg_filesize).2.2 ∧
    st1.head_ncmds = st.head_ncmds + (if st.seg_nsects > 0 then 1 else 0) +
      (if st.nsyms > 0 then 1 else 0) ∧
    st1.head_sizeofcmds = st.head_sizeofcmds +
      (if st.seg_nsects > 0 then st.fmt.segcmd_size + st.seg_nsects * st.fmt.sectcmd_size
        else 0) + (if st.nsyms > 0 then MACHO_SYMCMD_SIZE else 0) ∧
    st.seg_nsects ≤ MAX_SECT ∧
    st1.sectstab =
      sectptr.absolute :: (List.range st1.sects.length).map (fun i => sectptr.real i) ∧
    st1.fmt = st.fmt ∧ st1.seg_nsects = st.seg_nsects ∧ st1.nsyms = st.nsyms ∧
    st1.syms = st.syms ∧ st1.absolute_sect = st.absolute_sect ∧ st1.ofile = st.ofile ∧
    st1.strs = st.strs ∧ st1.strslen = st.strslen := by
  unfold macho_calculate_sizes at h
  by_cases h1 : st.seg_nsects > 0 <;> by_cases h2 : st.nsyms > 0 <;>
    by_cases h3 : st.seg_nsects > MAX_SECT <;>
    simp only [h1, h2, h3, if_true, if_false, Option.some.injEq] at h <;>
    first
    | exact Option.noConfusion h
    | (subst h
       simp only [h1, h2, if_true, if_false, Nat.add_zero, true_and, and_true]
       omega)

/-- C14: after the sizing pass, entered with `seg_vmsize` zero and every alignment
exponent below 31, each section keeps its size and its `addr` is the least multiple of
`2^max(align,0)` that is at least the end `addr + size` of the section before it (at
least 0 for the first); hence the ranges `[addr, addr + size)` are ascending and pairwise
disjoint in creation order, and `seg_vmsize` is the end of the last section. -/
theorem sizes_addr_chain (st st1 : State) (h : macho_calculate_sizes st = some st1)
    (hv : st.seg_vmsize = 0) (_hal : ∀ s ∈ st.sects, s.align < 31) :
    st1.sects.length = st.sects.length ∧
    (∀ (i : Nat) (s s1 : Section), st.sects[i]? = some s → st1.sects[i]? = some s1 →
      s1.size = s.size ∧
      least_multiple (2 ^ (max s.align 0).toNat) (prev_end 0 st1.sects i) s1.addr) ∧
    (∀ (i j : Nat) (si sj : Section), i < j → st1.sects[i]? = some si →
      st1.sects[j]? = some sj → si.addr + si.size ≤ sj.addr) ∧
    st1.seg_vmsize = prev_end 0 st1.sects st1.sects.length := by
  obtain ⟨a1, a2, a3⟩ := size_sections_spec st.sects st.seg_vmsize st.seg_filesize
  have hs : st1.sects = (size_sections st.sects st.seg_vmsize st.seg_filesize).1 ∧
      st1.seg_vmsize = (size_sections st.sects st.seg_vmsize st.seg_filesize).2.1 :=
    ⟨(macho_calculate_sizes_spec st st1 h).1, (macho_calculate_sizes_spec st st1 h).2.1⟩
  rw [← hs.1] at a1 a2 a3
  rw [← hs.2] at a3
  rw [hv] at a2 a3
  have hchain : ∀ (i : Nat) (s s1 : Section), st.sects[i]? = some s →
      st1.sects[i]? = some s1 →
      s1.size = s.size ∧
      least_multiple (2 ^ (max s.align 0).toNat) (prev_end 0 st1.sects i) s1.addr := by
    intro i s s1 hi hi1
    obtain ⟨q1, q2⟩ := a2 i s s1 hi hi1
    exact ⟨q1, q2 ▸ ALIGN_least _ _ (Nat.pos_pow_of_pos _ (by decide))⟩
  refine ⟨a1, hchain, ?_, ?_⟩
  · apply chain_ascending st1.sects 0
    intro i s1 hi1
    have hi : i < st.sects.length := by
      rw [← a1]; exact (List.getElem?_eq_some_iff.1 hi1).1
    exact (hchain i _ s1 (List.getElem?_eq_getElem hi) hi1).2.2.1
  · rw [a3, a1]

/-- C14 (witness): scenario S2, sized after layout and fix-up: `__text` is at 0 with 5
bytes, `__data` at 5 with 4 bytes, and `seg_vmsize` is 9. -/
theorem sizes_addr_chain_witness :
    scenario_S2_sized.sects.map (fun s => (s.addr, s.size)) = [(0, 5), (5, 4)] ∧
    scenario_S2_sized.seg_vmsize = 9 ∧
    (∀ (i j : Nat) (si sj : Section), i < j → scenario_S2_sized.sects[i]? = some si →
      scenario_S2_sized.sects[j]? = some sj → si.addr + si.size ≤ sj.addr) :=
  ⟨by decide, by decide,
    (sizes_addr_chain
      (fixup_all (macho_layout_symbols (scenario_S2_emitted.getD program_start)))
      scenario_S2_sized (by rfl) (by decide) (by decide)).2.2.1⟩

/-! ### Run invariant -/

theorem emit_frame_refl (st : State) : emit_frame st st :=
  ⟨rfl, rfl, rfl, rfl, rfl, rfl, fun _ s h => ⟨s, h, rfl, rfl, rfl, rfl, id⟩⟩

theorem untouched_fmt (st st1 : State) (h : untouched st1 = untouched st) : st1.fmt = st.fmt :=
  congrArg (fun x => x.1) h

theorem emit_frame_trans (a b c : State) (h1 : emit_frame a b) (h2 : emit_frame b c) :
    emit_frame a c := by
  obtain ⟨a1, a2, a3, a4, a5, a6, a7⟩ := h1
  obtain ⟨b1, b2, b3, b4, b5, b6, b7⟩ := h2
  refine ⟨b1.trans a1, b2.trans a2, b3.trans a3, b4.trans a4, b5.trans a5, b6.trans a6, ?_⟩
  intro i s hs
  obtain ⟨s1, hs1, c1, c2, c3, c4, c5⟩ := a7 i s hs
  obtain ⟨s2, hs2, d1, d2, d3, d4, d5⟩ := b7 i s1 hs1
  refine ⟨s2, hs2, d1.trans c1, d2.trans c2, d3.trans c3, d4.trans c4, ?_⟩
  intro hok
  have := d5
  rw [untouched_fmt _ _ a5, a1, a6] at this
  exact this (c5 hok)

theorem emit_frame_nasm_error (st : State) (d : diag) : emit_frame st (nasm_error st d) :=
  ⟨rfl, rfl, rfl, rfl, rfl, rfl, fun _ s h => ⟨s, h, rfl, rfl, rfl, rfl, id⟩⟩

theorem emit_frame_update (st : State) (i : Nat) (f : Section → Section)
    (hf : ∀ s, st.sects[i]? = some s →
      (f s).fileindex = s.fileindex ∧ (f s).index = s.index ∧ (f s).flags = s.flags ∧
      (f s).gsyms = s.gsyms ∧
      (sect_ok st.fmt st.syms st.sects.length s → sect_ok st.fmt st.syms st.sects.length (f s))) :
    emit_frame st (update_sect st i f) := by
  refine ⟨rfl, rfl, rfl, rfl, rfl, ?_, ?_⟩
  · simp [update_sect]
  · intro k s hs
    by_cases hk : i = k
    · subst hk
      refine ⟨f s, ?_, hf s hs⟩
      simp [update_sect, List.getElem?_modify, hs]
    · refine ⟨s, ?_, rfl, rfl, rfl, rfl, id⟩
      simp [update_sect, List.getElem?_modify, hk, hs]

theorem run_inv_of_frame (st st1 : State) (h : run_inv st) (hf : emit_frame st st1) :
    run_inv st1 := by
  obtain ⟨a1, a2, a3, a4, a5, a6, a7⟩ := hf
  obtain ⟨r1, r2, r3, r4, r5, r6, r7⟩ := h
  have hu := a5
  simp only [untouched, Prod.mk.injEq] at hu
  obtain ⟨u1, u2, u3, u4, u5, u6, u7, u8, u9, u10, u11, u12, u13, u14, u15⟩ := hu
  refine ⟨?_, ?_, ?_, ?_, ?_, ?_, ?_⟩
  · rw [u1, u14]; exact r1
  · unfold syms_numbered at r2 ⊢
    rw [a1, a2]; exact r2
  · rw [a4, a6]; exact r3
  · rw [a3]; exact r4
  · rw [a1, a6]; exact r5
  · intro i s1 hs1
    have hi : i < st.sects.length := by
      rw [← a6]; exact (List.getElem?_eq_some_iff.1 hs1).1
    obtain ⟨s1', hs1', c1, c2, c3, c4, c5⟩ := a7 i _ (List.getElem?_eq_getElem hi)
    rw [hs1] at hs1'
    cases hs1'
    obtain ⟨q1, q2⟩ := r6 i _ (List.getElem?_eq_getElem hi)
    rw [u1, a1, a6]
    exact ⟨c1.trans q1, c5 q2⟩
  · rw [u2, u3, u4, u5, u7, u8, u9, u10, u15]; exact r7

theorem emit_frame_reloc_link (st : State) (sect : Nat) (sc : Section) (r : reloc) (adj : Int)
    (hsect : st.sects[sect]? = some sc) (hnz : sc.flags &&& SECTION_TYPE ≠ S_ZEROFILL)
    (hr : reloc_ok st.fmt st.sects.length r) : emit_frame st (reloc_link st sect r adj).1 := by
  unfold reloc_link
  apply emit_frame_update
  intro s hs
  rw [hsect] at hs
  cases hs
  refine ⟨rfl, rfl, rfl, rfl, ?_⟩
  rintro ⟨k1, k2, k3, k4, k5⟩
  refine ⟨by simp [k1], fun h => absurd h hnz, k3, ?_, k5⟩
  intro r2 hr2
  rcases List.mem_cons.1 hr2 with rfl | h2
  · exact hr
  · exact k4 r2 h2

theorem emit_frame_extreloc (st : State) (sect : Nat) :
    emit_frame st (update_sect st sect (fun x => { x with extreloc := 1 })) := by
  apply emit_frame_update
  intro s _
  exact ⟨rfl, rfl, rfl, rfl, fun h => h⟩

theorem emit_frame_sect_write (st : State) (si : Nat) (data : List Nat) (len : Nat)
    (hlen : data.length = len) : emit_frame st (sect_write st si data len) := by
  unfold sect_write
  apply emit_frame_update
  intro s _
  refine ⟨rfl, rfl, rfl, rfl, ?_⟩
  rintro ⟨k1, k2, k3, k4, k5⟩
  refine ⟨k1, k2, ?_, k4, k5⟩
  intro hnz
  simp [k3 hnz, hlen]

theorem emit_frame_bss_size (st : State) (si : Nat) (n : Nat)
    (hz : ∀ s, st.sects[si]? = some s → s.flags &&& SECTION_TYPE = S_ZEROFILL) :
    emit_frame st (update_sect st si (fun sc => { sc with size := sc.size + n })) := by
  apply emit_frame_update
  intro s hs
  refine ⟨rfl, rfl, rfl, rfl, ?_⟩
  rintro ⟨k1, k2, k3, k4, k5⟩
  exact ⟨k1, k2, fun hnz => absurd (hz s hs) hnz, k4, k5⟩

theorem type_ok_abs (fmt : macho_fmt) :
    (fmt = macho32_fmt → fmt.reloc_abs = 0 ∨ fmt.reloc_abs = 5) ∧
    (fmt = macho64_fmt → fmt.reloc_abs ∈ [0, 1, 2, 3, 4, 9]) :=
  ⟨by rintro rfl; decide, by rintro rfl; decide⟩

theorem type_ok_rel (fmt : macho_fmt) :
    (fmt = macho32_fmt → fmt.reloc_rel = 0 ∨ fmt.reloc_rel = 5) ∧
    (fmt = macho64_fmt → fmt.reloc_rel ∈ [0, 1, 2, 3, 4, 9]) :=
  ⟨by rintro rfl; decide, by rintro rfl; decide⟩

theorem type_ok_tlv (fmt : macho_fmt) :
    (fmt = macho32_fmt → fmt.reloc_tlv = 0 ∨ fmt.reloc_tlv = 5) ∧
    (fmt = macho64_fmt → fmt.reloc_tlv ∈ [0, 1, 2, 3, 4, 9]) :=
  ⟨by rintro rfl; decide, by rintro rfl; decide⟩

theorem type_ok_64 (fmt : macho_fmt) (rt : reltype) (t : Nat)
    (hrt : rt = .RL_BRANCH ∨ rt = .RL_GOT ∨ rt = .RL_GOTLOAD)
    (hmax : rt.toNat ≤ fmt.maxreltype.toNat) (ht : t ∈ [0, 1, 2, 3, 4, 9]) :
    (fmt = macho32_fmt → t = 0 ∨ t = 5) ∧ (fmt = macho64_fmt → t ∈ [0, 1, 2, 3, 4, 9]) := by
  refine ⟨?_, fun _ => ht⟩
  rintro rfl
  exfalso
  rcases hrt with rfl | rfl | rfl <;> revert hmax <;> decide

theorem needsym_type_ok (fmt : macho_fmt) (rt : reltype)
    (hk : rt = .RL_GOT ∨ rt = .RL_GOTLOAD ∨ rt = .RL_TLV)
    (hmax : rt.toNat ≤ fmt.maxreltype.toNat) :
    (fmt = macho32_fmt → needsym_type fmt rt = 0 ∨ needsym_type fmt rt = 5) ∧
    (fmt = macho64_fmt → needsym_type fmt rt ∈ [0, 1, 2, 3, 4, 9]) := by
  rcases hk with rfl | rfl | rfl
  · exact type_ok_64 fmt .RL_GOT 4 (Or.inr (Or.inl rfl)) hmax (by decide)
  · exact type_ok_64 fmt .RL_GOTLOAD 3 (Or.inr (Or.inr rfl)) hmax (by decide)
  · exact type_ok_tlv fmt

theorem frame_of_link (st st0 : State) (sect : Nat) (sc : Section) (r : reloc) (a : Int)
    (st1 : State) (adj : Int) (h : reloc_link st0 sect r a = (st1, adj))
    (hf0 : emit_frame st st0) (hsect : st0.sects[sect]? = some sc)
    (hnz : sc.flags &&& SECTION_TYPE ≠ S_ZEROFILL)
    (hr : reloc_ok st0.fmt st0.sects.length r) : emit_frame st st1 := by
  have e : (reloc_link st0 sect r a).1 = st1 := congrArg Prod.fst h
  rw [← e]
  exact emit_frame_trans _ _ _ hf0 (emit_frame_reloc_link st0 sect sc r a hsect hnz hr)

theorem add_reloc_frame (st : State) (sect : Nat) (sc : Section) (section_ offset : Int)
    (rt : reltype) (bytes : Int) (st1 : State) (adj : Int)
    (hinv : run_inv st) (hsect : st.sects[sect]? = some sc)
    (hnz : sc.flags &&& SECTION_TYPE ≠ S_ZEROFILL) (hsub : rt ≠ .RL_SUB)
    (habs : rt = .RL_ABS → section_ ≠ NO_SEG)
    (hres : add_reloc st sect section_ offset rt bytes = some (st1, adj)) :
    emit_frame st st1 := by
  have hmax : rt.toNat ≤ st.fmt.maxreltype.toNat := by
    by_contra hc
    simp [add_reloc, hc] at hres
  obtain ⟨r1, r2, r3, r4, r5, r6, r7⟩ := hinv
  have hkind : rt = .RL_ABS ∨ (rt = .RL_REL ∨ rt = .RL_BRANCH) ∨
      (rt = .RL_GOT ∨ rt = .RL_GOTLOAD ∨ rt = .RL_TLV) := by
    cases rt <;> simp at hsub ⊢
  have hlocal : ∀ (j : Nat) (t : Section), st.sects[j]? = some t →
      t.fileindex ≠ NO_SECT ∧ (1 : Int) ≤ (t.fileindex : Int) ∧
      (t.fileindex : Int) ≤ (st.sects.length : Int) := by
    intro j t ht
    have hj := (List.getElem?_eq_some_iff.1 ht).1
    have hfi := (r6 j t ht).1
    unfold NO_SECT
    omega
  by_cases href : section_ = NO_SEG
  · -- no target section
    rcases hkind with rfl | hk | hk
    · exact absurd href (habs rfl)
    · have e : st1 = nasm_error st .rel_to_absolute := by
        rcases hk with rfl | rfl <;>
          · simp [add_reloc, hmax, hsect, href] at hres
            exact hres.1.symm
      rw [e]
      exact emit_frame_nasm_error st _
    · have hty := needsym_type_ok st.fmt rt hk hmax
      rcases hk with rfl | rfl | rfl <;>
        · simp [add_reloc, hmax, hsect, href] at hres
          refine frame_of_link st _ sect sc _ _ st1 adj hres (emit_frame_nasm_error st _)
            hsect hnz ⟨hty.1, hty.2, Or.inr rfl, ?_, ?_⟩
          · intro h; simp at h
          · intro _; simp [R_ABS]
  · cases hg : get_section_by_index st section_ with
    | none =>
      rcases hkind with rfl | hk | hk
      · simp [add_reloc, hmax, hsect, href, hg, NO_SECT] at hres
        refine frame_of_link st st sect sc _ _ st1 adj hres (emit_frame_refl st) hsect hnz
          ⟨(type_ok_abs st.fmt).1, (type_ok_abs st.fmt).2, Or.inr rfl, ?_, ?_⟩
        · intro h; simp at h
        · intro _; exact r4 section_
      · rw [add_reloc_rel_external st sect sc section_ offset rt bytes hk hmax href hsect hg]
          at hres
        have hsect0 : (update_sect st sect (fun x => { x with extreloc := 1 })).sects[sect]? =
            some { sc with extreloc := 1 } := by
          simp [update_sect, List.getElem?_modify, hsect]
        have hty : (st.fmt = macho32_fmt →
              (if rt = .RL_BRANCH then X86_64_RELOC_BRANCH else st.fmt.reloc_rel) = 0 ∨
              (if rt = .RL_BRANCH then X86_64_RELOC_BRANCH else st.fmt.reloc_rel) = 5) ∧
            (st.fmt = macho64_fmt →
              (if rt = .RL_BRANCH then X86_64_RELOC_BRANCH else st.fmt.reloc_rel) ∈
                [0, 1, 2, 3, 4, 9]) := by
          rcases hk with rfl | rfl
          · simpa using type_ok_rel st.fmt
          · have e : (if reltype.RL_BRANCH = .RL_BRANCH then X86_64_RELOC_BRANCH
                else st.fmt.reloc_rel) = X86_64_RELOC_BRANCH := if_pos rfl
            rw [e]
            exact type_ok_64 st.fmt .RL_BRANCH X86_64_RELOC_BRANCH (Or.inl rfl) hmax
              (by decide)
        refine frame_of_link st _ sect _ _ _ st1 adj (Option.some.inj hres)
          (emit_frame_extreloc st sect) hsect0 hnz ⟨hty.1, hty.2, Or.inr rfl, ?_, ?_⟩
        · intro h; simp at h
        · intro _; exact r4 section_
      · have hty := needsym_type_ok st.fmt rt hk hmax
        rcases hk with rfl | rfl | rfl <;>
          · simp [add_reloc, hmax, hsect, href, hg, NO_SECT] at hres
            refine frame_of_link st st sect sc _ _ st1 adj hres (emit_frame_refl st) hsect hnz
              ⟨hty.1, hty.2, Or.inr rfl, ?_, ?_⟩
            · intro h; simp at h
            · intro _; exact r4 section_
    | some j =>
      obtain ⟨t, ht, htm, _⟩ := find_by_index_some section_ st.sects j hg
      obtain ⟨hfi, hlo, hhi⟩ := hlocal j t ht
      have h0 : ¬ t.fileindex = 0 := hfi
      rcases hkind with rfl | hk | hk
      · simp [add_reloc, hmax, hsect, href, hg, ht, h0, NO_SECT] at hres
        refine frame_of_link st st sect sc _ _ st1 adj hres (emit_frame_refl st) hsect hnz
          ⟨(type_ok_abs st.fmt).1, (type_ok_abs st.fmt).2, Or.inl rfl, ?_, ?_⟩
        · intro _; exact ⟨hlo, hhi⟩
        · intro h; simp at h
      · rw [add_reloc_rel_local st sect sc section_ offset rt bytes j t hk hmax href hsect hg
          ht hfi] at hres
        refine frame_of_link st st sect sc _ _ st1 adj (Option.some.inj hres)
          (emit_frame_refl st) hsect hnz
          ⟨(type_ok_rel st.fmt).1, (type_ok_rel st.fmt).2, Or.inl rfl, ?_, ?_⟩
        · intro _; exact ⟨hlo, hhi⟩
        · intro h; simp at h
      · have hty := needsym_type_ok st.fmt rt hk hmax
        rw [add_reloc_needsym_eq st sect sc section_ offset rt bytes j t hk hmax href hsect hg
          ht hfi] at hres
        unfold macho_find_gsym at hres
        have hsi := rb_search_inv st.syms (u64 offset) t.gsyms
        cases hs : rb_search st.syms t.gsyms (u64 offset) with
        | none =>
          rw [hs] at hres
          simp only [Option.some.injEq, Prod.mk.injEq] at hres
          rw [← hres.1]
          exact emit_frame_nasm_error st _
        | some b =>
          rw [hs] at hres hsi
          obtain ⟨hbm, _⟩ := hsi
          obtain ⟨sy, hsy, hsn⟩ := (r6 j t ht).2.2.2.2.2 b hbm
          dsimp only at hres
          by_cases hex :
              (decide (rt ≠ .RL_TLV) && node_key st.syms b != some (u64 offset)) = true
          · rw [if_pos hex] at hres
            simp only [Option.some.injEq, Prod.mk.injEq] at hres
            rw [← hres.1]
            exact emit_frame_nasm_error st _
          · rw [if_neg hex] at hres
            dsimp only at hres
            rw [hsy] at hres
            refine frame_of_link st st sect sc _ _ st1 adj (Option.some.inj hres)
              (emit_frame_refl st) hsect hnz ⟨hty.1, hty.2, Or.inr rfl, ?_, ?_⟩
            · intro h; simp at h
            · intro _
              show (0 : Int) ≤ sy.initial_snum
              rw [hsn]
              omega

theorem out_data_raw_length (d : out_data) (n : Nat) : (d.raw n).length = n := by
  cases d <;> simp [out_data.raw, saa_fread, le_bytes]

theorem rel4_reltype_kind (st : State) (s : Section) (wrt : Int) :
    (rel4_reltype st s wrt).1 ≠ .RL_SUB ∧ (rel4_reltype st s wrt).1 ≠ .RL_ABS := by
  unfold rel4_reltype
  repeat' split
  all_goals exact ⟨by decide, by decide⟩

theorem frame_write_after (st : State) (o : Option State) (si : Nat) (d : List Nat) (n : Nat)
    (st1 : State) (ho : ∀ x, o = some x → emit_frame st x) (hlen : d.length = n)
    (h : o.map (fun x => sect_write x si d n) = some st1) : emit_frame st st1 := by
  cases o with
  | none => cases h
  | some x =>
    simp only [Option.map_some', Option.some.injEq] at h
    rw [← h]
    exact emit_frame_trans _ _ _ (ho x rfl) (emit_frame_sect_write x si d n hlen)

theorem frame_write_after2 (st : State) (o : Option (State × Int)) (si : Nat) (w : Nat)
    (st1 : State) (ho : ∀ x, o = some x → emit_frame st x.1)
    (h : o.map (fun p => sect_write p.1 si (le_bytes w (u64 p.2)) w) = some st1) :
    emit_frame st st1 := by
  cases o with
  | none => cases h
  | some x =>
    simp only [Option.map_some', Option.some.injEq] at h
    rw [← h]
    exact emit_frame_trans _ _ _ (ho x rfl)
      (emit_frame_sect_write x.1 si _ w (le_bytes_length w _))

theorem frame_add_reloc_adj (st st0 : State) (si : Nat) (s : Section) (section_ offset : Int)
    (rt : reltype) (bytes addr : Int) (x : State × Int)
    (hf0 : emit_frame st st0) (hinv0 : run_inv st0) (hs : st0.sects[si]? = some s)
    (hnz : s.flags &&& SECTION_TYPE ≠ S_ZEROFILL) (hsub : rt ≠ .RL_SUB)
    (habs : rt = .RL_ABS → section_ ≠ NO_SEG)
    (h : (add_reloc st0 si section_ offset rt bytes).map (fun p => (p.1, addr + p.2)) =
      some x) : emit_frame st x.1 := by
  cases hr : add_reloc st0 si section_ offset rt bytes with
  | none => rw [hr] at h; cases h
  | some p =>
    rw [hr] at h
    simp only [Option.map_some', Option.some.injEq] at h
    rw [← h]
    exact emit_frame_trans _ _ _ hf0
      (add_reloc_frame st0 si s section_ offset rt bytes p.1 p.2 hinv0 hs hnz hsub habs hr)

theorem macho_output_frame (st : State) (secto : Int) (data : out_data) (type : out_type)
    (size : Nat) (section_ wrt : Int) (st1 : State) (hinv : run_inv st)
    (h : macho_output st secto data type size section_ wrt = some st1) :
    emit_frame st st1 := by
  unfold macho_output at h
  split at h
  · split at h <;> cases h
    · exact emit_frame_nasm_error st _
    · exact emit_frame_refl st
  · dsimp only at h
    split at h
    · cases h
    · rename_i st0 si heq
      have hf0 : emit_frame st st0 := by
        split at heq
        · cases heq; exact emit_frame_refl st
        · split at heq
          · cases heq; exact emit_frame_nasm_error st _
          · cases heq
      have hinv0 : run_inv st0 := run_inv_of_frame st st0 hinv hf0
      split at h
      · cases h
      · rename_i s hs
        split at h
        · -- initialised data in a zerofill section
          rename_i hbss
          cases h
          refine emit_frame_trans _ _ _ hf0 (emit_frame_trans _ _ _
            (emit_frame_nasm_error st0 _) (emit_frame_bss_size _ si _ ?_))
          intro s2 hs2
          have : s2 = s := by
            have h2 : st0.sects[si]? = some s2 := hs2
            rw [hs] at h2
            exact (Option.some.inj h2).symm
          rw [this]
          simpa using hbss.1
        · rename_i hnb
          split at h
          · -- OUT_RESERVE
            split at h <;> cases h
            · exact emit_frame_trans _ _ _ hf0 (emit_frame_trans _ _ _
                (emit_frame_nasm_error st0 _)
                (emit_frame_sect_write _ si _ _ (List.length_replicate _ _)))
            · rename_i hb
              refine emit_frame_trans _ _ _ hf0 (emit_frame_bss_size _ si _ ?_)
              intro s2 hs2
              rw [hs] at hs2
              cases hs2
              simpa using hb
          · -- OUT_RAWDATA
            split at h
            · cases h
            · cases h
              exact emit_frame_trans _ _ _ hf0
                (emit_frame_sect_write _ si _ _ (out_data_raw_length _ _))
          · -- OUT_ADDRESS
            have hnz : s.flags &&& SECTION_TYPE ≠ S_ZEROFILL := by
              intro hz
              apply hnb
              exact ⟨by simp [hz], by decide⟩
            refine frame_write_after st _ si _ _ st1 ?_ (le_bytes_length _ _) h
            intro x hx
            split at hx
            · rename_i href
              split at hx
              · cases hx
                exact emit_frame_trans _ _ _ hf0 (emit_frame_nasm_error st0 _)
              · split at hx
                · split at hx
                  · cases hx
                    exact emit_frame_trans _ _ _ hf0 (emit_frame_nasm_error st0 _)
                  · cases hr : add_reloc st0 si section_ data.int64 .RL_ABS
                        ((to_int32 size).natAbs : Nat) with
                    | none => rw [hr] at hx; cases hx
                    | some p =>
                      rw [hr] at hx
                      simp only [Option.map_some', Option.some.injEq] at hx
                      rw [← hx]
                      exact emit_frame_trans _ _ _ hf0
                        (add_reloc_frame st0 si s section_ _ .RL_ABS _ p.1 p.2 hinv0 hs hnz
                          (by decide) (fun _ => href) hr)
                · cases hx
                  exact emit_frame_trans _ _ _ hf0 (emit_frame_nasm_error st0 _)
            · cases hx
              exact hf0
          · -- OUT_REL2ADR
            have hnz : s.flags &&& SECTION_TYPE ≠ S_ZEROFILL := by
              intro hz
              apply hnb
              exact ⟨by simp [hz], by decide⟩
            split at h
            · cases h
            · refine frame_write_after2 st _ si 2 st1 ?_ h
              intro x hx
              split at hx
              · cases hx
                exact emit_frame_trans _ _ _ hf0 (emit_frame_nasm_error st0 _)
              · split at hx
                · cases hx
                  exact emit_frame_trans _ _ _ hf0 (emit_frame_nasm_error st0 _)
                · split at hx
                  · cases hx
                    exact emit_frame_trans _ _ _ hf0 (emit_frame_nasm_error st0 _)
                  · exact frame_add_reloc_adj st st0 si s section_ _ .RL_REL 2 _ x hf0 hinv0 hs
                      hnz (by decide) (fun h => by cases h) hx
          · -- OUT_REL4ADR
            have hnz : s.flags &&& SECTION_TYPE ≠ S_ZEROFILL := by
              intro hz
              apply hnb
              exact ⟨by simp [hz], by decide⟩
            split at h
            · cases h
            · refine frame_write_after2 st _ si 4 st1 ?_ h
              intro x hx
              split at hx
              · exact frame_add_reloc_adj st _ si s section_ _ .RL_REL 4 _ x
                  (emit_frame_trans _ _ _ hf0 (emit_frame_nasm_error st0 _))
                  (run_inv_of_frame _ _ hinv0 (emit_frame_nasm_error st0 _)) hs
                  hnz (by decide) (fun h => by cases h) hx
              · obtain ⟨k1, k2⟩ := rel4_reltype_kind st0 s wrt
                split at hx
                · exact frame_add_reloc_adj st _ si s section_ _ _ 4 _ x
                    (emit_frame_trans _ _ _ hf0 (emit_frame_nasm_error st0 _))
                    (run_inv_of_frame _ _ hinv0 (emit_frame_nasm_error st0 _)) hs
                    hnz k1 (fun h => absurd h k2) hx
                · exact frame_add_reloc_adj st _ si s section_ _ _ 4 _ x hf0 hinv0 hs
                    hnz k1 (fun h => absurd h k2) hx
          · cases h
            exact emit_frame_trans _ _ _ hf0 (emit_frame_nasm_error st0 _)

theorem reloc_ok_mono (fmt : macho_fmt) (n m : Nat) (hnm : n ≤ m) (r : reloc)
    (h : reloc_ok fmt n r) : reloc_ok fmt m r := by
  obtain ⟨a1, a2, a3, a4, a5⟩ := h
  refine ⟨a1, a2, a3, ?_, a5⟩
  intro he
  have := a4 he
  omega

theorem sect_ok_mono (fmt : macho_fmt) (syms : List symbol) (sym : List symbol) (n m : Nat)
    (hnm : n ≤ m) (s : Section) (h : sect_ok fmt syms n s) :
    sect_ok fmt (syms ++ sym) m s := by
  obtain ⟨a1, a2, a3, a4, a5⟩ := h
  refine ⟨a1, a2, a3, fun r hr => reloc_ok_mono fmt n m hnm r (a4 r hr), ?_⟩
  intro g hg
  obtain ⟨sy, hsy, hn⟩ := a5 g hg
  refine ⟨sy, ?_, hn⟩
  rw [List.getElem?_append_left (List.getElem?_eq_some_iff.1 hsy).1]
  exact hsy

theorem run_inv_new_section (st : State) (segment sectname : List Nat) (flags : Nat)
    (h : run_inv st) : run_inv (new_section st segment sectname flags).1 := by
  obtain ⟨r1, r2, r3, r4, r5, r6, r7⟩ := h
  unfold new_section seg_alloc
  dsimp only
  refine ⟨r1, r2, by simp [r3], r4, ?_, ?_, r7⟩
  · intro sym hsym
    have := r5 sym hsym
    simp only [List.length_append, List.length_singleton]
    omega
  · intro i s hs
    rcases Nat.lt_or_ge i st.sects.length with hlt | hge
    · rw [List.getElem?_append_left hlt] at hs
      obtain ⟨q1, q2⟩ := r6 i s hs
      refine ⟨q1, ?_⟩
      have := sect_ok_mono st.fmt st.syms [] st.sects.length (st.sects.length + 1)
        (by omega) s q2
      simpa using this
    · rw [List.getElem?_append_right hge] at hs
      have hi : i - st.sects.length = 0 := by
        by_contra hne
        have : (1 : Nat) ≤ i - st.sects.length := by omega
        rw [List.getElem?_eq_none (by simpa using this)] at hs
        cases hs
      rw [hi] at hs
      simp only [List.getElem?_cons_zero, Option.some.injEq] at hs
      subst hs
      refine ⟨?_, rfl, fun _ => rfl, fun _ => rfl, ?_, ?_⟩
      · show st.seg_nsects + 1 = i + 1
        omega
      · intro r hr; cases hr
      · intro g hg; cases hg

theorem raa_write_nonneg (e : List (Int × Int)) (k v : Int) (hv : 0 ≤ v)
    (h : ∀ q, 0 ≤ raa_read e q) : ∀ q, 0 ≤ raa_read (raa_write e k v) q := by
  intro q
  unfold raa_write raa_read
  split
  · exact hv
  · exact h q

theorem syms_numbered_append (st : State) (sym : symbol) (h : syms_numbered st)
    (hs : sym.initial_snum = -1 ∨ sym.initial_snum = (st.nsyms : Int)) :
    st.nsyms + 1 = (st.syms ++ [sym]).length ∧
    ∀ (p : Nat) (sy : symbol), (st.syms ++ [sym])[p]? = some sy →
      sy.initial_snum = -1 ∨ sy.initial_snum = (p : Int) := by
  obtain ⟨h1, h2⟩ := h
  refine ⟨by simp [h1], ?_⟩
  intro p sy hp
  rcases Nat.lt_or_ge p st.syms.length with hlt | hge
  · rw [List.getElem?_append_left hlt] at hp
    exact h2 p sy hp
  · rw [List.getElem?_append_right hge] at hp
    have hi : p - st.syms.length = 0 := by
      by_contra hne
      have : (1 : Nat) ≤ p - st.syms.length := by omega
      rw [List.getElem?_eq_none (by simpa using this)] at hp
      cases hp
    rw [hi] at hp
    simp only [List.getElem?_cons_zero, Option.some.injEq] at hp
    subst hp
    rcases hs with hs | hs
    · exact Or.inl hs
    · right
      rw [hs, h1]
      congr 1
      omega

theorem run_inv_add_symbol (st : State) (sym : symbol) (ab : Section) (ex : List (Int × Int))
    (hinv : run_inv st)
    (hs : sym.initial_snum = -1 ∨ sym.initial_snum = (st.nsyms : Int))
    (hsect : sym.sect ≤ st.sects.length) (hex : ∀ q, 0 ≤ raa_read ex q) :
    run_inv { st with syms := st.syms ++ [sym], absolute_sect := ab, extsyms := ex,
                      nsyms := st.nsyms + 1 } := by
  obtain ⟨r1, r2, r3, r4, r5, r6, r7⟩ := hinv
  refine ⟨r1, syms_numbered_append st sym r2 hs, r3, hex, ?_, ?_, r7⟩
  · intro sy hsy
    rcases List.mem_append.1 hsy with h | h
    · exact r5 sy h
    · rw [List.mem_singleton.1 h]; exact hsect
  · intro i s hi
    obtain ⟨q1, q2⟩ := r6 i s hi
    exact ⟨q1, sect_ok_mono st.fmt st.syms [sym] _ _ (Nat.le_refl _) s q2⟩

theorem run_inv_add_gsym (st : State) (i : Nat) (sym : symbol) (hinv : run_inv st)
    (hs : sym.initial_snum = (st.nsyms : Int)) (hsect : sym.sect ≤ st.sects.length) :
    run_inv (update_sect { st with syms := st.syms ++ [sym], nsyms := st.nsyms + 1 } i
      (fun sc => { sc with gsyms := rb_insert sc.gsyms st.syms.length })) := by
  have hbase := run_inv_add_symbol st sym st.absolute_sect st.extsyms hinv (Or.inr hs) hsect
    hinv.2.2.2.1
  have hn : st.nsyms = st.syms.length := hinv.2.1.1
  obtain ⟨r1, r2, r3, r4, r5, r6, r7⟩ := hbase
  refine ⟨r1, r2, ?_, r4, ?_, ?_, r7⟩
  · simpa [update_sect] using r3
  · simpa [update_sect] using r5
  · intro k s1 hk
    have hmod : (update_sect { st with syms := st.syms ++ [sym], nsyms := st.nsyms + 1 } i
        (fun sc => { sc with gsyms := rb_insert sc.gsyms st.syms.length })).sects[k]? =
        if i = k then (st.sects[k]?).map
          (fun sc => { sc with gsyms := rb_insert sc.gsyms st.syms.length })
        else st.sects[k]? := by
      by_cases hik : i = k <;> simp [update_sect, List.getElem?_modify, hik]
    have hlen : (update_sect { st with syms := st.syms ++ [sym], nsyms := st.nsyms + 1 } i
        (fun sc => { sc with gsyms := rb_insert sc.gsyms st.syms.length })).sects.length =
        st.sects.length := by
      simp [update_sect]
    rw [hmod] at hk
    rw [hlen]
    have r6 : ∀ (i : ℕ) (s : Section), st.sects[i]? = some s →
        s.fileindex = i + 1 ∧ sect_ok st.fmt (st.syms ++ [sym]) st.sects.length s := r6
    show s1.fileindex = k + 1 ∧ sect_ok st.fmt (st.syms ++ [sym]) st.sects.length s1
    by_cases hik : i = k
    · subst hik
      rw [if_pos rfl] at hk
      cases hsi : st.sects[i]? with
      | none => rw [hsi] at hk; cases hk
      | some s =>
        rw [hsi] at hk
        simp only [Option.map_some', Option.some.injEq] at hk
        subst hk
        obtain ⟨q1, q2, q3, q4, q5, q6⟩ := r6 i s hsi
        refine ⟨q1, q2, q3, q4, q5, ?_⟩
        intro g hg
        rcases List.mem_append.1 hg with h | h
        · exact q6 g h
        · rw [List.mem_singleton.1 h]
          refine ⟨sym, by simp, ?_⟩
          rw [hs, hn]
    · rw [if_neg hik] at hk
      exact r6 k s1 hk

theorem run_inv_symdef (st : State) (name : List Nat) (section_ offset is_global : Int)
    (special : Option (List Nat)) (st1 : State) (hinv : run_inv st)
    (h : macho_symdef st name section_ offset is_global special = some st1) :
    run_inv st1 := by
  unfold macho_symdef at h
  split at h
  · cases h; exact run_inv_of_frame _ _ hinv (emit_frame_nasm_error st _)
  · split at h
    · cases h; exact run_inv_of_frame _ _ hinv (emit_frame_nasm_error st _)
    · split at h
      · split at h <;> cases h
        · exact run_inv_of_frame _ _ hinv (emit_frame_nasm_error st _)
        · exact hinv
      · have hn : st.nsyms = st.syms.length := hinv.2.1.1
        dsimp only at h
        split at h
        · cases h
          exact run_inv_add_symbol st _ _ st.extsyms hinv (Or.inl (by split <;> rfl))
            (Nat.zero_le _) hinv.2.2.2.1
        · split at h
          · split at h
            · cases h
              exact run_inv_add_symbol st _ st.absolute_sect _ hinv (Or.inr rfl)
                (Nat.zero_le _)
                (raa_write_nonneg _ _ _ (Int.ofNat_nonneg _) hinv.2.2.2.1)
            · cases h
          · rename_i i sc heq
            have hsc : st.sects[i]? = some sc := by
              cases hg : get_section_by_index st section_ with
              | none => rw [hg] at heq; cases heq
              | some j =>
                rw [hg] at heq
                have heq : (st.sects[j]?).map (fun sc => (j, sc)) = some (i, sc) := heq
                cases hj : st.sects[j]? with
                | none => rw [hj] at heq; cases heq
                | some t =>
                  rw [hj] at heq
                  simp only [Option.map_some', Option.some.injEq, Prod.mk.injEq] at heq
                  rw [← heq.1, ← heq.2]
                  exact hj
            have hfi : sc.fileindex % 2 ^ 8 ≤ st.sects.length := by
              have h1 := (hinv.2.2.2.2.2.1 i sc hsc).1
              have h2 := (List.getElem?_eq_some_iff.1 hsc).1
              have h3 := Nat.mod_le sc.fileindex (2 ^ 8)
              omega
            split at h
            · cases h
              exact run_inv_add_gsym st i _ hinv rfl hfi
            · cases h
              exact run_inv_add_symbol st _ st.absolute_sect st.extsyms hinv (Or.inr rfl) hfi
                hinv.2.2.2.1

theorem run_inv_of_empty (st : State)
    (hfmt : (st.fmt = macho32_fmt ∧ st.macho_gotpcrel_sect = NO_SEG) ∨ st.fmt = macho64_fmt)
    (hsyms : st.syms = []) (hn : st.nsyms = 0) (hsects : st.sects = [])
    (hns : st.seg_nsects = 0) (hex : st.extsyms = [])
    (hrest : st.nlocalsym = 0 ∧ st.nextdefsym = 0 ∧ st.nundefsym = 0 ∧ st.strs = [0] ∧
      st.head_ncmds = 0 ∧ st.head_sizeofcmds = 0 ∧ st.seg_filesize = 0 ∧ st.seg_vmsize = 0 ∧
      st.ofile = []) : run_inv st := by
  refine ⟨hfmt, ⟨by rw [hn, hsyms]; rfl, ?_⟩, by rw [hns, hsects]; rfl, ?_, ?_, ?_, hrest⟩
  · intro p sym h
    rw [hsyms] at h
    simp at h
  · intro k
    rw [hex]
    exact Int.le_refl 0
  · intro sym h
    rw [hsyms] at h
    cases h
  · intro i s h
    rw [hsects] at h
    simp at h

theorem run_inv_init32 : run_inv (macho32_init program_start) :=
  run_inv_of_empty _ (Or.inl ⟨by decide, by decide⟩) (by decide) (by decide) (by decide)
    (by decide) (by decide) (by decide)

theorem run_inv_init64 : run_inv (macho64_init program_start) :=
  run_inv_of_empty _ (Or.inr (by decide)) (by decide) (by decide) (by decide)
    (by decide) (by decide) (by decide)

/-! ### Section directives and the run invariant -/

theorem getElem?_modify_ne {α : Type} (l : List α) (f : α → α) (i j : Nat) (h : j ≠ i) :
    (l.modify f i)[j]? = l[j]? := by
  rw [List.getElem?_modify]
  cases l[j]? with
  | none => rfl
  | some s => simp [Ne.symm h]

theorem getElem?_modify_self {α : Type} (l : List α) (f : α → α) (i : Nat) (a : α)
    (h : l[i]? = some a) : (l.modify f i)[i]? = some (f a) := by
  rw [List.getElem?_modify, h]
  simp

theorem new_section_sects (a : State) (segment sectname : List Nat) (flags : Nat) :
    ∃ s0, (new_section a segment sectname flags).1.sects = a.sects ++ [s0] ∧
      s0.data = [] ∧ s0.relocs = [] ∧ s0.flags = flags ∧ s0.align = -1 ∧ s0.size = 0 ∧
      s0.by_name = false ∧ s0.sectname = xstrncpy sectname ∧
      s0.segname = xstrncpy segment ∧ s0.index = a.next_seg ∧
      s0.fileindex = a.seg_nsects + 1 :=
  ⟨_, rfl, rfl, rfl, rfl, rfl, rfl, rfl, rfl, rfl, rfl, rfl⟩

theorem map_modify_keep {β : Type} (g : Section → β) (l : List Section) (f : Section → Section)
    (i : Nat) (hf : ∀ s, g (f s) = g s) : (l.modify f i).map g = l.map g := by
  apply List.ext_getElem?
  intro k
  simp only [List.getElem?_map, List.getElem?_modify]
  by_cases hk : i = k
  · subst hk
    cases hs : l[i]? with
    | none => simp
    | some s => simp [hf s]
  · cases l[k]? <;> simp [hk]


theorem attrs_frame_refl (st : State) : attrs_frame st st := ⟨rfl, rfl⟩

theorem attrs_frame_trans (a b c : State) (h1 : attrs_frame a b) (h2 : attrs_frame b c) :
    attrs_frame a c := by
  obtain ⟨a1, a2⟩ := h1
  obtain ⟨b1, b2⟩ := h2
  refine ⟨?_, b2.trans a2⟩
  rw [← a1, ← b1]

theorem attrs_frame_nasm_error (st : State) (d : diag) : attrs_frame st (nasm_error st d) :=
  ⟨rfl, rfl⟩

theorem attrs_frame_update (st : State) (i : Nat) (f : Section → Section)
    (hf : ∀ s, { f s with align := 0, flags := 0, by_name := false } =
      { s with align := 0, flags := 0, by_name := false }) :
    attrs_frame st (update_sect st i f) :=
  ⟨rfl, map_modify_keep _ _ _ _ hf⟩

theorem attrs_frame_get (a b : State) (h : attrs_frame a b) (k : Nat) (s : Section)
    (hs : a.sects[k]? = some s) :
    ∃ s1, b.sects[k]? = some s1 ∧
      { s1 with align := 0, flags := 0, by_name := false } =
        { s with align := 0, flags := 0, by_name := false } := by
  have e := congrArg (fun m : List Section => m[k]?) h.2
  simp only [List.getElem?_map, hs, Option.map_some'] at e
  cases h1 : b.sects[k]? with
  | none => rw [h1] at e; cases e
  | some s1 =>
    rw [h1] at e
    simp only [Option.map_some', Option.some.injEq] at e
    exact ⟨s1, rfl, e⟩

theorem attrs_frame_length (a b : State) (h : attrs_frame a b) :
    b.sects.length = a.sects.length := by
  have e := congrArg List.length h.2
  simpa using e

theorem flags_kept_trans (i : Nat) (new_seg : Bool) (a b c : State)
    (hf : attrs_frame a b) (h1 : flags_kept i new_seg a b) (h2 : flags_kept i new_seg b c) :
    flags_kept i new_seg a c := by
  intro k s s2 hs hs2 hc
  obtain ⟨s1, e1, -⟩ := attrs_frame_get a b hf k s hs
  exact (h2 k s1 s2 e1 hs2 hc).trans (h1 k s s1 hs e1 hc)

theorem flags_kept_sects (i : Nat) (new_seg : Bool) (a b : State) (h : b.sects = a.sects) :
    flags_kept i new_seg a b := by
  intro k s s1 hs hs1 _
  rw [h, hs] at hs1
  cases hs1
  rfl

theorem flags_kept_update (i : Nat) (new_seg : Bool) (st : State) (f : Section → Section)
    (hf : ∀ s, st.sects[i]? = some s → new_seg = false → (f s).flags = s.flags) :
    flags_kept i new_seg st (update_sect st i f) := by
  intro k s s1 hs hs1 hc
  by_cases hk : k = i
  · subst hk
    have e : (update_sect st k f).sects[k]? = some (f s) := getElem?_modify_self _ _ _ s hs
    rw [e] at hs1
    cases hs1
    rcases hc with h | h
    · exact absurd rfl h
    · exact hf s hs h
  · have e : (update_sect st i f).sects[k]? = st.sects[k]? := getElem?_modify_ne _ _ _ _ hk
    rw [e, hs] at hs1
    cases hs1
    rfl

theorem section_attribute_attrs (i : Nat) (new_seg : Bool) (p : State × Nat) (cur : List Nat) :
    attrs_frame p.1 (section_attribute i new_seg p cur).1 ∧
      flags_kept i new_seg p.1 (section_attribute i new_seg p cur).1 := by
  have hfl : ∀ (r : State × Nat),
      attrs_frame r.1 (if r.2 ≠ 2 ^ 32 - 1 then
          if !new_seg ∧ (r.1.sects[i]?).map (fun s => s.flags) ≠ some r.2 then
            (nasm_error r.1 .inconsistent_section_attributes, r.2)
          else (update_sect r.1 i (fun s => { s with flags := r.2 }), r.2)
        else r).1 ∧
      flags_kept i new_seg r.1 (if r.2 ≠ 2 ^ 32 - 1 then
          if !new_seg ∧ (r.1.sects[i]?).map (fun s => s.flags) ≠ some r.2 then
            (nasm_error r.1 .inconsistent_section_attributes, r.2)
          else (update_sect r.1 i (fun s => { s with flags := r.2 }), r.2)
        else r).1 := by
    intro r
    split
    · split
      · exact ⟨attrs_frame_nasm_error _ _, flags_kept_sects _ _ _ _ rfl⟩
      · rename_i hc
        refine ⟨attrs_frame_update _ _ _ (fun s => rfl), flags_kept_update _ _ _ _ ?_⟩
        intro s hs hn
        by_contra hne
        apply hc
        refine ⟨by simp [hn], ?_⟩
        rw [hs]
        intro he
        exact hne (Option.some.inj he).symm
    · exact ⟨attrs_frame_refl _, flags_kept_sects _ _ _ _ rfl⟩
  have hal : ∀ (st : State) (a : Int),
      attrs_frame st (update_sect st i (fun s =>
        if s.align < a then { s with align := a } else s)) ∧
      flags_kept i new_seg st (update_sect st i (fun s =>
        if s.align < a then { s with align := a } else s)) := by
    intro st a
    refine ⟨attrs_frame_update _ _ _ ?_, flags_kept_update _ _ _ _ ?_⟩
    · intro s
      split <;> rfl
    · intro s _ _
      split <;> rfl
  have herr : ∀ (st : State) (d : diag),
      attrs_frame st (nasm_error st d) ∧ flags_kept i new_seg st (nasm_error st d) :=
    fun st d => ⟨attrs_frame_nasm_error _ _, flags_kept_sects _ _ _ _ rfl⟩
  have hrefl : ∀ (st : State), attrs_frame st st ∧ flags_kept i new_seg st st :=
    fun st => ⟨attrs_frame_refl _, flags_kept_sects _ _ _ _ rfl⟩
  have htr : ∀ (a b c : State), attrs_frame a b ∧ flags_kept i new_seg a b →
      attrs_frame b c ∧ flags_kept i new_seg b c →
      attrs_frame a c ∧ flags_kept i new_seg a c :=
    fun a b c h1 h2 => ⟨attrs_frame_trans _ _ _ h1.1 h2.1,
      flags_kept_trans _ _ _ _ _ h1.1 h1.2 h2.2⟩
  have hcomb : ∀ (r : State × Nat),
      (attrs_frame p.1 r.1 ∧ flags_kept i new_seg p.1 r.1) →
      attrs_frame p.1 (if r.2 ≠ 2 ^ 32 - 1 then
          if !new_seg ∧ (r.1.sects[i]?).map (fun s => s.flags) ≠ some r.2 then
            (nasm_error r.1 .inconsistent_section_attributes, r.2)
          else (update_sect r.1 i (fun s => { s with flags := r.2 }), r.2)
        else r).1 ∧
      flags_kept i new_seg p.1 (if r.2 ≠ 2 ^ 32 - 1 then
          if !new_seg ∧ (r.1.sects[i]?).map (fun s => s.flags) ≠ some r.2 then
            (nasm_error r.1 .inconsistent_section_attributes, r.2)
          else (update_sect r.1 i (fun s => { s with flags := r.2 }), r.2)
        else r).1 :=
    fun r hr => htr _ _ _ hr (hfl r)
  unfold section_attribute
  apply hcomb
  split
  · split
    · dsimp only
      split
      · exact htr _ _ _ (herr _ _) (hal _ _)
      · split
        · exact htr _ _ _ (herr _ _) (hal _ _)
        · exact hal _ _
    · split
      · exact hrefl _
      · split
        · exact hrefl _
        · split
          · exact hrefl _
          · split
            · exact hrefl _
            · exact herr _ _
  · exact hrefl _

theorem attribute_loop_attrs (i : Nat) (new_seg : Bool) (toks : List (List Nat))
    (p : State × Nat) :
    attrs_frame p.1 (toks.foldl (section_attribute i new_seg) p).1 ∧
      flags_kept i new_seg p.1 (toks.foldl (section_attribute i new_seg) p).1 := by
  induction toks generalizing p with
  | nil => exact ⟨attrs_frame_refl _, flags_kept_sects _ _ _ _ rfl⟩
  | cons t rest ih =>
    rw [List.foldl_cons]
    obtain ⟨a1, a2⟩ := section_attribute_attrs i new_seg p t
    obtain ⟨b1, b2⟩ := ih (section_attribute i new_seg p t)
    exact ⟨attrs_frame_trans _ _ _ a1 b1, flags_kept_trans _ _ _ _ _ a1 a2 b2⟩

theorem section_target_attrs (st : State) (name : List Nat) :
    attrs_frame st (section_target st name).1 ∧ (section_target st name).1.sects = st.sects := by
  unfold section_target
  split
  · dsimp only
    split <;> split <;> (try split) <;> (try split) <;> exact ⟨⟨rfl, rfl⟩, rfl⟩
  · split <;> exact ⟨⟨rfl, rfl⟩, rfl⟩

/-- What `macho_section` returns, by the three ways it can go: the name stands for no
section; the section exists at position `i`; the section is created. -/
theorem macho_section_result (st : State) (name : Option (List Nat)) (bits : Nat) :
    ((section_target st (section_tokens name).1).2 = none ∧
      (macho_section st name bits).1 = (section_target st (section_tokens name).1).1) ∨
    (∃ i, (macho_section st name bits).1 =
        ((section_tokens name).2.foldl (section_attribute i false)
          (update_sect (section_target st (section_tokens name).1).1 i
            (fun s => { s with by_name := s.by_name ||
              (strchr (section_tokens name).1 0x2c).isSome }), 2 ^ 32 - 1)).1) ∨
    (∃ seg sec fl, (macho_section st name bits).1 =
        ((section_tokens name).2.foldl
          (section_attribute (new_section (section_target st (section_tokens name).1).1
            seg sec fl).2 true)
          (update_sect (new_section (section_target st (section_tokens name).1).1
              seg sec fl).1
            (new_section (section_target st (section_tokens name).1).1 seg sec fl).2
            (fun s => { s with by_name := s.by_name ||
              (strchr (section_tokens name).1 0x2c).isSome }), 2 ^ 32 - 1)).1) := by
  rcases ht : (section_target st (section_tokens name).1).2 with _ | ⟨seg, sec, fl⟩
  · left
    refine ⟨rfl, ?_⟩
    unfold macho_section
    dsimp only
    rw [ht]
  · rcases hf : get_section_by_name (section_target st (section_tokens name).1).1 seg sec with
      _ | i
    · right; right
      refine ⟨seg, sec, fl, ?_⟩
      unfold macho_section
      dsimp only
      rw [ht]
      dsimp only
      rw [hf]
      rfl
    · right; left
      refine ⟨i, ?_⟩
      unfold macho_section
      dsimp only
      rw [ht]
      dsimp only
      rw [hf]
      rfl

theorem attrs_fields (s s1 : Section)
    (e : { s1 with align := 0, flags := 0, by_name := false } =
      { s with align := 0, flags := 0, by_name := false }) :
    s1.data = s.data ∧ s1.relocs = s.relocs ∧ s1.size = s.size ∧ s1.nreloc = s.nreloc ∧
      s1.fileindex = s.fileindex ∧ s1.gsyms = s.gsyms := by
  have q1 := congrArg Section.data e
  have q2 := congrArg Section.relocs e
  have q3 := congrArg Section.size e
  have q4 := congrArg Section.nreloc e
  have q5 := congrArg Section.fileindex e
  have q6 := congrArg Section.gsyms e
  exact ⟨q1, q2, q3, q4, q5, q6⟩

theorem run_inv_attrs (a b : State) (ha : run_inv a) (hf : attrs_frame a b)
    (hfl : ∀ (k : Nat) (s s1 : Section), a.sects[k]? = some s → b.sects[k]? = some s1 →
      s1.flags = s.flags ∨ (s.relocs = [] ∧ s.data = [] ∧ s.size = 0)) : run_inv b := by
  have hlen := attrs_frame_length a b hf
  have ha2 := ha
  rw [← hf.1] at ha2
  obtain ⟨r1, r2, r3, r4, r5, r6, r7⟩ := ha2
  refine ⟨r1, r2, ?_, r4, ?_, ?_, r7⟩
  · rw [hlen]; exact r3
  · rw [hlen]; exact r5
  · intro i s1 hs1
    have hi : i < a.sects.length := by
      rw [← hlen]; exact (List.getElem?_eq_some_iff.1 hs1).1
    obtain ⟨s1', hs1', e⟩ := attrs_frame_get a b hf i _ (List.getElem?_eq_getElem hi)
    rw [hs1] at hs1'
    cases hs1'
    obtain ⟨q1, q2, q3, q4, q5, q6⟩ := r6 i _ (List.getElem?_eq_getElem hi)
    obtain ⟨e1, e2, e3, e4, e5, e6⟩ := attrs_fields _ _ e
    rw [hlen]
    refine ⟨e5.trans q1, ?_, ?_, ?_, ?_, ?_⟩
    · rw [e4, e2]; exact q2
    · intro hz
      rcases hfl i _ s1 (List.getElem?_eq_getElem hi) hs1 with h | h
      · rw [e2]; exact q3 (h ▸ hz)
      · rw [e2]; exact h.1
    · intro hz
      rcases hfl i _ s1 (List.getElem?_eq_getElem hi) hs1 with h | h
      · rw [e1, e3]; exact q4 (h ▸ hz)
      · rw [e1, e3, h.2.1, h.2.2]; rfl
    · rw [e2]; exact q5
    · rw [e6]; exact q6

theorem run_inv_macho_section (st : State) (name : Option (List Nat)) (bits : Nat)
    (h : run_inv st) : run_inv (macho_section st name bits).1 := by
  obtain ⟨t1, t2⟩ := section_target_attrs st (section_tokens name).1
  have ht : run_inv (section_target st (section_tokens name).1).1 :=
    run_inv_attrs _ _ h t1 (fun k s s1 hs hs1 => by
      rw [t2, hs] at hs1
      cases hs1
      exact Or.inl rfl)
  rcases macho_section_result st name bits with ⟨-, e⟩ | ⟨i, e⟩ | ⟨seg, sec, fl, e⟩
  · rw [e]; exact ht
  · rw [e]
    obtain ⟨a1, a2⟩ := attribute_loop_attrs i false (section_tokens name).2
      (update_sect (section_target st (section_tokens name).1).1 i
        (fun s => { s with by_name := s.by_name ||
          (strchr (section_tokens name).1 0x2c).isSome }), 2 ^ 32 - 1)
    have b1 := attrs_frame_update (section_target st (section_tokens name).1).1 i
      (fun s => { s with by_name := s.by_name ||
        (strchr (section_tokens name).1 0x2c).isSome }) (fun s => rfl)
    have b2 := flags_kept_update i false (section_target st (section_tokens name).1).1
      (fun s => { s with by_name := s.by_name ||
        (strchr (section_tokens name).1 0x2c).isSome }) (fun s _ _ => rfl)
    refine run_inv_attrs _ _ ht (attrs_frame_trans _ _ _ b1 a1) ?_
    intro k s s1 hs hs1
    exact Or.inl (flags_kept_trans _ _ _ _ _ b1 b2 a2 k s s1 hs hs1 (Or.inr rfl))
  · rw [e]
    have hn := run_inv_new_section (section_target st (section_tokens name).1).1 seg sec fl ht
    obtain ⟨s0, n0, n1, n2, -, -, n5, -⟩ :=
      new_section_sects (section_target st (section_tokens name).1).1 seg sec fl
    have hpos : (new_section (section_target st (section_tokens name).1).1 seg sec fl).2 =
        (section_target st (section_tokens name).1).1.sects.length := rfl
    obtain ⟨a1, a2⟩ := attribute_loop_attrs
      (new_section (section_target st (section_tokens name).1).1 seg sec fl).2 true
      (section_tokens name).2
      (update_sect (new_section (section_target st (section_tokens name).1).1 seg sec fl).1
        (new_section (section_target st (section_tokens name).1).1 seg sec fl).2
        (fun s => { s with by_name := s.by_name ||
          (strchr (section_tokens name).1 0x2c).isSome }), 2 ^ 32 - 1)
    have b1 := attrs_frame_update
      (new_section (section_target st (section_tokens name).1).1 seg sec fl).1
      (new_section (section_target st (section_tokens name).1).1 seg sec fl).2
      (fun s => { s with by_name := s.by_name ||
        (strchr (section_tokens name).1 0x2c).isSome }) (fun s => rfl)
    have b2 := flags_kept_update
      (new_section (section_target st (section_tokens name).1).1 seg sec fl).2 true
      (new_section (section_target st (section_tokens name).1).1 seg sec fl).1
      (fun s => { s with by_name := s.by_name ||
        (strchr (section_tokens name).1 0x2c).isSome }) (fun s _ _ => rfl)
    refine run_inv_attrs _ _ hn (attrs_frame_trans _ _ _ b1 a1) ?_
    intro k s s1 hs hs1
    by_cases hk : k = (new_section (section_target st (section_tokens name).1).1 seg sec fl).2
    · right
      rw [hk, hpos, n0, List.getElem?_append_right (le_refl _)] at hs
      simp only [Nat.sub_self, List.getElem?_cons_zero, Option.some.injEq] at hs
      rw [← hs]
      exact ⟨n2, n1, n5⟩
    · exact Or.inl (flags_kept_trans _ _ _ _ _ b1 b2 a2 k s s1 hs hs1 (Or.inl hk))

theorem run_inv_sectalign (st st1 : State) (seg : Int) (value : Nat) (h : run_inv st)
    (hs : macho_sectalign st seg value = some st1) : run_inv st1 := by
  unfold macho_sectalign at hs
  split at hs
  · cases hs
  · split at hs
    · cases hs; exact h
    · split at hs
      · cases hs; exact h
      · cases hs
        refine run_inv_attrs _ _ h (attrs_frame_update _ _ _ ?_) ?_
        · intro s
          split <;> rfl
        · intro k s s1 hk hk1
          left
          exact flags_kept_update _ false _ _ (fun s _ _ => by split <;> rfl) k s s1 hk hk1
            (Or.inr rfl)

theorem macho_section_old (st : State) (name : Option (List Nat)) (bits : Nat)
    (k : Nat) (s : Section) (hs : st.sects[k]? = some s) :
    ∃ s1, (macho_section st name bits).1.sects[k]? = some s1 ∧
      { s1 with align := 0, flags := 0, by_name := false } =
        { s with align := 0, flags := 0, by_name := false } ∧ s1.flags = s.flags := by
  obtain ⟨t1, t2⟩ := section_target_attrs st (section_tokens name).1
  have hs' : (section_target st (section_tokens name).1).1.sects[k]? = some s := by
    rw [t2]; exact hs
  rcases macho_section_result st name bits with ⟨-, e⟩ | ⟨i, e⟩ | ⟨seg, sec, fl, e⟩
  · rw [e]
    exact ⟨s, hs', rfl, rfl⟩
  · rw [e]
    obtain ⟨a1, a2⟩ := attribute_loop_attrs i false (section_tokens name).2
      (update_sect (section_target st (section_tokens name).1).1 i
        (fun s => { s with by_name := s.by_name ||
          (strchr (section_tokens name).1 0x2c).isSome }), 2 ^ 32 - 1)
    have b1 := attrs_frame_update (section_target st (section_tokens name).1).1 i
      (fun s => { s with by_name := s.by_name ||
        (strchr (section_tokens name).1 0x2c).isSome }) (fun s => rfl)
    have b2 := flags_kept_update i false (section_target st (section_tokens name).1).1
      (fun s => { s with by_name := s.by_name ||
        (strchr (section_tokens name).1 0x2c).isSome }) (fun s _ _ => rfl)
    obtain ⟨s1, e1, e2⟩ := attrs_frame_get _ _ (attrs_frame_trans _ _ _ b1 a1) k s hs'
    exact ⟨s1, e1, e2, flags_kept_trans _ _ _ _ _ b1 b2 a2 k s s1 hs' e1 (Or.inr rfl)⟩
  · rw [e]
    obtain ⟨s0, n0, -⟩ :=
      new_section_sects (section_target st (section_tokens name).1).1 seg sec fl
    have hpos : (new_section (section_target st (section_tokens name).1).1 seg sec fl).2 =
        (section_target st (section_tokens name).1).1.sects.length := rfl
    have hk : k < (section_target st (section_tokens name).1).1.sects.length :=
      (List.getElem?_eq_some_iff.1 hs').1
    have hs2 : (new_section (section_target st (section_tokens name).1).1 seg sec
        fl).1.sects[k]? = some s := by
      rw [n0, List.getElem?_append_left hk]
      exact hs'
    obtain ⟨a1, a2⟩ := attribute_loop_attrs
      (new_section (section_target st (section_tokens name).1).1 seg sec fl).2 true
      (section_tokens name).2
      (update_sect (new_section (section_target st (section_tokens name).1).1 seg sec fl).1
        (new_section (section_target st (section_tokens name).1).1 seg sec fl).2
        (fun s => { s with by_name := s.by_name ||
          (strchr (section_tokens name).1 0x2c).isSome }), 2 ^ 32 - 1)
    have b1 := attrs_frame_update
      (new_section (section_target st (section_tokens name).1).1 seg sec fl).1
      (new_section (section_target st (section_tokens name).1).1 seg sec fl).2
      (fun s => { s with by_name := s.by_name ||
        (strchr (section_tokens name).1 0x2c).isSome }) (fun s => rfl)
    have b2 := flags_kept_update
      (new_section (section_target st (section_tokens name).1).1 seg sec fl).2 true
      (new_section (section_target st (section_tokens name).1).1 seg sec fl).1
      (fun s => { s with by_name := s.by_name ||
        (strchr (section_tokens name).1 0x2c).isSome }) (fun s _ _ => rfl)
    obtain ⟨s1, e1, e2⟩ := attrs_frame_get _ _ (attrs_frame_trans _ _ _ b1 a1) k s hs2
    refine ⟨s1, e1, e2, flags_kept_trans _ _ _ _ _ b1 b2 a2 k s s1 hs2 e1 (Or.inl ?_)⟩
    rw [hpos]
    omega

theorem macho_section_flags_kept (st : State) (name : Option (List Nat)) (bits : Nat)
    (k : Nat) (s : Section) (hs : st.sects[k]? = some s) :
    ∃ s1, (macho_section st name bits).1.sects[k]? = some s1 ∧ s1.flags = s.flags := by
  obtain ⟨s1, e1, -, e3⟩ := macho_section_old st name bits k s hs
  exact ⟨s1, e1, e3⟩

theorem macho_section_new (st : State) (name : Option (List Nat)) (bits : Nat)
    (k : Nat) (s1 : Section) (h1 : (macho_section st name bits).1.sects[k]? = some s1)
    (hk : st.sects.length ≤ k) : s1.data = [] ∧ s1.relocs = [] ∧ s1.size = 0 := by
  obtain ⟨t1, t2⟩ := section_target_attrs st (section_tokens name).1
  have hlt := (List.getElem?_eq_some_iff.1 h1).1
  rcases macho_section_result st name bits with ⟨-, e⟩ | ⟨i, e⟩ | ⟨seg, sec, fl, e⟩
  · rw [e, t2] at hlt
    omega
  · rw [e] at hlt
    obtain ⟨a1, -⟩ := attribute_loop_attrs i false (section_tokens name).2
      (update_sect (section_target st (section_tokens name).1).1 i
        (fun s => { s with by_name := s.by_name ||
          (strchr (section_tokens name).1 0x2c).isSome }), 2 ^ 32 - 1)
    have b1 := attrs_frame_update (section_target st (section_tokens name).1).1 i
      (fun s => { s with by_name := s.by_name ||
        (strchr (section_tokens name).1 0x2c).isSome }) (fun s => rfl)
    have hl := attrs_frame_length _ _ (attrs_frame_trans _ _ _ b1 a1)
    rw [hl, t2] at hlt
    omega
  · rw [e] at hlt h1
    obtain ⟨s0, n0, n1, n2, -, -, n5, -⟩ :=
      new_section_sects (section_target st (section_tokens name).1).1 seg sec fl
    obtain ⟨a1, -⟩ := attribute_loop_attrs
      (new_section (section_target st (section_tokens name).1).1 seg sec fl).2 true
      (section_tokens name).2
      (update_sect (new_section (section_target st (section_tokens name).1).1 seg sec fl).1
        (new_section (section_target st (section_tokens name).1).1 seg sec fl).2
        (fun s => { s with by_name := s.by_name ||
          (strchr (section_tokens name).1 0x2c).isSome }), 2 ^ 32 - 1)
    have b1 := attrs_frame_update
      (new_section (section_target st (section_tokens name).1).1 seg sec fl).1
      (new_section (section_target st (section_tokens name).1).1 seg sec fl).2
      (fun s => { s with by_name := s.by_name ||
        (strchr (section_tokens name).1 0x2c).isSome }) (fun s => rfl)
    have hf := attrs_frame_trans _ _ _ b1 a1
    have hl := attrs_frame_length _ _ hf
    rw [hl, n0, List.length_append, t2, List.length_singleton] at hlt
    have hk2 : k = st.sects.length := by omega
    have h0 : (new_section (section_target st (section_tokens name).1).1 seg sec
        fl).1.sects[k]? = some s0 := by
      rw [n0, hk2, ← t2, List.getElem?_append_right (le_refl _), Nat.sub_self]
      rfl
    obtain ⟨s1', e1, e2⟩ := attrs_frame_get _ _ hf k s0 h0
    rw [h1] at e1
    cases e1
    obtain ⟨q1, q2, q3, -⟩ := attrs_fields _ _ e2
    exact ⟨q1.trans n1, q2.trans n2, q3.trans n5⟩

theorem macho_section_kept (st : State) (name : Option (List Nat)) (bits : Nat) :
    sects_kept st (macho_section st name bits).1 := by
  refine ⟨?_, macho_section_new st name bits⟩
  intro k s hs
  obtain ⟨s1, e1, e2, e3⟩ := macho_section_old st name bits k s hs
  obtain ⟨q1, q2, q3, -⟩ := attrs_fields _ _ e2
  exact ⟨s1, e1, q1, q2, q3, e3⟩

theorem sects_kept_refl (st : State) : sects_kept st st :=
  ⟨fun _ s hs => ⟨s, hs, rfl, rfl, rfl, rfl⟩, fun k _ h hk => by
    have := (List.getElem?_eq_some_iff.1 h).1
    omega⟩

theorem macho_sectalign_kept (st st1 : State) (seg : Int) (value : Nat)
    (h : macho_sectalign st seg value = some st1) : sects_kept st st1 := by
  unfold macho_sectalign at h
  split at h
  · cases h
  · split at h
    · cases h; exact sects_kept_refl st
    · split at h
      · cases h; exact sects_kept_refl st
      · cases h
        rename_i i _ _
        have hf : attrs_frame st (update_sect st i (fun s =>
            if s.align < alignlog2_32 (value : Int) then
              { s with align := alignlog2_32 (value : Int) }
            else s)) := attrs_frame_update _ _ _ (fun s => by split <;> rfl)
        refine ⟨?_, ?_⟩
        · intro k s hs
          obtain ⟨s1, e1, e2⟩ := attrs_frame_get _ _ hf k s hs
          obtain ⟨q1, q2, q3, -⟩ := attrs_fields _ _ e2
          exact ⟨s1, e1, q1, q2, q3,
            flags_kept_update _ false _ _ (fun s _ _ => by split <;> rfl) k s s1 hs e1
              (Or.inr rfl)⟩
        · intro k s1 h1 hk
          have := (List.getElem?_eq_some_iff.1 h1).1
          rw [attrs_frame_length _ _ hf] at this
          omega

/-! ### Runs keep the invariant -/

theorem run_inv_step (st st1 : State) (e : event) (hinv : run_inv st)
    (h : step st e = some st1) : run_inv st1 := by
  cases e with
  | symdef name section_ offset is_global special =>
    exact run_inv_symdef st name section_ offset is_global special st1 hinv h
  | output secto data type size section_ wrt =>
    exact run_inv_of_frame st st1 hinv
      (macho_output_frame st secto data type size section_ wrt st1 hinv h)
  | new_section segment sectname flags =>
    simp only [step, Option.some.injEq] at h
    rw [← h]
    exact run_inv_new_section st segment sectname flags hinv
  | section_ name bits =>
    simp only [step, Option.some.injEq] at h
    rw [← h]
    exact run_inv_macho_section st name bits hinv
  | sectalign seg value =>
    exact run_inv_sectalign st st1 seg value hinv h

theorem run_inv_run (evs : List event) (st st1 : State) (hinv : run_inv st)
    (h : run evs st = some st1) : run_inv st1 := by
  induction evs generalizing st with
  | nil =>
    simp only [run, Option.some.injEq] at h
    rw [← h]; exact hinv
  | cons e rest ih =>
    simp only [run] at h
    cases hs : step st e with
    | none => rw [hs] at h; cases h
    | some st2 =>
      rw [hs] at h
      exact ih st2 (run_inv_step st st2 e hinv hs) h

theorem reachable_inv (st : State) (h : reachable st) : run_inv st := by
  obtain ⟨evs, h | h⟩ := h
  · exact run_inv_run evs _ st run_inv_init32 h
  · exact run_inv_run evs _ st run_inv_init64 h

/-! ### Relocation kinds of the emitter -/

theorem find_by_name_some (segname sectname : List Nat) (l : List Section) (j : Nat)
    (h : find_by_name segname sectname l = some j) : j < l.length := by
  induction l generalizing j with
  | nil => cases h
  | cons s rest ih =>
    unfold find_by_name at h
    split at h
    · cases h; simp
    · cases hr : find_by_name segname sectname rest with
      | none => rw [hr] at h; cases h
      | some k =>
        rw [hr] at h
        simp only [Option.map_some', Option.some.injEq] at h
        rw [← h]
        have := ih k hr
        simp only [List.length_cons]
        omega

theorem kinds_allowed (st : State) (hinv : run_inv st) :
    reltype.RL_ABS.toNat ≤ st.fmt.maxreltype.toNat ∧
    reltype.RL_REL.toNat ≤ st.fmt.maxreltype.toNat ∧
    (∀ (d : diag) (s : Section) (wrt : Int),
      (rel4_reltype (nasm_error st d) s wrt).1.toNat ≤ st.fmt.maxreltype.toNat) ∧
    (∀ (s : Section) (wrt : Int), (rel4_reltype st s wrt).1.toNat ≤ st.fmt.maxreltype.toNat) := by
  have hrel : ∀ (s : Section) (wrt : Int),
      (rel4_reltype st s wrt).1.toNat ≤ st.fmt.maxreltype.toNat := by
    intro s wrt
    rcases hinv.1 with ⟨hf, hg⟩ | hf
    · unfold rel4_reltype
      rw [hf, hg]
      by_cases hw : wrt = NO_SEG
      · simp only [hw, if_true]
        have : ¬ (macho32_fmt.ptrsize = 8 ∧ s.flags &&& S_ATTR_SOME_INSTRUCTIONS ≠ 0) := by
          intro h; exact absurd h.1 (by decide)
        rw [if_neg this]
        decide
      · simp only [hw, if_false]
        split <;> decide
    · unfold rel4_reltype
      rw [hf]
      repeat' split
      all_goals decide
  refine ⟨Nat.zero_le _, ?_, fun d s wrt => hrel s wrt, hrel⟩
  rcases hinv.1 with ⟨hf, _⟩ | hf <;> rw [hf] <;> decide

theorem add_reloc_some (st : State) (sect : Nat) (sc : Section) (section_ offset : Int)
    (rt : reltype) (bytes : Int) (hinv : run_inv st) (hsect : st.sects[sect]? = some sc)
    (hmax : rt.toNat ≤ st.fmt.maxreltype.toNat) :
    ∃ res, add_reloc st sect section_ offset rt bytes = some res := by
  have hkind : rt = .RL_ABS ∨ (rt = .RL_REL ∨ rt = .RL_BRANCH) ∨ rt = .RL_SUB ∨
      (rt = .RL_GOT ∨ rt = .RL_GOTLOAD ∨ rt = .RL_TLV) := by
    cases rt <;> simp
  rcases hkind with rfl | hk | rfl | hk
  · exact ⟨_, add_reloc_abs_eq st sect sc section_ offset bytes hsect⟩
  · by_cases href : section_ = NO_SEG
    · rcases hk with rfl | rfl <;>
        · simp [add_reloc, hmax, hsect, href]
    · cases hg : get_section_by_index st section_ with
      | none =>
        exact ⟨_, add_reloc_rel_external st sect sc section_ offset rt bytes hk hmax href hsect
          hg⟩
      | some j =>
        obtain ⟨t, ht, _, _⟩ := find_by_index_some section_ st.sects j hg
        have hfi : t.fileindex ≠ NO_SECT := by
          have := (hinv.2.2.2.2.2.1 j t ht).1
          unfold NO_SECT
          omega
        exact ⟨_, add_reloc_rel_local st sect sc section_ offset rt bytes j t hk hmax href hsect
          hg ht hfi⟩
  · simp [add_reloc, hmax, hsect]
  · obtain ⟨st2, adj, h⟩ := add_reloc_needsym_some st sect sc section_ offset rt bytes hk hmax
      hsect
    exact ⟨_, h⟩

theorem macho_output_none (st : State) (secto : Int) (data : out_data) (type : out_type)
    (size : Nat) (section_ wrt : Int) (hinv : run_inv st)
    (h : macho_output st secto data type size section_ wrt = none) :
    secto ≠ NO_SEG ∧
    ((get_section_by_index st secto = none ∧
        get_section_by_name st seg_TEXT sect_text = none) ∨
      (type = .OUT_RAWDATA ∧ section_ ≠ NO_SEG) ∨
      ((type = .OUT_REL2ADR ∨ type = .OUT_REL4ADR) ∧ section_ = secto)) := by
  unfold macho_output at h
  split at h
  · split at h <;> cases h
  · rename_i hsecto
    refine ⟨hsecto, ?_⟩
    dsimp only at h
    split at h
    · rename_i heq
      left
      split at heq
      · cases heq
      · rename_i hgi
        split at heq
        · cases heq
        · rename_i hgn
          exact ⟨hgi, hgn⟩
    · rename_i st0 si heq
      have hf0 : emit_frame st st0 ∧ si < st0.sects.length := by
        split at heq
        · rename_i i hgi
          cases heq
          obtain ⟨t, ht, _, _⟩ := find_by_index_some secto st.sects si hgi
          exact ⟨emit_frame_refl st, (List.getElem?_eq_some_iff.1 ht).1⟩
        · split at heq
          · rename_i i hgn
            cases heq
            exact ⟨emit_frame_nasm_error st _, find_by_name_some _ _ st.sects si hgn⟩
          · cases heq
      have hinv0 : run_inv st0 := run_inv_of_frame st st0 hinv hf0.1
      obtain ⟨ka, kr, _, k4⟩ := kinds_allowed st0 hinv0
      split at h
      · rename_i hnone
        rw [List.getElem?_eq_getElem hf0.2] at hnone
        cases hnone
      · rename_i s hs
        split at h
        · cases h
        · split at h
          · split at h <;> cases h
          · split at h
            · rename_i href
              exact Or.inr (Or.inl ⟨rfl, href⟩)
            · cases h
          · -- OUT_ADDRESS
            exfalso
            rw [Option.map_eq_none'] at h
            split at h
            · split at h
              · cases h
              · split at h
                · split at h
                  · cases h
                  · rw [Option.map_eq_none'] at h
                    obtain ⟨res, hres⟩ := add_reloc_some st0 si s section_ data.int64 .RL_ABS
                      ((to_int32 size).natAbs : Nat) hinv0 hs ka
                    rw [hres] at h
                    cases h
                · cases h
            · cases h
          · -- OUT_REL2ADR
            split at h
            · rename_i heq2
              exact Or.inr (Or.inr ⟨Or.inl rfl, heq2⟩)
            · exfalso
              rw [Option.map_eq_none'] at h
              split at h
              · cases h
              · split at h
                · cases h
                · split at h
                  · cases h
                  · rw [Option.map_eq_none'] at h
                    obtain ⟨res, hres⟩ := add_reloc_some st0 si s section_
                      (data.int64 - (size : Int) + (size : Int)) .RL_REL 2 hinv0 hs kr
                    rw [hres] at h
                    cases h
          · -- OUT_REL4ADR
            split at h
            · rename_i heq2
              exact Or.inr (Or.inr ⟨Or.inr rfl, heq2⟩)
            · exfalso
              rw [Option.map_eq_none'] at h
              split at h
              · rw [Option.map_eq_none'] at h
                obtain ⟨res, hres⟩ := add_reloc_some (nasm_error st0 .section_base_ref) si s
                  section_ data.int64 .RL_REL 4
                  (run_inv_of_frame _ _ hinv0 (emit_frame_nasm_error st0 _)) hs kr
                rw [hres] at h
                cases h
              · rw [Option.map_eq_none'] at h
                split at h
                · obtain ⟨res, hres⟩ := add_reloc_some (nasm_error st0 .wrt_unsupported) si s
                    section_ data.int64 (rel4_reltype st0 s wrt).1 4
                    (run_inv_of_frame _ _ hinv0 (emit_frame_nasm_error st0 _)) hs (k4 s wrt)
                  rw [hres] at h
                  cases h
                · obtain ⟨res, hres⟩ := add_reloc_some st0 si s
                    section_ data.int64 (rel4_reltype st0 s wrt).1 4 hinv0 hs (k4 s wrt)
                  rw [hres] at h
                  cases h
          · cases h

/-- C19: in every state the module reaches, the kinds the emitter passes to `add_reloc` (`RL_ABS`
for an address, `RL_REL` for a 2-byte relative address, the kind chosen by the `WRT` test
for a 4-byte one) are at most `fmt.maxreltype`, so an output event stops the assembler
only through one of the emitter's own panics, never through the assertion of
`add_reloc`; and every relocation registered carries a type code in {0, 5} on the 32-bit
format and one of 0, 1, 2, 3, 4, 9 on the 64-bit format. -/
theorem emitter_reltypes (st : State) (h : reachable st) :
    (st.fmt = macho32_fmt ∨ st.fmt = macho64_fmt) ∧
    reltype.RL_ABS.toNat ≤ st.fmt.maxreltype.toNat ∧
    reltype.RL_REL.toNat ≤ st.fmt.maxreltype.toNat ∧
    (∀ (s : Section) (wrt : Int), (rel4_reltype st s wrt).1.toNat ≤ st.fmt.maxreltype.toNat) ∧
    (∀ (secto : Int) (data : out_data) (type : out_type) (size : Nat) (section_ wrt : Int),
      macho_output st secto data type size section_ wrt = none →
      secto ≠ NO_SEG ∧
      ((get_section_by_index st secto = none ∧
          get_section_by_name st seg_TEXT sect_text = none) ∨
        (type = .OUT_RAWDATA ∧ section_ ≠ NO_SEG) ∨
        ((type = .OUT_REL2ADR ∨ type = .OUT_REL4ADR) ∧ section_ = secto))) ∧
    (∀ sc ∈ st.sects, ∀ r ∈ sc.relocs,
      (st.fmt = macho32_fmt → r.type = 0 ∨ r.type = 5) ∧
      (st.fmt = macho64_fmt → r.type ∈ [0, 1, 2, 3, 4, 9])) := by
  have hinv := reachable_inv st h
  obtain ⟨ka, kr, _, k4⟩ := kinds_allowed st hinv
  refine ⟨?_, ka, kr, k4, ?_, ?_⟩
  · rcases hinv.1 with ⟨hf, _⟩ | hf
    · exact Or.inl hf
    · exact Or.inr hf
  · intro secto data type size section_ wrt hn
    exact macho_output_none st secto data type size section_ wrt hinv hn
  · intro sc hsc r hr
    obtain ⟨i, hi⟩ := List.getElem?_of_mem hsc
    obtain ⟨q1, q2, q3, q4, q5, q6⟩ := hinv.2.2.2.2.2.1 i sc hi
    exact ⟨(q5 r hr).1, (q5 r hr).2.1⟩

/-- C19 (witness): the 64-bit run of scenario S3 is reachable, and its one relocation, the
branch to `printf`, carries type code 2. -/
theorem emitter_reltypes_witness :
    reachable run_S3 ∧
    run_S3.sects.map (fun s => s.relocs.map (fun r => r.type)) = [[2]] ∧
    (∀ sc ∈ run_S3.sects, ∀ r ∈ sc.relocs,
      (run_S3.fmt = macho32_fmt → r.type = 0 ∨ r.type = 5) ∧
      (run_S3.fmt = macho64_fmt → r.type ∈ [0, 1, 2, 3, 4, 9])) :=
  ⟨⟨events_S3, Or.inr (by rfl)⟩, by decide,
    (emitter_reltypes run_S3 ⟨events_S3, Or.inr (by rfl)⟩).2.2.2.2.2⟩

/-! ### Relocation fix-up -/

theorem layout_step1_kept (sym : symbol) (st : State) :
    kept_by_layout (layout_step1 sym st).2 = kept_by_layout st := by
  unfold layout_step1 kept_by_layout
  by_cases h0 : sym.type = N_UNDF <;>
    by_cases h1 : (if sym.type = N_UNDF then { sym with type := sym.type ||| N_EXT }
      else sym).type &&& N_EXT = 0 <;>
    by_cases h2 : (if sym.type = N_UNDF then { sym with type := sym.type ||| N_EXT }
      else sym).type &&& N_TYPE = N_UNDF <;>
    simp [h0, h1, h2, strs_append] <;> simp_all

theorem layout_scan1_kept (l : List symbol) (st : State) :
    kept_by_layout (layout_scan1 l st).2 = kept_by_layout st := by
  induction l generalizing st with
  | nil => rfl
  | cons sym rest ih =>
    show kept_by_layout (layout_scan1 rest (layout_step1 sym st).2).2 = _
    rw [ih, layout_step1_kept]

theorem layout_step2_kept (sym : symbol) (idx : Nat) (st : State) :
    kept_by_layout (layout_step2 sym idx st).2 = kept_by_layout st := by
  unfold layout_step2 kept_by_layout
  by_cases h1 : sym.type &&& N_EXT = 0 <;> by_cases h2 : sym.type &&& N_TYPE = N_UNDF <;>
    simp [h1, h2, strs_append]

theorem layout_scan2_kept (l : List symbol) (idx : Nat) (st : State) :
    kept_by_layout (layout_scan2 l idx st).2 = kept_by_layout st := by
  induction l generalizing idx st with
  | nil => rfl
  | cons sym rest ih =>
    show kept_by_layout (layout_scan2 rest (idx + 1) (layout_step2 sym idx st).2).2 = _
    rw [ih, layout_step2_kept]

theorem layout_number_kept (arr : List Nat) (st : State) :
    kept_by_layout (layout_number arr st) = kept_by_layout st := by
  induction arr generalizing st with
  | nil => rfl
  | cons q rest ih =>
    show kept_by_layout (layout_number rest _) = _
    rw [ih]
    rfl

theorem macho_layout_symbols_kept (st : State) :
    kept_by_layout (macho_layout_symbols st) = kept_by_layout st := by
  have h1 : kept_by_layout (layout_classify st) = kept_by_layout st := by
    have := layout_scan1_kept st.syms { st with nsyms := 0, strslen := 1 }
    unfold layout_classify
    exact this
  have h2 : kept_by_layout (layout_collect (layout_classify st)) =
      kept_by_layout (layout_classify st) := by
    have := layout_scan2_kept (layout_classify st).syms 0
      { layout_classify st with extdefsyms := [], undefsyms := [] }
    unfold layout_collect
    exact this
  have h3 : kept_by_layout (layout_sort (layout_collect (layout_classify st))) =
      kept_by_layout (layout_collect (layout_classify st)) := rfl
  have h4 : ∀ S : State, kept_by_layout (layout_assign S) = kept_by_layout S := by
    intro S
    unfold layout_assign
    dsimp only
    rw [layout_number_kept, layout_number_kept]
  unfold macho_layout_symbols
  rw [h4, h3, h2, h1]

theorem fixup_find_numbered (l : List symbol) (base : Nat)
    (h : ∀ (q : Nat) (sym : symbol), l[q]? = some sym →
      sym.initial_snum = -1 ∨ sym.initial_snum = ((base + q : Nat) : Int))
    (p : Nat) (sym : symbol) (hp : l[p]? = some sym)
    (hs : sym.initial_snum = ((base + p : Nat) : Int)) :
    fixup_find ((base + p : Nat) : Int) l = some sym.snum := by
  induction l generalizing base p with
  | nil => simp at hp
  | cons a rest ih =>
    unfold fixup_find
    cases p with
    | zero =>
      simp only [List.getElem?_cons_zero, Option.some.injEq] at hp
      subst hp
      rw [if_pos hs]
    | succ k =>
      simp only [List.getElem?_cons_succ] at hp
      have ha : ¬ a.initial_snum = ((base + (k + 1) : Nat) : Int) := by
        rcases h 0 a (List.getElem?_cons_zero) with h0 | h0 <;> rw [h0] <;> omega
      rw [if_neg ha]
      have e : base + (k + 1) = (base + 1) + k := by omega
      rw [e] at hs ⊢
      apply ih (base + 1) _ k hp hs
      intro q sy hq
      have := h (q + 1) sy (by simpa using hq)
      have e2 : base + (q + 1) = base + 1 + q := by omega
      rw [e2] at this
      exact this

theorem fixup_find_mem (l : List symbol) (n v : Int) (h : fixup_find n l = some v) :
    ∃ s ∈ l, s.initial_snum = n ∧ s.snum = v := by
  induction l with
  | nil => cases h
  | cons a rest ih =>
    unfold fixup_find at h
    split at h
    · rename_i ha
      cases h
      exact ⟨a, List.mem_cons_self _ _, ha, rfl⟩
    · obtain ⟨s, hs, h1, h2⟩ := ih h
      exact ⟨s, List.mem_cons_of_mem _ hs, h1, h2⟩

theorem fixup_reloc_spec (syms symsF : List symbol) (r : reloc)
    (hid : symsF.map (fun s => s.initial_snum) = syms.map (fun s => s.initial_snum))
    (hnum : ∀ (q : Nat) (sym : symbol), syms[q]? = some sym →
      sym.initial_snum = -1 ∨ sym.initial_snum = (q : Int))
    (hr : r.ext ≠ 0 → 0 ≤ r.snum) :
    fixed_up syms symsF r
      (if r.ext ≠ 0 then
        match fixup_find r.snum symsF with
        | some n => { r with snum := n }
        | none => r
      else r) := by
  have hget : ∀ (q : Nat), (symsF[q]?).map (fun s => s.initial_snum) =
      (syms[q]?).map (fun s => s.initial_snum) := by
    intro q
    have := congrArg (fun l => l[q]?) hid
    simpa only [List.getElem?_map] using this
  by_cases he : r.ext ≠ 0
  · rw [if_pos he]
    have hthird : ∀ r1 : reloc,
        r1 = (match fixup_find r.snum symsF with
          | some n => { r with snum := n }
          | none => r) →
        (r1.snum = r.snum ∨ ∃ symF ∈ symsF, symF.initial_snum = r.snum ∧ r1.snum = symF.snum) := by
      intro r1 h1
      cases hf : fixup_find r.snum symsF with
      | none => rw [hf] at h1; left; rw [h1]
      | some n =>
        rw [hf] at h1
        obtain ⟨s, hs, k1, k2⟩ := fixup_find_mem symsF r.snum n hf
        right
        exact ⟨s, hs, k1, by rw [h1, k2]⟩
    refine ⟨?_, ?_, ?_, ?_, ?_, fun h0 => absurd h0 he, ?_, hthird _ rfl⟩
    · cases fixup_find r.snum symsF <;> rfl
    · cases fixup_find r.snum symsF <;> rfl
    · cases fixup_find r.snum symsF <;> rfl
    · cases fixup_find r.snum symsF <;> rfl
    · cases fixup_find r.snum symsF <;> rfl
    · intro _ p sym hp hs
      have hnn := hr he
      have hsp : sym.initial_snum = (p : Int) := by
        rcases hnum p sym hp with h | h
        · rw [h] at hs; omega
        · exact h
      have hgp := hget p
      rw [hp] at hgp
      cases hF : symsF[p]? with
      | none => rw [hF] at hgp; cases hgp
      | some symF =>
        rw [hF] at hgp
        simp only [Option.map_some', Option.some.injEq] at hgp
        have hnumF : ∀ (q : Nat) (sy : symbol), symsF[q]? = some sy →
            sy.initial_snum = -1 ∨ sy.initial_snum = ((0 + q : Nat) : Int) := by
          intro q sy hq
          have hgq := hget q
          rw [hq] at hgq
          cases hS : syms[q]? with
          | none => rw [hS] at hgq; cases hgq
          | some sy0 =>
            rw [hS] at hgq
            simp only [Option.map_some', Option.some.injEq] at hgq
            rw [hgq, Nat.zero_add]
            exact hnum q sy0 hS
        have hfind := fixup_find_numbered symsF 0 hnumF p symF hF
          (by rw [hgp, hsp, Nat.zero_add])
        rw [Nat.zero_add, ← hsp, hs] at hfind
        rw [hfind]
        unfold snum_at
        rw [hF]
        rfl
  · rw [if_neg he]
    have he0 : r.ext = 0 := by simpa using he
    exact ⟨rfl, rfl, rfl, rfl, rfl, fun _ => rfl, fun h => absurd he0 h, Or.inl rfl⟩

theorem fixup_relocs_spec (syms symsF : List symbol) (R : List reloc)
    (hid : symsF.map (fun s => s.initial_snum) = syms.map (fun s => s.initial_snum))
    (hnum : ∀ (q : Nat) (sym : symbol), syms[q]? = some sym →
      sym.initial_snum = -1 ∨ sym.initial_snum = (q : Int))
    (hr : ∀ r ∈ R, r.ext ≠ 0 → 0 ≤ r.snum) :
    List.Forall₂ (fixed_up syms symsF) R (macho_fixup_relocs symsF R) := by
  unfold macho_fixup_relocs
  induction R with
  | nil => exact List.Forall₂.nil
  | cons r rest ih =>
    rw [List.map_cons]
    exact List.Forall₂.cons
      (fixup_reloc_spec syms symsF r hid hnum (hr r (List.mem_cons_self _ _)))
      (ih (fun r2 h2 => hr r2 (List.mem_cons_of_mem _ h2)))

/-! ### Writer -/

theorem nasm_write_write (st : State) (a b : List Nat) :
    nasm_write (nasm_write st a) b = nasm_write st (a ++ b) := by
  simp [nasm_write, List.append_assoc]

theorem nasm_write_fmt (st : State) (b : List Nat) : (nasm_write st b).fmt = st.fmt := rfl

theorem nasm_write_sects (st : State) (b : List Nat) : (nasm_write st b).sects = st.sects := rfl

theorem nasm_write_seg_nsects (st : State) (b : List Nat) :
    (nasm_write st b).seg_nsects = st.seg_nsects := rfl

theorem nasm_write_seg_vmsize (st : State) (b : List Nat) :
    (nasm_write st b).seg_vmsize = st.seg_vmsize := rfl

theorem nasm_write_seg_filesize (st : State) (b : List Nat) :
    (nasm_write st b).seg_filesize = st.seg_filesize := rfl

theorem nasm_write_nsyms (st : State) (b : List Nat) : (nasm_write st b).nsyms = st.nsyms := rfl

theorem nasm_write_strslen (st : State) (b : List Nat) :
    (nasm_write st b).strslen = st.strslen := rfl

theorem nasm_write_ofile (st : State) (b : List Nat) :
    (nasm_write st b).ofile = st.ofile ++ b := rfl

theorem nasm_write_nil (st : State) : nasm_write st [] = st := by
  simp [nasm_write]

theorem name_field_length (n : List Nat) : (name_field n).length = 16 := by
  simp [name_field, saa_fread]

theorem bytes_at_append (buf post : List Nat) (off : Nat) (bs : List Nat)
    (h : bytes_at buf off bs) (hlen : off + bs.length ≤ buf.length) :
    bytes_at (buf ++ post) off bs := by
  unfold bytes_at at h ⊢
  rw [List.drop_append_of_le_length (by omega), List.take_append_of_le_length (by simp; omega)]
  exact h

theorem bytes_at_prepend (pre buf : List Nat) (off : Nat) (bs : List Nat)
    (h : bytes_at buf off bs) : bytes_at (pre ++ buf) (pre.length + off) bs := by
  unfold bytes_at at h ⊢
  rw [List.drop_append]
  exact h

theorem bytes_at_bound (buf : List Nat) (off : Nat) (bs : List Nat) (h : bytes_at buf off bs)
    (hne : bs ≠ []) : off + bs.length ≤ buf.length := by
  unfold bytes_at at h
  have h1 := congrArg List.length h
  simp only [List.length_take, List.length_drop] at h1
  have h2 : 0 < bs.length := List.length_pos.2 hne
  omega

theorem sectcmd_write_spec (st : State) (s : Section) (rel_base offset s_reloff : Nat)
    (hp : s.flags &&& SECTION_TYPE ≠ S_ZEROFILL → s.pad ≠ 2 ^ 32 - 1) :
    ∃ B, sectcmd_write st s rel_base offset s_reloff =
        some (nasm_write st B, offset + file_span s, s_reloff + reloc_span s) ∧
      sectcmd_shape st.fmt.ptrsize B
        (if s.flags &&& SECTION_TYPE ≠ S_ZEROFILL then offset + s.pad else 0)
        (if s.flags &&& SECTION_TYPE ≠ S_ZEROFILL ∧ s.nreloc ≠ 0 then rel_base + s_reloff
          else 0)
        (if s.flags &&& SECTION_TYPE ≠ S_ZEROFILL then s.nreloc else 0) := by
  have hshape : ∀ (a b c d e : Nat),
      sectcmd_shape st.fmt.ptrsize
        (name_field s.sectname ++ (name_field s.segname ++ (le_bytes st.fmt.ptrsize s.addr ++
          (le_bytes st.fmt.ptrsize s.size ++ (le_bytes 4 a ++ (le_bytes 4 b ++ (le_bytes 4 c ++
          (le_bytes 4 d ++ (le_bytes 4 e ++ (le_bytes 4 0 ++
            le_bytes st.fmt.ptrsize 0)))))))))) a c d := by
    intro a b c d e
    refine ⟨?_, ?_, ?_, ?_⟩
    · simp only [List.length_append, name_field_length, le_bytes_length]
      omega
    · have := bytes_at_mid (name_field s.sectname ++ (name_field s.segname ++
        (le_bytes st.fmt.ptrsize s.addr ++ le_bytes st.fmt.ptrsize s.size))) (le_bytes 4 a)
        (le_bytes 4 b ++ (le_bytes 4 c ++ (le_bytes 4 d ++ (le_bytes 4 e ++ (le_bytes 4 0 ++
            le_bytes st.fmt.ptrsize 0)))))
      simp only [List.length_append, name_field_length, le_bytes_length,
        List.append_assoc] at this
      have e : 32 + 2 * st.fmt.ptrsize = 16 + (16 + (st.fmt.ptrsize + st.fmt.ptrsize)) := by
        omega
      rw [e]
      exact this
    · have := bytes_at_mid (name_field s.sectname ++ (name_field s.segname ++
        (le_bytes st.fmt.ptrsize s.addr ++ (le_bytes st.fmt.ptrsize s.size ++
          (le_bytes 4 a ++ le_bytes 4 b))))) (le_bytes 4 c)
        (le_bytes 4 d ++ (le_bytes 4 e ++ (le_bytes 4 0 ++ le_bytes st.fmt.ptrsize 0)))
      simp only [List.length_append, name_field_length, le_bytes_length,
        List.append_assoc] at this
      have e : 40 + 2 * st.fmt.ptrsize =
          16 + (16 + (st.fmt.ptrsize + (st.fmt.ptrsize + (4 + 4)))) := by omega
      rw [e]
      exact this
    · have := bytes_at_mid (name_field s.sectname ++ (name_field s.segname ++
        (le_bytes st.fmt.ptrsize s.addr ++ (le_bytes st.fmt.ptrsize s.size ++
          (le_bytes 4 a ++ (le_bytes 4 b ++ le_bytes 4 c)))))) (le_bytes 4 d)
        (le_bytes 4 e ++ (le_bytes 4 0 ++ le_bytes st.fmt.ptrsize 0))
      simp only [List.length_append, name_field_length, le_bytes_length,
        List.append_assoc] at this
      have e : 44 + 2 * st.fmt.ptrsize =
          16 + (16 + (st.fmt.ptrsize + (st.fmt.ptrsize + (4 + (4 + 4))))) := by omega
      rw [e]
      exact this
  refine ⟨_, ?_, hshape
    (if s.flags &&& SECTION_TYPE ≠ S_ZEROFILL then offset + s.pad else 0) (u32 s.align)
    (if s.flags &&& SECTION_TYPE ≠ S_ZEROFILL ∧ s.nreloc ≠ 0 then rel_base + s_reloff else 0)
    (if s.flags &&& SECTION_TYPE ≠ S_ZEROFILL then s.nreloc else 0) s.flags⟩
  by_cases hz : s.flags &&& SECTION_TYPE ≠ S_ZEROFILL
  · have hpad := hp hz
    unfold sectcmd_write file_span reloc_span
    simp only [if_pos hz, if_neg hpad, Option.map_some', fwriteint32_t,
      fwriteptr, nasm_write_write, nasm_write_fmt, List.append_assoc, Nat.add_assoc]
    by_cases hn : s.nreloc ≠ 0
    · rw [if_pos hn, if_pos ⟨hz, hn⟩]
    · rw [if_neg hn, if_neg (fun h => hn h.2)]
  · unfold sectcmd_write file_span reloc_span
    simp only [if_neg hz, Option.map_some', fwriteint32_t, fwriteptr,
      nasm_write_write, nasm_write_fmt, List.append_assoc, Nat.add_zero]
    rw [if_neg (fun h => hz h.1)]

theorem sect_core_flags (s : Section) (m : Nat) (hm : m &&& SECTION_TYPE = 0) :
    sect_core { s with flags := s.flags ||| m } = sect_core s := by
  unfold sect_core
  simp only [Prod.mk.injEq, true_and, and_true]
  rw [Nat.and_comm, Nat.and_or_distrib_left, Nat.and_comm SECTION_TYPE m, hm, Nat.or_zero,
    Nat.and_comm]

theorem same_cores_modify (l : List Section) (i : Nat) (f : Section → Section)
    (hf : ∀ s, l[i]? = some s → sect_core (f s) = sect_core s) :
    same_cores l (l.modify f i) := by
  unfold same_cores
  apply List.ext_getElem?
  intro k
  simp only [List.getElem?_map, List.getElem?_modify]
  by_cases hk : i = k
  · subst hk
    cases hs : l[i]? with
    | none => simp
    | some s => simp [hf s hs]
  · cases l[k]? <;> simp [hk]

theorem same_cores_refl (l : List Section) : same_cores l l := rfl

theorem same_cores_trans (a b c : List Section) (h1 : same_cores a b) (h2 : same_cores b c) :
    same_cores a c := by
  unfold same_cores at *
  rw [h2, h1]

theorem seg_frame_refl (st : State) : seg_frame st st := ⟨rfl, rfl, rfl⟩

theorem seg_frame_trans (a b c : State) (h1 : seg_frame a b) (h2 : seg_frame b c) :
    seg_frame a c :=
  ⟨h2.1.trans h1.1, h2.2.1.trans h1.2.1, same_cores_trans _ _ _ h1.2.2 h2.2.2⟩

theorem seg_frame_nasm_write (st : State) (b : List Nat) : seg_frame st (nasm_write st b) :=
  ⟨rfl, rfl, rfl⟩

theorem seg_frame_update (st : State) (i : Nat) (f : Section → Section)
    (hf : ∀ s, st.sects[i]? = some s → sect_core (f s) = sect_core s) :
    seg_frame st (update_sect st i f) :=
  ⟨rfl, rfl, same_cores_modify st.sects i f hf⟩

theorem sectcmd_flags_spec (st : State) (i : Nat) (s : Section)
    (hz : s.nreloc ≠ 0 → s.flags &&& SECTION_TYPE ≠ S_ZEROFILL) :
    ∃ st1, sectcmd_flags st i s = some st1 ∧ st1.ofile = st.ofile ∧ seg_frame st st1 := by
  unfold sectcmd_flags
  by_cases hn : s.nreloc ≠ 0
  · rw [if_pos hn, if_neg (hz hn)]
    have h1 : seg_frame st (update_sect st i
        (fun sc => { sc with flags := sc.flags ||| S_ATTR_LOC_RELOC })) :=
      seg_frame_update st i _ (fun s _ => sect_core_flags s _ (by decide))
    dsimp only
    split
    · refine ⟨_, rfl, rfl, seg_frame_trans _ _ _ h1 ?_⟩
      exact seg_frame_update _ i _ (fun s _ => sect_core_flags s _ (by decide))
    · exact ⟨_, rfl, rfl, h1⟩
  · rw [if_neg hn]
    split
    · refine ⟨_, rfl, rfl, seg_frame_update st i _ ?_⟩
      intro s _
      rfl
    · exact ⟨_, rfl, rfl, seg_frame_refl st⟩

theorem core_fields (a b : Section) (h : sect_core a = sect_core b) :
    a.data = b.data ∧ a.relocs = b.relocs ∧ a.addr = b.addr ∧ a.size = b.size ∧
    a.offset = b.offset ∧ a.pad = b.pad ∧ a.nreloc = b.nreloc ∧ a.align = b.align ∧
    a.flags &&& SECTION_TYPE = b.flags &&& SECTION_TYPE ∧ a.fileindex = b.fileindex := by
  simp only [sect_core, Prod.mk.injEq] at h
  obtain ⟨h1, h2, h3, h4, h5, h6, h7, h8, h9, h10, _, _⟩ := h
  exact ⟨h1, h2, h3, h4, h5, h6, h7, h8, h9, h10⟩

theorem file_span_core (a b : Section) (h : sect_core a = sect_core b) :
    file_span a = file_span b ∧ reloc_span a = reloc_span b ∧
    (sect_writable b → sect_writable a) := by
  obtain ⟨_, _, _, h4, _, h6, h7, _, h9, _⟩ := core_fields a b h
  unfold file_span reloc_span sect_writable
  rw [h4, h6, h7, h9]
  exact ⟨rfl, rfl, id⟩

theorem same_cores_get (l l1 : List Section) (h : same_cores l l1) (i : Nat) (s : Section)
    (hs : l[i]? = some s) : ∃ s1, l1[i]? = some s1 ∧ sect_core s1 = sect_core s := by
  have := congrArg (fun x => x[i]?) h
  simp only [List.getElem?_map, hs, Option.map_some'] at this
  cases h1 : l1[i]? with
  | none => rw [h1] at this; cases this
  | some s1 =>
    rw [h1] at this
    exact ⟨s1, rfl, Option.some.inj this⟩

theorem same_cores_length (l l1 : List Section) (h : same_cores l l1) :
    l1.length = l.length := by
  have := congrArg List.length h
  simpa using this

theorem seg_frame_fmt (st st1 : State) (h : seg_frame st st1) : st1.fmt = st.fmt :=
  congrArg (fun x => x.1) h.1

theorem write_sectcmd_spec (st : State) (i : Nat) (s : Section) (rel_base offset s_reloff : Nat)
    (hs : st.sects[i]? = some s) (hw : sect_writable s) :
    ∃ st1 B, write_sectcmd st i rel_base offset s_reloff =
        some (st1, offset + file_span s, s_reloff + reloc_span s) ∧
      st1.ofile = st.ofile ++ B ∧ seg_frame st st1 ∧
      sectcmd_shape st.fmt.ptrsize B
        (if s.flags &&& SECTION_TYPE ≠ S_ZEROFILL then offset + s.pad else 0)
        (if s.flags &&& SECTION_TYPE ≠ S_ZEROFILL ∧ s.nreloc ≠ 0 then rel_base + s_reloff
          else 0)
        (if s.flags &&& SECTION_TYPE ≠ S_ZEROFILL then s.nreloc else 0) := by
  obtain ⟨st1, h1, h2, h3⟩ := sectcmd_flags_spec st i s hw.1
  obtain ⟨s1, hs1, hc⟩ := same_cores_get _ _ h3.2.2 i s hs
  obtain ⟨_, _, _, c4, _, c6, c7, _, c9, _⟩ := core_fields s1 s hc
  obtain ⟨f1, f2, f3⟩ := file_span_core s1 s hc
  obtain ⟨B, hB, hshape⟩ := sectcmd_write_spec st1 s1 rel_base offset s_reloff (f3 hw).2
  refine ⟨nasm_write st1 B, B, ?_, ?_, ?_, ?_⟩
  · unfold write_sectcmd
    rw [hs]
    dsimp only
    rw [h1]
    show (match st1.sects[i]? with
      | none => none
      | some s => sectcmd_write st1 s rel_base offset s_reloff) = _
    rw [hs1]
    dsimp only
    rw [hB, f1, f2]
  · show st1.ofile ++ B = _
    rw [h2]
  · exact seg_frame_trans _ _ _ h3 (seg_frame_nasm_write st1 B)
  · rw [seg_frame_fmt st st1 h3, c6, c7, c9] at hshape
    exact hshape

theorem spans_cores (l l1 : List Section) (h : same_cores l l1) :
    l1.map file_span = l.map file_span ∧ l1.map reloc_span = l.map reloc_span ∧
    ((∀ s ∈ l, sect_writable s) → ∀ s ∈ l1, sect_writable s) := by
  have hlen := same_cores_length l l1 h
  refine ⟨?_, ?_, ?_⟩
  · apply List.ext_getElem?
    intro k
    simp only [List.getElem?_map]
    cases hk : l[k]? with
    | none =>
      have : l1[k]? = none := by
        rw [List.getElem?_eq_none_iff] at hk ⊢
        omega
      rw [this]
    | some s =>
      obtain ⟨s1, hs1, hc⟩ := same_cores_get l l1 h k s hk
      rw [hs1]
      simp only [Option.map_some', (file_span_core s1 s hc).1]
  · apply List.ext_getElem?
    intro k
    simp only [List.getElem?_map]
    cases hk : l[k]? with
    | none =>
      have : l1[k]? = none := by
        rw [List.getElem?_eq_none_iff] at hk ⊢
        omega
      rw [this]
    | some s =>
      obtain ⟨s1, hs1, hc⟩ := same_cores_get l l1 h k s hk
      rw [hs1]
      simp only [Option.map_some', (file_span_core s1 s hc).2.1]
  · intro hw s1 hs1
    obtain ⟨k, hk⟩ := List.getElem?_of_mem hs1
    have hkl : k < l.length := by
      rw [← hlen]; exact (List.getElem?_eq_some_iff.1 hk).1
    obtain ⟨s1', hs1', hc⟩ := same_cores_get l l1 h k _ (List.getElem?_eq_getElem hkl)
    rw [hk] at hs1'
    cases hs1'
    exact (file_span_core s1 _ hc).2.2 (hw _ (List.getElem_mem _))

theorem write_sectcmds_spec (rel_base : Nat) (m : Nat) :
    ∀ (i : Nat) (st : State) (offset s_reloff : Nat), i + m = st.sects.length →
      (∀ s ∈ st.sects, sect_writable s) →
      ∃ (st1 : State) (Bs : List (List Nat)),
        write_sectcmds rel_base (List.range' i m) st offset s_reloff =
          some (st1, offset + ((st.sects.map file_span).drop i).sum,
            s_reloff + ((st.sects.map reloc_span).drop i).sum) ∧
        st1.ofile = st.ofile ++ Bs.flatten ∧ seg_frame st st1 ∧ Bs.length = m ∧
        ∀ (k : Nat) (B : List Nat) (s : Section), Bs[k]? = some B →
          st.sects[i + k]? = some s →
          sectcmd_shape st.fmt.ptrsize B
            (if s.flags &&& SECTION_TYPE ≠ S_ZEROFILL then
              offset + (((st.sects.map file_span).drop i).take k).sum + s.pad else 0)
            (if s.flags &&& SECTION_TYPE ≠ S_ZEROFILL ∧ s.nreloc ≠ 0 then
              rel_base + (s_reloff + (((st.sects.map reloc_span).drop i).take k).sum) else 0)
            (if s.flags &&& SECTION_TYPE ≠ S_ZEROFILL then s.nreloc else 0) := by
  induction m with
  | zero =>
    intro i st offset s_reloff hi _
    refine ⟨st, [], ?_, by simp, seg_frame_refl st, rfl, ?_⟩
    · have hd : ∀ (F : List Nat), F.length = st.sects.length → (F.drop i).sum = 0 := by
        intro F hF
        rw [List.drop_of_length_le (by omega)]
        rfl
      rw [hd _ (by simp), hd _ (by simp)]
      rfl
    · intro k B s hB
      simp at hB
  | succ m ih =>
    intro i st offset s_reloff hi hw
    have hil : i < st.sects.length := by omega
    have hs : st.sects[i]? = some st.sects[i] := List.getElem?_eq_getElem hil
    obtain ⟨st1, B0, e1, e2, e3, e4⟩ := write_sectcmd_spec st i _ rel_base offset s_reloff hs
      (hw _ (List.getElem_mem _))
    obtain ⟨c1, c2, c3⟩ := spans_cores _ _ e3.2.2
    have hlen1 := same_cores_length _ _ e3.2.2
    obtain ⟨st2, Bs, g1, g2, g3, g4, g5⟩ := ih (i + 1) st1 (offset + file_span st.sects[i])
      (s_reloff + reloc_span st.sects[i]) (by omega) (c3 hw)
    have hdF : (st.sects.map file_span).drop i =
        file_span st.sects[i] :: (st.sects.map file_span).drop (i + 1) := by
      rw [List.drop_eq_getElem_cons (by simpa using hil)]
      simp
    have hdR : (st.sects.map reloc_span).drop i =
        reloc_span st.sects[i] :: (st.sects.map reloc_span).drop (i + 1) := by
      rw [List.drop_eq_getElem_cons (by simpa using hil)]
      simp
    rw [c1, c2] at g1 g5
    refine ⟨st2, B0 :: Bs, ?_, ?_, seg_frame_trans _ _ _ e3 g3, by simp [g4], ?_⟩
    · rw [List.range'_succ]
      unfold write_sectcmds
      rw [e1]
      show write_sectcmds rel_base (List.range' (i + 1) m) st1
        (offset + file_span st.sects[i]) (s_reloff + reloc_span st.sects[i]) = _
      rw [g1, hdF, hdR]
      simp only [List.sum_cons, Nat.add_assoc]
    · rw [g2, e2]
      simp [List.append_assoc]
    · intro k B s hB hsk
      cases k with
      | zero =>
        simp only [List.getElem?_cons_zero, Option.some.injEq] at hB
        subst hB
        rw [Nat.add_zero, hs] at hsk
        cases hsk
        simpa using e4
      | succ j =>
        simp only [List.getElem?_cons_succ] at hB
        have hj : i + 1 + j < st.sects.length := by
          have := (List.getElem?_eq_some_iff.1 hsk).1
          omega
        obtain ⟨s1, hs1, hc⟩ := same_cores_get _ _ e3.2.2 (i + 1 + j) s
          (by rw [← hsk]; congr 1; omega)
        obtain ⟨_, _, _, _, _, c6, c7, _, c9, _⟩ := core_fields s1 s hc
        have := g5 j B s1 hB hs1
        rw [seg_frame_fmt _ _ e3, c6, c7, c9] at this
        rw [hdF, hdR]
        simp only [List.take_succ_cons, List.sum_cons]
        have ea : offset + (file_span st.sects[i] +
            (List.take j (List.drop (i + 1) (List.map file_span st.sects))).sum) =
            offset + file_span st.sects[i] +
            (List.take j (List.drop (i + 1) (List.map file_span st.sects))).sum := by omega
        have eb : s_reloff + (reloc_span st.sects[i] +
            (List.take j (List.drop (i + 1) (List.map reloc_span st.sects))).sum) =
            s_reloff + reloc_span st.sects[i] +
            (List.take j (List.drop (i + 1) (List.map reloc_span st.sects))).sum := by omega
        rw [ea, eb]
        exact this

theorem macho_write_header_spec (st : State) :
    ∃ H, macho_write_header st = nasm_write st H ∧
      H.length = 28 + (st.fmt.header_size - 7 * 4) ∧
      bytes_at H 16 (le_bytes 4 st.head_ncmds) ∧
      bytes_at H 20 (le_bytes 4 st.head_sizeofcmds) := by
  refine ⟨le_bytes 4 st.fmt.mh_magic ++ (le_bytes 4 st.fmt.cpu_type ++
    (le_bytes 4 CPU_SUBTYPE_I386_ALL ++ (le_bytes 4 MH_OBJECT ++ (le_bytes 4 st.head_ncmds ++
    (le_bytes 4 st.head_sizeofcmds ++ (le_bytes 4 0 ++
      List.replicate (st.fmt.header_size - 7 * 4) 0)))))), ?_, ?_, ?_, ?_⟩
  · unfold macho_write_header
    simp only [fwriteint32_t, fwritezero, nasm_write_write, List.append_assoc]
    rfl
  · simp only [List.length_append, le_bytes_length, List.length_replicate]
    omega
  · have := bytes_at_mid (le_bytes 4 st.fmt.mh_magic ++ (le_bytes 4 st.fmt.cpu_type ++
      (le_bytes 4 CPU_SUBTYPE_I386_ALL ++ le_bytes 4 MH_OBJECT))) (le_bytes 4 st.head_ncmds)
      (le_bytes 4 st.head_sizeofcmds ++ (le_bytes 4 0 ++
        List.replicate (st.fmt.header_size - 7 * 4) 0))
    simpa only [List.length_append, le_bytes_length, List.append_assoc] using this
  · have := bytes_at_mid (le_bytes 4 st.fmt.mh_magic ++ (le_bytes 4 st.fmt.cpu_type ++
      (le_bytes 4 CPU_SUBTYPE_I386_ALL ++ (le_bytes 4 MH_OBJECT ++ le_bytes 4 st.head_ncmds))))
      (le_bytes 4 st.head_sizeofcmds)
      (le_bytes 4 0 ++ List.replicate (st.fmt.header_size - 7 * 4) 0)
    simpa only [List.length_append, le_bytes_length, List.append_assoc] using this

theorem macho_write_segment_spec (st : State) (offset : Nat)
    (hw : ∀ s ∈ st.sects, sect_writable s) :
    ∃ (st1 : State) (P : List Nat) (Bs : List (List Nat)),
      macho_write_segment st offset =
        some (st1, alignptr st (offset + st.seg_filesize) +
          (st.sects.map reloc_span).sum) ∧
      st1.ofile = st.ofile ++ (P ++ Bs.flatten) ∧
      P.length = 40 + 4 * st.fmt.ptrsize ∧ Bs.length = st.sects.length ∧
      seg_frame st st1 ∧
      st1.rel_padcnt = ((((alignptr st (offset + st.seg_filesize) : Nat) : Int) -
        ((offset + (st.sects.map file_span).sum : Nat) : Int)) % 2 ^ 64).toNat ∧
      ∀ (k : Nat) (B : List Nat) (s : Section), Bs[k]? = some B → st.sects[k]? = some s →
        sectcmd_shape st.fmt.ptrsize B
          (if s.flags &&& SECTION_TYPE ≠ S_ZEROFILL then
            offset + ((st.sects.map file_span).take k).sum + s.pad else 0)
          (if s.flags &&& SECTION_TYPE ≠ S_ZEROFILL ∧ s.nreloc ≠ 0 then
            alignptr st (offset + st.seg_filesize) +
              ((st.sects.map reloc_span).take k).sum else 0)
          (if s.flags &&& SECTION_TYPE ≠ S_ZEROFILL then s.nreloc else 0) := by
  obtain ⟨st1, Bs, g1, g2, g3, g4, g5⟩ := write_sectcmds_spec
    (alignptr st (offset + st.seg_filesize)) st.sects.length 0
    (nasm_write st (le_bytes 4 st.fmt.lc_segment ++
      (le_bytes 4 (st.fmt.segcmd_size + st.seg_nsects * st.fmt.sectcmd_size) ++
      (List.replicate 16 0 ++ (le_bytes st.fmt.ptrsize 0 ++
      (le_bytes st.fmt.ptrsize st.seg_vmsize ++ (le_bytes st.fmt.ptrsize offset ++
      (le_bytes st.fmt.ptrsize st.seg_filesize ++ (le_bytes 4 VM_PROT_DEFAULT ++
      (le_bytes 4 VM_PROT_DEFAULT ++ (le_bytes 4 st.seg_nsects ++ le_bytes 4 0))))))))))) offset 0
    (by simp [nasm_write_sects]) hw
  simp only [nasm_write_sects, nasm_write_fmt, nasm_write_ofile, List.drop_zero, Nat.zero_add]
    at g1 g2 g3 g4 g5
  refine ⟨{ st1 with rel_padcnt := ((((alignptr st (offset + st.seg_filesize) : Nat) : Int) -
      ((offset + (st.sects.map file_span).sum : Nat) : Int)) % 2 ^ 64).toNat },
    (le_bytes 4 st.fmt.lc_segment ++
      (le_bytes 4 (st.fmt.segcmd_size + st.seg_nsects * st.fmt.sectcmd_size) ++
      (List.replicate 16 0 ++ (le_bytes st.fmt.ptrsize 0 ++
      (le_bytes st.fmt.ptrsize st.seg_vmsize ++ (le_bytes st.fmt.ptrsize offset ++
      (le_bytes st.fmt.ptrsize st.seg_filesize ++ (le_bytes 4 VM_PROT_DEFAULT ++
      (le_bytes 4 VM_PROT_DEFAULT ++ (le_bytes 4 st.seg_nsects ++ le_bytes 4 0)))))))))), Bs, ?_, ?_,
    ?_, g4, ?_, rfl, g5⟩
  · unfold macho_write_segment
    simp only [fwriteint32_t, fwritezero, fwriteptr, nasm_write_write, nasm_write_fmt,
      nasm_write_sects, nasm_write_seg_nsects, nasm_write_seg_vmsize,
      nasm_write_seg_filesize, List.append_assoc, List.range_eq_range']
    rw [g1]
    rfl
  · show st1.ofile = _
    rw [g2, List.append_assoc]
  · simp only [List.length_append, le_bytes_length, List.length_replicate]
    omega
  · exact ⟨(seg_frame_trans _ _ _ (seg_frame_nasm_write st _) g3).1,
      (seg_frame_trans _ _ _ (seg_frame_nasm_write st _) g3).2.1,
      (seg_frame_trans _ _ _ (seg_frame_nasm_write st _) g3).2.2⟩

theorem size_section_file (s : Section) (v f : Nat) :
    (size_section s v f).2.2 = f + file_span (size_section s v f).1 ∧
    ((size_section s v f).1.flags &&& SECTION_TYPE ≠ S_ZEROFILL →
      (size_section s v f).1.offset = f + (size_section s v f).1.pad ∧
      (size_section s v f).1.pad < 4 ∧ (size_section s v f).1.offset % 4 = 0) ∧
    sect_sized s (size_section s v f).1 := by
  unfold size_section file_span sect_sized ALIGN
  by_cases h1 : s.align = -1 <;>
    by_cases h2 : s.flags &&& SECTION_TYPE ≠ S_ZEROFILL <;>
    simp only [h1, h2, if_true, if_false, ne_eq, not_true_eq_false, not_false_eq_true,
      and_self, and_true, true_and, Nat.add_zero, false_implies, forall_const] <;>
    omega

theorem size_sections_file (l : List Section) (v f : Nat) :
    (size_sections l v f).2.2 = f + ((size_sections l v f).1.map file_span).sum ∧
    (∀ (k : Nat) (s1 : Section), (size_sections l v f).1[k]? = some s1 →
      s1.flags &&& SECTION_TYPE ≠ S_ZEROFILL →
      s1.offset = f + (((size_sections l v f).1.map file_span).take k).sum + s1.pad ∧
      s1.pad < 4 ∧ s1.offset % 4 = 0) ∧
    List.Forall₂ sect_sized l (size_sections l v f).1 := by
  induction l generalizing v f with
  | nil =>
    refine ⟨rfl, ?_, List.Forall₂.nil⟩
    intro k s1 h
    simp [size_sections] at h
  | cons a rest ih =>
    have hstep : size_sections (a :: rest) v f =
        ((size_section a v f).1 ::
          (size_sections rest (size_section a v f).2.1 (size_section a v f).2.2).1,
          (size_sections rest (size_section a v f).2.1 (size_section a v f).2.2).2) := rfl
    obtain ⟨p1, p2, p3⟩ := size_section_file a v f
    rw [hstep]
    generalize size_section a v f = r at *
    obtain ⟨i1, i2, i3⟩ := ih r.2.1 r.2.2
    generalize size_sections rest r.2.1 r.2.2 = t at *
    refine ⟨?_, ?_, List.Forall₂.cons p3 i3⟩
    · dsimp only
      rw [i1, p1, List.map_cons, List.sum_cons]
      omega
    · intro k s1 hk hnz
      cases k with
      | zero =>
        simp only [List.getElem?_cons_zero, Option.some.injEq] at hk
        subst hk
        obtain ⟨q1, q2, q3⟩ := p2 hnz
        refine ⟨?_, q2, q3⟩
        simp only [List.take_zero, List.sum_nil, Nat.add_zero]
        exact q1
      | succ j =>
        simp only [List.getElem?_cons_succ] at hk
        obtain ⟨q1, q2, q3⟩ := i2 j s1 hk hnz
        refine ⟨?_, q2, q3⟩
        rw [q1, p1]
        simp only [List.map_cons, List.take_succ_cons, List.sum_cons]
        omega

theorem macho_calculate_sizes_some (st : State) (h : st.seg_nsects ≤ MAX_SECT) :
    ∃ st1, macho_calculate_sizes st = some st1 := by
  unfold macho_calculate_sizes
  have h3 : ¬ st.seg_nsects > MAX_SECT := by omega
  by_cases h1 : st.seg_nsects > 0 <;> by_cases h2 : st.nsyms > 0 <;>
    simp only [h1, h2, h3, if_true, if_false] <;> exact ⟨_, rfl⟩

theorem forall₂_get {α β : Type} (R : α → β → Prop) (l : List α) (l1 : List β)
    (h : List.Forall₂ R l l1) :
    l1.length = l.length ∧ ∀ (k : Nat) (a : α) (b : β), l[k]? = some a → l1[k]? = some b →
      R a b := by
  induction h with
  | nil => exact ⟨rfl, fun k a b h => by simp at h⟩
  | cons hab _ ih =>
    refine ⟨by simp [ih.1], ?_⟩
    intro k a b ha hb
    cases k with
    | zero =>
      simp only [List.getElem?_cons_zero, Option.some.injEq] at ha hb
      subst ha hb
      exact hab
    | succ j =>
      simp only [List.getElem?_cons_succ] at ha hb
      exact ih.2 j a b ha hb

theorem sized_spec (st st1 : State) (hinv : run_inv st)
    (hsz : macho_calculate_sizes (fixup_all (macho_layout_symbols st)) = some st1) :
    st1.fmt = st.fmt ∧ st1.seg_nsects = st.sects.length ∧
    st1.sects.length = st.sects.length ∧ st1.nsyms = st.syms.length ∧
    st1.syms = (macho_layout_symbols st).syms ∧ st1.ofile = [] ∧
    st1.head_ncmds = (if st.sects.length > 0 then 1 else 0) +
      (if st.syms.length > 0 then 1 else 0) ∧
    st1.head_sizeofcmds =
      (if st.sects.length > 0 then
        st.fmt.segcmd_size + st.sects.length * st.fmt.sectcmd_size else 0) +
      (if st.syms.length > 0 then MACHO_SYMCMD_SIZE else 0) ∧
    st1.seg_filesize = (st1.sects.map file_span).sum ∧
    (∀ s ∈ st1.sects, sect_writable s) ∧
    (∀ (k : Nat) (s s1 : Section), st.sects[k]? = some s → st1.sects[k]? = some s1 →
      s1.data = s.data ∧ s1.size = s.size ∧ s1.nreloc = s.nreloc ∧ s1.flags = s.flags ∧
      s1.fileindex = s.fileindex ∧
      s1.relocs = macho_fixup_relocs (macho_layout_symbols st).syms s.relocs ∧
      (s1.flags &&& SECTION_TYPE ≠ S_ZEROFILL →
        s1.offset = ((st1.sects.map file_span).take k).sum + s1.pad ∧ s1.pad < 4 ∧
        s1.offset % 4 = 0)) ∧
    st1.sectstab =
      sectptr.absolute :: (List.range st1.sects.length).map (fun i => sectptr.real i) ∧
    st1.strs = (macho_layout_symbols st).strs ∧
    st1.strslen = (macho_layout_symbols st).strslen ∧
    st1.absolute_sect = st.absolute_sect := by
  obtain ⟨r1, r2, r3, r4, r5, r6, r7⟩ := hinv
  have hkept := macho_layout_symbols_kept st
  simp only [kept_by_layout, Prod.mk.injEq] at hkept
  obtain ⟨k1, k2, k3, k4, k5, k6, k7, k8, k9, k10, k11, k12, k13, k14, k15, k16⟩ := hkept
  obtain ⟨l1, l2, l3, l4, l5, l6, l7, l8, l9, l10, l11, l12⟩ :=
    layout_spec st ⟨r7.1, r7.2.1, r7.2.2.1⟩
  obtain ⟨z1, z2, z3, z4, z5, z6, z7, z8, z9, z10, z11, z12, z13, z14, z15⟩ :=
    macho_calculate_sizes_spec _ st1 hsz
  have hFs : (fixup_all (macho_layout_symbols st)).sects = st.sects.map (fun sc =>
      { sc with relocs := macho_fixup_relocs (macho_layout_symbols st).syms sc.relocs }) := by
    unfold fixup_all
    rw [k2]
  obtain ⟨f1, f2, f3⟩ := size_sections_file (fixup_all (macho_layout_symbols st)).sects
    (fixup_all (macho_layout_symbols st)).seg_vmsize
    (fixup_all (macho_layout_symbols st)).seg_filesize
  rw [← z1] at f1 f2 f3
  rw [← z3] at f1
  have hfs0 : (fixup_all (macho_layout_symbols st)).seg_filesize = 0 := k8.trans r7.2.2.2.2.2.2.1
  rw [hfs0] at f1 f2
  obtain ⟨g1, g2⟩ := forall₂_get _ _ _ f3
  rw [hFs, List.length_map] at g1
  have hsec : ∀ (k : Nat) (s s1 : Section), st.sects[k]? = some s → st1.sects[k]? = some s1 →
      sect_sized
        { s with relocs := macho_fixup_relocs (macho_layout_symbols st).syms s.relocs }
        s1 := by
    intro k s s1 hk hk1
    exact g2 k _ s1 (by rw [hFs, List.getElem?_map, hk]; rfl) hk1
  have hnsy : (fixup_all (macho_layout_symbols st)).nsyms = st.syms.length := l9
  have hnse : (fixup_all (macho_layout_symbols st)).seg_nsects = st.sects.length :=
    k10.trans r3
  have hfmt : (fixup_all (macho_layout_symbols st)).fmt = st.fmt := k1
  have hnc : (fixup_all (macho_layout_symbols st)).head_ncmds = 0 := k6.trans r7.2.2.2.2.1
  have hsc : (fixup_all (macho_layout_symbols st)).head_sizeofcmds = 0 :=
    k7.trans r7.2.2.2.2.2.1
  have hof : (fixup_all (macho_layout_symbols st)).ofile = [] := k16.trans r7.2.2.2.2.2.2.2.2
  refine ⟨z8.trans hfmt, z9.trans hnse, g1, z10.trans hnsy, z11, z13.trans hof, ?_, ?_,
    by simpa using f1, ?_, ?_, z7, z14, z15, z12.trans k3⟩
  · rw [z4, hnc, hnse, hnsy]; omega
  · rw [z5, hsc, hnse, hnsy, hfmt]; omega
  · intro s1 hs1
    obtain ⟨k, hk⟩ := List.getElem?_of_mem hs1
    have hkl : k < st.sects.length := by
      rw [← g1]; exact (List.getElem?_eq_some_iff.1 hk).1
    obtain ⟨e1, e2, e3, e4, e5, _⟩ := hsec k _ s1 (List.getElem?_eq_getElem hkl) hk
    obtain ⟨_, o1, o2, _, _, _⟩ := r6 k _ (List.getElem?_eq_getElem hkl)
    constructor
    · intro hn hz
      rw [e5] at hz
      have := o2 hz
      rw [e4, o1, this] at hn
      exact hn rfl
    · intro hnz
      have := (f2 k s1 hk hnz).2.1
      omega
  · intro k s s1 hk hk1
    obtain ⟨e1, e2, e3, e4, e5, e6, _⟩ := hsec k s s1 hk hk1
    refine ⟨e1, e3, e4, e5, e6, e2, ?_⟩
    intro hnz
    have := f2 k s1 hk1 hnz
    simpa using this

theorem bytes_at_flatten (Bs : List (List Nat)) (c : Nat) (hc : ∀ B ∈ Bs, B.length = c)
    (k : Nat) (B : List Nat) (hk : Bs[k]? = some B) (o : Nat) (bs : List Nat)
    (h : bytes_at B o bs) (hb : o + bs.length ≤ c) : bytes_at Bs.flatten (k * c + o) bs := by
  induction Bs generalizing k with
  | nil => simp at hk
  | cons B0 rest ih =>
    rw [List.flatten_cons]
    cases k with
    | zero =>
      simp only [List.getElem?_cons_zero, Option.some.injEq] at hk
      subst hk
      rw [Nat.zero_mul, Nat.zero_add]
      exact bytes_at_append _ _ _ _ h (by rw [hc _ (List.mem_cons_self _ _)]; exact hb)
    | succ j =>
      simp only [List.getElem?_cons_succ] at hk
      have := ih (fun B hB => hc B (List.mem_cons_of_mem _ hB)) j hk
      have e : (j + 1) * c + o = B0.length + (j * c + o) := by
        rw [hc _ (List.mem_cons_self _ _), Nat.succ_mul]
        omega
      rw [e]
      exact bytes_at_prepend _ _ _ _ this

theorem flatten_length_uniform (Bs : List (List Nat)) (c : Nat)
    (hc : ∀ B ∈ Bs, B.length = c) : Bs.flatten.length = Bs.length * c := by
  induction Bs with
  | nil => simp
  | cons B0 rest ih =>
    rw [List.flatten_cons, List.length_append, hc _ (List.mem_cons_self _ _),
      ih (fun B hB => hc B (List.mem_cons_of_mem _ hB)), List.length_cons, Nat.succ_mul]
    omega

theorem write_symtab_command_spec (st : State) (offset : Nat) :
    ∃ S, write_symtab_command st offset =
        (nasm_write st S, offset + st.nsyms * st.fmt.nlist_size) ∧ S.length = 24 ∧
      bytes_at S 8 (le_bytes 4 offset) ∧ bytes_at S 12 (le_bytes 4 st.nsyms) ∧
      bytes_at S 16 (le_bytes 4 (offset + st.nsyms * st.fmt.nlist_size)) ∧
      bytes_at S 20 (le_bytes 4 st.strslen) := by
  refine ⟨le_bytes 4 LC_SYMTAB ++ (le_bytes 4 MACHO_SYMCMD_SIZE ++ (le_bytes 4 offset ++
    (le_bytes 4 st.nsyms ++ (le_bytes 4 (offset + st.nsyms * st.fmt.nlist_size) ++
      le_bytes 4 st.strslen)))), ?_, ?_, ?_, ?_, ?_, ?_⟩
  · unfold write_symtab_command
    simp only [fwriteint32_t, nasm_write_write, nasm_write_fmt, nasm_write_nsyms,
      nasm_write_strslen, List.append_assoc]
  · simp only [List.length_append, le_bytes_length]
  · have := bytes_at_mid (le_bytes 4 LC_SYMTAB ++ le_bytes 4 MACHO_SYMCMD_SIZE)
      (le_bytes 4 offset) (le_bytes 4 st.nsyms ++
        (le_bytes 4 (offset + st.nsyms * st.fmt.nlist_size) ++ le_bytes 4 st.strslen))
    simpa only [List.length_append, le_bytes_length, List.append_assoc] using this
  · have := bytes_at_mid (le_bytes 4 LC_SYMTAB ++ (le_bytes 4 MACHO_SYMCMD_SIZE ++
      le_bytes 4 offset)) (le_bytes 4 st.nsyms)
      (le_bytes 4 (offset + st.nsyms * st.fmt.nlist_size) ++ le_bytes 4 st.strslen)
    simpa only [List.length_append, le_bytes_length, List.append_assoc] using this
  · have := bytes_at_mid (le_bytes 4 LC_SYMTAB ++ (le_bytes 4 MACHO_SYMCMD_SIZE ++
      (le_bytes 4 offset ++ le_bytes 4 st.nsyms)))
      (le_bytes 4 (offset + st.nsyms * st.fmt.nlist_size)) (le_bytes 4 st.strslen)
    simpa only [List.length_append, le_bytes_length, List.append_assoc] using this
  · have := bytes_at_mid (le_bytes 4 LC_SYMTAB ++ (le_bytes 4 MACHO_SYMCMD_SIZE ++
      (le_bytes 4 offset ++ (le_bytes 4 st.nsyms ++
        le_bytes 4 (offset + st.nsyms * st.fmt.nlist_size))))) (le_bytes 4 st.strslen) []
    simpa only [List.length_append, le_bytes_length, List.append_assoc,
      List.append_nil] using this

theorem write_load_commands_spec (st : State) (hw : ∀ s ∈ st.sects, sect_writable s) :
    ∃ (st2 : State) (off : Nat) (H P : List Nat) (Bs : List (List Nat)) (S : List Nat),
      write_load_commands st = some (st2, off) ∧
      st2.ofile = st.ofile ++ (H ++ (P ++ (Bs.flatten ++ S))) ∧
      seg_frame st st2 ∧
      H.length = 28 + (st.fmt.header_size - 7 * 4) ∧
      bytes_at H 16 (le_bytes 4 st.head_ncmds) ∧
      bytes_at H 20 (le_bytes 4 st.head_sizeofcmds) ∧
      (st.seg_nsects > 0 →
        P.length = 40 + 4 * st.fmt.ptrsize ∧ Bs.length = st.sects.length ∧
        st2.rel_padcnt =
          ((((alignptr st (st.fmt.header_size + st.head_sizeofcmds + st.seg_filesize) : Nat)
            : Int) - ((st.fmt.header_size + st.head_sizeofcmds +
              (st.sects.map file_span).sum : Nat) : Int)) % 2 ^ 64).toNat ∧
        ∀ (k : Nat) (B : List Nat) (s : Section), Bs[k]? = some B → st.sects[k]? = some s →
          sectcmd_shape st.fmt.ptrsize B
            (if s.flags &&& SECTION_TYPE ≠ S_ZEROFILL then
              st.fmt.header_size + st.head_sizeofcmds +
                ((st.sects.map file_span).take k).sum + s.pad else 0)
            (if s.flags &&& SECTION_TYPE ≠ S_ZEROFILL ∧ s.nreloc ≠ 0 then
              alignptr st (st.fmt.header_size + st.head_sizeofcmds + st.seg_filesize) +
                ((st.sects.map reloc_span).take k).sum else 0)
            (if s.flags &&& SECTION_TYPE ≠ S_ZEROFILL then s.nreloc else 0)) ∧
      (¬ st.seg_nsects > 0 → P = [] ∧ Bs = [] ∧ st2.rel_padcnt = st.rel_padcnt) ∧
      (st.nsyms > 0 → S.length = 24 ∧
        bytes_at S 8 (le_bytes 4
          (if st.seg_nsects > 0 then
            alignptr st (st.fmt.header_size + st.head_sizeofcmds + st.seg_filesize) +
              (st.sects.map reloc_span).sum
          else st.fmt.header_size + st.head_sizeofcmds)) ∧
        bytes_at S 12 (le_bytes 4 st.nsyms) ∧ bytes_at S 20 (le_bytes 4 st.strslen)) ∧
      (¬ st.nsyms > 0 → S = []) ∧
      off = (if st.seg_nsects > 0 then
          alignptr st (st.fmt.header_size + st.head_sizeofcmds + st.seg_filesize) +
            (st.sects.map reloc_span).sum
        else st.fmt.header_size + st.head_sizeofcmds) +
        (if st.nsyms > 0 then st.nsyms * st.fmt.nlist_size else 0) := by
  obtain ⟨H, hH, hH1, hH2, hH3⟩ := macho_write_header_spec st
  have hstep : ∃ (st1 : State) (o1 : Nat) (P : List Nat) (Bs : List (List Nat)),
      (if (nasm_write st H).seg_nsects > 0 then
        macho_write_segment (nasm_write st H) (st.fmt.header_size + st.head_sizeofcmds)
       else some (nasm_error (nasm_write st H) .no_sections,
         st.fmt.header_size + st.head_sizeofcmds)) = some (st1, o1) ∧
      st1.ofile = st.ofile ++ (H ++ (P ++ Bs.flatten)) ∧ seg_frame st st1 ∧
      (st.seg_nsects > 0 →
        P.length = 40 + 4 * st.fmt.ptrsize ∧ Bs.length = st.sects.length ∧
        st1.rel_padcnt =
          ((((alignptr st (st.fmt.header_size + st.head_sizeofcmds + st.seg_filesize) : Nat)
            : Int) - ((st.fmt.header_size + st.head_sizeofcmds +
              (st.sects.map file_span).sum : Nat) : Int)) % 2 ^ 64).toNat ∧
        ∀ (k : Nat) (B : List Nat) (s : Section), Bs[k]? = some B → st.sects[k]? = some s →
          sectcmd_shape st.fmt.ptrsize B
            (if s.flags &&& SECTION_TYPE ≠ S_ZEROFILL then
              st.fmt.header_size + st.head_sizeofcmds +
                ((st.sects.map file_span).take k).sum + s.pad else 0)
            (if s.flags &&& SECTION_TYPE ≠ S_ZEROFILL ∧ s.nreloc ≠ 0 then
              alignptr st (st.fmt.header_size + st.head_sizeofcmds + st.seg_filesize) +
                ((st.sects.map reloc_span).take k).sum else 0)
            (if s.flags &&& SECTION_TYPE ≠ S_ZEROFILL then s.nreloc else 0)) ∧
      (¬ st.seg_nsects > 0 → P = [] ∧ Bs = [] ∧ st1.rel_padcnt = st.rel_padcnt) ∧
      o1 = (if st.seg_nsects > 0 then
          alignptr st (st.fmt.header_size + st.head_sizeofcmds + st.seg_filesize) +
            (st.sects.map reloc_span).sum
        else st.fmt.header_size + st.head_sizeofcmds) := by
    by_cases hn : st.seg_nsects > 0
    · obtain ⟨st1, P, Bs, g1, g2, g3, g4, g5, g6, g7⟩ :=
        macho_write_segment_spec (nasm_write st H) (st.fmt.header_size + st.head_sizeofcmds) hw
      refine ⟨st1, alignptr st (st.fmt.header_size + st.head_sizeofcmds + st.seg_filesize) +
          (st.sects.map reloc_span).sum, P, Bs, ?_, ?_,
        seg_frame_trans _ _ _ (seg_frame_nasm_write st H) g5,
        fun _ => ⟨g3, g4, g6, g7⟩, fun h => absurd hn h, by rw [if_pos hn]⟩
      · rw [if_pos (show (nasm_write st H).seg_nsects > 0 from hn), g1]
        rfl
      · rw [g2]
        show st.ofile ++ H ++ (P ++ Bs.flatten) = _
        rw [List.append_assoc]
    · refine ⟨nasm_error (nasm_write st H) .no_sections,
        st.fmt.header_size + st.head_sizeofcmds, [], [], ?_, ?_, ⟨rfl, rfl, rfl⟩,
        fun h => absurd h hn, fun _ => ⟨rfl, rfl, rfl⟩, by rw [if_neg hn]⟩
      · rw [if_neg (show ¬ (nasm_write st H).seg_nsects > 0 from hn)]
      · show st.ofile ++ H = _
        simp
  obtain ⟨st1, o1, P, Bs, s1, s2, s3, s4, s5, s6⟩ := hstep
  have hns : st1.nsyms = st.nsyms := congrArg (fun x => x.2.2.2.1) s3.1
  have hsl : st1.strslen = st.strslen := congrArg (fun x => x.2.2.2.2.2.2.2.2.2.2.2.2.2.1) s3.1
  have hfm : st1.fmt = st.fmt := congrArg (fun x => x.1) s3.1
  have hwl : write_load_commands st =
      Option.map (fun p => if p.1.nsyms > 0 then write_symtab_command p.1 p.2 else p)
        (some (st1, o1)) := by
    unfold write_load_commands
    rw [hH]
    simp only [nasm_write_fmt]
    rw [← s1]
    rfl
  by_cases hy : st.nsyms > 0
  · obtain ⟨S, q1, q2, q3, q4, q5, q6⟩ := write_symtab_command_spec st1 o1
    refine ⟨nasm_write st1 S, o1 + st1.nsyms * st1.fmt.nlist_size, H, P, Bs, S, ?_, ?_,
      seg_frame_trans _ _ _ s3 (seg_frame_nasm_write st1 S), hH1, hH2, hH3, s4, s5,
      fun _ => ⟨q2, by rw [← s6]; exact q3, by rw [← hns]; exact q4, by rw [← hsl]; exact q6⟩,
      fun h => absurd hy h, ?_⟩
    · rw [hwl]
      simp only [Option.map_some']
      rw [if_pos (show st1.nsyms > 0 by rw [hns]; exact hy), q1]
    · show st1.ofile ++ S = _
      rw [s2]
      simp only [List.append_assoc]
    · rw [if_pos hy, ← s6, hns, hfm]
  · refine ⟨st1, o1, H, P, Bs, [], ?_, ?_, s3, hH1, hH2, hH3, s4, s5,
      fun h => absurd h hy, fun _ => rfl, ?_⟩
    · rw [hwl]
      simp only [Option.map_some']
      rw [if_neg (show ¬ st1.nsyms > 0 by rw [hns]; exact hy)]
    · rw [s2]
      simp only [List.append_nil]
    · rw [if_neg hy, ← s6]
      rfl

/-! ### Section data and relocation entries -/

theorem macho_write_relocs_eq (st : State) (R : List reloc) :
    macho_write_relocs st R = nasm_write st (reloc_entries R) := by
  induction R generalizing st with
  | nil => exact (nasm_write_nil st).symm
  | cons r rest ih =>
    simp only [macho_write_relocs, ih, fwriteint32_t, nasm_write_write, reloc_entries,
      List.map_cons, List.flatten_cons, reloc_entry, List.append_assoc]

theorem write_relocs_fold_eq (l : List Section) (st : State) :
    l.foldl (fun acc s => macho_write_relocs acc s.relocs) st =
      nasm_write st (l.map (fun s => reloc_entries s.relocs)).flatten := by
  induction l generalizing st with
  | nil => exact (nasm_write_nil st).symm
  | cons s rest ih =>
    rw [List.foldl_cons, ih, macho_write_relocs_eq, nasm_write_write]
    rfl

theorem reloc_entries_length (R : List reloc) :
    (reloc_entries R).length = R.length * MACHO_RELINFO_SIZE := by
  induction R with
  | nil => rfl
  | cons r rest ih =>
    have : reloc_entries (r :: rest) = reloc_entry r ++ reloc_entries rest := rfl
    rw [this, List.length_append, ih]
    simp only [reloc_entry, List.length_append, le_bytes_length, List.length_cons,
      MACHO_RELINFO_SIZE]
    omega

theorem patch_relocs_some (st : State) (s : Section) (R : List reloc) (data : List Nat)
    (hv : snums_valid st R) :
    ∃ D, patch_relocs st s R data = some D ∧ D.length = data.length := by
  induction R generalizing data with
  | nil => exact ⟨data, rfl, rfl⟩
  | cons r rest ih =>
    obtain ⟨v, hval⟩ := patch_value_some st s r
      (to_int64 (le_value (saa_fread data r.addr (patch_len r))))
      (hv r (List.mem_cons_self _ _))
    obtain ⟨D, hD, hlen⟩ := ih (saa_fwrite data r.addr (le_bytes (patch_len r) (u64 v)))
      (fun q hq => hv q (List.mem_cons_of_mem _ hq))
    refine ⟨D, ?_, hlen.trans (saa_fwrite_length _ _ _)⟩
    simp only [patch_relocs, patch_reloc, hval, Option.map_some', Option.some_bind, hD]

theorem dump_frame_refl (st : State) : dump_frame st st := ⟨rfl, rfl⟩

theorem dump_frame_trans (a b c : State) (h1 : dump_frame a b) (h2 : dump_frame b c) :
    dump_frame a c := by
  obtain ⟨a1, a2⟩ := h1
  obtain ⟨b1, b2⟩ := h2
  refine ⟨?_, b2.trans a2⟩
  rw [← a1, ← b1]

theorem dump_frame_nasm_write (st : State) (b : List Nat) : dump_frame st (nasm_write st b) :=
  ⟨rfl, rfl⟩

theorem dump_frame_data (st : State) (i : Nat) (d : List Nat) :
    dump_frame st (update_sect st i (fun sc => { sc with data := d })) := by
  refine ⟨rfl, ?_⟩
  simp only [update_sect_sects]
  apply List.ext_getElem?
  intro k
  simp only [List.getElem?_map, List.getElem?_modify]
  cases st.sects[k]? with
  | none => rfl
  | some s => by_cases hik : i = k <;> simp [hik]

theorem tables_inv_dump (st stc : State) (h : tables_inv st stc) (i n : Nat) (d b : List Nat) :
    tables_inv st
      (nasm_write (fwritezero (update_sect stc i (fun sc => { sc with data := d })) n) b) := by
  obtain ⟨h1, h2, h3, h4⟩ := h
  refine ⟨h1, h2, h3, fun k => ?_⟩
  rw [← h4 k]
  show ((stc.sects.modify (fun sc => { sc with data := d }) i)[k]?).map (fun sc => sc.addr) = _
  rw [List.getElem?_modify]
  cases stc.sects[k]? with
  | none => rfl
  | some s => by_cases hik : i = k <;> simp [hik]

theorem write_section_data_file (st : State) (l : List Section) (i : Nat) (stc : State)
    (hinv : tables_inv st stc)
    (hp : ∀ S ∈ l, snums_valid st S.relocs)
    (hd : ∀ S ∈ l, S.flags &&& SECTION_TYPE ≠ S_ZEROFILL → S.data.length = S.size) :
    ∃ (st1 : State) (D : List Nat), write_section_data l i stc = some st1 ∧
      tables_inv st st1 ∧ dump_frame stc st1 ∧
      st1.ofile = stc.ofile ++ D ∧ D.length = (l.map file_span).sum := by
  induction l generalizing i stc with
  | nil => exact ⟨stc, [], rfl, hinv, dump_frame_refl _, (List.append_nil _).symm, rfl⟩
  | cons s rest ih =>
    have hp2 : ∀ S ∈ rest, snums_valid st S.relocs := fun S hS => hp S (List.mem_cons_of_mem _ hS)
    have hd2 : ∀ S ∈ rest, S.flags &&& SECTION_TYPE ≠ S_ZEROFILL → S.data.length = S.size :=
      fun S hS => hd S (List.mem_cons_of_mem _ hS)
    by_cases hz : s.flags &&& SECTION_TYPE = S_ZEROFILL
    · obtain ⟨st1, D, e1, e2, e3, e4, e5⟩ := ih (i + 1) stc hinv hp2 hd2
      refine ⟨st1, D, ?_, e2, e3, e4, ?_⟩
      · simp only [write_section_data, if_pos hz, e1]
      · simp only [List.map_cons, List.sum_cons, file_span, hz, ne_eq, not_true_eq_false,
          if_false, Nat.zero_add]
        exact e5
    · obtain ⟨P, hP, hlen⟩ := patch_relocs_some st s s.relocs s.data
        (hp s (List.mem_cons_self _ _))
      have hP2 : patch_relocs stc s s.relocs s.data = some P := by
        rw [patch_relocs_tables st stc s _ _ (tables_inv_same st stc hinv)]
        exact hP
      obtain ⟨st1, D, e1, e2, e3, e4, e5⟩ := ih (i + 1)
        (nasm_write (fwritezero (update_sect stc i (fun sc => { sc with data := P })) s.pad) P)
        (tables_inv_dump st stc hinv i s.pad P P) hp2 hd2
      refine ⟨st1, List.replicate s.pad 0 ++ P ++ D, ?_, e2, ?_, ?_, ?_⟩
      · simp only [write_section_data, if_neg hz, hP2]
        exact e1
      · refine dump_frame_trans _ _ _ ?_ e3
        exact dump_frame_trans _ _ _ (dump_frame_data stc i P)
          (dump_frame_trans _ _ _ (dump_frame_nasm_write _ _) (dump_frame_nasm_write _ _))
      · rw [e4]
        simp only [nasm_write, fwritezero, update_sect, List.append_assoc]
      · simp only [List.length_append, List.length_replicate, e5, hlen, List.map_cons,
          List.sum_cons, file_span, hz, ne_eq, not_false_eq_true, if_true,
          hd s (List.mem_cons_self _ _) hz]

theorem dump_frame_relocs (st st1 : State) (h : dump_frame st st1) :
    st1.sects.map (fun s => reloc_entries s.relocs) =
      st.sects.map (fun s => reloc_entries s.relocs) := by
  have := congrArg (List.map (fun s : Section => reloc_entries s.relocs)) h.2
  simpa only [List.map_map] using this

theorem dump_frame_fields (st st1 : State) (h : dump_frame st st1) :
    st1.rel_padcnt = st.rel_padcnt ∧ st1.syms = st.syms ∧ st1.nsyms = st.nsyms ∧
    st1.seg_nsects = st.seg_nsects ∧ st1.sectstab = st.sectstab ∧ st1.fmt = st.fmt ∧
    st1.strs = st.strs ∧ st1.extdefsyms = st.extdefsyms ∧ st1.undefsyms = st.undefsyms ∧
    st1.nextdefsym = st.nextdefsym ∧ st1.nundefsym = st.nundefsym ∧
    st1.sects.length = st.sects.length := by
  obtain ⟨h1, h2⟩ := h
  have hl := congrArg List.length h2
  simp only [List.length_map] at hl
  rw [← h1]
  exact ⟨rfl, rfl, rfl, rfl, rfl, rfl, rfl, rfl, rfl, rfl, rfl, hl⟩

theorem macho_write_section_file (st : State)
    (hp : ∀ S ∈ st.sects, snums_valid st S.relocs)
    (hd : ∀ S ∈ st.sects, S.flags &&& SECTION_TYPE ≠ S_ZEROFILL → S.data.length = S.size) :
    ∃ (st1 : State) (D : List Nat), macho_write_section st = some st1 ∧ dump_frame st st1 ∧
      st1.ofile = st.ofile ++ (D ++ (List.replicate st.rel_padcnt 0 ++
        (st.sects.map (fun s => reloc_entries s.relocs)).flatten)) ∧
      D.length = (st.sects.map file_span).sum := by
  obtain ⟨sd, D, e1, _, e3, e4, e5⟩ := write_section_data_file st st.sects 0 st
    ⟨rfl, rfl, rfl, fun _ => rfl⟩ hp hd
  refine ⟨_, D, by rw [macho_write_section, e1]; rfl, ?_, ?_, e5⟩
  · dsimp only
    rw [write_relocs_fold_eq]
    exact dump_frame_trans _ _ _ e3
      (dump_frame_trans _ _ _ (dump_frame_nasm_write _ _) (dump_frame_nasm_write _ _))
  · dsimp only
    rw [write_relocs_fold_eq, dump_frame_relocs st sd e3]
    simp only [nasm_write, fwritezero, e4, (dump_frame_fields st sd e3).1, List.append_assoc]

/-! ### Symbol table entries -/

theorem value_frame_refl (st : State) : value_frame st st := ⟨rfl, rfl⟩

theorem value_frame_trans (a b c : State) (h1 : value_frame a b) (h2 : value_frame b c) :
    value_frame a c := by
  obtain ⟨a1, a2⟩ := h1
  obtain ⟨b1, b2⟩ := h2
  refine ⟨?_, b2.trans a2⟩
  rw [← a1, ← b1]

theorem value_frame_fields (st st1 : State) (h : value_frame st st1) :
    st1.fmt = st.fmt ∧ st1.seg_nsects = st.seg_nsects ∧
    (∀ n, sectstab_addr st1 n = sectstab_addr st n) ∧
    st1.extdefsyms = st.extdefsyms ∧ st1.undefsyms = st.undefsyms ∧
    st1.nextdefsym = st.nextdefsym ∧ st1.nundefsym = st.nundefsym ∧
    st1.strs = st.strs ∧ st1.sects = st.sects ∧ st1.nsyms = st.nsyms ∧
    st1.syms.length = st.syms.length := by
  obtain ⟨h1, h2⟩ := h
  have hl := congrArg List.length h2
  simp only [List.length_map] at hl
  rw [← h1]
  exact ⟨rfl, rfl, fun _ => rfl, rfl, rfl, rfl, rfl, rfl, rfl, rfl, hl⟩

theorem value_frame_step (st : State) (p : Nat) (k : Nat) (b : List Nat) :
    value_frame st
      { st with syms := st.syms.modify (fun sy => { sy with key := k }) p,
                ofile := st.ofile ++ b } := by
  refine ⟨rfl, ?_⟩
  apply List.ext_getElem?
  intro q
  simp only [List.getElem?_map, List.getElem?_modify]
  cases st.syms[q]? with
  | none => rfl
  | some s => by_cases hik : p = q <;> simp [hik]

theorem sectstab_addr_nasm_write (st : State) (b : List Nat) (n : Nat) :
    sectstab_addr (nasm_write st b) n = sectstab_addr st n := by
  unfold sectstab_addr
  show ((st.sectstab[n]?).bind (deref (nasm_write st b))).map _ = _
  cases st.sectstab[n]? with
  | none => rfl
  | some q => cases q <;> rfl

theorem write_nlist_spec (st : State) (p : Nat) (sym : symbol) (hs : st.syms[p]? = some sym)
    (hv : sym.type &&& N_TYPE = N_SECT ∧ sym.sect ≠ NO_SECT →
      sym.sect ≤ st.seg_nsects ∧ (sectstab_addr st sym.sect).isSome) :
    write_nlist st p = some
      { st with syms := st.syms.modify (fun sy => { sy with key := nlist_value st sym }) p,
                ofile := st.ofile ++ nlist_entry st sym } := by
  unfold write_nlist
  rw [hs]
  by_cases hc : sym.type &&& N_TYPE = N_SECT ∧ sym.sect ≠ NO_SECT
  · obtain ⟨h1, h2⟩ := hv hc
    obtain ⟨a, ha⟩ := Option.isSome_iff_exists.1 h2
    simp only [if_pos hc, fwriteint16_t, fwriteint32_t, nasm_write_seg_nsects, if_pos h1,
      sectstab_addr_nasm_write, ha, Option.map_some']
    simp only [nlist_value, if_pos hc, ha, Option.getD_some, nlist_entry, fwriteptr, nasm_write,
      List.append_assoc]
  · simp only [if_neg hc, Option.map_some']
    simp only [nlist_value, if_neg hc, nlist_entry, fwriteptr, nasm_write,
      fwriteint16_t, fwriteint32_t, List.append_assoc]

theorem nlist_value_frame (st st1 : State) (h : value_frame st st1) (sym : symbol) :
    nlist_value st1 sym = nlist_value st sym ∧ nlist_entry st1 sym = nlist_entry st sym := by
  obtain ⟨h1, _, h3, _⟩ := value_frame_fields st st1 h
  have hv : nlist_value st1 sym = nlist_value st sym := by
    unfold nlist_value
    rw [h3]
  exact ⟨hv, by unfold nlist_entry; rw [hv, h1]⟩

theorem nlist_entries_cons (st : State) (p : Nat) (L : List Nat) (sym : symbol)
    (h : st.syms[p]? = some sym) :
    nlist_entries st (p :: L) = nlist_entry st sym ++ nlist_entries st L := by
  unfold nlist_entries
  rw [List.map_cons, List.flatten_cons, h]
  rfl

theorem write_nlists_spec (st0 : State) (L : List Nat) (st : State) (hnd : L.Nodup)
    (hf : value_frame st0 st)
    (hsame : ∀ p ∈ L, st.syms[p]? = st0.syms[p]?)
    (hv : ∀ p ∈ L, nlist_writable st0 p) :
    ∃ st1, write_nlists L st = some st1 ∧ value_frame st0 st1 ∧
      st1.ofile = st.ofile ++ nlist_entries st0 L ∧
      (∀ q, q ∉ L → st1.syms[q]? = st.syms[q]?) ∧
      (∀ p ∈ L, ∀ sym, st0.syms[p]? = some sym →
        st1.syms[p]? = some { sym with key := nlist_value st0 sym }) := by
  induction L generalizing st with
  | nil =>
    exact ⟨st, rfl, hf, (List.append_nil _).symm, fun _ _ => rfl, fun p hp => by cases hp⟩
  | cons p rest ih =>
    obtain ⟨hpn, hnd2⟩ := List.nodup_cons.1 hnd
    obtain ⟨sym, hs0, hw⟩ := hv p (List.mem_cons_self _ _)
    have hs : st.syms[p]? = some sym := (hsame p (List.mem_cons_self _ _)).trans hs0
    obtain ⟨f1, f2, f3, -⟩ := value_frame_fields st0 st hf
    obtain ⟨n1, n2⟩ := nlist_value_frame st0 st hf sym
    have hstep := write_nlist_spec st p sym hs (by
      intro hc
      rw [f2, f3]
      exact hw hc)
    rw [n1, n2] at hstep
    have hmod : ∀ q, q ≠ p →
        (st.syms.modify (fun sy => { sy with key := nlist_value st0 sym }) p)[q]? =
          st.syms[q]? := by
      intro q hq
      rw [List.getElem?_modify]
      cases st.syms[q]? with
      | none => rfl
      | some s => simp [Ne.symm hq]
    obtain ⟨st1, e1, e2, e3, e4, e5⟩ := ih
      { st with syms := st.syms.modify (fun sy => { sy with key := nlist_value st0 sym }) p,
                ofile := st.ofile ++ nlist_entry st0 sym }
      hnd2 (value_frame_trans _ _ _ hf (value_frame_step st p _ _))
      (fun q hq => by
        have hqp : q ≠ p := fun e => hpn (e ▸ hq)
        show (st.syms.modify _ p)[q]? = _
        rw [hmod q hqp]
        exact hsame q (List.mem_cons_of_mem _ hq))
      (fun q hq => hv q (List.mem_cons_of_mem _ hq))
    refine ⟨st1, ?_, e2, ?_, ?_, ?_⟩
    · simp only [write_nlists, hstep, Option.some_bind]
      exact e1
    · rw [e3, nlist_entries_cons st0 p rest sym hs0, List.append_assoc]
    · intro q hq
      rw [e4 q (fun h => hq (List.mem_cons_of_mem _ h))]
      exact hmod q (fun e => hq (e ▸ List.mem_cons_self _ _))
    · intro q hq sy hsy
      rcases List.mem_cons.1 hq with rfl | hq2
      · rw [e4 q hpn]
        show (st.syms.modify _ q)[q]? = _
        rw [List.getElem?_modify, hs]
        rw [hs0] at hsy
        cases hsy
        simp
      · exact e5 q hq2 sy hsy

theorem write_nlists_append (A B : List Nat) (st : State) :
    write_nlists (A ++ B) st = (write_nlists A st).bind (write_nlists B) := by
  induction A generalizing st with
  | nil => rfl
  | cons p rest ih =>
    simp only [List.cons_append, write_nlists]
    cases write_nlist st p with
    | none => rfl
    | some s => exact ih s

theorem macho_write_symtab_spec (st : State)
    (hnd : (positions sym_local st.syms 0 ++ (st.extdefsyms.take st.nextdefsym ++
      st.undefsyms.take st.nundefsym)).Nodup)
    (hv : ∀ p ∈ positions sym_local st.syms 0 ++ (st.extdefsyms.take st.nextdefsym ++
      st.undefsyms.take st.nundefsym), nlist_writable st p) :
    ∃ st1, macho_write_symtab st = some st1 ∧ value_frame st st1 ∧
      st1.ofile = st.ofile ++ nlist_entries st (positions sym_local st.syms 0 ++
        (st.extdefsyms.take st.nextdefsym ++ st.undefsyms.take st.nundefsym)) ∧
      (∀ p ∈ positions sym_local st.syms 0 ++ (st.extdefsyms.take st.nextdefsym ++
          st.undefsyms.take st.nundefsym), ∀ sym, st.syms[p]? = some sym →
        st1.syms[p]? = some { sym with key := nlist_value st sym }) := by
  obtain ⟨st1, e1, e2, e3, _, e5⟩ := write_nlists_spec st _ st hnd (value_frame_refl st)
    (fun _ _ => rfl) hv
  refine ⟨st1, ?_, e2, e3, e5⟩
  rw [write_nlists_append] at e1
  unfold macho_write_symtab
  rw [local_positions_eq]
  cases h1 : write_nlists (positions sym_local st.syms 0) st with
  | none => rw [h1] at e1; cases e1
  | some sa =>
    rw [h1] at e1
    simp only [Option.some_bind] at e1 ⊢
    rw [write_nlists_append] at e1
    have hfa : value_frame st sa := by
      have hndA : (positions sym_local st.syms 0).Nodup := (List.nodup_append.1 hnd).1
      obtain ⟨sa2, a1, a2, -⟩ := write_nlists_spec st _ st hndA (value_frame_refl st)
        (fun _ _ => rfl) (fun p hp => hv p (List.mem_append_left _ hp))
      rw [h1] at a1
      cases a1
      exact a2
    obtain ⟨-, -, -, f4, f5, f6, f7, -⟩ := value_frame_fields st sa hfa
    rw [f4, f6]
    cases h2 : write_nlists (st.extdefsyms.take st.nextdefsym) sa with
    | none => rw [h2] at e1; cases e1
    | some sb =>
      rw [h2] at e1
      simp only [Option.some_bind] at e1 ⊢
      have hfb : value_frame st sb := by
        have hndB : (positions sym_local st.syms 0 ++ st.extdefsyms.take st.nextdefsym).Nodup := by
          rw [← List.append_assoc] at hnd
          exact (List.nodup_append.1 hnd).1
        obtain ⟨sb2, b1, b2, -⟩ := write_nlists_spec st _ st hndB (value_frame_refl st)
          (fun _ _ => rfl) (fun p hp => hv p (by
            rw [← List.append_assoc]
            exact List.mem_append_left _ hp))
        rw [write_nlists_append, h1] at b1
        simp only [Option.some_bind] at b1
        rw [h2] at b1
        cases b1
        exact b2
      obtain ⟨-, -, -, g4, g5, g6, g7, -⟩ := value_frame_fields st sb hfb
      rw [g5, g7]
      exact e1

/-! ### The written file -/

theorem forall₂_mem_right {α β : Type} (R : α → β → Prop) (l : List α) (l1 : List β)
    (h : List.Forall₂ R l l1) (b : β) (hb : b ∈ l1) : ∃ a ∈ l, R a b := by
  induction h with
  | nil => cases hb
  | cons hab _ ih =>
    rcases List.mem_cons.1 hb with rfl | hb2
    · exact ⟨_, List.mem_cons_self _ _, hab⟩
    · obtain ⟨a, ha, hr⟩ := ih hb2
      exact ⟨a, List.mem_cons_of_mem _ ha, hr⟩

theorem sectstab_addr_some (st : State)
    (h : st.sectstab =
      sectptr.absolute :: (List.range st.sects.length).map (fun i => sectptr.real i))
    (n : Nat) (hn : n ≤ st.sects.length) : (sectstab_addr st n).isSome := by
  unfold sectstab_addr
  rw [h]
  cases n with
  | zero => simp [deref]
  | succ k =>
    have hk : k < st.sects.length := hn
    rw [List.getElem?_cons_succ, List.getElem?_map, List.getElem?_range hk]
    simp only [Option.map_some', Option.some_bind, deref, List.getElem?_eq_getElem hk,
      Option.isSome_some]

theorem fixup_all_kept (st : State) : kept_by_sizing (fixup_all st) = kept_by_sizing st := rfl

theorem macho_calculate_sizes_kept (st st1 : State) (h : macho_calculate_sizes st = some st1) :
    kept_by_sizing st1 = kept_by_sizing st := by
  unfold macho_calculate_sizes at h
  dsimp only at h
  by_cases h1 : st.seg_nsects > 0 <;> by_cases h2 : st.nsyms > 0 <;>
    by_cases h3 : st.seg_nsects > MAX_SECT <;>
    simp only [h1, h2, h3, if_true, if_false, Option.some.injEq] at h <;>
    first
      | (cases h; rfl)
      | cases h

theorem sized_kept (st st1 : State)
    (hsz : macho_calculate_sizes (fixup_all (macho_layout_symbols st)) = some st1) :
    kept_by_sizing st1 = kept_by_sizing (macho_layout_symbols st) :=
  (macho_calculate_sizes_kept _ _ hsz).trans (fixup_all_kept _)

theorem sized_sects_ok (st st1 : State) (hinv : run_inv st)
    (hsz : macho_calculate_sizes (fixup_all (macho_layout_symbols st)) = some st1) :
    ∀ s1 ∈ st1.sects, s1.nreloc = s1.relocs.length ∧
      (s1.flags &&& SECTION_TYPE = S_ZEROFILL → s1.relocs = []) ∧
      (s1.flags &&& SECTION_TYPE ≠ S_ZEROFILL → s1.data.length = s1.size) ∧
      (∀ r ∈ s1.relocs, r.ext = 0 → 1 ≤ r.snum ∧ r.snum ≤ (st.sects.length : Int)) := by
  intro s1 hs1
  obtain ⟨z1, z2, z3, z4, z5, z6, z7, z8, z9, z10, z11, -⟩ := sized_spec st st1 hinv hsz
  obtain ⟨r1, r2, r3, r4, r5, r6, r7⟩ := hinv
  obtain ⟨k, hk⟩ := List.getElem?_of_mem hs1
  have hklt : k < st.sects.length := by
    rw [← z3]; exact (List.getElem?_eq_some_iff.1 hk).1
  obtain ⟨q1, q2, q3, q4, q5, q6, -⟩ := z11 k _ s1 (List.getElem?_eq_getElem hklt) hk
  obtain ⟨-, o1, o2, o3, o4, -⟩ := r6 k _ (List.getElem?_eq_getElem hklt)
  have hid := (layout_spec st ⟨r7.1, r7.2.1, r7.2.2.1⟩).1
  have hid2 : (macho_layout_symbols st).syms.map (fun s => s.initial_snum) =
      st.syms.map (fun s => s.initial_snum) := by
    have := congrArg (List.map (fun x : Nat × List Nat × Int × Nat × Nat => x.2.2.1)) hid
    simpa only [List.map_map] using this
  have hF := fixup_relocs_spec st.syms (macho_layout_symbols st).syms st.sects[k].relocs hid2
    r2.2 (fun r hr he => (o4 r hr).2.2.2.2 he)
  rw [← q6] at hF
  have hlen := (forall₂_get _ _ _ hF).1
  refine ⟨by rw [q3, hlen, o1], ?_, ?_, ?_⟩
  · intro hz
    rw [q4] at hz
    have := o2 hz
    rw [this] at hlen
    exact List.length_eq_zero.1 hlen
  · intro hz
    rw [q4] at hz
    rw [q1, q2]
    exact o3 hz
  · intro r hr he
    obtain ⟨r0, hr0, f1, f2, f3, f4, f5, f6, -⟩ := forall₂_mem_right _ _ _ hF r hr
    have he0 : r0.ext = 0 := f4 ▸ he
    rw [f6 he0]
    exact (o4 r0 hr0).2.2.2.1 he0

theorem layout_order_spec (st : State) (hinv : run_inv st) :
    (macho_layout_symbols st).extdefsyms.take (macho_layout_symbols st).nextdefsym =
      (macho_layout_symbols st).extdefsyms ∧
    (macho_layout_symbols st).undefsyms.take (macho_layout_symbols st).nundefsym =
      (macho_layout_symbols st).undefsyms ∧
    (layout_order (macho_layout_symbols st)).Nodup ∧
    (layout_order (macho_layout_symbols st)).length = st.syms.length ∧
    (macho_layout_symbols st).syms.length = st.syms.length ∧
    (∀ p ∈ layout_order (macho_layout_symbols st), ∃ sym sym0,
      (macho_layout_symbols st).syms[p]? = some sym ∧ st.syms[p]? = some sym0 ∧
      sym.key = sym0.key ∧ sym.sect = sym0.sect ∧ sym.name = sym0.name ∧
      sym.desc = sym0.desc ∧ sym.type = (promote sym0).type ∧ sym.sect ≤ st.sects.length) := by
  obtain ⟨r1, r2, r3, r4, r5, r6, r7⟩ := hinv
  obtain ⟨f1, f2, f3, f4, f5, f6, f7, f8, f9, f10, f11, f12⟩ :=
    layout_spec st ⟨r7.1, r7.2.1, r7.2.2.1⟩
  have hlen : (macho_layout_symbols st).syms.length = st.syms.length := by
    have := congrArg List.length f1
    simpa using this
  have hE : (macho_layout_symbols st).extdefsyms.length = (macho_layout_symbols st).nextdefsym := by
    rw [f10, List.length_insertionSort, ← f4]
  have hU : (macho_layout_symbols st).undefsyms.length = (macho_layout_symbols st).nundefsym := by
    rw [f11, List.length_insertionSort, ← f5]
  have hnd : (layout_order (macho_layout_symbols st)).Nodup := by
    rw [List.nodup_iff_getElem?_ne_getElem?]
    intro i j hij hj he
    have hjp := List.getElem?_eq_getElem hj
    have h1 := f12 j _ hjp
    have h2 := f12 i _ (he.trans hjp)
    rw [h1] at h2
    have := Option.some.inj h2
    omega
  have hperm : List.Perm (layout_order (macho_layout_symbols st))
      (List.range' 0 (macho_layout_symbols st).syms.length) := by
    refine List.Perm.trans ?_ (positions_perm (macho_layout_symbols st).syms 0)
    unfold layout_order
    refine List.Perm.append_left _ (List.Perm.append ?_ ?_)
    · have := List.perm_insertionSort (layout_le (macho_layout_symbols st).syms)
        (positions sym_extdef (macho_layout_symbols st).syms 0)
      rw [← f10] at this
      exact this
    · have := List.perm_insertionSort (layout_le (macho_layout_symbols st).syms)
        (positions sym_undef (macho_layout_symbols st).syms 0)
      rw [← f11] at this
      exact this
  refine ⟨List.take_of_length_le (le_of_eq hE), List.take_of_length_le (le_of_eq hU), hnd,
    ?_, hlen, ?_⟩
  · rw [hperm.length_eq, List.length_range', hlen]
  · intro p hp
    have hp2 := (hperm.mem_iff).1 hp
    have hplt : p < (macho_layout_symbols st).syms.length := by
      have := List.mem_range'_1.1 hp2
      omega
    have hplt0 : p < st.syms.length := hlen ▸ hplt
    have hi := congrArg (fun l => l[p]?) f1
    simp only [List.getElem?_map, List.getElem?_eq_getElem hplt, List.getElem?_eq_getElem hplt0,
      Option.map_some', Option.some.injEq, sym_ident, Prod.mk.injEq] at hi
    have ht := congrArg (fun l => l[p]?) f2
    simp only [List.getElem?_map, List.getElem?_eq_getElem hplt, List.getElem?_eq_getElem hplt0,
      Option.map_some', Option.some.injEq] at ht
    refine ⟨_, _, List.getElem?_eq_getElem hplt, List.getElem?_eq_getElem hplt0, hi.1,
      hi.2.2.2.1, hi.2.1, hi.2.2.2.2, ht, ?_⟩
    rw [hi.2.2.2.1]
    exact r5 _ (List.getElem_mem _)

theorem nlist_entries_nil (st : State) : nlist_entries st [] = [] := rfl

theorem cleanup_spec (st : State) (hinv : run_inv st) (hn : st.sects.length ≤ MAX_SECT) :
    ∃ (st1 st2 st3 st4 : State) (off : Nat) (D : List Nat),
      macho_calculate_sizes (fixup_all (macho_layout_symbols st)) = some st1 ∧
      write_load_commands st1 = some (st2, off) ∧
      (if st2.seg_nsects > 0 then macho_write_section st2 else some st2) = some st3 ∧
      (if st3.nsyms > 0 then macho_write_symtab st3 else some st3) = some st4 ∧
      (macho_cleanup_write st = some (nasm_write st4 st4.strs) ∧
        (st.sects ≠ [] → macho_cleanup st = some (nasm_write st4 st4.strs))) ∧
      seg_frame st1 st2 ∧ dump_frame st2 st3 ∧ value_frame st3 st4 ∧
      (st.sects ≠ [] →
        st3.ofile = st2.ofile ++ (D ++ (List.replicate st2.rel_padcnt 0 ++
          (st1.sects.map (fun s => reloc_entries s.relocs)).flatten)) ∧
        D.length = st1.seg_filesize) ∧
      (st.sects = [] → st3 = st2) ∧
      st4.ofile = st3.ofile ++ nlist_entries st3 (layout_order (macho_layout_symbols st)) ∧
      (∀ p ∈ layout_order (macho_layout_symbols st), ∀ sym, st3.syms[p]? = some sym →
        st4.syms[p]? = some { sym with key := nlist_value st3 sym }) := by
  have hkeptL := macho_layout_symbols_kept st
  simp only [kept_by_layout, Prod.mk.injEq] at hkeptL
  obtain ⟨k1, k2, k3, k4, k5, k6, k7, k8, k9, k10, k11, k12, k13, k14, k15, k16⟩ := hkeptL
  have hinv0 := hinv
  obtain ⟨r1, r2, r3, r4, r5, r6, r7⟩ := hinv
  obtain ⟨st1, hsz⟩ := macho_calculate_sizes_some (fixup_all (macho_layout_symbols st))
    (by show (macho_layout_symbols st).seg_nsects ≤ MAX_SECT
        rw [k10, r3]; exact hn)
  obtain ⟨z1, z2, z3, z4, z5, z6, z7, z8, z9, z10, z11, z12, z13, z14, z15⟩ :=
    sized_spec st st1 hinv0 hsz
  have hok := sized_sects_ok st st1 hinv0 hsz
  have hks := sized_kept st st1 hsz
  simp only [kept_by_sizing, Prod.mk.injEq] at hks
  obtain ⟨s1, s2, s3, s4, s5, s6, s7, s8, s9, s10, s11, s12, s13, s14, s15, s16, s17, s18, s19⟩ :=
    hks
  obtain ⟨st2, off, H, P, Bs, S, w1, w2, w3, -⟩ := write_load_commands_spec st1 z10
  have hw3 := w3
  obtain ⟨w4, w5, w6⟩ := w3
  simp only [kept_by_writer, Prod.mk.injEq] at w4
  obtain ⟨v1, v2, v3, v4, v5, v6, v7, v8, v9, v10, v11, v12, v13, v14, v15, v16, v17, v18, v19⟩ :=
    w4
  have hlen2 : st2.sects.length = st1.sects.length := same_cores_length _ _ w6
  have hcore : ∀ S ∈ st2.sects, ∃ s ∈ st1.sects, sect_core s = sect_core S := by
    intro S hS
    obtain ⟨k, hk⟩ := List.getElem?_of_mem hS
    obtain ⟨s, hs, hc⟩ := same_cores_get st2.sects st1.sects w6.symm k S hk
    exact ⟨s, List.getElem?_mem hs, hc⟩
  have hrel : st2.sects.map (fun s => reloc_entries s.relocs) =
      st1.sects.map (fun s => reloc_entries s.relocs) := by
    have := congrArg (List.map (fun c : List Nat × List reloc × Nat × Nat × Nat × Nat × Nat ×
      Int × Nat × Nat × Int × Nat => reloc_entries c.2.1)) w6
    simpa only [List.map_map] using this
  -- the section data and the relocation entries
  have hsec : ∃ (st3 : State) (D : List Nat),
      (if st2.seg_nsects > 0 then macho_write_section st2 else some st2) = some st3 ∧
      dump_frame st2 st3 ∧
      (st.sects ≠ [] →
        st3.ofile = st2.ofile ++ (D ++ (List.replicate st2.rel_padcnt 0 ++
          (st1.sects.map (fun s => reloc_entries s.relocs)).flatten)) ∧
        D.length = st1.seg_filesize) ∧
      (st.sects = [] → st3 = st2) := by
    by_cases hpos : st2.seg_nsects > 0
    · obtain ⟨st3, D, d1, d2, d3, d4⟩ := macho_write_section_file st2
        (by
          intro S hS r hr he
          obtain ⟨s, hs, hc⟩ := hcore S hS
          obtain ⟨-, c2, -⟩ := core_fields s S hc
          obtain ⟨-, -, -, o4⟩ := hok s hs
          obtain ⟨q1, q2⟩ := o4 r (c2 ▸ hr) he
          have hb : r.snum.toNat ≤ st2.sects.length := by
            rw [hlen2, z3]; omega
          refine ⟨by omega, by rw [v19, z2]; exact q2, ?_⟩
          exact sectstab_addr_some st2 (by rw [v3, z12, hlen2]) _ hb)
        (by
          intro S hS hz
          obtain ⟨s, hs, hc⟩ := hcore S hS
          obtain ⟨c1, -, -, c4, -, -, -, -, c9, -⟩ := core_fields s S hc
          rw [← c1, ← c4]
          exact (hok s hs).2.2.1 (c9 ▸ hz))
      refine ⟨st3, D, by rw [if_pos hpos]; exact d1, d2, fun _ => ⟨?_, ?_⟩, ?_⟩
      · rw [d3, hrel]
      · rw [d4, (spans_cores _ _ w6).1, z9]
      · intro he
        rw [v19, z2, he] at hpos
        exact absurd hpos (by decide)
    · refine ⟨st2, [], by rw [if_neg hpos], dump_frame_refl _, ?_, fun _ => rfl⟩
      intro hne
      rw [v19, z2] at hpos
      exact absurd (List.length_pos.2 hne) hpos
  obtain ⟨st3, D, d1, d2, d3, d4⟩ := hsec
  obtain ⟨g1, g2, g3, g4, g5, g6, g7, g8, g9, g10, g11, g12⟩ := dump_frame_fields st2 st3 d2
  obtain ⟨l1, l2, l3, l4, l5, l6⟩ := layout_order_spec st hinv0
  have hsyms3 : st3.syms = (macho_layout_symbols st).syms := by rw [g2, w5, z5]
  -- the symbol table
  have hsym : ∃ st4, (if st3.nsyms > 0 then macho_write_symtab st3 else some st3) = some st4 ∧
      value_frame st3 st4 ∧
      st4.ofile = st3.ofile ++ nlist_entries st3 (layout_order (macho_layout_symbols st)) ∧
      (∀ p ∈ layout_order (macho_layout_symbols st), ∀ sym, st3.syms[p]? = some sym →
        st4.syms[p]? = some { sym with key := nlist_value st3 sym }) := by
    have hord : positions sym_local st3.syms 0 ++ (st3.extdefsyms.take st3.nextdefsym ++
        st3.undefsyms.take st3.nundefsym) = layout_order (macho_layout_symbols st) := by
      rw [hsyms3, g8, g9, g10, g11, v11, v12, v9, v10, s11, s12, s9, s10, l1, l2]
      rfl
    by_cases hpos : st3.nsyms > 0
    · obtain ⟨st4, e1, e2, e3, e4⟩ := macho_write_symtab_spec st3 (by rw [hord]; exact l3)
        (by
          rw [hord]
          intro p hp
          obtain ⟨sym, sym0, a1, a2, a3, a4, a5, a6, a7, a8⟩ := l6 p hp
          refine ⟨sym, by rw [hsyms3]; exact a1, fun _ => ⟨?_, ?_⟩⟩
          · rw [g4, v19, z2]; exact a8
          · apply sectstab_addr_some st3 (by rw [g5, v3, z12, g12, hlen2])
            rw [g12, hlen2, z3]; exact a8)
      rw [hord] at e3 e4
      exact ⟨st4, by rw [if_pos hpos]; exact e1, e2, e3, e4⟩
    · have hnil : layout_order (macho_layout_symbols st) = [] := by
        apply List.length_eq_zero.1
        rw [l4]
        rw [g3, v4, z4] at hpos
        omega
      refine ⟨st3, by rw [if_neg hpos], value_frame_refl _, ?_, ?_⟩
      · rw [hnil, nlist_entries_nil, List.append_nil]
      · intro p hp
        rw [hnil] at hp
        cases hp
  obtain ⟨st4, e1, e2, e3, e4⟩ := hsym
  have hwr : macho_cleanup_write st = some (nasm_write st4 st4.strs) := by
    unfold macho_cleanup_write
    rw [hsz, Option.some_bind]
    unfold macho_write
    rw [w1, Option.some_bind]
    dsimp only
    rw [d1, Option.some_bind, e1]
    rfl
  refine ⟨st1, st2, st3, st4, off, D, hsz, w1, d1, e1, ⟨hwr, ?_⟩, hw3, d2, e2, d3, d4, e3, e4⟩
  intro hne
  have h43 : st4.sects = st3.sects := by
    have := congrArg State.sects e2.1
    exact this
  have h32 : st3.sects.length = st2.sects.length := by
    have := congrArg List.length d2.2
    simpa only [List.length_map] using this
  have hlen : (nasm_write st4 st4.strs).sects.length = st.sects.length := by
    rw [nasm_write_sects, h43, h32, hlen2, z3]
  unfold macho_cleanup
  rw [hwr, Option.some_bind, if_neg]
  intro h0
  rw [h0] at hlen
  exact hne (List.length_eq_zero.1 hlen.symm)

/-! ### The file of a run -/

theorem fmt_sizes (fmt : macho_fmt) (h : fmt = macho32_fmt ∨ fmt = macho64_fmt) :
    28 + (fmt.header_size - 7 * 4) = fmt.header_size ∧ 40 + 4 * fmt.ptrsize = fmt.segcmd_size ∧
    56 + 3 * fmt.ptrsize = fmt.sectcmd_size ∧ 4 + 1 + 1 + 2 + fmt.ptrsize = fmt.nlist_size ∧
    (fmt.ptrsize = 4 ∨ fmt.ptrsize = 8) ∧ fmt.header_size % 4 = 0 ∧
    fmt.segcmd_size % 4 = 0 ∧ fmt.sectcmd_size % 4 = 0 ∧ 28 ≤ fmt.header_size := by
  rcases h with rfl | rfl <;> decide

theorem run_inv_fmt (st : State) (h : run_inv st) :
    st.fmt = macho32_fmt ∨ st.fmt = macho64_fmt :=
  h.1.elim (fun h => Or.inl h.1) Or.inr

theorem nlist_entry_length (st : State) (sym : symbol) :
    (nlist_entry st sym).length = 4 + 1 + 1 + 2 + st.fmt.ptrsize := by
  simp only [nlist_entry, List.length_append, le_bytes_length, List.length_cons,
    List.length_nil]
  omega

theorem ALIGN_lt (v a : Nat) (ha : 0 < a) : v ≤ ALIGN v a ∧ ALIGN v a < v + a ∧ a ∣ ALIGN v a := by
  obtain ⟨h1, h2, -⟩ := ALIGN_least v a ha
  refine ⟨h2, ?_, h1⟩
  unfold ALIGN
  have := Nat.div_mul_le_self (v + (a - 1)) a
  omega

theorem load_commands_spec (st st1 st2 : State) (off : Nat) (hinv : run_inv st)
    (hsz : macho_calculate_sizes (fixup_all (macho_layout_symbols st)) = some st1)
    (hw : write_load_commands st1 = some (st2, off)) :
    ∃ (H P : List Nat) (Bs : List (List Nat)) (S : List Nat),
      st2.ofile = H ++ (P ++ (Bs.flatten ++ S)) ∧ H.length = st.fmt.header_size ∧
      bytes_at H 16 (le_bytes 4 st1.head_ncmds) ∧
      bytes_at H 20 (le_bytes 4 st1.head_sizeofcmds) ∧
      (P ++ (Bs.flatten ++ S)).length = st1.head_sizeofcmds ∧
      (st.sects ≠ [] → P.length = st.fmt.segcmd_size ∧ Bs.length = st.sects.length ∧
        (∀ B ∈ Bs, B.length = st.fmt.sectcmd_size) ∧
        st2.rel_padcnt + (st.fmt.header_size + st1.head_sizeofcmds + st1.seg_filesize) =
          alignptr st1 (st.fmt.header_size + st1.head_sizeofcmds + st1.seg_filesize) ∧
        ∀ (k : Nat) (B : List Nat) (s : Section), Bs[k]? = some B → st1.sects[k]? = some s →
          sectcmd_shape st.fmt.ptrsize B
            (if s.flags &&& SECTION_TYPE ≠ S_ZEROFILL then
              st.fmt.header_size + st1.head_sizeofcmds + s.offset else 0)
            (if s.nreloc ≠ 0 then
              alignptr st1 (st.fmt.header_size + st1.head_sizeofcmds + st1.seg_filesize) +
                ((st1.sects.map (fun x => x.nreloc * MACHO_RELINFO_SIZE)).take k).sum else 0)
            s.nreloc) ∧
      (st.sects = [] → P = [] ∧ Bs = []) ∧
      (st.syms ≠ [] → S.length = 24) ∧ (st.syms = [] → S = []) := by
  obtain ⟨z1, z2, z3, z4, z5, z6, z7, z8, z9, z10, z11, z12, z13, z14, z15⟩ :=
    sized_spec st st1 hinv hsz
  have hok := sized_sects_ok st st1 hinv hsz
  obtain ⟨st2', off', H, P, Bs, S, w1, w2, w3, w4, w5, w6, w7, w8, w9, w10, w11⟩ :=
    write_load_commands_spec st1 z10
  rw [hw] at w1
  cases w1
  obtain ⟨m1, m2, m3, m4, m5, m6, m7, m8, m9⟩ := fmt_sizes st.fmt (run_inv_fmt st hinv)
  have hsec : st.sects ≠ [] ↔ st1.seg_nsects > 0 := by
    rw [z2]; exact List.length_pos.symm
  have hsym : st.syms ≠ [] ↔ st1.nsyms > 0 := by
    rw [z4]; exact List.length_pos.symm
  have hsec0 : st.sects.length > 0 ↔ st.sects ≠ [] := List.length_pos
  have hsym0 : st.syms.length > 0 ↔ st.syms ≠ [] := List.length_pos
  have hspan : st1.sects.map reloc_span =
      st1.sects.map (fun x => x.nreloc * MACHO_RELINFO_SIZE) := by
    apply List.map_congr_left
    intro s hs
    unfold reloc_span
    by_cases hz : s.flags &&& SECTION_TYPE = S_ZEROFILL
    · have h0 : s.nreloc = 0 := by rw [(hok s hs).1, (hok s hs).2.1 hz]; rfl
      simp [hz, h0]
    · simp [hz]
  have hP : st.sects ≠ [] → P.length = st.fmt.segcmd_size ∧ Bs.length = st.sects.length ∧
      (∀ B ∈ Bs, B.length = st.fmt.sectcmd_size) ∧
        st2.rel_padcnt + (st.fmt.header_size + st1.head_sizeofcmds + st1.seg_filesize) =
          alignptr st1 (st.fmt.header_size + st1.head_sizeofcmds + st1.seg_filesize) ∧
        ∀ (k : Nat) (B : List Nat) (s : Section), Bs[k]? = some B → st1.sects[k]? = some s →
          sectcmd_shape st.fmt.ptrsize B
            (if s.flags &&& SECTION_TYPE ≠ S_ZEROFILL then
              st.fmt.header_size + st1.head_sizeofcmds + s.offset else 0)
            (if s.nreloc ≠ 0 then
              alignptr st1 (st.fmt.header_size + st1.head_sizeofcmds + st1.seg_filesize) +
                ((st1.sects.map (fun x => x.nreloc * MACHO_RELINFO_SIZE)).take k).sum else 0)
            s.nreloc := by
    intro hne
    obtain ⟨p1, p2, p3, p4⟩ := w7 (hsec.1 hne)
    refine ⟨by rw [p1, z1, m2], by rw [p2, z3], ?_, ?_, ?_⟩
    · intro B hB
      obtain ⟨k, hk⟩ := List.getElem?_of_mem hB
      have hklt : k < st1.sects.length := by
        rw [← p2]; exact (List.getElem?_eq_some_iff.1 hk).1
      have := (p4 k B _ hk (List.getElem?_eq_getElem hklt)).1
      rw [this, z1, m3]
    · rw [p3, ← z9, z1]
      have hpos : 0 < st.fmt.ptrsize := by rcases m5 with h | h <;> omega
      obtain ⟨a1, a2, -⟩ := ALIGN_lt (st.fmt.header_size + st1.head_sizeofcmds +
        st1.seg_filesize) st.fmt.ptrsize hpos
      have ha : alignptr st1 (st.fmt.header_size + st1.head_sizeofcmds + st1.seg_filesize) =
          ALIGN (st.fmt.header_size + st1.head_sizeofcmds + st1.seg_filesize)
            st.fmt.ptrsize := by
        unfold alignptr; rw [z1]
      rw [ha]
      generalize ALIGN (st.fmt.header_size + st1.head_sizeofcmds + st1.seg_filesize)
        st.fmt.ptrsize = A at a1 a2 ⊢
      generalize st.fmt.header_size + st1.head_sizeofcmds + st1.seg_filesize = V at a1 a2 ⊢
      have hlt : (A : Int) - (V : Int) < 2 ^ 64 := by
        rcases m5 with h | h <;> omega
      rw [Int.emod_eq_of_lt (by omega) hlt]
      omega
    · intro k B s hB hs
      have hk := p4 k B s hB hs
      rw [z1, hspan] at hk
      have hklt : k < st.sects.length := by
        rw [← z3]; exact (List.getElem?_eq_some_iff.1 hs).1
      obtain ⟨q1, q2, q3, q4, q5, q6, q7⟩ := z11 k _ s (List.getElem?_eq_getElem hklt) hs
      by_cases hz : s.flags &&& SECTION_TYPE = S_ZEROFILL
      · have h0 : s.nreloc = 0 := by
          rw [(hok s (List.getElem?_mem hs)).1, (hok s (List.getElem?_mem hs)).2.1 hz]; rfl
        simp only [hz, ne_eq, not_true_eq_false, if_false, false_and, h0] at hk ⊢
        exact hk
      · have hoff := (q7 hz).1
        simp only [hz, ne_eq, not_false_eq_true, if_true, true_and] at hk ⊢
        rw [hoff, ← Nat.add_assoc]
        exact hk
  have hP0 : st.sects = [] → P = [] ∧ Bs = [] := by
    intro he
    have := w8 (fun h => (hsec.2 h) he)
    exact ⟨this.1, this.2.1⟩
  have hS : st.syms ≠ [] → S.length = 24 := fun hne => (w9 (hsym.1 hne)).1
  have hS0 : st.syms = [] → S = [] := fun he => w10 (fun h => (hsym.2 h) he)
  have hcmds : (P ++ (Bs.flatten ++ S)).length = st1.head_sizeofcmds := by
    rw [z8, List.length_append, List.length_append]
    simp only [hsec0, hsym0, MACHO_SYMCMD_SIZE]
    by_cases h1 : st.sects ≠ [] <;> by_cases h2 : st.syms ≠ []
    · obtain ⟨p1, p2, p3, -⟩ := hP h1
      rw [if_pos h1, if_pos h2, p1, flatten_length_uniform Bs _ p3, p2, hS h2, Nat.add_assoc]
    · obtain ⟨p1, p2, p3, -⟩ := hP h1
      rw [if_pos h1, if_neg h2, p1, flatten_length_uniform Bs _ p3, p2, hS0 (not_not.1 h2)]
      rfl
    · obtain ⟨p1, p2⟩ := hP0 (not_not.1 h1)
      rw [if_neg h1, if_pos h2, p1, p2, hS h2]
      rfl
    · obtain ⟨p1, p2⟩ := hP0 (not_not.1 h1)
      rw [if_neg h1, if_neg h2, p1, p2, hS0 (not_not.1 h2)]
      rfl
  refine ⟨H, P, Bs, S, ?_, by rw [w4, z1, m1], w5, w6, hcmds, hP, hP0, hS, hS0⟩
  rw [w2, z6, List.nil_append]

theorem bytes_at_sectcmd (H P : List Nat) (Bs : List (List Nat)) (S T : List Nat) (c : Nat)
    (hc : ∀ B ∈ Bs, B.length = c) (k : Nat) (B : List Nat) (hk : Bs[k]? = some B) (o : Nat)
    (bs : List Nat) (h : bytes_at B o bs) (hb : o + bs.length ≤ c) :
    bytes_at (H ++ (P ++ (Bs.flatten ++ S)) ++ T) (H.length + P.length + k * c + o) bs := by
  have h1 := bytes_at_flatten Bs c hc k B hk o bs h hb
  have hklt : k < Bs.length := (List.getElem?_eq_some_iff.1 hk).1
  have hlen : k * c + o + bs.length ≤ Bs.flatten.length := by
    rw [flatten_length_uniform Bs c hc]
    have : (k + 1) * c ≤ Bs.length * c := Nat.mul_le_mul_right _ hklt
    rw [Nat.add_mul] at this
    omega
  have h2 := bytes_at_append _ S _ _ h1 hlen
  have h3 := bytes_at_prepend P _ _ _ h2
  have h4 := bytes_at_prepend H _ _ _ h3
  have h5 := bytes_at_append _ T _ _ h4 (by
    simp only [List.length_append]
    omega)
  have he : H.length + (P.length + (k * c + o)) = H.length + P.length + k * c + o := by omega
  rw [he] at h5
  exact h5

theorem commands_mod4 (st st1 : State) (hinv : run_inv st)
    (hsz : macho_calculate_sizes (fixup_all (macho_layout_symbols st)) = some st1) :
    (st.fmt.header_size + st1.head_sizeofcmds) % 4 = 0 := by
  obtain ⟨z1, z2, z3, z4, z5, z6, z7, z8, -⟩ := sized_spec st st1 hinv hsz
  obtain ⟨m1, m2, m3, m4, m5, m6, m7, m8, m9⟩ := fmt_sizes st.fmt (run_inv_fmt st hinv)
  rw [z8]
  have h1 : (st.sects.length * st.fmt.sectcmd_size) % 4 = 0 := by
    rw [Nat.mul_mod, m8]; simp
  by_cases a : st.sects.length > 0 <;> by_cases b : st.syms.length > 0 <;>
    simp only [a, b, if_true, if_false, MACHO_SYMCMD_SIZE] <;> omega

theorem nreloc_sum_sized (st st1 : State) (hinv : run_inv st)
    (hsz : macho_calculate_sizes (fixup_all (macho_layout_symbols st)) = some st1) :
    st1.sects.map (fun s => s.nreloc) = st.sects.map (fun s => s.nreloc) := by
  obtain ⟨z1, z2, z3, z4, z5, z6, z7, z8, z9, z10, z11, -⟩ := sized_spec st st1 hinv hsz
  apply List.ext_getElem?
  intro k
  simp only [List.getElem?_map]
  by_cases hk : k < st.sects.length
  · have hk1 : k < st1.sects.length := z3 ▸ hk
    rw [List.getElem?_eq_getElem hk, List.getElem?_eq_getElem hk1]
    have := (z11 k _ _ (List.getElem?_eq_getElem hk) (List.getElem?_eq_getElem hk1)).2.2.1
    simp only [Option.map_some', this]
  · rw [List.getElem?_eq_none (by omega), List.getElem?_eq_none (by omega)]

theorem entries_length_sum (l : List Section) (h : ∀ s ∈ l, s.nreloc = s.relocs.length) :
    (l.map (fun s => reloc_entries s.relocs)).flatten.length =
      8 * (l.map (fun s => s.nreloc)).sum := by
  induction l with
  | nil => rfl
  | cons s rest ih =>
    rw [List.map_cons, List.flatten_cons, List.length_append, List.map_cons, List.sum_cons,
      ih (fun x hx => h x (List.mem_cons_of_mem _ hx)), reloc_entries_length,
      h s (List.mem_cons_self _ _)]
    simp only [MACHO_RELINFO_SIZE]
    omega

theorem nreloc_span_sum (l : List Section) :
    (l.map (fun x => x.nreloc * MACHO_RELINFO_SIZE)).sum =
      8 * (l.map (fun x => x.nreloc)).sum := by
  induction l with
  | nil => rfl
  | cons a rest ih =>
    rw [List.map_cons, List.sum_cons, ih, List.map_cons, List.sum_cons]
    simp only [MACHO_RELINFO_SIZE]
    omega

theorem written_snums_valid (st st1 st2 : State) (off : Nat) (hinv : run_inv st)
    (hsz : macho_calculate_sizes (fixup_all (macho_layout_symbols st)) = some st1)
    (hw : write_load_commands st1 = some (st2, off)) :
    st2.seg_nsects = st.sects.length ∧ st2.sects.length = st.sects.length ∧
    ∀ S ∈ st2.sects, ∀ r ∈ S.relocs, r.ext = 0 →
      1 ≤ r.snum ∧ r.snum ≤ (st2.seg_nsects : Int) ∧
      (sectstab_addr st2 r.snum.toNat).isSome ∧
      ∃ sc, st2.sects[r.snum.toNat - 1]? = some sc ∧ (sc.fileindex : Int) = r.snum := by
  obtain ⟨z1, z2, z3, z4, z5, z6, z7, z8, z9, z10, z11, z12, -⟩ := sized_spec st st1 hinv hsz
  have hok := sized_sects_ok st st1 hinv hsz
  obtain ⟨st2', off', H, P, Bs, S, w1, w2, w3, -⟩ := write_load_commands_spec st1 z10
  rw [hw] at w1
  cases w1
  obtain ⟨w4, w5, w6⟩ := w3
  simp only [kept_by_writer, Prod.mk.injEq] at w4
  obtain ⟨v1, v2, v3, v4, v5, v6, v7, v8, v9, v10, v11, v12, v13, v14, v15, v16, v17, v18, v19⟩ :=
    w4
  have hlen2 : st2.sects.length = st1.sects.length := same_cores_length _ _ w6
  refine ⟨by rw [v19, z2], by rw [hlen2, z3], ?_⟩
  intro S hS r hr he
  obtain ⟨k, hk⟩ := List.getElem?_of_mem hS
  obtain ⟨s, hs, hc⟩ := same_cores_get st2.sects st1.sects w6.symm k S hk
  obtain ⟨-, c2, -⟩ := core_fields s S hc
  obtain ⟨-, -, -, o4⟩ := hok s (List.getElem?_mem hs)
  obtain ⟨q1, q2⟩ := o4 r (c2 ▸ hr) he
  have hb : r.snum.toNat ≤ st2.sects.length := by
    rw [hlen2, z3]; omega
  have hj : r.snum.toNat - 1 < st.sects.length := by omega
  have hj1 : r.snum.toNat - 1 < st1.sects.length := z3 ▸ hj
  obtain ⟨sc, hsc, hcc⟩ := same_cores_get st1.sects st2.sects w6 _ _
    (List.getElem?_eq_getElem hj1)
  have hfi := (core_fields _ _ hcc).2.2.2.2.2.2.2.2.2
  have hfi1 := (z11 _ _ _ (List.getElem?_eq_getElem hj) (List.getElem?_eq_getElem hj1)).2.2.2.2.1
  have hfi0 := (hinv.2.2.2.2.2.1 _ _ (List.getElem?_eq_getElem hj)).1
  refine ⟨q1, by rw [v19, z2]; exact q2,
    sectstab_addr_some st2 (by rw [v3, z12, hlen2]) _ hb, sc, hsc, ?_⟩
  rw [hfi, hfi1, hfi0]
  omega

theorem sectstab_addr_succ (st : State)
    (h : st.sectstab =
      sectptr.absolute :: (List.range st.sects.length).map (fun i => sectptr.real i))
    (j : Nat) : sectstab_addr st (j + 1) = (st.sects[j]?).map (fun s => s.addr) := by
  unfold sectstab_addr
  rw [h, List.getElem?_cons_succ, List.getElem?_map]
  by_cases hj : j < st.sects.length
  · rw [List.getElem?_range hj]
    rfl
  · rw [List.getElem?_eq_none (by simpa using hj), List.getElem?_eq_none (by simpa using hj)]
    rfl

theorem written_addrs (st1 st2 st3 : State) (h1 : seg_frame st1 st2) (h2 : dump_frame st2 st3) :
    st3.sects.map (fun s => s.addr) = st1.sects.map (fun s => s.addr) ∧
    st3.sectstab = st1.sectstab ∧ st3.sects.length = st1.sects.length ∧
    st3.fmt = st1.fmt ∧ st3.syms = st1.syms := by
  obtain ⟨w4, w5, w6⟩ := h1
  simp only [kept_by_writer, Prod.mk.injEq] at w4
  obtain ⟨g1, g2, g3, g4, g5, g6, g7, g8, g9, g10, g11, g12⟩ := dump_frame_fields st2 st3 h2
  have a1 : st3.sects.map (fun s => s.addr) = st2.sects.map (fun s => s.addr) := by
    have := congrArg (List.map (fun s : Section => s.addr)) h2.2
    simpa only [List.map_map] using this
  have a2 : st2.sects.map (fun s => s.addr) = st1.sects.map (fun s => s.addr) := by
    have := congrArg (List.map (fun c : List Nat × List reloc × Nat × Nat × Nat × Nat × Nat ×
      Int × Nat × Nat × Int × Nat => c.2.2.1)) w6
    simpa only [List.map_map] using this
  exact ⟨a1.trans a2, by rw [g5, w4.2.2.1], by rw [g12, same_cores_length _ _ w6],
    by rw [g6, w4.1], by rw [g2, w5]⟩

theorem saa_fread_eq (buf : List Nat) (p n : Nat) (h : p + n ≤ buf.length) :
    saa_fread buf p n = (buf.drop p).take n := by
  unfold saa_fread
  apply List.ext_getElem?
  intro i
  by_cases hi : i < n
  · rw [List.getElem?_map, List.getElem?_range hi, List.getElem?_take_of_lt hi,
      List.getElem?_drop]
    have hlt : p + i < buf.length := by omega
    simp only [Option.map_some', List.getD_eq_getElem?_getD, List.getElem?_eq_getElem hlt,
      Option.getD_some]
  · rw [List.getElem?_eq_none (by simpa using hi), List.getElem?_eq_none]
    rw [List.length_take]
    omega

theorem le_value_le_bytes4 (v : Nat) : le_value (le_bytes 4 v) = v % 2 ^ 32 := by
  have h : le_bytes 4 v = [v / 256 ^ 0 % 256, v / 256 ^ 1 % 256, v / 256 ^ 2 % 256,
      v / 256 ^ 3 % 256] := rfl
  rw [h]
  simp only [le_value]
  norm_num
  omega

theorem field32_of_bytes_at (file : List Nat) (off v : Nat)
    (h : bytes_at file off (le_bytes 4 v)) : field32 file off = v % 2 ^ 32 := by
  unfold bytes_at at h
  rw [le_bytes_length] at h
  have hlen : off + 4 ≤ file.length := by
    have := congrArg List.length h
    rw [List.length_take, List.length_drop, le_bytes_length] at this
    omega
  unfold field32
  rw [saa_fread_eq _ _ _ hlen, h, le_value_le_bytes4]

theorem commands_lt (st st1 : State) (hinv : run_inv st) (hn : st.sects.length ≤ MAX_SECT)
    (hsz : macho_calculate_sizes (fixup_all (macho_layout_symbols st)) = some st1) :
    st1.head_ncmds < 2 ^ 32 ∧ st1.head_sizeofcmds < 2 ^ 32 ∧
    st1.head_ncmds = (if st.sects ≠ [] then 1 else 0) + (if st.syms ≠ [] then 1 else 0) ∧
    st1.head_sizeofcmds =
      (if st.sects ≠ [] then st.fmt.segcmd_size + st.sects.length * st.fmt.sectcmd_size
        else 0) + (if st.syms ≠ [] then 24 else 0) := by
  obtain ⟨z1, z2, z3, z4, z5, z6, z7, z8, -⟩ := sized_spec st st1 hinv hsz
  have hsec0 : st.sects.length > 0 ↔ st.sects ≠ [] := List.length_pos
  have hsym0 : st.syms.length > 0 ↔ st.syms ≠ [] := List.length_pos
  have e7 : st1.head_ncmds =
      (if st.sects ≠ [] then 1 else 0) + (if st.syms ≠ [] then 1 else 0) := by
    rw [z7]
    simp only [hsec0, hsym0]
  have e8 : st1.head_sizeofcmds =
      (if st.sects ≠ [] then st.fmt.segcmd_size + st.sects.length * st.fmt.sectcmd_size
        else 0) + (if st.syms ≠ [] then 24 else 0) := by
    rw [z8]
    simp only [hsec0, hsym0, MACHO_SYMCMD_SIZE]
  refine ⟨?_, ?_, e7, e8⟩
  · rw [e7]
    split_ifs <;> decide
  · rw [e8]
    have hb : st.fmt.segcmd_size ≤ 72 ∧ st.fmt.sectcmd_size ≤ 80 := by
      rcases run_inv_fmt st hinv with h | h <;> rw [h] <;> decide
    have hn2 : st.sects.length ≤ 255 := hn
    have hm : st.sects.length * st.fmt.sectcmd_size ≤ 255 * 80 := Nat.mul_le_mul hn2 hb.2
    have hs := hb.1
    clear z7 z8 e7 e8 hsec0 hsym0 hb hn hn2
    split_ifs <;> omega

/-! ### Fields of the written file -/

/-- C16: for either format and every run with at most 255 sections, the passes of
`macho_cleanup` write a file (and `macho_cleanup` returns when a section exists) that is
made of these pieces and of nothing else: what the header and load command writers emit,
namely a header of `header_size` bytes, then, when a section exists, a segment command of
`segcmd_size` bytes and one section command of `sectcmd_size` bytes per section, then,
when a symbol exists, a symtab command of 24 bytes; after them the section contents with
their padding, the relocation entries, one symbol table entry of `nlist_size` bytes per
symbol and the string table.  The `ncmds` field of the header holds (1 if any section
exists) + (1 if any symbol exists), and its `sizeofcmds` field holds the number of bytes
the load command writers emitted after the header. -/
theorem sizeofcmds_counts_load_commands (st : State) (hr : reachable st)
    (hn : st.sects.length ≤ MAX_SECT) :
    ∃ (st1 st2 stF : State) (off : Nat) (H P : List Nat) (Bs : List (List Nat))
      (S D R : List Nat) (N : List (List Nat)),
      macho_calculate_sizes (fixup_all (macho_layout_symbols st)) = some st1 ∧
      write_load_commands st1 = some (st2, off) ∧
      macho_cleanup_write st = some stF ∧
      (st.sects ≠ [] → macho_cleanup st = some stF) ∧
      st2.ofile = H ++ (P ++ (Bs.flatten ++ S)) ∧
      stF.ofile = st2.ofile ++ (D ++ (R ++ (N.flatten ++ stF.strs))) ∧
      H.length = st.fmt.header_size ∧
      field32 stF.ofile 16 =
        (if st.sects ≠ [] then 1 else 0) + (if st.syms ≠ [] then 1 else 0) ∧
      field32 stF.ofile 20 = (P ++ (Bs.flatten ++ S)).length ∧
      st2.ofile.length = st.fmt.header_size + field32 stF.ofile 20 ∧
      (P ++ (Bs.flatten ++ S)).length =
        (if st.sects ≠ [] then st.fmt.segcmd_size + st.sects.length * st.fmt.sectcmd_size
          else 0) + (if st.syms ≠ [] then 24 else 0) ∧
      (st.sects ≠ [] → P.length = st.fmt.segcmd_size ∧ Bs.length = st.sects.length ∧
        (∀ B ∈ Bs, B.length = st.fmt.sectcmd_size) ∧
        D.length = st1.seg_filesize + st2.rel_padcnt ∧
        R.length = 8 * (st.sects.map (fun s => s.nreloc)).sum) ∧
      (st.sects = [] → P = [] ∧ Bs = [] ∧ D = [] ∧ R = []) ∧
      (st.syms ≠ [] → S.length = 24) ∧ (st.syms = [] → S = []) ∧
      N.length = st.syms.length ∧ (∀ E ∈ N, E.length = st.fmt.nlist_size) := by
  have hinv := reachable_inv st hr
  obtain ⟨st1, st2, st3, st4, off, D, c1, c2, c3, c4, c5, c6, c7, c8, c9, c10, c11, c12⟩ :=
    cleanup_spec st hinv hn
  obtain ⟨z1, z2, z3, z4, z5, z6, z7, z8, -⟩ := sized_spec st st1 hinv c1
  have hok := sized_sects_ok st st1 hinv c1
  have hnr := nreloc_sum_sized st st1 hinv c1
  obtain ⟨n1, n2, n3, n4⟩ := commands_lt st st1 hinv hn c1
  obtain ⟨H, P, Bs, S, w1, w2, w3, w4, w5, w6, w7, w8, w9⟩ :=
    load_commands_spec st st1 st2 off hinv c1 c2
  obtain ⟨m1, m2, m3, m4, m5, m6, m7, m8, m9⟩ := fmt_sizes st.fmt (run_inv_fmt st hinv)
  obtain ⟨l1, l2, l3, l4, l5, l6⟩ := layout_order_spec st hinv
  obtain ⟨g1, g2, g3, g4, g5, g6, g7, g8, g9, g10, g11, g12⟩ := dump_frame_fields st2 st3 c7
  have hsyms3 : st3.syms = (macho_layout_symbols st).syms := by rw [g2, c6.2.1, z5]
  have hX : ∃ D1 R1 : List Nat, st3.ofile = st2.ofile ++ (D1 ++ R1) ∧
      (st.sects ≠ [] → D1.length = st1.seg_filesize + st2.rel_padcnt ∧
        R1.length = 8 * (st.sects.map (fun s => s.nreloc)).sum) ∧
      (st.sects = [] → D1 = [] ∧ R1 = []) := by
    by_cases h1 : st.sects = []
    · exact ⟨[], [], by rw [c10 h1]; simp, fun h => absurd h1 h, fun _ => ⟨rfl, rfl⟩⟩
    · refine ⟨D ++ List.replicate st2.rel_padcnt 0,
        (st1.sects.map (fun s => reloc_entries s.relocs)).flatten, ?_, ?_,
        fun h => absurd h h1⟩
      · rw [(c9 h1).1]
        simp only [List.append_assoc]
      · intro _
        refine ⟨by rw [List.length_append, List.length_replicate, (c9 h1).2], ?_⟩
        rw [entries_length_sum st1.sects (fun s hs => (hok s hs).1), hnr]
  obtain ⟨D1, R1, hX, hX1, hX0⟩ := hX
  have hfile : (nasm_write st4 st4.strs).ofile = H ++ ((P ++ (Bs.flatten ++ S)) ++
      (D1 ++ (R1 ++ ((layout_order (macho_layout_symbols st)).map
        (fun p => ((st3.syms[p]?).map (nlist_entry st3)).getD [])).flatten ++
          (nasm_write st4 st4.strs).strs))) := by
    show st4.ofile ++ st4.strs = _
    rw [c11, hX, w1]
    simp only [nlist_entries, List.append_assoc]
    rfl
  have hf16 : field32 (nasm_write st4 st4.strs).ofile 16 = st1.head_ncmds := by
    rw [field32_of_bytes_at _ _ _ (by
      rw [hfile]
      exact bytes_at_append _ _ _ _ w3 (by rw [le_bytes_length, w2]; omega)),
      Nat.mod_eq_of_lt n1]
  have hf20 : field32 (nasm_write st4 st4.strs).ofile 20 = st1.head_sizeofcmds := by
    rw [field32_of_bytes_at _ _ _ (by
      rw [hfile]
      exact bytes_at_append _ _ _ _ w4 (by rw [le_bytes_length, w2]; omega)),
      Nat.mod_eq_of_lt n2]
  refine ⟨st1, st2, nasm_write st4 st4.strs, off, H, P, Bs, S, D1, R1,
    (layout_order (macho_layout_symbols st)).map
      (fun p => ((st3.syms[p]?).map (nlist_entry st3)).getD []),
    c1, c2, c5.1, c5.2, w1, ?_, w2, by rw [hf16, n3], by rw [hf20, w5], ?_,
    by rw [w5, n4],
    fun h => ⟨(w6 h).1, (w6 h).2.1, (w6 h).2.2.1, (hX1 h).1, (hX1 h).2⟩,
    fun h => ⟨(w7 h).1, (w7 h).2, (hX0 h).1, (hX0 h).2⟩, w8, w9, ?_, ?_⟩
  · rw [hfile, w1]
    simp only [List.append_assoc]
  · rw [hf20, w1, List.length_append, w2, w5]
  · rw [List.length_map, l4]
  · intro E hE
    obtain ⟨p, hp, rfl⟩ := List.mem_map.1 hE
    obtain ⟨sym, sym0, a1, -⟩ := l6 p hp
    rw [hsyms3, a1, Option.map_some', Option.getD_some, nlist_entry_length, g6,
      seg_frame_fmt _ _ c6, z1, m4]

set_option maxRecDepth 4000 in
/-- C16 (witness): scenario S1, one section and one symbol in a 64-bit run: the header's
`ncmds` field is 2 and its `sizeofcmds` field is 72 + 80 + 24 = 176; the file is 32 + 176
bytes of header and load commands, the 4 reserved bytes of the section, 4 bytes of padding,
the 16 bytes of the symbol table entry and the 3 bytes of the string table. -/
theorem sizeofcmds_counts_load_commands_witness :
    reachable run_S1 ∧ run_S1.sects.length = 1 ∧ run_S1.syms.length = 1 ∧
    field32 (emitted run_S1) 16 = 2 ∧
    field32 (emitted run_S1) 20 =
      run_S1.fmt.segcmd_size + run_S1.fmt.sectcmd_size + 24 ∧
    (emitted run_S1).length = 32 + 176 + 4 + 4 + 16 + 3 ∧
    ∃ (st1 st2 stF : State) (off : Nat) (H P : List Nat) (Bs : List (List Nat))
      (S D R : List Nat) (N : List (List Nat)),
      macho_calculate_sizes (fixup_all (macho_layout_symbols run_S1)) = some st1 ∧
      write_load_commands st1 = some (st2, off) ∧
      macho_cleanup_write run_S1 = some stF ∧
      (run_S1.sects ≠ [] → macho_cleanup run_S1 = some stF) ∧
      st2.ofile = H ++ (P ++ (Bs.flatten ++ S)) ∧
      stF.ofile = st2.ofile ++ (D ++ (R ++ (N.flatten ++ stF.strs))) ∧
      H.length = run_S1.fmt.header_size ∧
      field32 stF.ofile 16 =
        (if run_S1.sects ≠ [] then 1 else 0) + (if run_S1.syms ≠ [] then 1 else 0) ∧
      field32 stF.ofile 20 = (P ++ (Bs.flatten ++ S)).length ∧
      st2.ofile.length = run_S1.fmt.header_size + field32 stF.ofile 20 ∧
      (P ++ (Bs.flatten ++ S)).length =
        (if run_S1.sects ≠ [] then run_S1.fmt.segcmd_size + run_S1.sects.length * run_S1.fmt.sectcmd_size
          else 0) + (if run_S1.syms ≠ [] then 24 else 0) ∧
      (run_S1.sects ≠ [] → P.length = run_S1.fmt.segcmd_size ∧ Bs.length = run_S1.sects.length ∧
        (∀ B ∈ Bs, B.length = run_S1.fmt.sectcmd_size) ∧
        D.length = st1.seg_filesize + st2.rel_padcnt ∧
        R.length = 8 * (run_S1.sects.map (fun s => s.nreloc)).sum) ∧
      (run_S1.sects = [] → P = [] ∧ Bs = [] ∧ D = [] ∧ R = []) ∧
      (run_S1.syms ≠ [] → S.length = 24) ∧ (run_S1.syms = [] → S = []) ∧
      N.length = run_S1.syms.length ∧ (∀ E ∈ N, E.length = run_S1.fmt.nlist_size) :=
  ⟨⟨events_S1, Or.inr (by rfl)⟩, by decide, by decide, by decide, by decide, by decide,
    sizeofcmds_counts_load_commands run_S1 ⟨events_S1, Or.inr (by rfl)⟩ (by decide)⟩

/-- C17: for every run with at least one and at most 255 sections, with `rel_base` the
value `alignptr(header_size + sizeofcmds + seg_filesize)` that `macho_write_segment`
computes: the pointer width is 4 or 8 and `rel_base` is a multiple of it; `rel_padcnt`
is `rel_base - (header_size + sizeofcmds + seg_filesize)`, at least 0 and below the
pointer width, `seg_filesize` being the sum of the padding and size of the non-zerofill
sections that the section loop accumulates; and in the file that `macho_cleanup` writes
the relocation entries start at byte `rel_base`. -/
theorem rel_base_aligned (st : State) (hr : reachable st) (hne : st.sects ≠ [])
    (hn : st.sects.length ≤ MAX_SECT) :
    ∃ (st1 st2 stF : State) (off rel_base : Nat) (A T : List Nat),
      macho_calculate_sizes (fixup_all (macho_layout_symbols st)) = some st1 ∧
      write_load_commands st1 = some (st2, off) ∧
      macho_cleanup st = some stF ∧
      rel_base = alignptr st1 (st.fmt.header_size + st1.head_sizeofcmds + st1.seg_filesize) ∧
      (st.fmt.ptrsize = 4 ∨ st.fmt.ptrsize = 8) ∧
      rel_base % st.fmt.ptrsize = 0 ∧
      (st2.rel_padcnt : Int) =
        (rel_base : Int) -
          ((st.fmt.header_size + st1.head_sizeofcmds + st1.seg_filesize : Nat) : Int) ∧
      st2.rel_padcnt < st.fmt.ptrsize ∧
      st1.seg_filesize = (st1.sects.map file_span).sum ∧
      stF.ofile = A ++ ((st1.sects.map (fun s => reloc_entries s.relocs)).flatten ++ T) ∧
      A.length = rel_base := by
  have hinv := reachable_inv st hr
  obtain ⟨st1, st2, st3, st4, off, D, c1, c2, c3, c4, c5, c6, c7, c8, c9, c10, c11, c12⟩ :=
    cleanup_spec st hinv hn
  obtain ⟨z1, z2, z3, z4, z5, z6, z7, z8, z9, -⟩ := sized_spec st st1 hinv c1
  obtain ⟨H, P, Bs, S, w1, w2, w3, w4, w5, w6, w7, w8, w9⟩ :=
    load_commands_spec st st1 st2 off hinv c1 c2
  obtain ⟨m1, m2, m3, m4, m5, m6, m7, m8, m9⟩ := fmt_sizes st.fmt (run_inv_fmt st hinv)
  obtain ⟨p1, p2, p3, p4, p5⟩ := w6 hne
  obtain ⟨d1, d2⟩ := c9 hne
  have hpos : 0 < st.fmt.ptrsize := by rcases m5 with h | h <;> omega
  have hal : alignptr st1 (st.fmt.header_size + st1.head_sizeofcmds + st1.seg_filesize) =
      ALIGN (st.fmt.header_size + st1.head_sizeofcmds + st1.seg_filesize) st.fmt.ptrsize := by
    unfold alignptr; rw [z1]
  obtain ⟨a1, a2, a3⟩ := ALIGN_lt (st.fmt.header_size + st1.head_sizeofcmds +
    st1.seg_filesize) st.fmt.ptrsize hpos
  rw [← hal] at a1 a2 a3
  refine ⟨st1, st2, nasm_write st4 st4.strs, off, _,
    st2.ofile ++ (D ++ List.replicate st2.rel_padcnt 0),
    nlist_entries st3 (layout_order (macho_layout_symbols st)) ++ st4.strs,
    c1, c2, c5.2 hne, rfl, m5, Nat.mod_eq_zero_of_dvd a3, by omega, by omega, z9, ?_, ?_⟩
  · show st4.ofile ++ st4.strs = _
    rw [c11, d1]
    simp only [List.append_assoc]
  · rw [List.length_append, List.length_append, List.length_replicate, d2, w1,
      List.length_append, w2, w5, ← p4]
    omega

set_option maxRecDepth 8000 in
/-- C17 (witness): the 64-bit run `run_aligned`, whose two sections come from the section
directive, `.text` aligned to 8 bytes by an alignment request and `.data` to 16 by its
attribute: the header and the load commands take 264 bytes, the section contents 28, and
`rel_base` is 296, after 4 bytes of padding; the statement applied to the run. -/
theorem rel_base_aligned_witness :
    reachable run_aligned ∧ run_aligned.sects ≠ [] ∧
    (run_aligned.fmt.header_size + sized_aligned.head_sizeofcmds, sized_aligned.seg_filesize,
      alignptr sized_aligned (run_aligned.fmt.header_size + sized_aligned.head_sizeofcmds +
        sized_aligned.seg_filesize)) = (264, 28, 296) ∧
    ∃ (st1 st2 stF : State) (off rel_base : Nat) (A T : List Nat),
      macho_calculate_sizes (fixup_all (macho_layout_symbols run_aligned)) = some st1 ∧
      write_load_commands st1 = some (st2, off) ∧
      macho_cleanup run_aligned = some stF ∧
      rel_base =
        alignptr st1 (run_aligned.fmt.header_size + st1.head_sizeofcmds + st1.seg_filesize) ∧
      (run_aligned.fmt.ptrsize = 4 ∨ run_aligned.fmt.ptrsize = 8) ∧
      rel_base % run_aligned.fmt.ptrsize = 0 ∧
      (st2.rel_padcnt : Int) =
        (rel_base : Int) -
          ((run_aligned.fmt.header_size + st1.head_sizeofcmds + st1.seg_filesize : Nat) : Int) ∧
      st2.rel_padcnt < run_aligned.fmt.ptrsize ∧
      st1.seg_filesize = (st1.sects.map file_span).sum ∧
      stF.ofile = A ++ ((st1.sects.map (fun s => reloc_entries s.relocs)).flatten ++ T) ∧
      A.length = rel_base :=
  ⟨⟨events_aligned, Or.inr (by rfl)⟩, by decide, by decide,
    rel_base_aligned run_aligned ⟨events_aligned, Or.inr (by rfl)⟩ (by decide) (by decide)⟩

set_option maxRecDepth 8000 in
/-- C15 (counterexample): in the file written for scenario S5 (a 64-bit run whose only
section is the zerofill `__DATA,__bss`) the offset field of the section command, at byte
32 + 72 + 48 = 152, holds 0, below `header_size + sizeofcmds` = 32 + 152.  In the 32-bit
run `run_4g`, whose `__text` holds 2^32 + 4 bytes, the sizing pass gives `__data` the
offset 2^32 + 4 and the header and the load commands take 220 bytes, so its contents
start at byte 2^32 + 224 of the file, while the offset field of its section command (at
byte 28 + 56 + 68 + 40 = 192) holds 224. -/
theorem zerofill_offset_below_commands :
    reachable run_S5 ∧ field32 (emitted run_S5) 20 = 152 ∧
    field32 (emitted run_S5) 152 = 0 ∧
    ¬ (field32 (emitted run_S5) 152 ≥
      run_S5.fmt.header_size + field32 (emitted run_S5) 20) ∧
    reachable run_4g ∧
    macho_calculate_sizes (fixup_all (macho_layout_symbols run_4g)) = some sized_4g ∧
    sized_4g.sects.map (fun s => (s.flags &&& SECTION_TYPE, s.offset)) =
      [(S_REGULAR, 0), (S_REGULAR, 2 ^ 32 + 4)] ∧
    run_4g.fmt.header_size + sized_4g.head_sizeofcmds = 220 ∧
    run_4g.fmt.header_size + run_4g.fmt.segcmd_size + 1 * run_4g.fmt.sectcmd_size +
      (32 + 2 * run_4g.fmt.ptrsize) = 192 ∧
    field32 (emitted run_4g) 192 = 224 :=
  ⟨⟨events_S5, Or.inr (by rfl)⟩, by decide, by decide, by decide,
    ⟨events_4g, Or.inl (by rfl)⟩, by rfl, by decide, by decide, by decide, by decide⟩

/-- C15 (amended): for every run with at most 255 sections, in the file that the passes
of `macho_cleanup` write (`macho_cleanup` itself returning when a section exists), the
offset field of the section command of the section at position `k` (at byte `header_size
+ segcmd_size + k * sectcmd_size + 32 + 2 * ptrsize`) holds 0 for a zerofill section; for
any other section it holds `header_size + sizeofcmds` plus the section's `offset` of the
sizing pass, itself a multiple of 4, modulo 2^32; when that sum is below 2^32 the field
holds the sum, is a multiple of 4 and is at least `header_size` plus the `sizeofcmds`
field of the header. -/
theorem section_offset_recorded (st : State) (hr : reachable st)
    (hn : st.sects.length ≤ MAX_SECT) :
    ∃ (st1 stF : State),
      macho_calculate_sizes (fixup_all (macho_layout_symbols st)) = some st1 ∧
      macho_cleanup_write st = some stF ∧
      (st.sects ≠ [] → macho_cleanup st = some stF) ∧
      field32 stF.ofile 20 = st1.head_sizeofcmds ∧
      ∀ (k : Nat) (s1 : Section), st1.sects[k]? = some s1 →
        (s1.flags &&& SECTION_TYPE = S_ZEROFILL →
          field32 stF.ofile
            (st.fmt.header_size + st.fmt.segcmd_size + k * st.fmt.sectcmd_size +
              (32 + 2 * st.fmt.ptrsize)) = 0) ∧
        (s1.flags &&& SECTION_TYPE ≠ S_ZEROFILL →
          s1.offset % 4 = 0 ∧
          field32 stF.ofile
            (st.fmt.header_size + st.fmt.segcmd_size + k * st.fmt.sectcmd_size +
              (32 + 2 * st.fmt.ptrsize)) =
            (st.fmt.header_size + st1.head_sizeofcmds + s1.offset) % 2 ^ 32 ∧
          (st.fmt.header_size + st1.head_sizeofcmds + s1.offset < 2 ^ 32 →
            field32 stF.ofile
              (st.fmt.header_size + st.fmt.segcmd_size + k * st.fmt.sectcmd_size +
                (32 + 2 * st.fmt.ptrsize)) =
              st.fmt.header_size + st1.head_sizeofcmds + s1.offset ∧
            field32 stF.ofile
              (st.fmt.header_size + st.fmt.segcmd_size + k * st.fmt.sectcmd_size +
                (32 + 2 * st.fmt.ptrsize)) % 4 = 0 ∧
            st.fmt.header_size + field32 stF.ofile 20 ≤
              field32 stF.ofile
                (st.fmt.header_size + st.fmt.segcmd_size + k * st.fmt.sectcmd_size +
                  (32 + 2 * st.fmt.ptrsize)))) := by
  have hinv := reachable_inv st hr
  obtain ⟨st1, st2, st3, st4, off, D, c1, c2, c3, c4, c5, c6, c7, c8, c9, c10, c11, c12⟩ :=
    cleanup_spec st hinv hn
  obtain ⟨z1, z2, z3, z4, z5, z6, z7, z8, z9, z10, z11, -⟩ := sized_spec st st1 hinv c1
  obtain ⟨n1, n2, n3, n4⟩ := commands_lt st st1 hinv hn c1
  obtain ⟨H, P, Bs, S, w1, w2, w3, w4, w5, w6, w7, w8, w9⟩ :=
    load_commands_spec st st1 st2 off hinv c1 c2
  obtain ⟨m1, m2, m3, m4, m5, m6, m7, m8, m9⟩ := fmt_sizes st.fmt (run_inv_fmt st hinv)
  have hmod := commands_mod4 st st1 hinv c1
  have hX : ∃ X, st3.ofile = st2.ofile ++ X := by
    by_cases h1 : st.sects = []
    · exact ⟨[], by rw [c10 h1, List.append_nil]⟩
    · exact ⟨_, (c9 h1).1⟩
  obtain ⟨X, hX⟩ := hX
  have hfile0 : (nasm_write st4 st4.strs).ofile = H ++ ((P ++ (Bs.flatten ++ S)) ++
      (X ++ (nlist_entries st3 (layout_order (macho_layout_symbols st)) ++ st4.strs))) := by
    show st4.ofile ++ st4.strs = _
    rw [c11, hX, w1]
    simp only [List.append_assoc]
  have hf20 : field32 (nasm_write st4 st4.strs).ofile 20 = st1.head_sizeofcmds := by
    rw [field32_of_bytes_at _ _ _ (by
      rw [hfile0]
      exact bytes_at_append _ _ _ _ w4 (by rw [le_bytes_length, w2]; omega)),
      Nat.mod_eq_of_lt n2]
  refine ⟨st1, nasm_write st4 st4.strs, c1, c5.1, c5.2, hf20, ?_⟩
  intro k s1 hk
  have hklt : k < st.sects.length := by
    rw [← z3]; exact (List.getElem?_eq_some_iff.1 hk).1
  have hne : st.sects ≠ [] := List.length_pos.1 (by omega)
  obtain ⟨p1, p2, p3, p4, p5⟩ := w6 hne
  obtain ⟨d1, d2⟩ := c9 hne
  have hB : Bs[k]? = some (Bs.get ⟨k, by rw [p2]; exact hklt⟩) :=
    List.getElem?_eq_getElem _
  obtain ⟨q1, q2, -⟩ := p5 k _ s1 hB hk
  have hbytes : bytes_at (nasm_write st4 st4.strs).ofile
      (st.fmt.header_size + st.fmt.segcmd_size + k * st.fmt.sectcmd_size +
        (32 + 2 * st.fmt.ptrsize))
      (le_bytes 4 (if s1.flags &&& SECTION_TYPE ≠ S_ZEROFILL then
        st.fmt.header_size + st1.head_sizeofcmds + s1.offset else 0)) := by
    have hfile : (nasm_write st4 st4.strs).ofile = H ++ (P ++ (Bs.flatten ++ S)) ++
        (D ++ (List.replicate st2.rel_padcnt 0 ++
          (st1.sects.map (fun s => reloc_entries s.relocs)).flatten) ++
          (nlist_entries st3 (layout_order (macho_layout_symbols st)) ++ st4.strs)) := by
      show st4.ofile ++ st4.strs = _
      rw [c11, d1, w1]
      simp only [List.append_assoc]
    rw [hfile]
    have hb := bytes_at_sectcmd H P Bs S
      (D ++ (List.replicate st2.rel_padcnt 0 ++
          (st1.sects.map (fun s => reloc_entries s.relocs)).flatten) ++
          (nlist_entries st3 (layout_order (macho_layout_symbols st)) ++ st4.strs))
      _ p3 k _ hB _ _ q2 (by
        rw [le_bytes_length]
        rcases m5 with h | h <;> rw [← m3, h] <;> omega)
    rw [w2, p1] at hb
    exact hb
  have hfield := field32_of_bytes_at _ _ _ hbytes
  refine ⟨?_, ?_⟩
  · intro hz
    rw [hfield, if_neg (not_not.2 hz)]
    rfl
  · intro hz
    obtain ⟨-, -, -, -, -, -, q7⟩ := z11 k _ s1 (List.getElem?_eq_getElem hklt) hk
    have h4 := (q7 hz).2.2
    rw [if_pos hz] at hfield
    refine ⟨h4, hfield, ?_⟩
    intro hlt
    rw [hfield, Nat.mod_eq_of_lt hlt, hf20]
    exact ⟨rfl, by omega, by omega⟩

/-- C15 (witness): the run with the calls of `zeta` and `omicron`: in its file the section
commands record the offsets 288 for `__text` and 308 for `__data`, after the 32 header
bytes and the 256 command bytes, both multiples of 4. -/
theorem section_offset_recorded_witness :
    reachable run_calls ∧
    field32 (emitted run_calls) 20 = 256 ∧
    field32 (emitted run_calls) (32 + 72 + 48) = 288 ∧
    field32 (emitted run_calls) (32 + 72 + 80 + 48) = 308 ∧
    ∃ (st1 stF : State),
      macho_calculate_sizes (fixup_all (macho_layout_symbols run_calls)) = some st1 ∧
      macho_cleanup_write run_calls = some stF ∧
      (run_calls.sects ≠ [] → macho_cleanup run_calls = some stF) ∧
      field32 stF.ofile 20 = st1.head_sizeofcmds ∧
      ∀ (k : Nat) (s1 : Section), st1.sects[k]? = some s1 →
        (s1.flags &&& SECTION_TYPE = S_ZEROFILL →
          field32 stF.ofile
            (run_calls.fmt.header_size + run_calls.fmt.segcmd_size + k * run_calls.fmt.sectcmd_size +
              (32 + 2 * run_calls.fmt.ptrsize)) = 0) ∧
        (s1.flags &&& SECTION_TYPE ≠ S_ZEROFILL →
          s1.offset % 4 = 0 ∧
          field32 stF.ofile
            (run_calls.fmt.header_size + run_calls.fmt.segcmd_size + k * run_calls.fmt.sectcmd_size +
              (32 + 2 * run_calls.fmt.ptrsize)) =
            (run_calls.fmt.header_size + st1.head_sizeofcmds + s1.offset) % 2 ^ 32 ∧
          (run_calls.fmt.header_size + st1.head_sizeofcmds + s1.offset < 2 ^ 32 →
            field32 stF.ofile
              (run_calls.fmt.header_size + run_calls.fmt.segcmd_size + k * run_calls.fmt.sectcmd_size +
                (32 + 2 * run_calls.fmt.ptrsize)) =
              run_calls.fmt.header_size + st1.head_sizeofcmds + s1.offset ∧
            field32 stF.ofile
              (run_calls.fmt.header_size + run_calls.fmt.segcmd_size + k * run_calls.fmt.sectcmd_size +
                (32 + 2 * run_calls.fmt.ptrsize)) % 4 = 0 ∧
            run_calls.fmt.header_size + field32 stF.ofile 20 ≤
              field32 stF.ofile
                (run_calls.fmt.header_size + run_calls.fmt.segcmd_size + k * run_calls.fmt.sectcmd_size +
                  (32 + 2 * run_calls.fmt.ptrsize)))) :=
  ⟨⟨events_calls, Or.inr (by rfl)⟩, by decide, by decide, by decide,
    section_offset_recorded run_calls ⟨events_calls, Or.inr (by rfl)⟩ (by decide)⟩

set_option maxRecDepth 8000 in
/-- C18 (counterexample): in the 32-bit run `run_4g` the section `__text` holds 2^32 + 4
bytes and one relocation; the header and the load commands take 220 bytes and the section
contents 2^32 + 4, so the relocation region starts at byte `rel_base` = 2^32 + 224 of the
file, where the entry of `__text` is written; the `reloff` field of the section command of
`__text` (at byte 28 + 56 + 48 = 132) holds 224 and its `nreloc` field holds 1. -/
theorem reloff_wraps_beyond_4g :
    reachable run_4g ∧
    run_4g.sects.map (fun s => (s.size, s.nreloc, s.relocs.length)) =
      [(2 ^ 32 + 4, 1, 1), (0, 0, 0)] ∧
    macho_calculate_sizes (fixup_all (macho_layout_symbols run_4g)) = some sized_4g ∧
    run_4g.fmt.header_size + sized_4g.head_sizeofcmds = 220 ∧
    sized_4g.seg_filesize = 2 ^ 32 + 4 ∧
    alignptr sized_4g
      (run_4g.fmt.header_size + sized_4g.head_sizeofcmds + sized_4g.seg_filesize) =
      2 ^ 32 + 224 ∧
    run_4g.fmt.header_size + run_4g.fmt.segcmd_size + 0 * run_4g.fmt.sectcmd_size +
      (40 + 2 * run_4g.fmt.ptrsize) = 132 ∧
    field32 (emitted run_4g) 132 = 224 ∧
    field32 (emitted run_4g) 136 = 1 :=
  ⟨⟨events_4g, Or.inl (by rfl)⟩, by decide, by rfl, by decide, by decide, by decide,
    by decide, by decide, by decide⟩

/-- C18 (amended): in every state the module reaches, each section's `nreloc` is the
length of its `relocs` list; and when `macho_cleanup` writes the file of a run with at
least one and at most 255 sections, the relocation region starts at byte `rel_base`, holds
the entries of the sections in creation order and is `8 * (sum of nreloc)` bytes long, so
that the first entry of the section at position `k` is at byte `rel_base + 8 * (sum of
nreloc of the sections before it)`; the `reloff` field of the section command of a section
with `nreloc > 0` (at byte `header_size + segcmd_size + k * sectcmd_size + 40 + 2 *
ptrsize`) holds that position modulo 2^32, hence the position itself when it is below
2^32. -/
theorem reloc_region_written (st : State) (hr : reachable st) (hne : st.sects ≠ [])
    (hn : st.sects.length ≤ MAX_SECT) :
    (∀ s ∈ st.sects, s.nreloc = s.relocs.length) ∧
    ∃ (st1 stF : State) (rel_base : Nat) (A T : List Nat) (Rs : List (List Nat)),
      macho_calculate_sizes (fixup_all (macho_layout_symbols st)) = some st1 ∧
      macho_cleanup st = some stF ∧
      rel_base = alignptr st1 (st.fmt.header_size + st1.head_sizeofcmds + st1.seg_filesize) ∧
      stF.ofile = A ++ (Rs.flatten ++ T) ∧ A.length = rel_base ∧
      Rs = st1.sects.map (fun s => reloc_entries s.relocs) ∧
      Rs.flatten.length = 8 * (st.sects.map (fun s => s.nreloc)).sum ∧
      ∀ (k : Nat) (s : Section), st.sects[k]? = some s →
        (∃ R, Rs[k]? = some R ∧ R.length = 8 * s.nreloc) ∧
        (Rs.take k).flatten.length = 8 * ((st.sects.take k).map (fun x => x.nreloc)).sum ∧
        (s.nreloc > 0 →
          field32 stF.ofile
            (st.fmt.header_size + st.fmt.segcmd_size + k * st.fmt.sectcmd_size +
              (40 + 2 * st.fmt.ptrsize)) =
            (rel_base + 8 * ((st.sects.take k).map (fun x => x.nreloc)).sum) % 2 ^ 32 ∧
          (rel_base + 8 * ((st.sects.take k).map (fun x => x.nreloc)).sum < 2 ^ 32 →
            field32 stF.ofile
              (st.fmt.header_size + st.fmt.segcmd_size + k * st.fmt.sectcmd_size +
                (40 + 2 * st.fmt.ptrsize)) =
              rel_base + 8 * ((st.sects.take k).map (fun x => x.nreloc)).sum)) := by
  have hinv := reachable_inv st hr
  refine ⟨fun s hs => ?_, ?_⟩
  · obtain ⟨k, hk⟩ := List.getElem?_of_mem hs
    exact (hinv.2.2.2.2.2.1 k s hk).2.1
  obtain ⟨st1, st2, st3, st4, off, D, c1, c2, c3, c4, c5, c6, c7, c8, c9, c10, c11, c12⟩ :=
    cleanup_spec st hinv hn
  obtain ⟨z1, z2, z3, z4, z5, z6, z7, z8, z9, z10, z11, -⟩ := sized_spec st st1 hinv c1
  have hok := sized_sects_ok st st1 hinv c1
  have hnr := nreloc_sum_sized st st1 hinv c1
  obtain ⟨H, P, Bs, S, w1, w2, w3, w4, w5, w6, w7, w8, w9⟩ :=
    load_commands_spec st st1 st2 off hinv c1 c2
  obtain ⟨m1, m2, m3, m4, m5, m6, m7, m8, m9⟩ := fmt_sizes st.fmt (run_inv_fmt st hinv)
  obtain ⟨p1, p2, p3, p4, p5⟩ := w6 hne
  obtain ⟨d1, d2⟩ := c9 hne
  have hfile : (nasm_write st4 st4.strs).ofile = H ++ (P ++ (Bs.flatten ++ S)) ++
      (D ++ (List.replicate st2.rel_padcnt 0 ++
        (st1.sects.map (fun s => reloc_entries s.relocs)).flatten) ++
        (nlist_entries st3 (layout_order (macho_layout_symbols st)) ++ st4.strs)) := by
    show st4.ofile ++ st4.strs = _
    rw [c11, d1, w1]
    simp only [List.append_assoc]
  refine ⟨st1, nasm_write st4 st4.strs, _,
    st2.ofile ++ (D ++ List.replicate st2.rel_padcnt 0),
    nlist_entries st3 (layout_order (macho_layout_symbols st)) ++ st4.strs, _,
    c1, c5.2 hne, rfl, ?_, ?_, rfl, ?_, ?_⟩
  · show st4.ofile ++ st4.strs = _
    rw [c11, d1]
    simp only [List.append_assoc]
  · rw [List.length_append, List.length_append, List.length_replicate, d2, w1,
      List.length_append, w2, w5, ← p4]
    omega
  · rw [entries_length_sum st1.sects (fun s hs => (hok s hs).1), hnr]
  · intro k s hk
    have hklt : k < st.sects.length := (List.getElem?_eq_some_iff.1 hk).1
    have hk1lt : k < st1.sects.length := z3 ▸ hklt
    have hk1 : st1.sects[k]? = some st1.sects[k] := List.getElem?_eq_getElem hk1lt
    obtain ⟨q1, q2, q3, -⟩ := z11 k s _ hk hk1
    have htake : (st1.sects.take k).map (fun x => x.nreloc) =
        (st.sects.take k).map (fun x => x.nreloc) := by
      rw [List.map_take, List.map_take, hnr]
    refine ⟨⟨_, by rw [List.getElem?_map, hk1]; rfl, ?_⟩, ?_, ?_⟩
    · rw [reloc_entries_length, ← (hok _ (List.getElem_mem _)).1, q3]
      simp only [MACHO_RELINFO_SIZE]
      omega
    · rw [← List.map_take,
        entries_length_sum _ (fun x hx => (hok x (List.mem_of_mem_take hx)).1), htake]
    · intro hpos
      have hB : Bs[k]? = some (Bs.get ⟨k, by rw [p2]; exact hklt⟩) :=
        List.getElem?_eq_getElem _
      obtain ⟨-, -, q5, -⟩ := p5 k _ _ hB hk1
      rw [q3, if_pos (by omega)] at q5
      have hsum : ((st1.sects.map (fun x => x.nreloc * MACHO_RELINFO_SIZE)).take k).sum =
          8 * ((st.sects.take k).map (fun x => x.nreloc)).sum := by
        rw [← htake, ← List.map_take]
        exact nreloc_span_sum _
      rw [hsum] at q5
      have hb := bytes_at_sectcmd H P Bs S
        (D ++ (List.replicate st2.rel_padcnt 0 ++
            (st1.sects.map (fun s => reloc_entries s.relocs)).flatten) ++
            (nlist_entries st3 (layout_order (macho_layout_symbols st)) ++ st4.strs))
        _ p3 k _ hB _ _ q5 (by
          rw [le_bytes_length]
          rcases m5 with h | h <;> rw [← m3, h] <;> omega)
      rw [w2, p1, ← hfile] at hb
      have hfield := field32_of_bytes_at _ _ _ hb
      exact ⟨hfield, fun hlt => by rw [hfield, Nat.mod_eq_of_lt hlt]⟩

/-- C18 (witness): the run with the calls of `zeta` and `omicron`: `__text` has three
relocations and `__data` none, the section command of `__text` records `reloff` 312 and
`nreloc` 3, and the statement holds of the run. -/
theorem reloc_region_written_witness :
    reachable run_calls ∧ run_calls.sects ≠ [] ∧
    run_calls.sects.map (fun s => (s.nreloc, s.relocs.length)) = [(3, 3), (0, 0)] ∧
    field32 (emitted run_calls) (32 + 72 + 56) = 312 ∧
    field32 (emitted run_calls) (32 + 72 + 60) = 3 ∧
    ((∀ s ∈ run_calls.sects, s.nreloc = s.relocs.length) ∧
    ∃ (st1 stF : State) (rel_base : Nat) (A T : List Nat) (Rs : List (List Nat)),
      macho_calculate_sizes (fixup_all (macho_layout_symbols run_calls)) = some st1 ∧
      macho_cleanup run_calls = some stF ∧
      rel_base = alignptr st1 (run_calls.fmt.header_size + st1.head_sizeofcmds + st1.seg_filesize) ∧
      stF.ofile = A ++ (Rs.flatten ++ T) ∧ A.length = rel_base ∧
      Rs = st1.sects.map (fun s => reloc_entries s.relocs) ∧
      Rs.flatten.length = 8 * (run_calls.sects.map (fun s => s.nreloc)).sum ∧
      ∀ (k : Nat) (s : Section), run_calls.sects[k]? = some s →
        (∃ R, Rs[k]? = some R ∧ R.length = 8 * s.nreloc) ∧
        (Rs.take k).flatten.length = 8 * ((run_calls.sects.take k).map (fun x => x.nreloc)).sum ∧
        (s.nreloc > 0 →
          field32 stF.ofile
            (run_calls.fmt.header_size + run_calls.fmt.segcmd_size + k * run_calls.fmt.sectcmd_size +
              (40 + 2 * run_calls.fmt.ptrsize)) =
            (rel_base + 8 * ((run_calls.sects.take k).map (fun x => x.nreloc)).sum) % 2 ^ 32 ∧
          (rel_base + 8 * ((run_calls.sects.take k).map (fun x => x.nreloc)).sum < 2 ^ 32 →
            field32 stF.ofile
              (run_calls.fmt.header_size + run_calls.fmt.segcmd_size + k * run_calls.fmt.sectcmd_size +
                (40 + 2 * run_calls.fmt.ptrsize)) =
              rel_base + 8 * ((run_calls.sects.take k).map (fun x => x.nreloc)).sum))) :=
  ⟨⟨events_calls, Or.inr (by rfl)⟩, by decide, by decide, by decide, by decide,
    reloc_region_written run_calls ⟨events_calls, Or.inr (by rfl)⟩ (by decide) (by decide)⟩

/-- C20: in every state the module reaches, every relocation registered with `ext = 0`
has `snum` in `[1, nsects]`, the `fileindex` of the section at position `snum - 1`; and for
a run with at most 255 sections the same holds when the write pass starts, `seg_nsects`
being the number of sections and `sectstab` holding an entry for each such `snum`, so that
`macho_write_section` returns, the passes of `macho_cleanup` write the file, and
`macho_cleanup` returns when a section exists. -/
theorem internal_snum_valid (st : State) (hr : reachable st)
    (hn : st.sects.length ≤ MAX_SECT) :
    (∀ s ∈ st.sects, ∀ r ∈ s.relocs, r.ext = 0 →
      1 ≤ r.snum ∧ r.snum ≤ (st.sects.length : Int) ∧
      ∃ sc, st.sects[r.snum.toNat - 1]? = some sc ∧ (sc.fileindex : Int) = r.snum) ∧
    st.seg_nsects = st.sects.length ∧
    ∃ (st1 st2 st3 stF : State) (off : Nat),
      macho_calculate_sizes (fixup_all (macho_layout_symbols st)) = some st1 ∧
      write_load_commands st1 = some (st2, off) ∧
      st2.seg_nsects = st.sects.length ∧
      (∀ S ∈ st2.sects, ∀ r ∈ S.relocs, r.ext = 0 →
        1 ≤ r.snum ∧ r.snum ≤ (st2.seg_nsects : Int) ∧
        (sectstab_addr st2 r.snum.toNat).isSome ∧
        ∃ sc, st2.sects[r.snum.toNat - 1]? = some sc ∧ (sc.fileindex : Int) = r.snum) ∧
      (st.sects ≠ [] → macho_write_section st2 = some st3) ∧
      macho_cleanup_write st = some stF ∧
      (st.sects ≠ [] → macho_cleanup st = some stF) := by
  have hinv := reachable_inv st hr
  obtain ⟨st1, st2, st3, st4, off, D, c1, c2, c3, c4, c5, c6, c7, c8, c9, c10, c11, c12⟩ :=
    cleanup_spec st hinv hn
  obtain ⟨v1, v2, v3⟩ := written_snums_valid st st1 st2 off hinv c1 c2
  refine ⟨?_, hinv.2.2.1, st1, st2, st3, _, off, c1, c2, v1, v3, ?_, c5.1, c5.2⟩
  · intro s hs r hr2 he
    obtain ⟨k, hk⟩ := List.getElem?_of_mem hs
    obtain ⟨-, o1, o2, o3, o4, -⟩ := hinv.2.2.2.2.2.1 k s hk
    obtain ⟨q1, q2⟩ := (o4 r hr2).2.2.2.1 he
    have hj : r.snum.toNat - 1 < st.sects.length := by omega
    refine ⟨q1, q2, _, List.getElem?_eq_getElem hj, ?_⟩
    rw [(hinv.2.2.2.2.2.1 _ _ (List.getElem?_eq_getElem hj)).1]
    omega
  · intro hne
    have hpos : st2.seg_nsects > 0 := by
      rw [v1]; exact List.length_pos.2 hne
    rw [if_pos hpos] at c3
    exact c3

/-- C20 (witness): the run with the calls of `zeta` and `omicron`: its one relocation with
`ext = 0` is the address of `__data` and has `snum` 2, the file index of `__data`, and the
file is written. -/
theorem internal_snum_valid_witness :
    reachable run_calls ∧ run_calls.sects.length = 2 ∧
    run_calls.sects.map (fun s => (s.fileindex, s.relocs.map (fun r => (r.ext, r.snum)))) =
      [(1, [(0, 2), (1, 2), (1, 1)]), (2, [])] ∧
    ∃ stF, macho_cleanup run_calls = some stF :=
  ⟨⟨events_calls, Or.inr (by rfl)⟩, by decide, by decide,
    (internal_snum_valid run_calls ⟨events_calls, Or.inr (by rfl)⟩
      (by decide)).2.2.elim (fun _ h1 => h1.elim (fun _ h2 => h2.elim (fun _ h3 =>
        h3.elim (fun stF h4 => h4.elim (fun _ h5 =>
          ⟨stF, h5.2.2.2.2.2.2 (by decide)⟩)))))⟩

/-- C10: when the passes of `macho_cleanup` write the file of a run with at most 255
sections (`macho_cleanup` itself returning when a section exists),
`macho_write_symtab` appends one entry of `nlist_size` bytes per symbol, in the order of
the local symbols in list order, then the sorted defined externals, then the sorted
undefined externals; the entry at position `k` is that of the symbol whose final `snum` is
`k`; the value in the entry of a symbol with `(type & N_TYPE) = N_SECT` and
`sect != NO_SECT` is its definition offset plus the address of section `sect`, and that of
any other symbol is its definition offset unchanged; and afterwards the symbol's `key`
holds that value, the address having been added once. -/
theorem symtab_written (st : State) (hr : reachable st) (hn : st.sects.length ≤ MAX_SECT) :
    ∃ (st1 st3 st4 : State),
      macho_calculate_sizes (fixup_all (macho_layout_symbols st)) = some st1 ∧
      (if st3.nsyms > 0 then macho_write_symtab st3 else some st3) = some st4 ∧
      macho_cleanup_write st = some (nasm_write st4 st4.strs) ∧
      (st.sects ≠ [] → macho_cleanup st = some (nasm_write st4 st4.strs)) ∧
      st3.syms = (macho_layout_symbols st).syms ∧
      st4.ofile = st3.ofile ++ nlist_entries st3 (layout_order (macho_layout_symbols st)) ∧
      (nlist_entries st3 (layout_order (macho_layout_symbols st))).length =
        st.syms.length * st.fmt.nlist_size ∧
      (layout_order (macho_layout_symbols st)).length = st.syms.length ∧
      (layout_order (macho_layout_symbols st)).Nodup ∧
      layout_order (macho_layout_symbols st) =
        positions sym_local (macho_layout_symbols st).syms 0 ++
          ((positions sym_extdef (macho_layout_symbols st).syms 0).insertionSort
              (layout_le (macho_layout_symbols st).syms) ++
            (positions sym_undef (macho_layout_symbols st).syms 0).insertionSort
              (layout_le (macho_layout_symbols st).syms)) ∧
      ∀ (k p : Nat), (layout_order (macho_layout_symbols st))[k]? = some p →
        ∃ sym0 sym, st.syms[p]? = some sym0 ∧ st3.syms[p]? = some sym ∧
          sym.snum = (k : Int) ∧
          bytes_at (nlist_entries st3 (layout_order (macho_layout_symbols st)))
            (k * st.fmt.nlist_size) (nlist_entry st3 sym) ∧
          (sym.type &&& N_TYPE = N_SECT ∧ sym.sect ≠ NO_SECT →
            ∃ sc, st1.sects[sym.sect - 1]? = some sc ∧
              nlist_value st3 sym = sym0.key + sc.addr) ∧
          (¬ (sym.type &&& N_TYPE = N_SECT ∧ sym.sect ≠ NO_SECT) →
            nlist_value st3 sym = sym0.key) ∧
          st4.syms[p]? = some { sym with key := nlist_value st3 sym } := by
  have hinv := reachable_inv st hr
  obtain ⟨st1, st2, st3, st4, off, D, c1, c2, c3, c4, c5, c6, c7, c8, c9, c10, c11, c12⟩ :=
    cleanup_spec st hinv hn
  obtain ⟨z1, z2, z3, z4, z5, z6, z7, z8, z9, z10, z11, z12, -⟩ := sized_spec st st1 hinv c1
  obtain ⟨m1, m2, m3, m4, m5, m6, m7, m8, m9⟩ := fmt_sizes st.fmt (run_inv_fmt st hinv)
  obtain ⟨l1, l2, l3, l4, l5, l6⟩ := layout_order_spec st hinv
  obtain ⟨a1, a2, a3, a4, a5⟩ := written_addrs st1 st2 st3 c6 c7
  obtain ⟨f1, f2, f3, f4, f5, f6, f7, f8, f9, f10, f11, f12⟩ :=
    layout_spec st ⟨hinv.2.2.2.2.2.2.1, hinv.2.2.2.2.2.2.2.1, hinv.2.2.2.2.2.2.2.2.1⟩
  have hsyms3 : st3.syms = (macho_layout_symbols st).syms := by rw [a5, z5]
  have hstab : st3.sectstab =
      sectptr.absolute :: (List.range st3.sects.length).map (fun i => sectptr.real i) := by
    rw [a2, z12, a3]
  have hEs : ∀ E ∈ (layout_order (macho_layout_symbols st)).map
      (fun p => ((st3.syms[p]?).map (nlist_entry st3)).getD []),
      E.length = st.fmt.nlist_size := by
    intro E hE
    obtain ⟨p, hp, rfl⟩ := List.mem_map.1 hE
    obtain ⟨sym, sym0, b1, -⟩ := l6 p hp
    rw [hsyms3, b1, Option.map_some', Option.getD_some, nlist_entry_length, a4, z1, m4]
  refine ⟨st1, st3, st4, c1, c4, c5.1, c5.2, hsyms3, c11, ?_, l4, l3, ?_, ?_⟩
  · unfold nlist_entries
    rw [flatten_length_uniform _ _ hEs, List.length_map, l4]
  · unfold layout_order
    rw [← f10, ← f11]
  · intro k p hk
    have hp : p ∈ layout_order (macho_layout_symbols st) := List.getElem?_mem hk
    obtain ⟨sym, sym0, b1, b2, b3, b4, b5, b6, b7, b8⟩ := l6 p hp
    have hs3 : st3.syms[p]? = some sym := by rw [hsyms3]; exact b1
    have hsn := f12 k p hk
    unfold snum_at at hsn
    rw [b1] at hsn
    refine ⟨sym0, sym, b2, hs3, Option.some.inj hsn, ?_, ?_, ?_, c12 p hp sym hs3⟩
    · unfold nlist_entries
      have := bytes_at_flatten _ _ hEs k (nlist_entry st3 sym)
        (by rw [List.getElem?_map, hk, Option.map_some', hs3]; rfl) 0 (nlist_entry st3 sym)
        (by unfold bytes_at; simp) (by
          rw [nlist_entry_length, a4, z1, m4]; omega)
      rw [Nat.add_zero] at this
      exact this
    · intro hc
      have hpos : 1 ≤ sym.sect := Nat.pos_of_ne_zero hc.2
      have hlt : sym.sect - 1 < st1.sects.length := by rw [z3]; omega
      have hlt3 : sym.sect - 1 < st3.sects.length := a3 ▸ hlt
      refine ⟨st1.sects[sym.sect - 1], List.getElem?_eq_getElem hlt, ?_⟩
      have hadd : sectstab_addr st3 sym.sect = some (st1.sects[sym.sect - 1]).addr := by
        have h1 := sectstab_addr_succ st3 hstab (sym.sect - 1)
        rw [Nat.sub_add_cancel hpos] at h1
        rw [h1]
        have h2 := congrArg (fun l => l[sym.sect - 1]?) a1
        simp only [List.getElem?_map, List.getElem?_eq_getElem hlt,
          List.getElem?_eq_getElem hlt3, Option.map_some'] at h2
        rw [List.getElem?_eq_getElem hlt3, Option.map_some']
        exact h2
      unfold nlist_value
      rw [if_pos hc, hadd, Option.getD_some, b3]
    · intro hc
      unfold nlist_value
      rw [if_neg hc, b3]

/-- C10 (witness): scenario S2 (32-bit): the one symbol, the local label `D` at offset 0
of `__data`, is written with `sect` 2 and the value 5, the address of `__data`; the
symbol table starts at byte 264 of the file. -/
theorem symtab_written_witness :
    reachable run_S2 ∧ run_S2.syms.map (fun s => (s.key, s.sect)) = [(0, 2)] ∧
    field32 (emitted run_S2) (264 + 8) = 5 ∧
    ∃ (st1 st3 st4 : State),
      macho_calculate_sizes (fixup_all (macho_layout_symbols run_S2)) = some st1 ∧
      (if st3.nsyms > 0 then macho_write_symtab st3 else some st3) = some st4 ∧
      macho_cleanup_write run_S2 = some (nasm_write st4 st4.strs) ∧
      (run_S2.sects ≠ [] → macho_cleanup run_S2 = some (nasm_write st4 st4.strs)) ∧
      st3.syms = (macho_layout_symbols run_S2).syms ∧
      st4.ofile = st3.ofile ++ nlist_entries st3 (layout_order (macho_layout_symbols run_S2)) ∧
      (nlist_entries st3 (layout_order (macho_layout_symbols run_S2))).length =
        run_S2.syms.length * run_S2.fmt.nlist_size ∧
      (layout_order (macho_layout_symbols run_S2)).length = run_S2.syms.length ∧
      (layout_order (macho_layout_symbols run_S2)).Nodup ∧
      layout_order (macho_layout_symbols run_S2) =
        positions sym_local (macho_layout_symbols run_S2).syms 0 ++
          ((positions sym_extdef (macho_layout_symbols run_S2).syms 0).insertionSort
              (layout_le (macho_layout_symbols run_S2).syms) ++
            (positions sym_undef (macho_layout_symbols run_S2).syms 0).insertionSort
              (layout_le (macho_layout_symbols run_S2).syms)) ∧
      ∀ (k p : Nat), (layout_order (macho_layout_symbols run_S2))[k]? = some p →
        ∃ sym0 sym, run_S2.syms[p]? = some sym0 ∧ st3.syms[p]? = some sym ∧
          sym.snum = (k : Int) ∧
          bytes_at (nlist_entries st3 (layout_order (macho_layout_symbols run_S2)))
            (k * run_S2.fmt.nlist_size) (nlist_entry st3 sym) ∧
          (sym.type &&& N_TYPE = N_SECT ∧ sym.sect ≠ NO_SECT →
            ∃ sc, st1.sects[sym.sect - 1]? = some sc ∧
              nlist_value st3 sym = sym0.key + sc.addr) ∧
          (¬ (sym.type &&& N_TYPE = N_SECT ∧ sym.sect ≠ NO_SECT) →
            nlist_value st3 sym = sym0.key) ∧
          st4.syms[p]? = some { sym with key := nlist_value st3 sym } :=
  ⟨⟨events_S2, Or.inl (by rfl)⟩, by decide, by decide,
    symtab_written run_S2 ⟨events_S2, Or.inl (by rfl)⟩ (by decide)⟩

/-! ### Symbol definition -/

/-- C24: a symbol definition with a special type (`special` not null), or with
`is_global = 3`, or with a name that begins with `..` and whose third character is not
`@`, returns and leaves every variable but the diagnostics unchanged: the symbol list,
`nsyms`, the external map, the string table, the sections with their `gsyms` trees and the
absolute section; a diagnostic is reported when `special` is not null, when
`is_global = 3`, and when the name is neither `..gotpcrel` nor `..tlvp`; and nothing at
all is reported for those two names when `special` is null and `is_global` is not 3. -/
theorem symdef_rejected (st : State) (name : List Nat) (section_ offset is_global : Int)
    (special : Option (List Nat))
    (h : special.isSome ∨ is_global = 3 ∨
      (name.getD 0 0 = 0x2e ∧ name.getD 1 0 = 0x2e ∧ name.getD 2 0 ≠ 0x40)) :
    ∃ st1, macho_symdef st name section_ offset is_global special = some st1 ∧
      { st1 with errs := st.errs } = st ∧
      st1.syms = st.syms ∧ st1.nsyms = st.nsyms ∧ st1.extsyms = st.extsyms ∧
      st1.strs = st.strs ∧ st1.strslen = st.strslen ∧ st1.sects = st.sects ∧
      st1.absolute_sect = st.absolute_sect ∧
      (special.isSome ∨ is_global = 3 ∨
        (strcmp name name_gotpcrel ≠ 0 ∧ strcmp name name_tlvp ≠ 0) →
        ∃ d, st1.errs = st.errs ++ [d]) ∧
      (special = none → is_global ≠ 3 →
        (strcmp name name_gotpcrel = 0 ∨ strcmp name name_tlvp = 0) → st1 = st) := by
  unfold macho_symdef
  by_cases h1 : special.isSome
  · rw [if_pos h1]
    refine ⟨_, rfl, rfl, rfl, rfl, rfl, rfl, rfl, rfl, rfl, fun _ => ⟨_, rfl⟩, ?_⟩
    intro hs
    rw [hs] at h1
    cases h1
  · rw [if_neg h1]
    by_cases h2 : is_global = 3
    · rw [if_pos h2]
      exact ⟨_, rfl, rfl, rfl, rfl, rfl, rfl, rfl, rfl, rfl, fun _ => ⟨_, rfl⟩,
        fun _ hne => absurd h2 hne⟩
    · rw [if_neg h2]
      have h3 : name.getD 0 0 = 0x2e ∧ name.getD 1 0 = 0x2e ∧ name.getD 2 0 ≠ 0x40 := by
        rcases h with h | h | h
        · exact absurd h h1
        · exact absurd h h2
        · exact h
      rw [if_pos h3]
      by_cases h4 : strcmp name name_gotpcrel ≠ 0 ∧ strcmp name name_tlvp ≠ 0
      · rw [if_pos h4]
        refine ⟨_, rfl, rfl, rfl, rfl, rfl, rfl, rfl, rfl, rfl, fun _ => ⟨_, rfl⟩, ?_⟩
        intro _ _ hor
        rcases hor with e | e
        · exact absurd e h4.1
        · exact absurd e h4.2
      · rw [if_neg h4]
        refine ⟨st, rfl, rfl, rfl, rfl, rfl, rfl, rfl, rfl, rfl, ?_, fun _ _ _ => rfl⟩
        intro hor
        rcases hor with e | e | e
        · exact absurd e h1
        · exact absurd e h2
        · exact absurd e h4

/-- C24 (witness): in the 64-bit run with `__text`, `__data` and the symbol `v`, the
definition of `..gotpcrel` changes nothing, and the definition of `..start` (a name of the
assembler that the module does not know) only reports a diagnostic. -/
theorem symdef_rejected_witness :
    macho_symdef s64v name_gotpcrel 8 0 0 none = some s64v ∧
    (macho_symdef s64v [0x2e, 0x2e, 0x73] 8 0 0 none).map (fun s => (s.syms, s.errs)) =
      some (s64v.syms, s64v.errs ++ [.unrecognized_special]) ∧
    ∃ st1, macho_symdef s64v name_gotpcrel 8 0 0 none = some st1 ∧
      { st1 with errs := s64v.errs } = s64v ∧
      st1.syms = s64v.syms ∧ st1.nsyms = s64v.nsyms ∧ st1.extsyms = s64v.extsyms ∧
      st1.strs = s64v.strs ∧ st1.strslen = s64v.strslen ∧ st1.sects = s64v.sects ∧
      st1.absolute_sect = s64v.absolute_sect ∧
      ((none : Option (List Nat)).isSome ∨ (0 : Int) = 3 ∨
        (strcmp name_gotpcrel name_gotpcrel ≠ 0 ∧ strcmp name_gotpcrel name_tlvp ≠ 0) →
        ∃ d, st1.errs = s64v.errs ++ [d]) ∧
      ((none : Option (List Nat)) = none → (0 : Int) ≠ 3 →
        (strcmp name_gotpcrel name_gotpcrel = 0 ∨ strcmp name_gotpcrel name_tlvp = 0) →
        st1 = s64v) :=
  ⟨by decide, by decide,
    symdef_rejected s64v name_gotpcrel 8 0 0 none (Or.inr (Or.inr (by decide)))⟩

set_option maxRecDepth 8000 in
/-- C23 (counterexample): in the 64-bit run with 256 sections the last section has the
segment number 514 and the file index 256; the definition of the local symbol `w` at
offset 0 of it is accepted, and the symbol gets `sect` 0, which is `NO_SECT`, not the file
index of its section. -/
theorem symdef_sect_wraps :
    reachable run_256 ∧ run_256.sects.length = 256 ∧
    get_section_by_index run_256 514 = some 255 ∧
    (run_256.sects[255]?).map (fun s => s.fileindex) = some 256 ∧
    (macho_symdef run_256 [0x77] 514 0 0 none).map
      (fun st => st.syms.map (fun y => (y.name, y.type, y.sect))) =
      some [([0x77], N_SECT, 0)] ∧
    NO_SECT = 0 :=
  ⟨⟨events_256, Or.inr (by rfl)⟩, by decide, by decide, by decide, by decide, by decide⟩

/-- C23 (amended): for a symbol definition that is accepted (`special` null, `is_global` not 3,
the name not of the `..` form) one symbol is appended at the tail of the list and `nsyms`
grows by one; the symbol has the name, the offset as `key` and the string index
`strslen`, and: with `section = NO_SEG` its type is `N_ABS | (N_EXT if is_global != 0)`,
`sect = NO_SECT`, `initial_snum = -1`, and it is inserted into the `gsyms` of the absolute
section; with a `section` that is no emitted section and `is_global` 1 or 2 its type is
`N_EXT`, `sect = NO_SECT`, `initial_snum` is the old `nsyms`, which is also written to the
external map at `section`; with a `section` that is emitted its type is
`N_SECT | (N_EXT if is_global != 0)`, `sect` the section's `fileindex` modulo 2^8, which
is the `fileindex` itself for a `fileindex` below 256, `initial_snum` the old `nsyms`, and
it is inserted into that section's `gsyms` exactly when `is_global != 0`, no other section
changing. -/
theorem symdef_accepted (st : State) (name : List Nat) (section_ offset is_global : Int)
    (h3 : is_global ≠ 3)
    (hn : ¬ (name.getD 0 0 = 0x2e ∧ name.getD 1 0 = 0x2e ∧ name.getD 2 0 ≠ 0x40)) :
    (section_ = NO_SEG → ∃ st1 sym,
      macho_symdef st name section_ offset is_global none = some st1 ∧
      st1.syms = st.syms ++ [sym] ∧ st1.nsyms = st.nsyms + 1 ∧
      sym.name = name ∧ sym.key = u64 offset ∧ sym.strx = st.strslen ∧
      sym.type = N_ABS ||| (if is_global ≠ 0 then N_EXT else 0) ∧ sym.sect = NO_SECT ∧
      sym.initial_snum = -1 ∧
      st1.absolute_sect.gsyms = rb_insert st.absolute_sect.gsyms st.syms.length ∧
      st1.sects = st.sects ∧ st1.extsyms = st.extsyms) ∧
    (section_ ≠ NO_SEG → get_section_by_index st section_ = none →
      (is_global = 1 ∨ is_global = 2) → ∃ st1 sym,
      macho_symdef st name section_ offset is_global none = some st1 ∧
      st1.syms = st.syms ++ [sym] ∧ st1.nsyms = st.nsyms + 1 ∧
      sym.name = name ∧ sym.key = u64 offset ∧ sym.strx = st.strslen ∧
      sym.type = N_EXT ∧ sym.sect = NO_SECT ∧ sym.initial_snum = (st.nsyms : Int) ∧
      st1.extsyms = raa_write st.extsyms section_ st.nsyms ∧
      raa_read st1.extsyms section_ = (st.nsyms : Int) ∧
      st1.sects = st.sects ∧ st1.absolute_sect = st.absolute_sect) ∧
    (section_ ≠ NO_SEG → ∀ (i : Nat) (sc : Section),
      get_section_by_index st section_ = some i → st.sects[i]? = some sc → ∃ st1 sym,
      macho_symdef st name section_ offset is_global none = some st1 ∧
      st1.syms = st.syms ++ [sym] ∧ st1.nsyms = st.nsyms + 1 ∧
      sym.name = name ∧ sym.key = u64 offset ∧ sym.strx = st.strslen ∧
      sym.type = N_SECT ||| (if is_global ≠ 0 then N_EXT else 0) ∧
      sym.sect = sc.fileindex % 2 ^ 8 ∧ (sc.fileindex < 2 ^ 8 → sym.sect = sc.fileindex) ∧
      sym.initial_snum = (st.nsyms : Int) ∧
      st1.sects[i]? = some { sc with gsyms :=
        if is_global ≠ 0 then rb_insert sc.gsyms st.syms.length else sc.gsyms } ∧
      (∀ j, j ≠ i → st1.sects[j]? = st.sects[j]?) ∧
      st1.extsyms = st.extsyms ∧ st1.absolute_sect = st.absolute_sect) := by
  refine ⟨?_, ?_, ?_⟩
  · intro hs
    unfold macho_symdef
    simp only [Option.isSome_none, Bool.false_eq_true, if_false, if_neg h3, if_neg hn,
      if_pos hs]
    refine ⟨_, _, rfl, rfl, rfl, ?_, ?_, ?_, ?_, ?_, ?_, rfl, rfl, rfl⟩
    · split <;> rfl
    · split <;> rfl
    · split <;> rfl
    · by_cases hg : is_global ≠ 0
      · simp only [if_pos hg]; decide
      · simp only [if_neg hg]; decide
    · split <;> rfl
    · split <;> rfl
  · intro hs hnone hg
    unfold macho_symdef
    simp only [Option.isSome_none, Bool.false_eq_true, if_false, if_neg h3, if_neg hn,
      if_neg hs, hnone, Option.none_bind, if_pos hg]
    refine ⟨_, _, rfl, rfl, rfl, ?_, ?_, ?_, rfl, ?_, ?_, rfl, ?_, rfl, rfl⟩
    · split <;> rfl
    · split <;> rfl
    · split <;> rfl
    · split <;> rfl
    · split <;> rfl
    · simp [raa_write, raa_read]
  · intro hs i sc hi hsc
    unfold macho_symdef
    simp only [Option.isSome_none, Bool.false_eq_true, if_false, if_neg h3, if_neg hn,
      if_neg hs, hi, Option.some_bind, hsc, Option.map_some']
    by_cases hg : is_global ≠ 0
    · simp only [if_pos hg]
      refine ⟨_, _, rfl, rfl, rfl, rfl, rfl, rfl, ?_, rfl, Nat.mod_eq_of_lt, rfl, ?_, ?_,
        rfl, rfl⟩
      · exact (by decide : (0 ||| N_EXT) ||| N_SECT = N_SECT ||| N_EXT)
      · show (st.sects.modify _ i)[i]? = _
        rw [List.getElem?_modify, hsc]
        simp
      · intro j hj
        show (st.sects.modify _ i)[j]? = _
        rw [List.getElem?_modify]
        cases st.sects[j]? with
        | none => rfl
        | some s => simp [Ne.symm hj]
    · simp only [if_neg hg]
      refine ⟨_, _, rfl, rfl, rfl, rfl, rfl, rfl, ?_, rfl, Nat.mod_eq_of_lt, rfl, hsc,
        fun _ _ => rfl, rfl, rfl⟩
      exact (by decide : (0 : Nat) ||| N_SECT = N_SECT ||| 0)

/-- C23 (witness): in the 64-bit run with `__text`, `__data` and the global symbol `v`,
the definition of the global symbol `w` at offset 16 of `__data` (segment number 6, file
index 2) appends the second symbol, with type `N_SECT | N_EXT` = 15, `sect` 2 and
`initial_snum` 1. -/
theorem symdef_accepted_witness :
    (macho_symdef s64v [0x77] 6 16 1 none).map (fun s =>
      (s.nsyms, s.syms.map (fun y => (y.name, y.key, y.type, y.sect, y.initial_snum)))) =
      some (2, [([0x76], 8, 15, 2, 0), ([0x77], 16, 15, 2, 1)]) ∧
    ((6 : Int) ≠ NO_SEG → ∀ (i : Nat) (sc : Section),
      get_section_by_index s64v 6 = some i → s64v.sects[i]? = some sc → ∃ st1 sym,
      macho_symdef s64v [0x77] 6 16 1 none = some st1 ∧
      st1.syms = s64v.syms ++ [sym] ∧ st1.nsyms = s64v.nsyms + 1 ∧
      sym.name = [0x77] ∧ sym.key = u64 16 ∧ sym.strx = s64v.strslen ∧
      sym.type = N_SECT ||| (if (1 : Int) ≠ 0 then N_EXT else 0) ∧
      sym.sect = sc.fileindex % 2 ^ 8 ∧ (sc.fileindex < 2 ^ 8 → sym.sect = sc.fileindex) ∧
      sym.initial_snum = (s64v.nsyms : Int) ∧
      st1.sects[i]? = some { sc with gsyms :=
        if (1 : Int) ≠ 0 then rb_insert sc.gsyms s64v.syms.length else sc.gsyms } ∧
      (∀ j, j ≠ i → st1.sects[j]? = s64v.sects[j]?) ∧
      st1.extsyms = s64v.extsyms ∧ st1.absolute_sect = s64v.absolute_sect) :=
  ⟨by rfl, (symdef_accepted s64v [0x77] 6 16 1 (by decide) (by decide)).2.2⟩

/-! ### Outcome of add_reloc -/

theorem registered_of_link (st st0 : State) (sect : Nat) (sc : Section) (r : reloc) (a : Int)
    (h0 : st0.sects = st.sects) (hsect : st.sects[sect]? = some sc) :
    registered st sect r (reloc_link st0 sect r a).1 := by
  have h := reloc_link_registered st0 sect sc r a (by rw [h0]; exact hsect)
  unfold registered at h ⊢
  rw [h0] at h
  exact h

theorem link_after_extreloc (st : State) (sect : Nat) (r : reloc) (he : r.ext = 1) :
    (reloc_link (update_sect st sect (fun x => { x with extreloc := 1 })) sect r 0).1.sects =
      (reloc_link st sect r 0).1.sects := by
  simp only [reloc_link, update_sect_sects]
  apply List.ext_getElem?
  intro k
  simp only [List.getElem?_modify]
  cases st.sects[k]? with
  | none => rfl
  | some s => by_cases hk : sect = k <;> simp [hk, he]

theorem add_reloc_outcome (st : State) (hinv : run_inv st) (sect : Nat) (sc : Section)
    (hsect : st.sects[sect]? = some sc) (section_ offset : Int) (rt : reltype) (bytes : Int)
    (hmax : rt.toNat ≤ st.fmt.maxreltype.toNat) :
    ∃ st1 adj, add_reloc st sect section_ offset rt bytes = some (st1, adj) ∧
      (reloc_bails st section_ offset rt → adj = 0 ∧ st1.sects = st.sects) ∧
      (¬ reloc_bails st section_ offset rt →
        (adj = bytes ∨ adj = -(sc.size : Int)) ∧
        ∃ r, registered st sect r st1 ∧ r.addr = sc.size % 2 ^ 31 ∧
          r.length = ilog2_32 bytes ∧ st1.sects = (reloc_link st sect r 0).1.sects) := by
  have hkind : rt = .RL_ABS ∨ (rt = .RL_REL ∨ rt = .RL_BRANCH) ∨ rt = .RL_SUB ∨
      (rt = .RL_GOT ∨ rt = .RL_GOTLOAD ∨ rt = .RL_TLV) := by
    cases rt <;> simp
  have hfi : ∀ (j : Nat) (t : Section), st.sects[j]? = some t → t.fileindex ≠ NO_SECT := by
    intro j t ht
    have := (hinv.2.2.2.2.2.1 j t ht).1
    unfold NO_SECT
    omega
  obtain ⟨⟨st1, adj⟩, hres⟩ := add_reloc_some st sect sc section_ offset rt bytes hinv hsect hmax
  refine ⟨st1, adj, hres, ?_⟩
  rcases hkind with rfl | hk | rfl | hk
  · -- absolute
    rw [add_reloc_abs_eq st sect sc section_ offset bytes hsect] at hres
    obtain ⟨rfl, rfl⟩ := Prod.mk.inj (Option.some.inj hres)
    refine ⟨?_, ?_⟩
    · intro hb
      rcases hb with ⟨h1, -⟩ | ⟨h1, -⟩
      · rcases h1 with h | h <;> cases h
      · rcases h1 with h | h | h <;> cases h
    · intro _
      refine ⟨?_, _, registered_of_link st st sect sc _ 0 rfl hsect, rfl, rfl, rfl⟩
      show (if section_ = NO_SEG then bytes else _) = bytes ∨ _
      by_cases href : section_ = NO_SEG
      · exact Or.inl (if_pos href)
      · rw [if_neg href]
        cases (get_section_by_index st section_).bind (fun i => st.sects[i]?) with
        | none => exact Or.inl rfl
        | some t =>
          by_cases h0 : t.fileindex = NO_SECT
          · exact Or.inl (if_pos h0)
          · exact Or.inr (if_neg h0)
  · -- relative
    have hnb : section_ ≠ NO_SEG → ¬ reloc_bails st section_ offset rt := by
      intro href hb
      rcases hb with ⟨-, h2⟩ | ⟨h1, -⟩
      · exact href h2
      · rcases hk with rfl | rfl <;> rcases h1 with h | h | h <;> cases h
    by_cases href : section_ = NO_SEG
    · have e : st1 = nasm_error st .rel_to_absolute ∧ adj = 0 := by
        rcases hk with rfl | rfl <;>
          · simp [add_reloc, hmax, hsect, href] at hres
            exact ⟨hres.1.symm, hres.2.symm⟩
      obtain ⟨rfl, rfl⟩ := e
      exact ⟨fun _ => ⟨rfl, rfl⟩, fun hn => absurd (Or.inl ⟨hk, href⟩) hn⟩
    · cases hg : get_section_by_index st section_ with
      | none =>
        rw [add_reloc_rel_external st sect sc section_ offset rt bytes hk hmax href hsect hg]
          at hres
        obtain ⟨rfl, rfl⟩ := Prod.mk.inj (Option.some.inj hres)
        refine ⟨fun hb => absurd hb (hnb href), fun _ => ⟨?_, _,
          registered_after_flag st sect sc _ 0 _ (fun _ => rfl) (fun _ => rfl) hsect,
          rfl, rfl, link_after_extreloc st sect _ rfl⟩⟩
        show (if rt = .RL_REL ∧ st.fmt.reloc_rel = GENERIC_RELOC_VANILLA then
          -(sc.size : Int) else bytes) = bytes ∨ _
        by_cases hc : rt = .RL_REL ∧ st.fmt.reloc_rel = GENERIC_RELOC_VANILLA
        · exact Or.inr (if_pos hc)
        · exact Or.inl (if_neg hc)
      | some j =>
        obtain ⟨t, ht, _, _⟩ := find_by_index_some section_ st.sects j hg
        rw [add_reloc_rel_local st sect sc section_ offset rt bytes j t hk hmax href hsect hg ht
            (hfi j t ht)] at hres
        obtain ⟨rfl, rfl⟩ := Prod.mk.inj (Option.some.inj hres)
        exact ⟨fun hb => absurd hb (hnb href),
          fun _ => ⟨Or.inr rfl, _, registered_of_link st st sect sc _ 0 rfl hsect, rfl, rfl, rfl⟩⟩
  · -- subtractor
    simp [add_reloc, hmax, hsect] at hres
    obtain ⟨rfl, rfl⟩ := Prod.mk.inj hres
    refine ⟨?_, ?_⟩
    · intro hb
      rcases hb with ⟨h1, -⟩ | ⟨h1, -⟩
      · rcases h1 with h | h <;> cases h
      · rcases h1 with h | h | h <;> cases h
    · intro _
      exact ⟨Or.inl rfl, _, registered_of_link st st sect sc _ 0 rfl hsect,
        land_scattered_norm _, rfl, rfl⟩
  · -- symbol-targeting
    have hnr : ¬ ((rt = .RL_REL ∨ rt = .RL_BRANCH) ∧ section_ = NO_SEG) := by
      rintro ⟨h1, -⟩
      rcases hk with rfl | rfl | rfl <;> rcases h1 with h | h <;> cases h
    by_cases href : section_ = NO_SEG
    · have hnb : ¬ reloc_bails st section_ offset rt := by
        rintro (hb | ⟨-, h2, -⟩)
        · exact hnr hb
        · exact h2 href
      refine ⟨fun hb => absurd hb hnb, fun _ => ?_⟩
      rcases hk with rfl | rfl | rfl <;>
        · simp [add_reloc, hmax, hsect, href] at hres
          obtain ⟨rfl, rfl⟩ := Prod.mk.inj hres
          exact ⟨Or.inl rfl, _,
            registered_of_link st (nasm_error st .wrt_needs_symbol) sect sc _ 0 rfl hsect,
            land_scattered_norm _, rfl, rfl⟩
    · cases hg : get_section_by_index st section_ with
      | none =>
        have hnb : ¬ reloc_bails st section_ offset rt := by
          rintro (hb | ⟨-, -, j, t, h3, -⟩)
          · exact hnr hb
          · rw [hg] at h3; cases h3
        refine ⟨fun hb => absurd hb hnb, fun _ => ?_⟩
        rcases hk with rfl | rfl | rfl <;>
          · simp [add_reloc, hmax, hsect, href, hg, NO_SECT] at hres
            obtain ⟨rfl, rfl⟩ := Prod.mk.inj hres
            exact ⟨Or.inl rfl, _, registered_of_link st st sect sc _ 0 rfl hsect,
              land_scattered_norm _, rfl, rfl⟩
      | some j =>
        obtain ⟨t, ht, _, _⟩ := find_by_index_some section_ st.sects j hg
        rw [add_reloc_needsym_eq st sect sc section_ offset rt bytes j t hk hmax href
          hsect hg ht (hfi j t ht)] at hres
        have hbiff : reloc_bails st section_ offset rt ↔
            (macho_find_gsym st t (u64 offset) (decide (rt ≠ .RL_TLV))).2 = none := by
          constructor
          · rintro (hb | ⟨-, -, j2, t2, h3, h4, h5⟩)
            · exact absurd hb hnr
            · rw [hg] at h3
              cases h3
              rw [ht] at h4
              cases h4
              exact h5
          · intro h5
            exact Or.inr ⟨hk, href, j, t, hg, ht, h5⟩
        rw [hbiff]
        have hst : ∀ x, (macho_find_gsym st t (u64 offset) (decide (rt ≠ .RL_TLV))).2 = some x →
            (macho_find_gsym st t (u64 offset) (decide (rt ≠ .RL_TLV))).1 = st := by
          intro x hx
          unfold macho_find_gsym at hx ⊢
          split
          · rename_i h0
            rw [h0] at hx
            cases hx
          · rename_i srb h0
            rw [h0] at hx
            dsimp only at hx ⊢
            split
            · rename_i h1
              rw [if_pos h1] at hx
              cases hx
            · rfl
        have hsects : (macho_find_gsym st t (u64 offset) (decide (rt ≠ .RL_TLV))).1.sects =
            st.sects := by
          unfold macho_find_gsym
          split
          · rfl
          · split <;> rfl
        cases hf : macho_find_gsym st t (u64 offset) (decide (rt ≠ .RL_TLV)) with
        | mk s2 o =>
          rw [hf] at hres hst hsects
          cases o with
          | none =>
            simp only [Option.some.injEq, Prod.mk.injEq] at hres
            obtain ⟨rfl, rfl⟩ := hres
            exact ⟨fun _ => ⟨rfl, hsects⟩, fun hn => absurd rfl hn⟩
          | some sym =>
            have e2 : s2 = st := hst sym rfl
            subst e2
            refine ⟨fun hb => (by cases hb), fun _ => ?_⟩
            dsimp only at hres
            cases hs : s2.syms[sym]? with
            | none => rw [hs] at hres; cases hres
            | some sy =>
              rw [hs] at hres
              simp only [Option.some.injEq] at hres
              obtain ⟨rfl, rfl⟩ := Prod.mk.inj hres
              exact ⟨Or.inl rfl, _, registered_of_link s2 s2 sect sc _ 0 rfl hsect, rfl, rfl, rfl⟩

/-- C30: in every state the module reaches, a call of `add_reloc` on a section, with a
kind the format allows, returns; when it bails (a kind `RL_REL` or `RL_BRANCH` with no
target section, or a kind `RL_GOT`, `RL_GOTLOAD` or `RL_TLV` referring to an emitted
section in which no suitable global symbol is found) it returns 0 and leaves the section
list as it was, in particular the section's `relocs`, `nreloc` and `extreloc`; in every
other case it returns the adjust (`bytes` or minus the section size) and the section's
`relocs` is one relocation followed by the former list, `nreloc` is one more, and no other
section changes. -/
theorem add_reloc_bail_atomic (st : State) (hr : reachable st) (sect : Nat) (sc : Section)
    (hsect : st.sects[sect]? = some sc) (section_ offset : Int) (rt : reltype) (bytes : Int)
    (hmax : rt.toNat ≤ st.fmt.maxreltype.toNat) :
    ∃ st1 adj, add_reloc st sect section_ offset rt bytes = some (st1, adj) ∧
      (reloc_bails st section_ offset rt → adj = 0 ∧ st1.sects = st.sects ∧
        ∃ sc1, st1.sects[sect]? = some sc1 ∧ sc1.relocs = sc.relocs ∧
          sc1.nreloc = sc.nreloc ∧ sc1.extreloc = sc.extreloc) ∧
      (¬ reloc_bails st section_ offset rt →
        (adj = bytes ∨ adj = -(sc.size : Int)) ∧
        ∃ r sc1, st1.sects[sect]? = some sc1 ∧ sc1.relocs = r :: sc.relocs ∧
          sc1.nreloc = sc.nreloc + 1 ∧ st1.sects.length = st.sects.length ∧
          ∀ i, i ≠ sect → st1.sects[i]? = st.sects[i]?) := by
  obtain ⟨st1, adj, h1, h2, h3⟩ := add_reloc_outcome st (reachable_inv st hr) sect sc hsect
    section_ offset rt bytes hmax
  refine ⟨st1, adj, h1, ?_, ?_⟩
  · intro hb
    obtain ⟨e1, e2⟩ := h2 hb
    exact ⟨e1, e2, sc, by rw [e2]; exact hsect, rfl, rfl, rfl⟩
  · intro hb
    obtain ⟨e1, r, ⟨sc0, sc1, g1, g2, g3, g4, g5, g6⟩, -⟩ := h3 hb
    rw [hsect] at g1
    cases g1
    exact ⟨e1, r, sc1, g2, g3, g4, g5, g6⟩

/-- C30 (witness): in scenario S3 (64-bit, `__text` with one relocation), a relative
reference with no target section bails: `add_reloc` reports the diagnostic and returns 0,
and the statement holds of that call. -/
theorem add_reloc_bail_atomic_witness :
    add_reloc run_S3 0 NO_SEG 0 .RL_REL 4 = some (nasm_error run_S3 .rel_to_absolute, 0) ∧
    reloc_bails run_S3 NO_SEG 0 .RL_REL ∧
    ∃ st1 adj, add_reloc run_S3 0 NO_SEG 0 .RL_REL 4 = some (st1, adj) ∧
      (reloc_bails run_S3 NO_SEG 0 .RL_REL → adj = 0 ∧ st1.sects = run_S3.sects ∧
        ∃ sc1, st1.sects[0]? = some sc1 ∧
          sc1.relocs = (run_S3.sects.getD 0 program_start.absolute_sect).relocs ∧
          sc1.nreloc = (run_S3.sects.getD 0 program_start.absolute_sect).nreloc ∧
          sc1.extreloc = (run_S3.sects.getD 0 program_start.absolute_sect).extreloc) ∧
      (¬ reloc_bails run_S3 NO_SEG 0 .RL_REL →
        (adj = 4 ∨
          adj = -((run_S3.sects.getD 0 program_start.absolute_sect).size : Int)) ∧
        ∃ r sc1, st1.sects[0]? = some sc1 ∧
          sc1.relocs = r :: (run_S3.sects.getD 0 program_start.absolute_sect).relocs ∧
          sc1.nreloc = (run_S3.sects.getD 0 program_start.absolute_sect).nreloc + 1 ∧
          st1.sects.length = run_S3.sects.length ∧
          ∀ i, i ≠ 0 → st1.sects[i]? = run_S3.sects[i]?) :=
  ⟨by rfl, Or.inl ⟨Or.inl rfl, rfl⟩,
    add_reloc_bail_atomic run_S3 ⟨events_S3, Or.inr (by rfl)⟩ 0
      (run_S3.sects.getD 0 program_start.absolute_sect) (by rfl) NO_SEG 0 .RL_REL 4
      (by decide)⟩

/-- C22 (counterexample): after the 32-bit run that reserves 2^31 bytes in `__text`, the
buffer of the section holds 2^31 bytes, and the relocation that `add_reloc` then registers
has `addr` 0, not the buffer position 2147483648 of the bytes that follow. -/
theorem reloc_addr_not_buffer_position :
    reachable run_2g ∧
    (run_2g.sects[0]?).map (fun sc => sc.data) = some (List.replicate 2147483648 0) ∧
    (List.replicate 2147483648 0).length = 2147483648 ∧
    ((add_reloc run_2g 0 4 0 .RL_REL 4).bind (fun p => p.1.sects[0]?)).map
      (fun sc => sc.relocs.map (fun r => r.addr)) = some [0] :=
  ⟨⟨events_2g, Or.inl (by rfl)⟩, by rfl, List.length_replicate _ _, by decide⟩

/-- C22 (amended): in every state the module reaches, the `size` of every section that
is not zerofill is the length of its data buffer; and when `add_reloc` registers a
relocation for such a section, the buffer and the size are as before and the relocation's
`addr` is the buffer length modulo 2^31, hence the buffer position of the bytes that
`sect_write` appends next whenever the buffer is shorter than 2^31 bytes. -/
theorem size_is_data_length (st : State) (hr : reachable st) :
    (∀ s ∈ st.sects, s.flags &&& SECTION_TYPE ≠ S_ZEROFILL → s.size = s.data.length) ∧
    ∀ (sect : Nat) (sc : Section), st.sects[sect]? = some sc →
      sc.flags &&& SECTION_TYPE ≠ S_ZEROFILL →
      ∀ (section_ offset : Int) (rt : reltype) (bytes : Int) (st1 : State) (adj : Int),
        add_reloc st sect section_ offset rt bytes = some (st1, adj) →
        st1.sects = st.sects ∨
        ∃ r sc1, st1.sects[sect]? = some sc1 ∧ sc1.relocs = r :: sc.relocs ∧
          sc1.data = sc.data ∧ sc1.size = sc.size ∧
          r.addr = sc.data.length % 2 ^ 31 ∧
          (sc.data.length < 2 ^ 31 → r.addr = sc.data.length) ∧
          ∀ (d : List Nat) (n : Nat), ∃ sc2,
            (sect_write st1 sect d n).sects[sect]? = some sc2 ∧
            sc2.data = sc.data ++ d ∧ sc2.relocs = r :: sc.relocs := by
  have hinv := reachable_inv st hr
  refine ⟨?_, ?_⟩
  · intro s hs hz
    obtain ⟨k, hk⟩ := List.getElem?_of_mem hs
    exact ((hinv.2.2.2.2.2.1 k s hk).2.2.2.1 hz).symm
  · intro sect sc hsect hz section_ offset rt bytes st1 adj hres
    have hmax : rt.toNat ≤ st.fmt.maxreltype.toNat := by
      by_contra hc
      simp [add_reloc, hc] at hres
    have hsz : sc.size = sc.data.length := ((hinv.2.2.2.2.2.1 sect sc hsect).2.2.2.1 hz).symm
    obtain ⟨st1', adj', h1, h2, h3⟩ := add_reloc_outcome st hinv sect sc hsect
      section_ offset rt bytes hmax
    rw [hres] at h1
    obtain ⟨rfl, rfl⟩ := Prod.mk.inj (Option.some.inj h1)
    by_cases hb : reloc_bails st section_ offset rt
    · exact Or.inl (h2 hb).2
    · obtain ⟨-, r, -, e2, e3, e4⟩ := h3 hb
      have hsc1 : st1.sects[sect]? = some
          { sc with relocs := r :: sc.relocs,
                    extreloc := if r.ext ≠ 0 then 1 else sc.extreloc,
                    nreloc := sc.nreloc + 1 } := by
        rw [e4]
        simp only [reloc_link, update_sect_sects, List.getElem?_modify, hsect]
        simp
      refine Or.inr ⟨r, _, hsc1, rfl, rfl, rfl, by rw [e2, hsz], ?_, ?_⟩
      · intro hlt
        rw [e2, hsz, Nat.mod_eq_of_lt hlt]
      · intro d n
        refine ⟨{ sc with relocs := r :: sc.relocs,
                          extreloc := if r.ext ≠ 0 then 1 else sc.extreloc,
                          nreloc := sc.nreloc + 1, data := sc.data ++ d,
                          size := sc.size + n }, ?_, rfl, rfl⟩
        simp only [sect_write, update_sect_sects, List.getElem?_modify, hsc1]
        simp

/-- C22 (witness): scenario S3 before its last event: `__text` holds the byte `E8`, its
size is 1, and the relocation that the reference to `printf` registers has `addr` 1. -/
theorem size_is_data_length_witness :
    reachable run_S3 ∧
    run_S3.sects.map (fun s => (s.size, s.data.length, s.relocs.map (fun r => r.addr))) =
      [(5, 5, [1])] ∧
    (∀ s ∈ run_S3.sects, s.flags &&& SECTION_TYPE ≠ S_ZEROFILL → s.size = s.data.length) :=
  ⟨⟨events_S3, Or.inr (by rfl)⟩, by decide,
    (size_is_data_length run_S3 ⟨events_S3, Or.inr (by rfl)⟩).1⟩

theorem branch_test_iff (st : State) (s : Section) :
    branch_test_spec st.fmt.ptrsize s.flags s.data ↔ (rel4_reltype st s NO_SEG).1 = .RL_BRANCH := by
  unfold branch_test_spec rel4_reltype
  rw [if_pos rfl]
  by_cases h1 : st.fmt.ptrsize = 8 ∧ (s.flags &&& S_ATTR_SOME_INSTRUCTIONS) ≠ 0
  · rw [if_pos h1]
    have hop : is_branch_opcode (peek_opcode s.data) = true ↔
        (((if 2 ≤ s.data.length then s.data.getD (s.data.length - 2) 0 else 0) ≠ 0x0f ∧
          (if 2 ≤ s.data.length then s.data.getD (s.data.length - 1) 0
            else if s.data.length = 1 then s.data.getD 0 0 else 0) &&& 0xfe = 0xe8) ∨
         ((if 2 ≤ s.data.length then s.data.getD (s.data.length - 2) 0 else 0) = 0x0f ∧
          (if 2 ≤ s.data.length then s.data.getD (s.data.length - 1) 0
            else if s.data.length = 1 then s.data.getD 0 0 else 0) &&& 0xf0 = 0x80)) := by
      unfold is_branch_opcode peek_opcode
      by_cases h2 : 2 ≤ s.data.length
      · simp [h2]
      · by_cases h3 : s.data.length = 1
        · simp [h2, h3]
        · simp [h2, h3]
    by_cases h4 : is_branch_opcode (peek_opcode s.data) = true
    · rw [if_pos h4]
      exact ⟨fun _ => rfl, fun _ => ⟨h1.1, h1.2, hop.1 h4⟩⟩
    · rw [if_neg h4]
      exact ⟨fun h => absurd (hop.2 h.2.2) h4, fun h => by cases h⟩
  · rw [if_neg h1]
    exact ⟨fun h => absurd ⟨h.1, h.2.1⟩ h1, fun h => by cases h⟩

theorem rel4_reltype_noseg (st : State) (s : Section) :
    (rel4_reltype st s NO_SEG).2 = false ∧
    ((rel4_reltype st s NO_SEG).1 = .RL_BRANCH ∨ (rel4_reltype st s NO_SEG).1 = .RL_REL) := by
  unfold rel4_reltype
  rw [if_pos rfl]
  split
  · split
    · exact ⟨rfl, Or.inl rfl⟩
    · exact ⟨rfl, Or.inr rfl⟩
  · exact ⟨rfl, Or.inr rfl⟩

/-- C29 (failing input): in the 64-bit run whose `__text` holds the byte `E8`, the
branch test of the specification holds; a `OUT_REL4ADR` event with `wrt = NO_SEG` that
refers to the odd segment number 7 (a section base) makes `macho_output` report the
diagnostic and then call `add_reloc` all the same, with `RL_REL`: a relocation is
registered, of type `X86_64_RELOC_SIGNED` = 1, not `X86_64_RELOC_BRANCH` = 2. -/
theorem section_base_ref_not_branch :
    reachable run_call ∧
    (run_call.sects[0]?).map (fun s => decide (branch_test_spec run_call.fmt.ptrsize
      s.flags s.data)) = some true ∧
    macho_output run_call 4 (.operand 0) .OUT_REL4ADR 4 7 NO_SEG =
      (add_reloc (nasm_error run_call .section_base_ref) 0 7 0 .RL_REL 4).map
        (fun p => sect_write p.1 0 (le_bytes 4 (u64 (0 - 4 + p.2))) 4) ∧
    ((macho_output run_call 4 (.operand 0) .OUT_REL4ADR 4 7 NO_SEG).bind
      (fun st => st.sects[0]?)).map (fun s => s.relocs.map (fun r => r.type)) = some [1] ∧
    ((add_reloc run_call 0 7 0 .RL_BRANCH 4).bind
      (fun p => p.1.sects[0]?)).map (fun s => s.relocs.map (fun r => r.type)) = some [2] :=
  ⟨⟨events_call, Or.inr (by rfl)⟩, by decide, by rfl, by decide, by decide⟩

/-- C29: for a `OUT_REL4ADR` event with `wrt = NO_SEG` into a section that is not
zerofill, referring to another segment number that is not a section base (the number is
`NO_SEG` or even), `macho_output` calls `add_reloc` with `RL_BRANCH` if the branch test
of the specification holds and with `RL_REL` otherwise, and then writes the four
bytes. -/
theorem rel4_kind_passed (st : State) (secto : Int) (data : out_data) (size : Nat)
    (section_ : Int) (si : Nat) (s : Section) (hsec : secto ≠ NO_SEG)
    (hidx : get_section_by_index st secto = some si) (hs : st.sects[si]? = some s)
    (hnz : s.flags &&& SECTION_TYPE ≠ S_ZEROFILL) (hne : section_ ≠ secto)
    (hodd : ¬ (section_ ≠ NO_SEG ∧ section_ % 2 ≠ 0)) :
    (branch_test_spec st.fmt.ptrsize s.flags s.data →
      macho_output st secto data .OUT_REL4ADR size section_ NO_SEG =
        (add_reloc st si section_ data.int64 .RL_BRANCH 4).map
          (fun p => sect_write p.1 si (le_bytes 4 (u64 (data.int64 - size + p.2))) 4)) ∧
    (¬ branch_test_spec st.fmt.ptrsize s.flags s.data →
      macho_output st secto data .OUT_REL4ADR size section_ NO_SEG =
        (add_reloc st si section_ data.int64 .RL_REL 4).map
          (fun p => sect_write p.1 si (le_bytes 4 (u64 (data.int64 - size + p.2))) 4)) := by
  have hbss : ¬ (((s.flags &&& SECTION_TYPE) == S_ZEROFILL) = true ∧
      out_type.OUT_REL4ADR ≠ .OUT_RESERVE) := by
    rintro ⟨h, -⟩
    exact hnz (by simpa using h)
  have hout : ∀ res : Option (State × Int),
      (if section_ ≠ NO_SEG ∧ section_ % 2 ≠ 0 then
          (add_reloc (nasm_error st .section_base_ref) si section_ data.int64 .RL_REL 4).map
            (fun p => (p.1, data.int64 - size + p.2))
        else
          (add_reloc (if (rel4_reltype st s NO_SEG).2 then nasm_error st .wrt_unsupported
            else st) si section_ data.int64 (rel4_reltype st s NO_SEG).1 4).map
            (fun p => (p.1, data.int64 - size + p.2))) = res →
      macho_output st secto data .OUT_REL4ADR size section_ NO_SEG =
        res.map (fun p => sect_write p.1 si (le_bytes 4 (u64 p.2)) 4) := by
    intro res hres
    unfold macho_output
    simp only [if_neg hsec, hidx, hs, if_neg hbss, if_neg hne]
    rw [← hres]
  obtain ⟨k1, k2⟩ := rel4_reltype_noseg st s
  refine ⟨fun hb => ?_, fun hb => ?_⟩
  · rw [hout _ rfl, if_neg hodd, k1, (branch_test_iff st s).1 hb]
    simp only [Bool.false_eq_true, if_false, Option.map_map]
    rfl
  · have hk : (rel4_reltype st s NO_SEG).1 = .RL_REL := by
      rcases k2 with h | h
      · exact absurd ((branch_test_iff st s).2 h) hb
      · exact h
    rw [hout _ rfl, if_neg hodd, k1, hk]
    simp only [Bool.false_eq_true, if_false, Option.map_map]
    rfl

/-- C29 (witness): scenario S3: the last event refers to `printf` (segment number 6, even)
after the byte `E8`, the branch test holds, and `macho_output` is the call of `add_reloc`
with `RL_BRANCH` followed by the write of the four bytes. -/
theorem rel4_kind_passed_witness :
    branch_test_spec run_call.fmt.ptrsize
      (run_call.sects.getD 0 program_start.absolute_sect).flags
      (run_call.sects.getD 0 program_start.absolute_sect).data ∧
    macho_output run_call 4 (.operand 0) .OUT_REL4ADR 4 6 NO_SEG =
      (add_reloc run_call 0 6 (out_data.operand 0).int64 .RL_BRANCH 4).map
        (fun p => sect_write p.1 0
          (le_bytes 4 (u64 ((out_data.operand 0).int64 - (4 : Nat) + p.2))) 4) :=
  ⟨by decide,
    (rel4_kind_passed run_call 4 (.operand 0) 4 6 0
      (run_call.sects.getD 0 program_start.absolute_sect) (by decide) (by rfl) (by rfl)
      (by decide) (by decide) (by decide)).1 (by decide)⟩

/-! ### Induction over output events -/

theorem frame_flags (st st1 : State) (h : emit_frame st st1) (si : Nat) (s1 : Section)
    (hs1 : st1.sects[si]? = some s1) :
    ∃ s, st.sects[si]? = some s ∧ s1.flags = s.flags := by
  obtain ⟨-, -, -, -, -, a6, a7⟩ := h
  have hlt : si < st.sects.length := by
    rw [← a6]; exact (List.getElem?_eq_some_iff.1 hs1).1
  obtain ⟨s2, h2, -, -, f, -⟩ := a7 si _ (List.getElem?_eq_getElem hlt)
  rw [hs1] at h2
  cases h2
  exact ⟨_, List.getElem?_eq_getElem hlt, f⟩

/-- Induction over the ways `macho_output` changes the state: a relation that holds of a
diagnostic, of the growth of a zerofill section, of a write to a section that is not
zerofill, and of a call of `add_reloc` followed by the write of as many bytes, holds of
every call of `macho_output` that returns. -/
theorem macho_output_ind (R : State → State → Prop)
    (hrefl : ∀ a, R a a) (htrans : ∀ a b c, R a b → R b c → R a c)
    (herr : ∀ a d, R a (nasm_error a d))
    (hsize : ∀ a si s n, a.sects[si]? = some s → s.flags &&& SECTION_TYPE = S_ZEROFILL →
      R a (update_sect a si (fun sc => { sc with size := sc.size + n })))
    (hwrite : ∀ a si s d n, run_inv a → a.sects[si]? = some s →
      s.flags &&& SECTION_TYPE ≠ S_ZEROFILL → d.length = n → R a (sect_write a si d n))
    (hcomp : ∀ a si s section_ offset rt (bytes : Nat) a1 adj d, run_inv a →
      a.sects[si]? = some s → s.flags &&& SECTION_TYPE ≠ S_ZEROFILL →
      rt ≠ .RL_SUB → (rt = .RL_ABS → section_ ≠ NO_SEG) →
      add_reloc a si section_ offset rt (bytes : Int) = some (a1, adj) → d.length = bytes →
      R a (sect_write a1 si d bytes))
    (st : State) (secto : Int) (data : out_data) (type : out_type)
    (size : Nat) (section_ wrt : Int) (st1 : State) (hinv : run_inv st)
    (h : macho_output st secto data type size section_ wrt = some st1) : R st st1 := by
  have hcomp2 : ∀ (a : State) (si : Nat) (s : Section) (sec off : Int) (rt : reltype)
      (bytes : Nat) (addr : Int) (o : Option (State × Int)) (res : State),
      run_inv a → a.sects[si]? = some s → s.flags &&& SECTION_TYPE ≠ S_ZEROFILL →
      rt ≠ .RL_SUB → (rt = .RL_ABS → sec ≠ NO_SEG) →
      o = (add_reloc a si sec off rt (bytes : Int)).map (fun p => (p.1, addr + p.2)) →
      o.map (fun p => sect_write p.1 si (le_bytes bytes (u64 p.2)) bytes) = some res →
      R a res := by
    intro a si s sec off rt bytes addr o res ha hs hnz hsub habs ho hres
    cases hr : add_reloc a si sec off rt (bytes : Int) with
    | none => rw [ho, hr] at hres; cases hres
    | some p =>
      rw [ho, hr] at hres
      simp only [Option.map_some', Option.some.injEq] at hres
      rw [← hres]
      exact hcomp a si s sec off rt bytes p.1 p.2 _ ha hs hnz hsub habs hr
        (le_bytes_length _ _)
  unfold macho_output at h
  split at h
  · split at h <;> cases h
    · exact herr st _
    · exact hrefl st
  · dsimp only at h
    split at h
    · cases h
    · rename_i st0 si heq
      have hf0 : emit_frame st st0 ∧ R st st0 := by
        split at heq
        · cases heq; exact ⟨emit_frame_refl st, hrefl st⟩
        · split at heq
          · cases heq; exact ⟨emit_frame_nasm_error st _, herr st _⟩
          · cases heq
      have hinv0 : run_inv st0 := run_inv_of_frame st st0 hinv hf0.1
      refine htrans _ _ _ hf0.2 ?_
      split at h
      · cases h
      · rename_i s hs
        split at h
        · -- initialised data in a zerofill section
          rename_i hbss
          cases h
          exact htrans _ _ _ (herr st0 _) (hsize _ si s _ hs (by simpa using hbss.1))
        · rename_i hnb
          split at h
          · -- OUT_RESERVE
            split at h <;> cases h
            · rename_i hb
              exact htrans _ _ _ (herr st0 _) (hwrite _ si s _ _
                (run_inv_of_frame _ _ hinv0 (emit_frame_nasm_error st0 _)) hs
                (by simpa using hb) (List.length_replicate _ _))
            · rename_i hb
              exact hsize _ si s _ hs (by simpa using hb)
          · -- OUT_RAWDATA
            have hnz : s.flags &&& SECTION_TYPE ≠ S_ZEROFILL := by
              intro hz
              apply hnb
              exact ⟨by simp [hz], by decide⟩
            split at h
            · cases h
            · cases h
              exact hwrite _ si s _ _ hinv0 hs hnz (out_data_raw_length _ _)
          · -- OUT_ADDRESS
            have hnz : s.flags &&& SECTION_TYPE ≠ S_ZEROFILL := by
              intro hz
              apply hnb
              exact ⟨by simp [hz], by decide⟩
            split at h
            · rename_i href
              split at h
              · cases h
                exact htrans _ _ _ (herr st0 _) (hwrite _ si s _ _
                  (run_inv_of_frame _ _ hinv0 (emit_frame_nasm_error st0 _)) hs hnz
                  (le_bytes_length _ _))
              · split at h
                · split at h
                  · cases h
                    exact htrans _ _ _ (herr st0 _) (hwrite _ si s _ _
                      (run_inv_of_frame _ _ hinv0 (emit_frame_nasm_error st0 _)) hs hnz
                      (le_bytes_length _ _))
                  · cases hr : add_reloc st0 si section_ data.int64 .RL_ABS
                        ((to_int32 size).natAbs : Nat) with
                    | none => rw [hr] at h; cases h
                    | some p =>
                      rw [hr] at h
                      simp only [Option.map_some', Option.some.injEq] at h
                      rw [← h]
                      exact hcomp st0 si s section_ _ .RL_ABS _ p.1 p.2 _ hinv0 hs hnz
                        (by decide) (fun _ => href) hr (le_bytes_length _ _)
                · cases h
                  exact htrans _ _ _ (herr st0 _) (hwrite _ si s _ _
                    (run_inv_of_frame _ _ hinv0 (emit_frame_nasm_error st0 _)) hs hnz
                    (le_bytes_length _ _))
            · cases h
              exact hwrite _ si s _ _ hinv0 hs hnz (le_bytes_length _ _)
          · -- OUT_REL2ADR
            have hnz : s.flags &&& SECTION_TYPE ≠ S_ZEROFILL := by
              intro hz
              apply hnb
              exact ⟨by simp [hz], by decide⟩
            split at h
            · cases h
            · split at h
              · cases h
                exact htrans _ _ _ (herr st0 _) (hwrite _ si s _ _
                  (run_inv_of_frame _ _ hinv0 (emit_frame_nasm_error st0 _)) hs hnz
                  (le_bytes_length _ _))
              · split at h
                · cases h
                  exact htrans _ _ _ (herr st0 _) (hwrite _ si s _ _
                    (run_inv_of_frame _ _ hinv0 (emit_frame_nasm_error st0 _)) hs hnz
                    (le_bytes_length _ _))
                · split at h
                  · cases h
                    exact htrans _ _ _ (herr st0 _) (hwrite _ si s _ _
                      (run_inv_of_frame _ _ hinv0 (emit_frame_nasm_error st0 _)) hs hnz
                      (le_bytes_length _ _))
                  · exact hcomp2 st0 si s section_ _ .RL_REL 2 _ _ st1 hinv0 hs hnz
                      (by decide) (fun h => by cases h) rfl h
          · -- OUT_REL4ADR
            have hnz : s.flags &&& SECTION_TYPE ≠ S_ZEROFILL := by
              intro hz
              apply hnb
              exact ⟨by simp [hz], by decide⟩
            split at h
            · cases h
            · split at h
              · exact htrans _ _ _ (herr st0 _)
                  (hcomp2 _ si s section_ _ .RL_REL 4 _ _ st1
                    (run_inv_of_frame _ _ hinv0 (emit_frame_nasm_error st0 _)) hs hnz
                    (by decide) (fun h => by cases h) rfl h)
              · obtain ⟨k1, k2⟩ := rel4_reltype_kind st0 s wrt
                split at h
                · exact htrans _ _ _ (herr st0 _)
                    (hcomp2 _ si s section_ _ _ 4 _ _ st1
                      (run_inv_of_frame _ _ hinv0 (emit_frame_nasm_error st0 _)) hs hnz
                      k1 (fun h => absurd h k2) rfl h)
                · exact hcomp2 st0 si s section_ _ _ 4 _ _ st1 hinv0 hs hnz
                    k1 (fun h => absurd h k2) rfl h
          · cases h
            exact herr st0 _

theorem add_reloc_sects (a : State) (si : Nat) (s : Section) (sec off : Int) (rt : reltype)
    (bytes : Int) (a1 : State) (adj : Int) (ha : run_inv a) (hs : a.sects[si]? = some s)
    (h : add_reloc a si sec off rt bytes = some (a1, adj)) :
    a1.sects = a.sects ∨
    ∃ r, a1.sects = (reloc_link a si r 0).1.sects ∧ r.addr = s.size % 2 ^ 31 ∧
      r.length = ilog2_32 bytes := by
  have hmax : rt.toNat ≤ a.fmt.maxreltype.toNat := by
    by_contra hc
    simp [add_reloc, hc] at h
  obtain ⟨a1', adj', h1, h2, h3⟩ := add_reloc_outcome a ha si s hs sec off rt bytes hmax
  rw [h] at h1
  obtain ⟨rfl, rfl⟩ := Prod.mk.inj (Option.some.inj h1)
  by_cases hb : reloc_bails a sec off rt
  · exact Or.inl (h2 hb).2
  · obtain ⟨-, r, -, e2, e3, e4⟩ := h3 hb
    exact Or.inr ⟨r, e4, e2, e3⟩

theorem reachable_ind (P : State → Prop) (h32 : P (macho32_init program_start))
    (h64 : P (macho64_init program_start))
    (hstep : ∀ st e st1, run_inv st → P st → step st e = some st1 → P st1)
    (st : State) (h : reachable st) : P st := by
  have hrun : ∀ (evs : List event) (a b : State), run_inv a → P a → run evs a = some b →
      P b := by
    intro evs
    induction evs with
    | nil =>
      intro a b _ hp hr
      simp only [run, Option.some.injEq] at hr
      rw [← hr]; exact hp
    | cons e rest ih =>
      intro a b ha hp hr
      simp only [run] at hr
      cases hs : step a e with
      | none => rw [hs] at hr; cases hr
      | some c =>
        rw [hs] at hr
        exact ih c b (run_inv_step a c e ha hs) (hstep a e c ha hp hs) hr
  obtain ⟨evs, h | h⟩ := h
  · exact hrun evs _ st run_inv_init32 h32 h
  · exact hrun evs _ st run_inv_init64 h64 h

theorem mem_modify {α : Type} (l : List α) (f : α → α) (i : Nat) (x : α)
    (h : x ∈ l.modify f i) : x ∈ l ∨ ∃ a, l[i]? = some a ∧ x = f a := by
  obtain ⟨k, hk⟩ := List.getElem?_of_mem h
  by_cases hki : k = i
  · subst hki
    cases ha : l[k]? with
    | none =>
      rw [List.getElem?_modify, ha] at hk
      cases hk
    | some a =>
      rw [getElem?_modify_self l f k a ha] at hk
      exact Or.inr ⟨a, rfl, (Option.some.inj hk).symm⟩
  · rw [getElem?_modify_ne l f i k hki] at hk
    exact Or.inl (List.getElem?_mem hk)

theorem reloc_link_get (a : State) (si : Nat) (s : Section) (r : reloc) (adj : Int)
    (hs : a.sects[si]? = some s) :
    ∃ s1, (reloc_link a si r adj).1.sects[si]? = some s1 ∧ s1.flags = s.flags ∧
      s1.data = s.data ∧ s1.size = s.size ∧ s1.relocs = r :: s.relocs ∧
      s1.index = s.index ∧ s1.fileindex = s.fileindex ∧
      (∀ j, j ≠ si → (reloc_link a si r adj).1.sects[j]? = a.sects[j]?) ∧
      (reloc_link a si r adj).1.sects.length = a.sects.length := by
  refine ⟨_, getElem?_modify_self a.sects _ si s hs, rfl, rfl, rfl, rfl, rfl, rfl, ?_, ?_⟩
  · intro j hj
    exact getElem?_modify_ne a.sects _ si j hj
  · simp [reloc_link]

theorem bss_empty_modify (a : State) (si : Nat) (f : Section → Section)
    (hf : ∀ x, (f x).flags = x.flags ∧
      (x.flags &&& SECTION_TYPE = S_ZEROFILL → (f x).data = x.data))
    (h : bss_empty a) : bss_empty (update_sect a si f) := by
  intro s hs hz
  rcases mem_modify a.sects f si s hs with h1 | ⟨x, hx, rfl⟩
  · exact h s h1 hz
  · rw [(hf x).1] at hz
    rw [(hf x).2 hz]
    exact h x (List.getElem?_mem hx) hz

theorem bss_empty_write (a : State) (si : Nat) (s : Section) (d : List Nat) (n : Nat)
    (hs : a.sects[si]? = some s) (hnz : s.flags &&& SECTION_TYPE ≠ S_ZEROFILL)
    (h : bss_empty a) : bss_empty (sect_write a si d n) := by
  intro x hx hz
  rcases mem_modify a.sects _ si x hx with h1 | ⟨y, hy, rfl⟩
  · exact h x h1 hz
  · rw [hs] at hy
    cases hy
    exact absurd hz hnz

theorem bss_empty_sects (a b : State) (h : b.sects = a.sects) (ha : bss_empty a) :
    bss_empty b := by
  unfold bss_empty
  rw [h]
  exact ha

theorem bss_empty_output (st : State) (secto : Int) (data : out_data) (type : out_type)
    (size : Nat) (section_ wrt : Int) (st1 : State) (hinv : run_inv st)
    (h : macho_output st secto data type size section_ wrt = some st1) :
    bss_empty st → bss_empty st1 := by
  refine macho_output_ind (fun a b => bss_empty a → bss_empty b) (fun _ h => h)
    (fun _ _ _ h1 h2 h => h2 (h1 h)) (fun a d h => bss_empty_sects a _ rfl h) ?_ ?_ ?_
    st secto data type size section_ wrt st1 hinv h
  · intro a si s n _ _ h
    exact bss_empty_modify a si _ (fun x => ⟨rfl, fun _ => rfl⟩) h
  · intro a si s d n _ hs hnz _ h
    exact bss_empty_write a si s d n hs hnz h
  · intro a si s sec off rt bytes a1 adj d ha hs hnz _ _ hr _ h
    have h1 : bss_empty a1 := by
      rcases add_reloc_sects a si s sec off rt bytes a1 adj ha hs hr with e | ⟨r, e, -⟩
      · exact bss_empty_sects a a1 e h
      · refine bss_empty_sects _ a1 e ?_
        exact bss_empty_modify a si _ (fun x => ⟨rfl, fun _ => rfl⟩) h
    obtain ⟨s1, hs1, hfl⟩ : ∃ s1, a1.sects[si]? = some s1 ∧ s1.flags = s.flags := by
      rcases add_reloc_sects a si s sec off rt bytes a1 adj ha hs hr with e | ⟨r, e, -⟩
      · exact ⟨s, by rw [e]; exact hs, rfl⟩
      · obtain ⟨s1, g1, g2, -⟩ := reloc_link_get a si s r 0 hs
        exact ⟨s1, by rw [e]; exact g1, g2⟩
    exact bss_empty_write a1 si s1 d bytes hs1 (by rw [hfl]; exact hnz) h1

theorem bss_empty_kept (a b : State) (h : sects_kept a b) (ha : bss_empty a) :
    bss_empty b := by
  intro s1 hs1 hz
  obtain ⟨k, hk⟩ := List.getElem?_of_mem hs1
  by_cases hlt : k < a.sects.length
  · obtain ⟨s1', e1, q1, -, -, q4⟩ := h.1 k _ (List.getElem?_eq_getElem hlt)
    rw [hk] at e1
    cases e1
    rw [q1]
    exact ha _ (List.getElem_mem _) (by rw [← q4]; exact hz)
  · exact (h.2 k s1 hk (by omega)).1

theorem bss_empty_reachable (st : State) (h : reachable st) : bss_empty st := by
  have h32 : (macho32_init program_start).sects = [] := by rfl
  have h64 : (macho64_init program_start).sects = [] := by rfl
  refine reachable_ind bss_empty (fun s hs => by rw [h32] at hs; cases hs)
    (fun s hs => by rw [h64] at hs; cases hs) ?_ st h
  intro a e b ha hp hs
  cases e with
  | symdef name section_ offset is_global special =>
    simp only [step] at hs
    unfold macho_symdef at hs
    split at hs
    · cases hs; exact hp
    · split at hs
      · cases hs; exact hp
      · split at hs
        · split at hs <;> cases hs <;> exact hp
        · dsimp only at hs
          split at hs
          · cases hs; exact hp
          · split at hs
            · split at hs
              · cases hs; exact hp
              · cases hs
            · split at hs
              · cases hs
                exact bss_empty_modify _ _ _ (fun x => ⟨rfl, fun _ => rfl⟩) hp
              · cases hs; exact hp
  | output secto data type size section_ wrt =>
    exact bss_empty_output a secto data type size section_ wrt b ha hs hp
  | new_section segment sectname flags =>
    simp only [step, Option.some.injEq] at hs
    rw [← hs]
    intro s hs2 hz
    obtain ⟨s0, e0, e1, -⟩ := new_section_sects a segment sectname flags
    have hm : s ∈ a.sects ++ [s0] := e0 ▸ hs2
    rcases List.mem_append.1 hm with h1 | h1
    · exact hp s h1 hz
    · rw [List.mem_singleton.1 h1]
      exact e1
  | section_ name bits =>
    simp only [step, Option.some.injEq] at hs
    rw [← hs]
    exact bss_empty_kept a _ (macho_section_kept a name bits) hp
  | sectalign seg value =>
    exact bss_empty_kept a b (macho_sectalign_kept a b seg value hs) hp

/-- C21: in every state the module reaches, a zerofill section has an empty buffer and no
relocation, and an output event into it returns with the section changed in its `size`
only: a `OUT_RESERVE` of `n` bytes adds `n` and reports nothing, an event of any other
kind adds `realsize(kind, n)` and reports the warning; the buffer stays empty, no
relocation is registered, and no other section changes. -/
theorem zerofill_emit (st : State) (hr : reachable st) (secto : Int) (si : Nat) (s : Section)
    (hsec : secto ≠ NO_SEG) (hidx : get_section_by_index st secto = some si)
    (hs : st.sects[si]? = some s) (hz : s.flags &&& SECTION_TYPE = S_ZEROFILL)
    (data : out_data) (type : out_type) (size : Nat) (section_ wrt : Int) :
    s.data = [] ∧ s.relocs = [] ∧
    ∃ st1, macho_output st secto data type size section_ wrt = some st1 ∧
      st1.sects[si]? = some { s with size := s.size +
        (if type = .OUT_RESERVE then size else realsize type size) } ∧
      (∀ j, j ≠ si → st1.sects[j]? = st.sects[j]?) ∧
      (type = .OUT_RESERVE → st1.errs = st.errs) ∧
      (type ≠ .OUT_RESERVE → st1.errs = st.errs ++ [.init_in_bss]) := by
  have hinv := reachable_inv st hr
  refine ⟨bss_empty_reachable st hr s (List.getElem?_mem hs) hz,
    (hinv.2.2.2.2.2.1 si s hs).2.2.1 hz, ?_⟩
  have hb : ((s.flags &&& SECTION_TYPE) == S_ZEROFILL) = true := by simp [hz]
  unfold macho_output
  simp only [if_neg hsec, hidx, hs, hb, true_and]
  by_cases ht : type = .OUT_RESERVE
  · subst ht
    simp only [ne_eq, not_true_eq_false, if_false, not_true_eq_false, if_true]
    refine ⟨_, rfl, ?_, fun j hj => getElem?_modify_ne _ _ _ _ hj, fun _ => rfl,
      fun h => h.elim⟩
    exact getElem?_modify_self _ _ _ _ hs
  · simp only [ne_eq, ht, not_false_eq_true, if_true, if_false]
    refine ⟨_, rfl, ?_, fun j hj => getElem?_modify_ne _ _ _ _ hj, fun h => h.elim,
      fun _ => rfl⟩
    exact getElem?_modify_self _ _ _ _ hs

/-- C21 (witness): scenario S5: after raw data of 8 bytes and a reserve of 16 bytes the
section `__bss` has size 24, an empty buffer, no relocation and the type `S_ZEROFILL`, one
warning has been reported, and the offset field of its section command in the file is 0;
the statement holds of the first event. -/
theorem zerofill_emit_witness :
    run_S5.sects.map (fun s => (s.size, s.data, s.relocs.length, s.flags &&& SECTION_TYPE)) =
      [(24, [], 0, S_ZEROFILL)] ∧
    run_S5.errs = [.init_in_bss] ∧
    field32 (emitted run_S5) (32 + 72 + 48) = 0 ∧
    (run_bss.sects.getD 0 program_start.absolute_sect).data = [] ∧
    (run_bss.sects.getD 0 program_start.absolute_sect).relocs = [] ∧
    ∃ st1, macho_output run_bss 4 (.bytes [1, 2, 3, 4, 5, 6, 7, 8]) .OUT_RAWDATA 8 NO_SEG
        NO_SEG = some st1 ∧
      st1.sects[0]? = some { (run_bss.sects.getD 0 program_start.absolute_sect) with
        size := (run_bss.sects.getD 0 program_start.absolute_sect).size +
          (if out_type.OUT_RAWDATA = .OUT_RESERVE then 8
            else realsize .OUT_RAWDATA 8) } ∧
      (∀ j, j ≠ 0 → st1.sects[j]? = run_bss.sects[j]?) ∧
      (out_type.OUT_RAWDATA = .OUT_RESERVE → st1.errs = run_bss.errs) ∧
      (out_type.OUT_RAWDATA ≠ .OUT_RESERVE → st1.errs = run_bss.errs ++ [.init_in_bss]) :=
  ⟨by decide, by decide, by decide,
    zerofill_emit run_bss ⟨[.new_section seg_DATA sect_bss S_ZEROFILL], Or.inr (by rfl)⟩ 4 0
      (run_bss.sects.getD 0 program_start.absolute_sect) (by decide) (by rfl) (by rfl)
      (by decide) (.bytes [1, 2, 3, 4, 5, 6, 7, 8]) .OUT_RAWDATA 8 NO_SEG NO_SEG⟩

/-! ### Segment name of a section command -/

theorem sectcmd_write_names (st : State) (s : Section) (rel_base offset s_reloff : Nat)
    (hp : s.flags &&& SECTION_TYPE ≠ S_ZEROFILL → s.pad ≠ 2 ^ 32 - 1) :
    ∃ (rest : List Nat) (r2 : Nat × Nat), sectcmd_write st s rel_base offset s_reloff =
      some (nasm_write st (name_field s.sectname ++ (name_field s.segname ++ rest)), r2) := by
  by_cases hz : s.flags &&& SECTION_TYPE ≠ S_ZEROFILL
  · unfold sectcmd_write
    simp only [if_pos hz, if_neg (hp hz), Option.map_some', fwriteint32_t,
      fwriteptr, nasm_write_write, nasm_write_fmt, List.append_assoc]
    exact ⟨_, _, rfl⟩
  · unfold sectcmd_write
    simp only [if_neg hz, Option.map_some', fwriteint32_t, fwriteptr,
      nasm_write_write, nasm_write_fmt, List.append_assoc]
    exact ⟨_, _, rfl⟩

theorem names_at (X Y rest : List Nat) (hX : X.length = 16) :
    bytes_at (X ++ (Y ++ rest)) 0 X ∧ bytes_at (X ++ (Y ++ rest)) 16 Y := by
  constructor
  · have := bytes_at_mid [] X (Y ++ rest)
    simpa using this
  · have := bytes_at_mid X Y rest
    rw [hX, List.append_assoc] at this
    exact this

/-- C27 (amended): one pass of the section loop of `macho_write_segment`, on a section
that gets past the loop's assertions, appends a section command whose first 16 bytes are
the section name and whose next 16 bytes are the segment name; the segment name written
is `__TEXT` when the section has no relocation, is named `__DATA,__const`, was not
specified by name and no `__TEXT,__const` section exists, and it is the section's own
segment name in every other case, in particular whenever the section has a relocation. -/
theorem sectcmd_segname (st : State) (i : Nat) (s : Section) (rel_base offset s_reloff : Nat)
    (hs : st.sects[i]? = some s) (hw : sect_writable s) :
    ∃ (st1 : State) (B : List Nat) (r : Nat × Nat),
      write_sectcmd st i rel_base offset s_reloff = some (st1, r) ∧
      st1.ofile = st.ofile ++ B ∧
      bytes_at B 0 (name_field s.sectname) ∧
      (s.nreloc = 0 ∧ strcmp s.segname seg_DATA = 0 ∧ strcmp s.sectname sect_const = 0 ∧
        s.by_name = false ∧ (get_section_by_name st seg_TEXT sect_const).isNone →
        bytes_at B 16 (name_field (xstrncpy seg_TEXT))) ∧
      (¬ (s.nreloc = 0 ∧ strcmp s.segname seg_DATA = 0 ∧ strcmp s.sectname sect_const = 0 ∧
        s.by_name = false ∧ (get_section_by_name st seg_TEXT sect_const).isNone) →
        bytes_at B 16 (name_field s.segname)) ∧
      (s.nreloc ≠ 0 → bytes_at B 16 (name_field s.segname)) := by
  have hmain : ∀ (st0 : State) (s0 : Section), st0.ofile = st.ofile →
      st0.sects[i]? = some s0 → s0.sectname = s.sectname →
      (s0.flags &&& SECTION_TYPE ≠ S_ZEROFILL → s0.pad ≠ 2 ^ 32 - 1) →
      sectcmd_flags st i s = some st0 →
      ∃ (st1 : State) (B : List Nat) (r : Nat × Nat),
        write_sectcmd st i rel_base offset s_reloff = some (st1, r) ∧
        st1.ofile = st.ofile ++ B ∧ bytes_at B 0 (name_field s.sectname) ∧
        bytes_at B 16 (name_field s0.segname) := by
    intro st0 s0 ho hs0 hn hp hfl
    obtain ⟨rest, r2, hwri⟩ := sectcmd_write_names st0 s0 rel_base offset s_reloff hp
    obtain ⟨n1, n2⟩ := names_at (name_field s0.sectname) (name_field s0.segname) rest
      (name_field_length _)
    refine ⟨nasm_write st0 (name_field s0.sectname ++ (name_field s0.segname ++ rest)),
      name_field s0.sectname ++ (name_field s0.segname ++ rest), r2, ?_, ?_, ?_, n2⟩
    · unfold write_sectcmd
      rw [hs]
      dsimp only
      rw [hfl, Option.some_bind, hs0]
      exact hwri
    · show st0.ofile ++ _ = _
      rw [ho]
    · rw [← hn]
      exact n1
  by_cases hn : s.nreloc ≠ 0
  · have hz := hw.1 hn
    have hfl : ∃ (st0 : State) (m : Nat), sectcmd_flags st i s = some st0 ∧
        st0.ofile = st.ofile ∧ st0.sects[i]? = some { s with flags := m } := by
      unfold sectcmd_flags
      rw [if_pos hn, if_neg hz]
      dsimp only
      split
      · refine ⟨_, (s.flags ||| S_ATTR_LOC_RELOC) ||| S_ATTR_EXT_RELOC, rfl, rfl, ?_⟩
        show ((st.sects.modify _ i).modify _ i)[i]? = _
        rw [getElem?_modify_self _ _ i _ (getElem?_modify_self _ _ i s hs)]
      · refine ⟨_, s.flags ||| S_ATTR_LOC_RELOC, rfl, rfl, ?_⟩
        show (st.sects.modify _ i)[i]? = _
        rw [getElem?_modify_self _ _ i s hs]
    obtain ⟨st0, m, f1, f2, f3⟩ := hfl
    obtain ⟨st1, B, r, g1, g2, g3, g4⟩ := hmain st0 _ f2 f3 rfl
      (fun _ => hw.2 hz) f1
    exact ⟨st1, B, r, g1, g2, g3, fun hc => absurd hc.1 hn, fun _ => g4, fun _ => g4⟩
  · have hn0 : s.nreloc = 0 := not_not.1 hn
    by_cases hc : strcmp s.segname seg_DATA = 0 ∧ strcmp s.sectname sect_const = 0 ∧
        s.by_name = false ∧ (get_section_by_name st seg_TEXT sect_const).isNone
    · have hfl : sectcmd_flags st i s =
          some (update_sect st i (fun sc => { sc with segname := xstrncpy seg_TEXT })) := by
        unfold sectcmd_flags
        rw [if_neg hn, if_pos hc]
      obtain ⟨st1, B, r, g1, g2, g3, g4⟩ := hmain (update_sect st i (fun sc => { sc with segname := xstrncpy seg_TEXT }))
        { s with segname := xstrncpy seg_TEXT } rfl
        (getElem?_modify_self _ _ i s hs) rfl hw.2 hfl
      exact ⟨st1, B, r, g1, g2, g3, fun _ => g4, fun h => absurd ⟨hn0, hc⟩ h,
        fun h => absurd hn0 h⟩
    · have hfl : sectcmd_flags st i s = some st := by
        unfold sectcmd_flags
        rw [if_neg hn, if_neg hc]
      obtain ⟨st1, B, r, g1, g2, g3, g4⟩ := hmain st s rfl hs rfl hw.2 hfl
      exact ⟨st1, B, r, g1, g2, g3, fun h => absurd h.2 hc, fun _ => g4, fun _ => g4⟩

/-- C27 (counterexample): in the 64-bit run whose section `__DATA,__const` (created as by
the alias, `by_name` false) holds one relocation, and which has no `__TEXT,__const`
section, the section command in the file carries the segment name `__DATA`, not
`__TEXT`. -/
theorem const_with_reloc_stays_in_data :
    reachable run_const ∧
    run_const.sects.map (fun s => (s.segname, s.sectname, s.by_name, s.nreloc)) =
      [(seg_DATA, sect_const, false, 1), (seg_DATA, sect_data, false, 0)] ∧
    get_section_by_name run_const seg_TEXT sect_const = none ∧
    saa_fread (emitted run_const) (32 + 72 + 16) 16 = name_field seg_DATA ∧
    saa_fread (emitted run_const) (32 + 72 + 16) 16 ≠ name_field seg_TEXT :=
  ⟨⟨events_const, Or.inr (by rfl)⟩, by decide, by decide, by decide, by decide⟩

/-- C27 (witness): the section command of `__DATA,__const` of the same run, sized: it has
a relocation, and the statement holds of it. -/
theorem sectcmd_segname_witness :
    (sized_const.sects.getD 0 program_start.absolute_sect).nreloc = 1 ∧
    ∃ (st1 : State) (B : List Nat) (r : Nat × Nat),
      write_sectcmd sized_const 0 312 288 0 = some (st1, r) ∧
      st1.ofile = sized_const.ofile ++ B ∧
      bytes_at B 0 (name_field (sized_const.sects.getD 0 program_start.absolute_sect).sectname) ∧
      ((sized_const.sects.getD 0 program_start.absolute_sect).nreloc = 0 ∧
        strcmp (sized_const.sects.getD 0 program_start.absolute_sect).segname seg_DATA = 0 ∧
        strcmp (sized_const.sects.getD 0 program_start.absolute_sect).sectname sect_const = 0 ∧
        (sized_const.sects.getD 0 program_start.absolute_sect).by_name = false ∧
        (get_section_by_name sized_const seg_TEXT sect_const).isNone →
        bytes_at B 16 (name_field (xstrncpy seg_TEXT))) ∧
      (¬ ((sized_const.sects.getD 0 program_start.absolute_sect).nreloc = 0 ∧
        strcmp (sized_const.sects.getD 0 program_start.absolute_sect).segname seg_DATA = 0 ∧
        strcmp (sized_const.sects.getD 0 program_start.absolute_sect).sectname sect_const = 0 ∧
        (sized_const.sects.getD 0 program_start.absolute_sect).by_name = false ∧
        (get_section_by_name sized_const seg_TEXT sect_const).isNone) →
        bytes_at B 16 (name_field (sized_const.sects.getD 0 program_start.absolute_sect).segname)) ∧
      ((sized_const.sects.getD 0 program_start.absolute_sect).nreloc ≠ 0 →
        bytes_at B 16 (name_field (sized_const.sects.getD 0 program_start.absolute_sect).segname)) :=
  ⟨by decide,
    sectcmd_segname sized_const 0 (sized_const.sects.getD 0 program_start.absolute_sect)
      312 288 0 (by rfl) ⟨by decide, by decide⟩⟩

/-! ### Section directive -/

theorem align_kept_refl (l : List Section) : align_kept l l :=
  fun _ s h => ⟨s, h, le_refl _⟩

theorem align_kept_trans (a b c : List Section) (h1 : align_kept a b) (h2 : align_kept b c) :
    align_kept a c := by
  intro i s hs
  obtain ⟨s1, e1, l1⟩ := h1 i s hs
  obtain ⟨s2, e2, l2⟩ := h2 i s1 e1
  exact ⟨s2, e2, le_trans l1 l2⟩

theorem align_kept_modify (l : List Section) (f : Section → Section) (i : Nat)
    (hf : ∀ s, s.align ≤ (f s).align) : align_kept l (l.modify f i) := by
  intro k s hs
  by_cases hk : i = k
  · subst hk
    exact ⟨f s, getElem?_modify_self l f i s hs, hf s⟩
  · exact ⟨s, by rw [getElem?_modify_ne l f i k (Ne.symm hk)]; exact hs, le_refl _⟩

theorem align_kept_append (l x : List Section) : align_kept l (l ++ x) := by
  intro i s hs
  refine ⟨s, ?_, le_refl _⟩
  have hi : i < l.length := by
    rcases Nat.lt_or_ge i l.length with h | h
    · exact h
    · rw [List.getElem?_eq_none h] at hs
      cases hs
  rw [List.getElem?_append_left hi]
  exact hs

/-- A diagnostic leaves the names, the numbers and the `align` of the sections as they
are. -/
theorem attr_frame_error (st : State) (d : diag) :
    sect_names (nasm_error st d).sects = sect_names st.sects ∧
      align_kept st.sects (nasm_error st d).sects :=
  ⟨rfl, align_kept_refl _⟩

theorem attr_frame_update (st : State) (i : Nat) (f : Section → Section)
    (h1 : ∀ s, (f s).segname = s.segname ∧ (f s).sectname = s.sectname ∧ (f s).index = s.index)
    (h2 : ∀ s, s.align ≤ (f s).align) :
    sect_names (update_sect st i f).sects = sect_names st.sects ∧
      align_kept st.sects (update_sect st i f).sects := by
  constructor
  · unfold sect_names
    show (st.sects.modify f i).map _ = _
    apply map_modify_keep
    intro s
    rw [(h1 s).1, (h1 s).2.1, (h1 s).2.2]
  · exact align_kept_modify _ _ _ h2

theorem section_attribute_frame (i : Nat) (new_seg : Bool) (p : State × Nat) (cur : List Nat) :
    sect_names (section_attribute i new_seg p cur).1.sects = sect_names p.1.sects ∧
      align_kept p.1.sects (section_attribute i new_seg p cur).1.sects := by
  have hfl : ∀ (r : State × Nat),
      sect_names (if r.2 ≠ 2 ^ 32 - 1 then
          if !new_seg ∧ (r.1.sects[i]?).map (fun s => s.flags) ≠ some r.2 then
            (nasm_error r.1 .inconsistent_section_attributes, r.2)
          else (update_sect r.1 i (fun s => { s with flags := r.2 }), r.2)
        else r).1.sects = sect_names r.1.sects ∧
      align_kept r.1.sects (if r.2 ≠ 2 ^ 32 - 1 then
          if !new_seg ∧ (r.1.sects[i]?).map (fun s => s.flags) ≠ some r.2 then
            (nasm_error r.1 .inconsistent_section_attributes, r.2)
          else (update_sect r.1 i (fun s => { s with flags := r.2 }), r.2)
        else r).1.sects := by
    intro r
    split
    · split
      · exact attr_frame_error _ _
      · exact attr_frame_update _ _ _ (fun s => ⟨rfl, rfl, rfl⟩) (fun s => le_refl _)
    · exact ⟨rfl, align_kept_refl _⟩
  have hal : ∀ (st : State) (a : Int),
      sect_names (update_sect st i (fun s =>
        if s.align < a then { s with align := a } else s)).sects = sect_names st.sects ∧
      align_kept st.sects (update_sect st i (fun s =>
        if s.align < a then { s with align := a } else s)).sects := by
    intro st a
    apply attr_frame_update
    · intro s
      split <;> exact ⟨rfl, rfl, rfl⟩
    · intro s
      split
      · exact le_of_lt (by assumption)
      · exact le_refl _
  have hcomb : ∀ (r : State × Nat),
      (sect_names r.1.sects = sect_names p.1.sects ∧ align_kept p.1.sects r.1.sects) →
      sect_names (if r.2 ≠ 2 ^ 32 - 1 then
          if !new_seg ∧ (r.1.sects[i]?).map (fun s => s.flags) ≠ some r.2 then
            (nasm_error r.1 .inconsistent_section_attributes, r.2)
          else (update_sect r.1 i (fun s => { s with flags := r.2 }), r.2)
        else r).1.sects = sect_names p.1.sects ∧
      align_kept p.1.sects (if r.2 ≠ 2 ^ 32 - 1 then
          if !new_seg ∧ (r.1.sects[i]?).map (fun s => s.flags) ≠ some r.2 then
            (nasm_error r.1 .inconsistent_section_attributes, r.2)
          else (update_sect r.1 i (fun s => { s with flags := r.2 }), r.2)
        else r).1.sects := by
    intro r hr
    exact ⟨(hfl r).1.trans hr.1, align_kept_trans _ _ _ hr.2 (hfl r).2⟩
  unfold section_attribute
  apply hcomb
  split
  · split
    · dsimp only
      split
      · exact ⟨(hal _ _).1.trans rfl, align_kept_trans _ _ _ (align_kept_refl _) (hal _ _).2⟩
      · split
        · exact ⟨(hal _ _).1.trans rfl, align_kept_trans _ _ _ (align_kept_refl _) (hal _ _).2⟩
        · exact hal _ _
    · split
      · exact ⟨rfl, align_kept_refl _⟩
      · split
        · exact ⟨rfl, align_kept_refl _⟩
        · split
          · exact ⟨rfl, align_kept_refl _⟩
          · split
            · exact ⟨rfl, align_kept_refl _⟩
            · exact attr_frame_error _ _
  · exact ⟨rfl, align_kept_refl _⟩

theorem attribute_loop_frame (i : Nat) (new_seg : Bool) (toks : List (List Nat))
    (p : State × Nat) :
    sect_names (toks.foldl (section_attribute i new_seg) p).1.sects = sect_names p.1.sects ∧
      align_kept p.1.sects (toks.foldl (section_attribute i new_seg) p).1.sects := by
  induction toks generalizing p with
  | nil => exact ⟨rfl, align_kept_refl _⟩
  | cons t rest ih =>
    rw [List.foldl_cons]
    obtain ⟨a1, a2⟩ := section_attribute_frame i new_seg p t
    obtain ⟨b1, b2⟩ := ih (section_attribute i new_seg p t)
    exact ⟨b1.trans a1, align_kept_trans _ _ _ a2 b2⟩

theorem section_target_state (st : State) (name : List Nat) :
    (section_target st name).1.sects = st.sects ∧
    (section_target st name).1.next_seg = st.next_seg := by
  unfold section_target
  split
  · dsimp only
    split <;> split <;> (try split) <;> (try split) <;> exact ⟨rfl, rfl⟩
  · split <;> exact ⟨rfl, rfl⟩

theorem section_target_indep (st st1 : State) (name : List Nat) :
    (section_target st1 name).2 = (section_target st name).2 := by
  unfold section_target
  split
  · rfl
  · split <;> rfl

theorem find_by_name_names (segname sectname : List Nat) (l l1 : List Section)
    (h : sect_names l = sect_names l1) :
    find_by_name segname sectname l = find_by_name segname sectname l1 := by
  induction l generalizing l1 with
  | nil =>
    cases l1 with
    | nil => rfl
    | cons b r => cases h
  | cons a rest ih =>
    cases l1 with
    | nil => cases h
    | cons b r =>
      unfold sect_names at h
      simp only [List.map_cons, List.cons.injEq, Prod.mk.injEq] at h
      unfold find_by_name
      rw [h.1.1, h.1.2.1, ih r h.2]

theorem find_by_name_append (segname sectname : List Nat) (l : List Section) (x : Section)
    (h : find_by_name segname sectname l = none)
    (hx : strcmp x.segname segname = 0 ∧ strcmp x.sectname sectname = 0) :
    find_by_name segname sectname (l ++ [x]) = some l.length := by
  induction l with
  | nil =>
    show find_by_name segname sectname [x] = some 0
    unfold find_by_name
    rw [if_pos hx]
  | cons a rest ih =>
    unfold find_by_name at h
    split at h
    · cases h
    · rename_i hne
      cases hr : find_by_name segname sectname rest with
      | some k => rw [hr] at h; cases h
      | none =>
        show find_by_name segname sectname (a :: (rest ++ [x])) = _
        unfold find_by_name
        rw [if_neg hne, ih hr]
        rfl

theorem names_index (l l1 : List Section) (i : Nat) (h : sect_names l1 = sect_names l) :
    (l1[i]?).map (fun s => s.index) = (l[i]?).map (fun s => s.index) := by
  have e := congrArg (fun m : List (List Nat × List Nat × Int) => (m[i]?).map (fun t => t.2.2)) h
  unfold sect_names at e
  simp only [List.getElem?_map, Option.map_map] at e
  exact e

theorem names_length (l l1 : List Section) (h : sect_names l1 = sect_names l) :
    l1.length = l.length := by
  have e := congrArg List.length h
  unfold sect_names at e
  simpa using e

theorem macho_section_unknown (st : State) (name : Option (List Nat)) (bits : Nat)
    (ht : (section_target st (section_tokens name).1).2 = none) :
    (macho_section st name bits).1.sects = st.sects ∧
      (macho_section st name bits).2.2 = NO_SEG := by
  unfold macho_section
  dsimp only
  rw [ht]
  exact ⟨(section_target_state _ _).1, rfl⟩

theorem macho_section_found (st : State) (name : Option (List Nat)) (bits : Nat)
    (seg sec : List Nat) (fl : Nat) (i : Nat)
    (ht : (section_target st (section_tokens name).1).2 = some (seg, sec, fl))
    (hf : find_by_name seg sec st.sects = some i) :
    sect_names (macho_section st name bits).1.sects = sect_names st.sects ∧
      (macho_section st name bits).2.2 = ((st.sects[i]?).map (fun s => s.index)).getD NO_SEG ∧
      align_kept st.sects (macho_section st name bits).1.sects := by
  have hf1 : get_section_by_name (section_target st (section_tokens name).1).1 seg sec =
      some i := by
    unfold get_section_by_name
    rw [(section_target_state _ _).1]
    exact hf
  unfold macho_section
  dsimp only
  rw [ht]
  dsimp only
  rw [hf1]
  dsimp only
  obtain ⟨a1, a2⟩ := attribute_loop_frame i (some i).isNone (section_tokens name).2
    (update_sect (section_target st (section_tokens name).1).1 i
      (fun s => { s with by_name := s.by_name || (strchr (section_tokens name).1 0x2c).isSome }),
      2 ^ 32 - 1)
  obtain ⟨b1, b2⟩ := attr_frame_update (section_target st (section_tokens name).1).1 i
    (fun s => { s with by_name := s.by_name || (strchr (section_tokens name).1 0x2c).isSome })
    (fun s => ⟨rfl, rfl, rfl⟩) (fun s => le_refl _)
  rw [(section_target_state _ _).1] at b1 b2
  have hn := a1.trans b1
  refine ⟨hn, ?_, align_kept_trans _ _ _ b2 a2⟩
  rw [names_index _ _ i hn]

theorem macho_section_created (st : State) (name : Option (List Nat)) (bits : Nat)
    (seg sec : List Nat) (fl : Nat)
    (ht : (section_target st (section_tokens name).1).2 = some (seg, sec, fl))
    (hf : find_by_name seg sec st.sects = none) :
    sect_names (macho_section st name bits).1.sects =
        sect_names st.sects ++ [(xstrncpy seg, xstrncpy sec, st.next_seg)] ∧
      (macho_section st name bits).2.2 = st.next_seg ∧
      align_kept st.sects (macho_section st name bits).1.sects := by
  have hf1 : get_section_by_name (section_target st (section_tokens name).1).1 seg sec =
      none := by
    unfold get_section_by_name
    rw [(section_target_state _ _).1]
    exact hf
  obtain ⟨t1, t2⟩ := section_target_state st (section_tokens name).1
  have hnew : sect_names (new_section (section_target st (section_tokens name).1).1
        seg sec fl).1.sects = sect_names st.sects ++ [(xstrncpy seg, xstrncpy sec, st.next_seg)] ∧
      (new_section (section_target st (section_tokens name).1).1 seg sec fl).2 =
        st.sects.length ∧
      align_kept st.sects (new_section (section_target st (section_tokens name).1).1
        seg sec fl).1.sects := by
    unfold new_section seg_alloc
    dsimp only
    rw [t1, t2]
    refine ⟨?_, rfl, align_kept_append _ _⟩
    unfold sect_names
    rw [List.map_append]
    rfl
  unfold macho_section
  dsimp only
  rw [ht]
  dsimp only
  rw [hf1]
  dsimp only
  obtain ⟨a1, a2⟩ := attribute_loop_frame
    (new_section (section_target st (section_tokens name).1).1 seg sec fl).2
    (none : Option Nat).isNone (section_tokens name).2
    (update_sect (new_section (section_target st (section_tokens name).1).1 seg sec fl).1
      (new_section (section_target st (section_tokens name).1).1 seg sec fl).2
      (fun s => { s with by_name := s.by_name || (strchr (section_tokens name).1 0x2c).isSome }),
      2 ^ 32 - 1)
  obtain ⟨b1, b2⟩ := attr_frame_update
    (new_section (section_target st (section_tokens name).1).1 seg sec fl).1
    (new_section (section_target st (section_tokens name).1).1 seg sec fl).2
    (fun s => { s with by_name := s.by_name || (strchr (section_tokens name).1 0x2c).isSome })
    (fun s => ⟨rfl, rfl, rfl⟩) (fun s => le_refl _)
  have hn := (a1.trans b1).trans hnew.1
  refine ⟨hn, ?_, align_kept_trans _ _ _ hnew.2.2 (align_kept_trans _ _ _ b2 a2)⟩
  have e := congrArg (fun m : List (List Nat × List Nat × Int) =>
    (m[st.sects.length]?).map (fun t => t.2.2)) hn
  unfold sect_names at e
  simp only [List.getElem?_map, Option.map_map] at e
  rw [hnew.2.1] at e ⊢
  have e2 : ((List.map (fun s : Section => (s.segname, s.sectname, s.index)) st.sects ++
      [(xstrncpy seg, xstrncpy sec, st.next_seg)])[st.sects.length]?) =
      some (xstrncpy seg, xstrncpy sec, st.next_seg) := by
    rw [List.getElem?_append_right (by simp)]
    simp
  rw [e2] at e
  show (Option.map (fun s : Section => s.index) _).getD NO_SEG = _
  have e3 : ∀ (o : Option Section), Option.map ((fun t : List Nat × List Nat × Int => t.2.2) ∘
      fun s : Section => (s.segname, s.sectname, s.index)) o = some st.next_seg →
      (Option.map (fun s : Section => s.index) o).getD NO_SEG = st.next_seg := by
    intro o ho
    cases o with
    | none => cases ho
    | some s => exact Option.some.inj ho
  exact e3 _ e

theorem cstr_cstr (x : List Nat) : cstr (cstr x) = cstr x := by
  unfold cstr
  induction x with
  | nil => rfl
  | cons a r ih =>
    by_cases h : (a != 0) = true
    · simp only [List.takeWhile_cons, h, if_true, ih]
    · simp only [List.takeWhile_cons, h, if_false, List.takeWhile_nil, Bool.false_eq_true]

theorem strcmp_xstrncpy (x : List Nat) (h : strlen x < 16) : strcmp (xstrncpy x) x = 0 := by
  rw [strcmp_eq_zero_iff]
  unfold xstrncpy
  unfold strlen at h
  rw [List.take_of_length_le (by omega)]
  exact cstr_cstr x

theorem section_target_fit (st : State) (name seg sec : List Nat) (fl : Nat)
    (hfit : ∀ segment section_, strchr name 0x2c = some (segment, section_) →
      strlen segment < 16 ∧ strlen section_ < 16)
    (ht : (section_target st name).2 = some (seg, sec, fl)) :
    strlen seg < 16 ∧ strlen sec < 16 := by
  unfold section_target at ht
  split at ht
  · rename_i segment section_ hc
    dsimp only at ht
    obtain ⟨rfl, rfl, _⟩ := Prod.mk.inj (Option.some.inj ht) |> fun h =>
      (⟨h.1, (Prod.mk.inj h.2).1, (Prod.mk.inj h.2).2⟩ : segment = seg ∧ section_ = sec ∧ _)
    exact hfit _ _ hc
  · split at ht
    · rename_i sm hsm
      have hmem := List.mem_of_find?_eq_some hsm
      obtain ⟨rfl, rfl, _⟩ := Prod.mk.inj (Option.some.inj ht) |> fun h =>
        (⟨h.1, (Prod.mk.inj h.2).1, (Prod.mk.inj h.2).2⟩ : sm.2.1 = seg ∧ sm.2.2.1 = sec ∧ _)
      have hall : ∀ e ∈ sectmap, strlen e.2.1 < 16 ∧ strlen e.2.2.1 < 16 := by decide
      exact hall sm hmem
    · cases ht

theorem size_section_align (s : Section) (v f : Nat) :
    s.align ≤ (size_section s v f).1.align := by
  unfold size_section DEFAULT_SECTION_ALIGNMENT
  by_cases h1 : s.align = -1 <;>
    by_cases h2 : s.flags &&& SECTION_TYPE ≠ S_ZEROFILL <;>
    simp only [h1, h2, if_true, if_false, ne_eq, not_true_eq_false, not_false_eq_true] <;>
    simp

theorem size_sections_align (l : List Section) (v f : Nat) :
    align_kept l (size_sections l v f).1 := by
  induction l generalizing v f with
  | nil =>
    intro i s h
    simp at h
  | cons a rest ih =>
    have hstep : size_sections (a :: rest) v f =
        ((size_section a v f).1 ::
          (size_sections rest (size_section a v f).2.1 (size_section a v f).2.2).1,
          (size_sections rest (size_section a v f).2.1 (size_section a v f).2.2).2) := rfl
    rw [hstep]
    intro i s hs
    cases i with
    | zero =>
      simp only [List.getElem?_cons_zero, Option.some.injEq] at hs
      subst hs
      exact ⟨(size_section a v f).1, by simp, size_section_align a v f⟩
    | succ j =>
      simp only [List.getElem?_cons_succ] at hs ⊢
      exact ih _ _ j s hs

theorem macho_section_align (st : State) (name : Option (List Nat)) (bits : Nat) :
    align_kept st.sects (macho_section st name bits).1.sects := by
  rcases ht : (section_target st (section_tokens name).1).2 with _ | ⟨seg, sec, fl⟩
  · rw [(macho_section_unknown st name bits ht).1]
    exact align_kept_refl _
  · rcases hf : find_by_name seg sec st.sects with _ | i
    · exact (macho_section_created st name bits seg sec fl ht hf).2.2
    · exact (macho_section_found st name bits seg sec fl i ht hf).2.2

theorem macho_sectalign_align (st st1 : State) (seg : Int) (value : Nat)
    (h : macho_sectalign st seg value = some st1) : align_kept st.sects st1.sects := by
  unfold macho_sectalign at h
  split at h
  · cases h
  · split at h
    · cases h
      exact align_kept_refl _
    · split at h
      · cases h
        exact align_kept_refl _
      · cases h
        apply align_kept_modify
        intro s
        split
        · exact le_of_lt (by assumption)
        · exact le_refl _

theorem alignlog2_pow (k : Nat) (hk : k < 32) : alignlog2_32 (to_int32 (2 ^ k)) = (k : Int) := by
  interval_cases k <;> rfl

theorem align_attr_head (cur : List Nat) (h : nasm_strnicmp attr_align cur 6 = 0) :
    cur.head?.getD 0 ≠ 0 := by
  cases cur with
  | nil => exact absurd h (by decide)
  | cons c r =>
    intro hc
    have hc0 : c = 0 := hc
    subst hc0
    exact absurd h (by
      unfold nasm_strnicmp attr_align
      simp [strcmp, nasm_tolower])

theorem align_attribute_sets (st : State) (i : Nat) (s : Section) (new_seg : Bool) (flags : Nat)
    (cur : List Nat) (k : Nat) (hs : st.sects[i]? = some s)
    (ha : nasm_strnicmp attr_align cur 6 = 0) (hv : strtoul (cur.drop 6) = (2 ^ k, []))
    (hk : k < 32) :
    ∃ s1, (section_attribute i new_seg (st, flags) cur).1.sects[i]? = some s1 ∧
      s1.align = max s.align k := by
  have hfl : ∀ (r : State × Nat) (s0 : Section), r.1.sects[i]? = some s0 →
      ∃ s1, (if r.2 ≠ 2 ^ 32 - 1 then
          if !new_seg ∧ (r.1.sects[i]?).map (fun s => s.flags) ≠ some r.2 then
            (nasm_error r.1 .inconsistent_section_attributes, r.2)
          else (update_sect r.1 i (fun s => { s with flags := r.2 }), r.2)
        else r).1.sects[i]? = some s1 ∧ s1.align = s0.align := by
    intro r s0 h0
    split
    · split
      · exact ⟨s0, h0, rfl⟩
      · exact ⟨_, getElem?_modify_self _ _ i s0 h0, rfl⟩
    · exact ⟨s0, h0, rfl⟩
  unfold section_attribute
  dsimp only
  rw [if_pos (align_attr_head cur ha), if_pos ha, hv]
  dsimp only
  rw [alignlog2_pow k hk]
  have hend : ¬ (([] : List Nat).head?.getD 0 ≠ 0) := by decide
  have hneg : ¬ ((0 : Int) > (k : Int)) := by omega
  rw [if_neg hend, if_neg hneg]
  obtain ⟨s1, e1, e2⟩ := hfl (update_sect st i (fun s =>
      if s.align < (k : Int) then { s with align := (k : Int) } else s), flags)
    (if s.align < (k : Int) then { s with align := (k : Int) } else s)
    (getElem?_modify_self _ _ i s hs)
  refine ⟨s1, e1, ?_⟩
  rw [e2]
  split
  · rw [max_eq_right (le_of_lt (by assumption))]
  · rw [max_eq_left (by omega)]

/-- C25 (amended): a second call of `macho_section` with the same specification, on the
state the first call leaves, returns the same segment number and leaves the number of
sections unchanged, provided the segment and section names of a specification in the
`segment,section` form are shorter than 16 bytes; an alias always qualifies. -/
theorem macho_section_reuse (st : State) (name : Option (List Nat)) (bits : Nat)
    (hfit : ∀ p ∈ strchr (section_tokens name).1 0x2c, strlen p.1 < 16 ∧ strlen p.2 < 16) :
    (macho_section (macho_section st name bits).1 name bits).2.2 =
        (macho_section st name bits).2.2 ∧
      (macho_section (macho_section st name bits).1 name bits).1.sects.length =
        (macho_section st name bits).1.sects.length := by
  rcases ht : (section_target st (section_tokens name).1).2 with _ | ⟨seg, sec, fl⟩
  · have ht1 : (section_target (macho_section st name bits).1 (section_tokens name).1).2 =
        none := by
      rw [section_target_indep st]
      exact ht
    obtain ⟨a1, a2⟩ := macho_section_unknown st name bits ht
    obtain ⟨b1, b2⟩ := macho_section_unknown (macho_section st name bits).1 name bits ht1
    exact ⟨b2.trans a2.symm, by rw [b1]⟩
  · have ht1 : (section_target (macho_section st name bits).1 (section_tokens name).1).2 =
        some (seg, sec, fl) := by
      rw [section_target_indep st]
      exact ht
    rcases hf : find_by_name seg sec st.sects with _ | i
    · obtain ⟨a1, a2, _⟩ := macho_section_created st name bits seg sec fl ht hf
      obtain ⟨f1, f2⟩ := section_target_fit st (section_tokens name).1 seg sec fl
        (fun segment section_ hc => hfit (segment, section_) hc) ht
      have hnew : sect_names (st.sects ++
          [{ data := [], index := st.next_seg, fileindex := 0, relocs := [], gsyms := [],
             align := -1, by_name := false, sectname := xstrncpy sec,
             segname := xstrncpy seg, addr := 0, size := 0, offset := 0,
             pad := 0, nreloc := 0, flags := 0, extreloc := 0 }]) =
          sect_names st.sects ++ [(xstrncpy seg, xstrncpy sec, st.next_seg)] := by
        unfold sect_names
        rw [List.map_append]
        rfl
      have hf1 : find_by_name seg sec (macho_section st name bits).1.sects =
          some st.sects.length := by
        rw [find_by_name_names seg sec _ _ (a1.trans hnew.symm)]
        exact find_by_name_append seg sec st.sects _ hf
          ⟨strcmp_xstrncpy seg f1, strcmp_xstrncpy sec f2⟩
      obtain ⟨b1, b2, _⟩ := macho_section_found (macho_section st name bits).1 name bits
        seg sec fl st.sects.length ht1 hf1
      refine ⟨?_, names_length _ _ b1⟩
      rw [b2, a2]
      have e := congrArg (fun m : List (List Nat × List Nat × Int) =>
        (m[st.sects.length]?).map (fun t => t.2.2)) a1
      unfold sect_names at e
      simp only [List.getElem?_map, Option.map_map] at e
      have e2 : ((List.map (fun s : Section => (s.segname, s.sectname, s.index)) st.sects ++
          [(xstrncpy seg, xstrncpy sec, st.next_seg)])[st.sects.length]?) =
          some (xstrncpy seg, xstrncpy sec, st.next_seg) := by
        rw [List.getElem?_append_right (by simp)]
        simp
      rw [e2] at e
      have e3 : ∀ (o : Option Section), Option.map ((fun t : List Nat × List Nat × Int => t.2.2) ∘
          fun s : Section => (s.segname, s.sectname, s.index)) o = some st.next_seg →
          (Option.map (fun s : Section => s.index) o).getD NO_SEG = st.next_seg := by
        intro o ho
        cases o with
        | none => cases ho
        | some s => exact Option.some.inj ho
      exact e3 _ e
    · obtain ⟨a1, a2, _⟩ := macho_section_found st name bits seg sec fl i ht hf
      have hf1 : find_by_name seg sec (macho_section st name bits).1.sects = some i := by
        rw [find_by_name_names seg sec _ _ a1]
        exact hf
      obtain ⟨b1, b2, _⟩ := macho_section_found (macho_section st name bits).1 name bits
        seg sec fl i ht1 hf1
      refine ⟨?_, names_length _ _ b1⟩
      rw [b2, a2, names_index _ _ i a1]

/-- C25 (counterexample): the specification `__DATA,__a_sixteen_byte`, whose section name
has 16 bytes, gives segment number 4 on the first call in a fresh 64-bit module and, on
the second call, segment number 6 and a second section. -/
theorem long_name_not_reused :
    (macho_section (macho64_init program_start) (some spec_long) 64).2.2 = 4 ∧
    (macho_section (macho64_init program_start) (some spec_long) 64).1.sects.length = 1 ∧
    (macho_section (macho_section (macho64_init program_start) (some spec_long) 64).1
      (some spec_long) 64).2.2 = 6 ∧
    (macho_section (macho_section (macho64_init program_start) (some spec_long) 64).1
      (some spec_long) 64).1.sects.length = 2 := by
  decide

/-- C25 (witness): the specification `__DATA,__mine align=8 data` in a fresh 64-bit
module: segment number 4 on the first call, and again on the second. -/
theorem macho_section_reuse_witness :
    (macho_section (macho64_init program_start) (some spec_mine) 64).2.2 = 4 ∧
    (∀ p ∈ strchr (section_tokens (some spec_mine)).1 0x2c, strlen p.1 < 16 ∧ strlen p.2 < 16) ∧
    (macho_section (macho_section (macho64_init program_start) (some spec_mine) 64).1
        (some spec_mine) 64).2.2 =
        (macho_section (macho64_init program_start) (some spec_mine) 64).2.2 ∧
      (macho_section (macho_section (macho64_init program_start) (some spec_mine) 64).1
        (some spec_mine) 64).1.sects.length =
        (macho_section (macho64_init program_start) (some spec_mine) 64).1.sects.length :=
  ⟨by decide, by decide,
    macho_section_reuse (macho64_init program_start) (some spec_mine) 64 (by decide)⟩

/-- C26 (amended): the record that `macho_section` creates has `align` -1; no call of
`macho_section`, whatever its attributes, no call of `macho_sectalign` and no sizing pass
lowers the `align` of a section; and an attribute `align=N`, where `strtoul` reads the
whole of `N` as the value 2^k with k below 32, leaves the section with the larger of its
previous `align` and k. -/
theorem align_never_lowered (st : State) :
    (∀ (segment section_ : List Nat) (flags : Nat),
      ((new_section st segment section_ flags).1.sects[(new_section st segment section_
        flags).2]?).map (fun s => s.align) = some (-1)) ∧
    (∀ (name : Option (List Nat)) (bits : Nat),
      align_kept st.sects (macho_section st name bits).1.sects) ∧
    (∀ (seg : Int) (value : Nat) (st1 : State),
      macho_sectalign st seg value = some st1 → align_kept st.sects st1.sects) ∧
    (∀ (st1 : State), macho_calculate_sizes st = some st1 → align_kept st.sects st1.sects) ∧
    (∀ (i : Nat) (s : Section) (new_seg : Bool) (flags : Nat) (cur : List Nat) (k : Nat),
      st.sects[i]? = some s → nasm_strnicmp attr_align cur 6 = 0 →
      strtoul (cur.drop 6) = (2 ^ k, []) → k < 32 →
      ∃ s1, (section_attribute i new_seg (st, flags) cur).1.sects[i]? = some s1 ∧
        s1.align = max s.align k) := by
  refine ⟨?_, macho_section_align st, ?_, ?_, ?_⟩
  · intro segment section_ flags
    unfold new_section seg_alloc
    dsimp only
    rw [List.getElem?_append_right (le_refl _)]
    simp
  · intro seg value st1 h
    exact macho_sectalign_align st st1 seg value h
  · intro st1 h
    rw [(macho_calculate_sizes_spec st st1 h).1]
    exact size_sections_align _ _ _
  · intro i s new_seg flags cur k hs ha hv hk
    exact align_attribute_sets st i s new_seg flags cur k hs ha hv hk

/-- C26 (counterexample): the specification `.data align=4294967296` in a fresh 64-bit
module: `strtoul` reads the value 2^32, no diagnostic is reported, and the new section,
whose `align` was -1, is left with `align` 0, not 32. -/
theorem align_two_pow_32_gives_zero :
    section_tokens (some spec_data_align_2_32) = (alias_data, [attr_align ++ digits_2_32]) ∧
    nasm_strnicmp attr_align (attr_align ++ digits_2_32) 6 = 0 ∧
    strtoul ((attr_align ++ digits_2_32).drop 6) = (2 ^ 32, []) ∧
    (macho_section (macho64_init program_start) (some spec_data_align_2_32) 64).1.sects.map
      (fun s => s.align) = [0] ∧
    (macho_section (macho64_init program_start) (some spec_data_align_2_32) 64).1.errs = [] ∧
    max (-1 : Int) 32 ≠ 0 := by
  decide

/-- C26 (witness): after the directive `.data` in a fresh 64-bit module the section has
`align` -1, the directive `.data align=16` on a fresh module leaves it with `align` 4,
and the attribute `align=16` takes the section of the first module to the larger of -1
and 4. -/
theorem align_never_lowered_witness :
    state_data.sects.map (fun s => s.align) = [-1] ∧
    (macho_section (macho64_init program_start) (some spec_data_align16) 64).1.sects.map
      (fun s => s.align) = [4] ∧
    ∃ s1, (section_attribute 0 false (state_data, 2 ^ 32 - 1)
        (attr_align ++ [0x31, 0x36])).1.sects[0]? = some s1 ∧
      s1.align = max (state_data.sects.getD 0 program_start.absolute_sect).align (4 : Nat) :=
  ⟨by decide, by decide,
    (align_never_lowered state_data).2.2.2.2 0
      (state_data.sects.getD 0 program_start.absolute_sect) false (2 ^ 32 - 1)
      (attr_align ++ [0x31, 0x36]) 4 (by rfl) (by decide) (by decide) (by decide)⟩

/-! ### Relative references in the written file -/

theorem write_section_data_content (st : State) (l : List Section) (i : Nat) (stc : State)
    (hinv : tables_inv st stc)
    (hp : ∀ S ∈ l, snums_valid st S.relocs)
    (hd : ∀ S ∈ l, S.flags &&& SECTION_TYPE ≠ S_ZEROFILL → S.data.length = S.size) :
    ∃ (st1 : State) (D : List Nat), write_section_data l i stc = some st1 ∧
      st1.ofile = stc.ofile ++ D ∧ D.length = (l.map file_span).sum ∧
      ∀ (k : Nat) (S : Section), l[k]? = some S → S.flags &&& SECTION_TYPE ≠ S_ZEROFILL →
        ∃ P, patch_relocs st S S.relocs S.data = some P ∧
          bytes_at D (((l.map file_span).take k).sum + S.pad) P := by
  induction l generalizing i stc with
  | nil =>
    exact ⟨stc, [], rfl, (List.append_nil _).symm, rfl, fun k S h => by simp at h⟩
  | cons s rest ih =>
    have hp2 : ∀ S ∈ rest, snums_valid st S.relocs := fun S hS => hp S (List.mem_cons_of_mem _ hS)
    have hd2 : ∀ S ∈ rest, S.flags &&& SECTION_TYPE ≠ S_ZEROFILL → S.data.length = S.size :=
      fun S hS => hd S (List.mem_cons_of_mem _ hS)
    by_cases hz : s.flags &&& SECTION_TYPE = S_ZEROFILL
    · obtain ⟨st1, D, e1, e4, e5, e6⟩ := ih (i + 1) stc hinv hp2 hd2
      have hspan : file_span s = 0 := by
        simp only [file_span, hz, ne_eq, not_true_eq_false, if_false]
      refine ⟨st1, D, ?_, e4, ?_, ?_⟩
      · simp only [write_section_data, if_pos hz, e1]
      · simp only [List.map_cons, List.sum_cons, hspan, Nat.zero_add]
        exact e5
      · intro k S hk hnz
        cases k with
        | zero =>
          simp only [List.getElem?_cons_zero, Option.some.injEq] at hk
          subst hk
          exact absurd hz hnz
        | succ j =>
          simp only [List.getElem?_cons_succ] at hk
          obtain ⟨P, q1, q2⟩ := e6 j S hk hnz
          refine ⟨P, q1, ?_⟩
          simp only [List.map_cons, List.take_succ_cons, List.sum_cons, hspan, Nat.zero_add]
          exact q2
    · obtain ⟨P, hP, hlen⟩ := patch_relocs_some st s s.relocs s.data
        (hp s (List.mem_cons_self _ _))
      have hP2 : patch_relocs stc s s.relocs s.data = some P := by
        rw [patch_relocs_tables st stc s _ _ (tables_inv_same st stc hinv)]
        exact hP
      obtain ⟨st1, D, e1, e4, e5, e6⟩ := ih (i + 1)
        (nasm_write (fwritezero (update_sect stc i (fun sc => { sc with data := P })) s.pad) P)
        (tables_inv_dump st stc hinv i s.pad P P) hp2 hd2
      have hspan : file_span s = s.pad + s.size := by
        simp only [file_span, hz, ne_eq, not_false_eq_true, if_true]
      have hPl : P.length = s.size := by
        rw [hlen]; exact hd s (List.mem_cons_self _ _) hz
      refine ⟨st1, List.replicate s.pad 0 ++ P ++ D, ?_, ?_, ?_, ?_⟩
      · simp only [write_section_data, if_neg hz, hP2]
        exact e1
      · rw [e4]
        simp only [nasm_write, fwritezero, update_sect, List.append_assoc]
      · simp only [List.length_append, List.length_replicate, e5, hPl, List.map_cons,
          List.sum_cons, hspan]
      · intro k S hk hnz
        cases k with
        | zero =>
          simp only [List.getElem?_cons_zero, Option.some.injEq] at hk
          subst hk
          refine ⟨P, hP, ?_⟩
          simp only [List.take_zero, List.sum_nil, Nat.zero_add]
          have := bytes_at_mid (List.replicate s.pad 0) P D
          rw [List.length_replicate] at this
          exact this
        | succ j =>
          simp only [List.getElem?_cons_succ] at hk
          obtain ⟨Q, q1, q2⟩ := e6 j S hk hnz
          refine ⟨Q, q1, ?_⟩
          simp only [List.map_cons, List.take_succ_cons, List.sum_cons, hspan]
          have := bytes_at_prepend (List.replicate s.pad 0 ++ P) D _ _ q2
          rw [List.length_append, List.length_replicate, hPl] at this
          rw [Nat.add_assoc]
          exact this

theorem macho_write_section_content (st : State)
    (hp : ∀ S ∈ st.sects, snums_valid st S.relocs)
    (hd : ∀ S ∈ st.sects, S.flags &&& SECTION_TYPE ≠ S_ZEROFILL → S.data.length = S.size) :
    ∃ (st1 : State) (D T : List Nat), macho_write_section st = some st1 ∧
      st1.ofile = st.ofile ++ (D ++ T) ∧
      D.length = (st.sects.map file_span).sum ∧
      ∀ (k : Nat) (S : Section), st.sects[k]? = some S →
        S.flags &&& SECTION_TYPE ≠ S_ZEROFILL →
        ∃ P, patch_relocs st S S.relocs S.data = some P ∧
          bytes_at D (((st.sects.map file_span).take k).sum + S.pad) P := by
  obtain ⟨sd, D, e1, e4, e5, e6⟩ := write_section_data_content st st.sects 0 st
    ⟨rfl, rfl, rfl, fun _ => rfl⟩ hp hd
  refine ⟨_, D, List.replicate sd.rel_padcnt 0 ++
    (sd.sects.map (fun s => reloc_entries s.relocs)).flatten,
    by rw [macho_write_section, e1]; rfl, ?_, e5, e6⟩
  dsimp only
  rw [write_relocs_fold_eq]
  simp only [nasm_write, fwritezero, e4, List.append_assoc]

theorem bytes_at_fread (buf P : List Nat) (off a : Nat) (X : List Nat)
    (h : bytes_at buf off P) (hr : saa_fread P a X.length = X) (hb : a + X.length ≤ P.length) :
    bytes_at buf (off + a) X := by
  unfold bytes_at at h ⊢
  have key : ∀ n, a + n ≤ P.length → (buf.drop (off + a)).take n =
      (((buf.drop off).take P.length).drop a).take n := by
    intro n hn
    apply List.ext_getElem?
    intro i
    by_cases hi : i < n
    · rw [List.getElem?_take_of_lt hi, List.getElem?_take_of_lt hi, List.getElem?_drop,
        List.getElem?_drop, List.getElem?_take_of_lt (by omega), List.getElem?_drop,
        Nat.add_assoc]
    · rw [List.getElem?_eq_none (by rw [List.length_take]; omega),
        List.getElem?_eq_none (by rw [List.length_take]; omega)]
  rw [key X.length hb, h, ← saa_fread_eq P a X.length hb]
  exact hr

theorem file_section_data (st : State) (hinv : run_inv st) (hn : st.sects.length ≤ MAX_SECT) :
    ∃ (st1 st2 fin : State) (off : Nat),
      macho_calculate_sizes (fixup_all (macho_layout_symbols st)) = some st1 ∧
      write_load_commands st1 = some (st2, off) ∧ seg_frame st1 st2 ∧
      (macho_cleanup_write st = some fin ∧ (st.sects ≠ [] → macho_cleanup st = some fin)) ∧
      ∀ (k : Nat) (S2 : Section), st2.sects[k]? = some S2 →
        S2.flags &&& SECTION_TYPE ≠ S_ZEROFILL →
        ∃ P, patch_relocs st2 S2 S2.relocs S2.data = some P ∧
          P.length = S2.data.length ∧
          bytes_at fin.ofile (st.fmt.header_size + st1.head_sizeofcmds + S2.offset) P := by
  obtain ⟨st1, st2, st3, st4, off, D0, c1, c2, c3, c4, c5, c6, c7, c8, c9, c10, c11, c12⟩ :=
    cleanup_spec st hinv hn
  obtain ⟨z1, z2, z3, z4, z5, z6, z7, z8, z9, z10, z11, z12, -⟩ := sized_spec st st1 hinv c1
  have hok := sized_sects_ok st st1 hinv c1
  obtain ⟨H, P0, Bs, S, w1, w2, w3, w4, w5, -⟩ := load_commands_spec st st1 st2 off hinv c1 c2
  obtain ⟨v1, v2, v3⟩ := written_snums_valid st st1 st2 off hinv c1 c2
  have hc6 := c6
  obtain ⟨-, -, w6⟩ := c6
  refine ⟨st1, st2, nasm_write st4 st4.strs, off, c1, c2, hc6, c5, ?_⟩
  intro k S2 hk hnz
  have hklt : k < st.sects.length := by
    rw [← v2]; exact (List.getElem?_eq_some_iff.1 hk).1
  have hpos : st2.seg_nsects > 0 := by rw [v1]; omega
  rw [if_pos hpos] at c3
  obtain ⟨st3', D, T, m1, m2, m3, m4⟩ := macho_write_section_content st2
    (fun S hS r hr he => by
      obtain ⟨q1, q2, q3, -⟩ := v3 S hS r hr he
      exact ⟨by omega, q2, q3⟩)
    (fun S hS hz => by
      obtain ⟨j, hj⟩ := List.getElem?_of_mem hS
      obtain ⟨s, hs, hc⟩ := same_cores_get st2.sects st1.sects w6.symm j S hj
      obtain ⟨e1, -, -, e4, -, -, -, -, e9, -⟩ := core_fields s S hc
      rw [← e1, ← e4]
      exact (hok s (List.getElem?_mem hs)).2.2.1 (e9 ▸ hz))
  rw [c3] at m1
  cases m1
  obtain ⟨P, p1, p2⟩ := m4 k S2 hk hnz
  obtain ⟨Pl, pl1, pl2⟩ := patch_relocs_some st2 S2 S2.relocs S2.data
    (fun r hr he => by
      obtain ⟨q1, q2, q3, -⟩ := v3 S2 (List.getElem?_mem hk) r hr he
      exact ⟨by omega, q2, q3⟩)
  rw [p1] at pl1
  cases pl1
  refine ⟨P, p1, pl2, ?_⟩
  obtain ⟨s1, hs1, hc⟩ := same_cores_get st2.sects st1.sects w6.symm k S2 hk
  obtain ⟨e1, e2, e3, e4, e5, e6, e7, e8, e9, e10⟩ := core_fields s1 S2 hc
  obtain ⟨-, -, -, -, -, -, q7⟩ := z11 k _ s1 (List.getElem?_eq_getElem hklt) hs1
  have hoff : S2.offset = ((st2.sects.map file_span).take k).sum + S2.pad := by
    rw [(spans_cores _ _ w6).1, ← e5, ← e6]
    exact (q7 (e9 ▸ hnz)).1
  rw [← hoff] at p2
  have hfile : (nasm_write st4 st4.strs).ofile = (H ++ (P0 ++ (Bs.flatten ++ S))) ++
      ((D ++ T) ++ (nlist_entries st3 (layout_order (macho_layout_symbols st)) ++ st4.strs)) := by
    show st4.ofile ++ st4.strs = _
    rw [c11, m2, w1]
    simp only [List.append_assoc]
  rw [hfile]
  have hbase : (H ++ (P0 ++ (Bs.flatten ++ S))).length =
      st.fmt.header_size + st1.head_sizeofcmds := by
    rw [List.length_append, w2, w5]
  rw [← hbase]
  apply bytes_at_prepend
  by_cases hP : P = []
  · subst hP
    unfold bytes_at
    simp
  · have hb := bytes_at_bound D S2.offset P p2 hP
    apply bytes_at_append
    · exact bytes_at_append D T _ _ p2 hb
    · rw [List.length_append]
      omega

theorem macho_output_ind_bytes (R : State → State → Prop) (B : Nat → Prop)
    (hrefl : ∀ a, R a a) (htrans : ∀ a b c, R a b → R b c → R a c)
    (herr : ∀ a d, R a (nasm_error a d))
    (hsize : ∀ a si s n, a.sects[si]? = some s → s.flags &&& SECTION_TYPE = S_ZEROFILL →
      R a (update_sect a si (fun sc => { sc with size := sc.size + n })))
    (hwrite : ∀ a si s d n, run_inv a → a.sects[si]? = some s →
      s.flags &&& SECTION_TYPE ≠ S_ZEROFILL → d.length = n → R a (sect_write a si d n))
    (hcomp : ∀ a si s section_ offset rt (bytes : Nat) a1 adj d, run_inv a →
      a.sects[si]? = some s → s.flags &&& SECTION_TYPE ≠ S_ZEROFILL → B bytes →
      add_reloc a si section_ offset rt (bytes : Int) = some (a1, adj) → d.length = bytes →
      R a (sect_write a1 si d bytes))
    (st : State) (secto : Int) (data : out_data) (type : out_type)
    (size : Nat) (section_ wrt : Int) (st1 : State) (hB2 : B 2) (hB4 : B 4)
    (hBa : type = .OUT_ADDRESS → B (to_int32 size).natAbs) (hinv : run_inv st)
    (h : macho_output st secto data type size section_ wrt = some st1) : R st st1 := by
  have hcomp2 : ∀ (a : State) (si : Nat) (s : Section) (sec off : Int) (rt : reltype)
      (bytes : Nat) (addr : Int) (o : Option (State × Int)) (res : State),
      run_inv a → a.sects[si]? = some s → s.flags &&& SECTION_TYPE ≠ S_ZEROFILL →
      B bytes →
      o = (add_reloc a si sec off rt (bytes : Int)).map (fun p => (p.1, addr + p.2)) →
      o.map (fun p => sect_write p.1 si (le_bytes bytes (u64 p.2)) bytes) = some res →
      R a res := by
    intro a si s sec off rt bytes addr o res ha hs hnz hb ho hres
    cases hr : add_reloc a si sec off rt (bytes : Int) with
    | none => rw [ho, hr] at hres; cases hres
    | some p =>
      rw [ho, hr] at hres
      simp only [Option.map_some', Option.some.injEq] at hres
      rw [← hres]
      exact hcomp a si s sec off rt bytes p.1 p.2 _ ha hs hnz hb hr
        (le_bytes_length _ _)
  unfold macho_output at h
  split at h
  · split at h <;> cases h
    · exact herr st _
    · exact hrefl st
  · dsimp only at h
    split at h
    · cases h
    · rename_i st0 si heq
      have hf0 : emit_frame st st0 ∧ R st st0 := by
        split at heq
        · cases heq; exact ⟨emit_frame_refl st, hrefl st⟩
        · split at heq
          · cases heq; exact ⟨emit_frame_nasm_error st _, herr st _⟩
          · cases heq
      have hinv0 : run_inv st0 := run_inv_of_frame st st0 hinv hf0.1
      refine htrans _ _ _ hf0.2 ?_
      split at h
      · cases h
      · rename_i s hs
        split at h
        · -- initialised data in a zerofill section
          rename_i hbss
          cases h
          exact htrans _ _ _ (herr st0 _) (hsize _ si s _ hs (by simpa using hbss.1))
        · rename_i hnb
          revert hBa
          split at h
          · -- OUT_RESERVE
            intro _
            split at h <;> cases h
            · rename_i hb
              exact htrans _ _ _ (herr st0 _) (hwrite _ si s _ _
                (run_inv_of_frame _ _ hinv0 (emit_frame_nasm_error st0 _)) hs
                (by simpa using hb) (List.length_replicate _ _))
            · rename_i hb
              exact hsize _ si s _ hs (by simpa using hb)
          · -- OUT_RAWDATA
            intro _
            have hnz : s.flags &&& SECTION_TYPE ≠ S_ZEROFILL := by
              intro hz
              apply hnb
              exact ⟨by simp [hz], by decide⟩
            split at h
            · cases h
            · cases h
              exact hwrite _ si s _ _ hinv0 hs hnz (out_data_raw_length _ _)
          · -- OUT_ADDRESS
            intro hBa
            have hnz : s.flags &&& SECTION_TYPE ≠ S_ZEROFILL := by
              intro hz
              apply hnb
              exact ⟨by simp [hz], by decide⟩
            split at h
            · rename_i href
              split at h
              · cases h
                exact htrans _ _ _ (herr st0 _) (hwrite _ si s _ _
                  (run_inv_of_frame _ _ hinv0 (emit_frame_nasm_error st0 _)) hs hnz
                  (le_bytes_length _ _))
              · split at h
                · split at h
                  · cases h
                    exact htrans _ _ _ (herr st0 _) (hwrite _ si s _ _
                      (run_inv_of_frame _ _ hinv0 (emit_frame_nasm_error st0 _)) hs hnz
                      (le_bytes_length _ _))
                  · cases hr : add_reloc st0 si section_ data.int64 .RL_ABS
                        ((to_int32 size).natAbs : Nat) with
                    | none => rw [hr] at h; cases h
                    | some p =>
                      rw [hr] at h
                      simp only [Option.map_some', Option.some.injEq] at h
                      rw [← h]
                      exact hcomp st0 si s section_ _ .RL_ABS _ p.1 p.2 _ hinv0 hs hnz
                        (hBa rfl) hr (le_bytes_length _ _)
                · cases h
                  exact htrans _ _ _ (herr st0 _) (hwrite _ si s _ _
                    (run_inv_of_frame _ _ hinv0 (emit_frame_nasm_error st0 _)) hs hnz
                    (le_bytes_length _ _))
            · cases h
              exact hwrite _ si s _ _ hinv0 hs hnz (le_bytes_length _ _)
          · -- OUT_REL2ADR
            intro _
            have hnz : s.flags &&& SECTION_TYPE ≠ S_ZEROFILL := by
              intro hz
              apply hnb
              exact ⟨by simp [hz], by decide⟩
            split at h
            · cases h
            · split at h
              · cases h
                exact htrans _ _ _ (herr st0 _) (hwrite _ si s _ _
                  (run_inv_of_frame _ _ hinv0 (emit_frame_nasm_error st0 _)) hs hnz
                  (le_bytes_length _ _))
              · split at h
                · cases h
                  exact htrans _ _ _ (herr st0 _) (hwrite _ si s _ _
                    (run_inv_of_frame _ _ hinv0 (emit_frame_nasm_error st0 _)) hs hnz
                    (le_bytes_length _ _))
                · split at h
                  · cases h
                    exact htrans _ _ _ (herr st0 _) (hwrite _ si s _ _
                      (run_inv_of_frame _ _ hinv0 (emit_frame_nasm_error st0 _)) hs hnz
                      (le_bytes_length _ _))
                  · exact hcomp2 st0 si s section_ _ .RL_REL 2 _ _ st1 hinv0 hs hnz
                      hB2 rfl h
          · -- OUT_REL4ADR
            intro _
            have hnz : s.flags &&& SECTION_TYPE ≠ S_ZEROFILL := by
              intro hz
              apply hnb
              exact ⟨by simp [hz], by decide⟩
            split at h
            · cases h
            · split at h
              · exact htrans _ _ _ (herr st0 _)
                  (hcomp2 _ si s section_ _ .RL_REL 4 _ _ st1
                    (run_inv_of_frame _ _ hinv0 (emit_frame_nasm_error st0 _)) hs hnz
                    hB4 rfl h)
              · split at h
                · exact htrans _ _ _ (herr st0 _)
                    (hcomp2 _ si s section_ _ _ 4 _ _ st1
                      (run_inv_of_frame _ _ hinv0 (emit_frame_nasm_error st0 _)) hs hnz
                      hB4 rfl h)
                · exact hcomp2 st0 si s section_ _ _ 4 _ _ st1 hinv0 hs hnz
                    hB4 rfl h
          · intro _
            cases h
            exact herr st0 _

theorem symdef_sects (st st1 : State) (name : List Nat) (section_ offset is_global : Int)
    (special : Option (List Nat))
    (h : macho_symdef st name section_ offset is_global special = some st1) :
    st1.sects.map (fun s => { s with gsyms := [] }) =
      st.sects.map (fun s => { s with gsyms := [] }) := by
  unfold macho_symdef at h
  split at h
  · cases h; rfl
  · split at h
    · cases h; rfl
    · split at h
      · split at h <;> cases h <;> rfl
      · dsimp only at h
        split at h
        · cases h; rfl
        · split at h
          · split at h
            · cases h; rfl
            · cases h
          · split at h
            · cases h
              exact map_modify_keep _ _ _ _ (fun s => rfl)
            · cases h; rfl

theorem strip_get (l l1 : List Section) (k : Nat) (s1 : Section)
    (h : l1.map (fun s => { s with gsyms := [] }) = l.map (fun s => { s with gsyms := [] }))
    (h1 : l1[k]? = some s1) :
    ∃ s, l[k]? = some s ∧ s1.data = s.data ∧ s1.relocs = s.relocs ∧ s1.flags = s.flags ∧
      s1.size = s.size := by
  have e := congrArg (fun m : List Section => m[k]?) h
  simp only [List.getElem?_map, h1, Option.map_some'] at e
  cases hs : l[k]? with
  | none => rw [hs] at e; cases e
  | some s =>
    rw [hs] at e
    simp only [Option.map_some', Option.some.injEq] at e
    refine ⟨s, rfl, ?_, ?_, ?_, ?_⟩
    · have q := congrArg Section.data e
      exact q
    · have q := congrArg Section.relocs e
      exact q
    · have q := congrArg Section.flags e
      exact q
    · have q := congrArg Section.size e
      exact q

theorem sect_grown_refl (s : Section) : sect_grown s s :=
  ⟨List.prefix_refl _, List.suffix_refl _, rfl, le_refl _⟩

theorem sect_grown_trans (a b c : Section) (h1 : sect_grown a b) (h2 : sect_grown b c) :
    sect_grown a c :=
  ⟨h1.1.trans h2.1, h1.2.1.trans h2.2.1, h2.2.2.1.trans h1.2.2.1, le_trans h1.2.2.2 h2.2.2.2⟩

theorem grown_refl (st : State) : grown st st :=
  fun _ s h => ⟨s, h, sect_grown_refl s⟩

theorem grown_trans (a b c : State) (h1 : grown a b) (h2 : grown b c) : grown a c := by
  intro i s hs
  obtain ⟨s1, e1, g1⟩ := h1 i s hs
  obtain ⟨s2, e2, g2⟩ := h2 i s1 e1
  exact ⟨s2, e2, sect_grown_trans _ _ _ g1 g2⟩

theorem grown_sects (a b : State) (h : b.sects = a.sects) : grown a b := by
  intro i s hs
  exact ⟨s, by rw [h]; exact hs, sect_grown_refl s⟩

theorem grown_modify (a b : State) (f : Section → Section) (i : Nat)
    (hb : b.sects = a.sects.modify f i) (hf : ∀ s, sect_grown s (f s)) : grown a b := by
  intro k s hs
  by_cases hk : k = i
  · subst hk
    exact ⟨f s, by rw [hb]; exact getElem?_modify_self _ _ _ s hs, hf s⟩
  · exact ⟨s, by rw [hb, getElem?_modify_ne _ _ _ _ hk]; exact hs, sect_grown_refl s⟩

theorem grown_write (a : State) (si : Nat) (d : List Nat) (n : Nat) :
    grown a (sect_write a si d n) :=
  grown_modify a _ _ si rfl
    (fun _ => ⟨List.prefix_append _ _, List.suffix_refl _, rfl, Nat.le_add_right _ _⟩)

theorem grown_output (st : State) (secto : Int) (data : out_data) (type : out_type)
    (size : Nat) (section_ wrt : Int) (st1 : State) (hinv : run_inv st)
    (h : macho_output st secto data type size section_ wrt = some st1) : grown st st1 := by
  refine macho_output_ind grown grown_refl grown_trans (fun a d => grown_sects _ _ rfl)
    ?_ ?_ ?_ st secto data type size section_ wrt st1 hinv h
  · intro a si s n _ _
    exact grown_modify a _ _ si rfl
      (fun s => ⟨List.prefix_refl _, List.suffix_refl _, rfl, Nat.le_add_right _ _⟩)
  · intro a si s d n _ _ _ _
    exact grown_write a si d n
  · intro a si s section_ offset rt bytes a1 adj d ha hs _ _ _ hadd _
    refine grown_trans _ _ _ ?_ (grown_write a1 si d bytes)
    rcases add_reloc_sects a si s section_ offset rt bytes a1 adj ha hs hadd with e | ⟨r, e, -, -⟩
    · exact grown_sects _ _ e
    · exact grown_modify a a1 _ si e
        (fun s => ⟨List.prefix_refl _, List.suffix_cons _ _, rfl, le_refl _⟩)

theorem grown_kept (a b : State) (h : sects_kept a b) : grown a b := by
  intro k s hs
  obtain ⟨s1, e1, q1, q2, q3, q4⟩ := h.1 k s hs
  exact ⟨s1, e1, by rw [q1], by rw [q2], q4, by rw [q3]⟩

theorem grown_step (st st1 : State) (e : event) (hinv : run_inv st)
    (h : step st e = some st1) : grown st st1 := by
  cases e with
  | symdef name section_ offset is_global special =>
    simp only [step] at h
    have hm := symdef_sects st st1 name section_ offset is_global special h
    intro i s hs
    have e := congrArg (fun m : List Section => m[i]?) hm
    simp only [List.getElem?_map, hs, Option.map_some'] at e
    cases h1 : st1.sects[i]? with
    | none => rw [h1] at e; cases e
    | some s1 =>
      obtain ⟨s0, q0, q1, q2, q3, q4⟩ := strip_get st.sects st1.sects i s1 hm h1
      rw [hs] at q0
      cases q0
      exact ⟨s1, rfl, by rw [q1], by rw [q2], q3, by rw [q4]⟩
  | output secto data type size section_ wrt =>
    exact grown_output st secto data type size section_ wrt st1 hinv h
  | new_section segment sectname flags =>
    simp only [step, Option.some.injEq] at h
    rw [← h]
    obtain ⟨s0, e0, -⟩ := new_section_sects st segment sectname flags
    intro i s hs
    refine ⟨s, ?_, sect_grown_refl s⟩
    rw [e0, List.getElem?_append_left (List.getElem?_eq_some_iff.1 hs).1]
    exact hs
  | section_ name bits =>
    simp only [step, Option.some.injEq] at h
    rw [← h]
    exact grown_kept st _ (macho_section_kept st name bits)
  | sectalign seg value =>
    exact grown_kept st st1 (macho_sectalign_kept st st1 seg value h)

theorem grown_run (evs : List event) (a b : State) (ha : run_inv a)
    (hr : run evs a = some b) : grown a b := by
  induction evs generalizing a with
  | nil =>
    simp only [run, Option.some.injEq] at hr
    rw [← hr]
    exact grown_refl a
  | cons e rest ih =>
    simp only [run] at hr
    cases hs : step a e with
    | none => rw [hs] at hr; cases hr
    | some c =>
      rw [hs] at hr
      exact grown_trans _ _ _ (grown_step a c e ha hs)
        (ih c (run_inv_step a c e ha hs) hr)

theorem patch_len_bytes (r : reloc) (bytes : Nat) (hb : bytes ∈ [1, 2, 4, 8])
    (h : r.length = ilog2_32 (bytes : Int)) : patch_len r = bytes := by
  unfold patch_len
  rw [h]
  simp only [List.mem_cons, List.mem_singleton, List.not_mem_nil, or_false] at hb
  rcases hb with rfl | rfl | rfl | rfl <;> decide

theorem relocs_fit_size (s s1 : Section) (h : relocs_fit s) (hr : s1.relocs = s.relocs)
    (hs : s.size ≤ s1.size) : relocs_fit s1 := by
  unfold relocs_fit at *
  rw [hr]
  exact ⟨fun r hr => le_trans (h.1 r hr) hs, h.2⟩

theorem fit_inv_modify (a b : State) (f : Section → Section) (i : Nat)
    (hb : b.sects = a.sects.modify f i) (ha : fit_inv a)
    (hf : ∀ s, a.sects[i]? = some s → (f s).flags &&& SECTION_TYPE ≠ S_ZEROFILL →
      (f s).size < 2 ^ 31 → relocs_fit (f s)) : fit_inv b := by
  intro k x hx hnz hlt
  rw [hb] at hx
  by_cases hk : k = i
  · subst hk
    cases hs : a.sects[k]? with
    | none =>
      rw [List.getElem?_modify, hs] at hx
      cases hx
    | some s =>
      rw [getElem?_modify_self _ _ _ s hs] at hx
      cases hx
      exact hf s hs hnz hlt
  · rw [getElem?_modify_ne _ _ _ _ hk] at hx
    exact ha k x hx hnz hlt

theorem fit_inv_output (st : State) (secto : Int) (data : out_data) (type : out_type)
    (size : Nat) (section_ wrt : Int) (st1 : State) (hinv : run_inv st)
    (hsz : address_sized (.output secto data type size section_ wrt))
    (h : macho_output st secto data type size section_ wrt = some st1)
    (hf : fit_inv st) : fit_inv st1 := by
  refine macho_output_ind_bytes (fun a b => fit_inv a → fit_inv b) (fun n => n ∈ [1, 2, 4, 8])
    (fun a h => h) (fun a b c h1 h2 h => h2 (h1 h)) (fun a d h => h)
    ?_ ?_ ?_ st secto data type size section_ wrt st1 (by decide) (by decide) ?_ hinv h hf
  · intro a si s n hs hz ha
    refine fit_inv_modify a _ _ si rfl ha ?_
    intro s0 hs0 hnz _
    rw [hs] at hs0
    cases hs0
    exact absurd hz hnz
  · intro a si s d n _ hs hnz _ ha
    refine fit_inv_modify a _ _ si rfl ha ?_
    intro s0 hs0 hnz0 hlt
    refine relocs_fit_size s0 _ (ha si s0 hs0 hnz0 ?_) rfl (Nat.le_add_right _ _)
    exact lt_of_le_of_lt (Nat.le_add_right _ n) hlt
  · intro a si s section_ offset rt bytes a1 adj d hinva hs hnz hb hadd _ ha
    rcases add_reloc_sects a si s section_ offset rt bytes a1 adj hinva hs hadd with
      e | ⟨r, e, e2, e3⟩
    · refine fit_inv_modify a _ _ si (by show (a1.sects.modify _ si) = _; rw [e]) ha ?_
      intro s0 hs0 hnz0 hlt
      refine relocs_fit_size s0 _ (ha si s0 hs0 hnz0 ?_) rfl (Nat.le_add_right _ _)
      exact lt_of_le_of_lt (Nat.le_add_right _ bytes) hlt
    · have hb2 : (sect_write a1 si d bytes).sects = a.sects.modify (fun sc =>
          { sc with relocs := r :: sc.relocs,
                    extreloc := if r.ext ≠ 0 then 1 else sc.extreloc,
                    nreloc := sc.nreloc + 1,
                    data := sc.data ++ d, size := sc.size + bytes }) si := by
        show (a1.sects.modify _ si) = _
        rw [e]
        show ((a.sects.modify _ si).modify _ si) = _
        rw [List.modify_modify_eq]
        rfl
      refine fit_inv_modify a _ _ si hb2 ha ?_
      intro s0 hs0 hnz0 hlt
      rw [hs] at hs0
      cases hs0
      have hlt0 : s.size < 2 ^ 31 := lt_of_le_of_lt (Nat.le_add_right _ bytes) hlt
      obtain ⟨f1, f2⟩ := ha si s hs hnz hlt0
      have haddr : r.addr = s.size := by rw [e2, Nat.mod_eq_of_lt hlt0]
      have hlen : patch_len r = bytes := patch_len_bytes r bytes hb e3
      refine ⟨?_, ?_⟩
      · intro r' hr'
        rcases List.mem_cons.1 hr' with rfl | hm
        · show r'.addr + patch_len r' ≤ s.size + bytes
          rw [haddr, hlen]
        · exact le_trans (f1 r' hm) (Nat.le_add_right _ _)
      · show (r :: s.relocs).Pairwise relocs_disjoint
        refine List.pairwise_cons.2 ⟨?_, f2⟩
        intro r' hm
        right
        rw [haddr]
        exact f1 r' hm
  · intro ht
    subst ht
    exact hsz

theorem fit_inv_kept (a b : State) (h : sects_kept a b) (ha : fit_inv a) : fit_inv b := by
  intro k x hx hnz hlt
  by_cases hk : k < a.sects.length
  · obtain ⟨x', e1, -, q2, q3, q4⟩ := h.1 k _ (List.getElem?_eq_getElem hk)
    rw [hx] at e1
    cases e1
    exact relocs_fit_size _ x
      (ha k _ (List.getElem?_eq_getElem hk) (by rw [← q4]; exact hnz) (by rw [← q3]; exact hlt))
      q2 (by rw [q3])
  · obtain ⟨-, q2, -⟩ := h.2 k x hx (by omega)
    unfold relocs_fit
    rw [q2]
    exact ⟨fun r hr => (by cases hr), List.Pairwise.nil⟩

theorem fit_inv_step (st st1 : State) (e : event) (hinv : run_inv st) (hsz : address_sized e)
    (h : step st e = some st1) (hf : fit_inv st) : fit_inv st1 := by
  cases e with
  | symdef name section_ offset is_global special =>
    simp only [step] at h
    have hm := symdef_sects st st1 name section_ offset is_global special h
    intro k x hx hnz hlt
    obtain ⟨s0, q0, q1, q2, q3, q4⟩ := strip_get st.sects st1.sects k x hm hx
    have := hf k s0 q0 (by rw [← q3]; exact hnz) (by rw [← q4]; exact hlt)
    exact relocs_fit_size s0 x this q2 (by rw [q4])
  | output secto data type size section_ wrt =>
    exact fit_inv_output st secto data type size section_ wrt st1 hinv hsz h hf
  | new_section segment sectname flags =>
    simp only [step, Option.some.injEq] at h
    rw [← h]
    obtain ⟨s0, e0, -, e2, -⟩ := new_section_sects st segment sectname flags
    intro k x hx hnz hlt
    rw [e0] at hx
    by_cases hk : k < st.sects.length
    · rw [List.getElem?_append_left hk] at hx
      exact hf k x hx hnz hlt
    · rw [List.getElem?_append_right (by omega)] at hx
      have hx0 : x = s0 := by
        cases hq : k - st.sects.length with
        | zero => rw [hq] at hx; simpa using hx.symm
        | succ j => rw [hq] at hx; simp at hx
      subst hx0
      unfold relocs_fit
      rw [e2]
      exact ⟨fun r hr => (by cases hr), List.Pairwise.nil⟩
  | section_ name bits =>
    simp only [step, Option.some.injEq] at h
    rw [← h]
    exact fit_inv_kept st _ (macho_section_kept st name bits) hf
  | sectalign seg value =>
    exact fit_inv_kept st st1 (macho_sectalign_kept st st1 seg value h) hf

theorem fit_inv_run (evs : List event) (a b : State) (ha : run_inv a) (hf : fit_inv a)
    (he : ∀ e ∈ evs, address_sized e) (hr : run evs a = some b) : fit_inv b := by
  induction evs generalizing a with
  | nil =>
    simp only [run, Option.some.injEq] at hr
    rw [← hr]
    exact hf
  | cons e rest ih =>
    simp only [run] at hr
    cases hs : step a e with
    | none => rw [hs] at hr; cases hr
    | some c =>
      rw [hs] at hr
      exact ih c (run_inv_step a c e ha hs)
        (fit_inv_step a c e ha (he e (List.mem_cons_self _ _)) hs hf)
        (fun x hx => he x (List.mem_cons_of_mem _ hx)) hr

theorem rel4_local_emit (st : State) (hinv : run_inv st) (secto section_ : Int)
    (data : out_data) (t : Nat) (si ti : Nat) (S T : Section)
    (hsec : secto ≠ NO_SEG) (hsi : get_section_by_index st secto = some si)
    (hS : st.sects[si]? = some S) (hnz : S.flags &&& SECTION_TYPE ≠ S_ZEROFILL)
    (hne : section_ ≠ secto) (href : section_ ≠ NO_SEG) (heven : section_ % 2 = 0)
    (hti : get_section_by_index st section_ = some ti) (hT : st.sects[ti]? = some T) :
    macho_output st secto data .OUT_REL4ADR t section_ NO_SEG =
      some (sect_write (reloc_link st si
        { addr := S.size % 2 ^ 31, snum := (T.fileindex : Int), pcrel := 1,
          length := 2, ext := 0, type := st.fmt.reloc_rel } (-(S.size : Int))).1 si
        (le_bytes 4 (u64 (data.int64 - t + -(S.size : Int)))) 4) := by
  obtain ⟨k1, k2⟩ := rel4_reltype_noseg st S
  have hmax := (kinds_allowed st hinv).2.2.2 S NO_SEG
  have hfi : T.fileindex ≠ NO_SECT := by
    rw [(hinv.2.2.2.2.2.1 ti T hT).1]
    unfold NO_SECT
    omega
  have hadd := add_reloc_rel_local st si S section_ data.int64 (rel4_reltype st S NO_SEG).1 4
    ti T k2.symm hmax href hS hti hT hfi
  have hlog : ilog2_32 4 = 2 := by decide
  rw [hlog] at hadd
  have hbss : ¬ (((S.flags &&& SECTION_TYPE) == S_ZEROFILL) = true ∧
      out_type.OUT_REL4ADR ≠ .OUT_RESERVE) := by
    intro h
    exact hnz (by simpa using h.1)
  unfold macho_output
  rw [if_neg hsec]
  simp only [hsi, hS]
  rw [if_neg hbss]
  simp only [if_neg hne, heven, ne_eq, not_true_eq_false, and_false, if_false, k1,
    Bool.false_eq_true, hadd, Option.map_some']
  rfl

theorem fixup_one (syms : List symbol) (r : reloc) :
    ∃ r1, macho_fixup_relocs syms [r] = [r1] ∧ r1.addr = r.addr ∧ r1.length = r.length ∧
      (r.ext = 0 → r1 = r) := by
  unfold macho_fixup_relocs
  simp only [List.map_cons, List.map_nil]
  by_cases he : r.ext ≠ 0
  · rw [if_pos he]
    cases fixup_find r.snum syms with
    | none => exact ⟨r, rfl, rfl, rfl, fun _ => rfl⟩
    | some n => exact ⟨{ r with snum := n }, rfl, rfl, rfl, fun h => absurd h he⟩
  · rw [if_neg he]
    exact ⟨r, rfl, rfl, rfl, fun _ => rfl⟩

theorem fixup_keeps (syms : List symbol) (R : List reloc) (n : Nat)
    (hb : ∀ r ∈ R, r.addr + patch_len r ≤ n) (hd : R.Pairwise relocs_disjoint) :
    (∀ r ∈ macho_fixup_relocs syms R, r.addr + patch_len r ≤ n) ∧
    (macho_fixup_relocs syms R).Pairwise relocs_disjoint ∧
    (∀ r ∈ R, r.ext = 0 → r ∈ macho_fixup_relocs syms R) := by
  induction R with
  | nil => exact ⟨fun r hr => (by cases hr), List.Pairwise.nil, fun r hr => (by cases hr)⟩
  | cons a rest ih =>
    obtain ⟨a1, e1, e2, e3, e4⟩ := fixup_one syms a
    have hcons : macho_fixup_relocs syms (a :: rest) = a1 :: macho_fixup_relocs syms rest := by
      have h1 : macho_fixup_relocs syms (a :: rest) =
          macho_fixup_relocs syms [a] ++ macho_fixup_relocs syms rest := by
        unfold macho_fixup_relocs
        simp
      rw [h1, e1]
      rfl
    have hlen : patch_len a1 = patch_len a := by
      unfold patch_len
      rw [e3]
    obtain ⟨i1, i2, i3⟩ := ih (fun r hr => hb r (List.mem_cons_of_mem _ hr))
      (List.pairwise_cons.1 hd).2
    have hrest : ∀ r ∈ macho_fixup_relocs syms rest,
        ∃ r0 ∈ rest, r.addr = r0.addr ∧ patch_len r = patch_len r0 := by
      intro r hr
      unfold macho_fixup_relocs at hr
      obtain ⟨r0, m0, rfl⟩ := List.mem_map.1 hr
      obtain ⟨r1, q1, q2, q3, -⟩ := fixup_one syms r0
      unfold macho_fixup_relocs at q1
      simp only [List.map_cons, List.map_nil, List.cons.injEq, and_true] at q1
      refine ⟨r0, m0, ?_, ?_⟩
      · rw [q1]; exact q2
      · unfold patch_len
        rw [q1, q3]
    rw [hcons]
    refine ⟨?_, ?_, ?_⟩
    · intro r hr
      rcases List.mem_cons.1 hr with rfl | hm
      · rw [e2, hlen]
        exact hb a (List.mem_cons_self _ _)
      · exact i1 r hm
    · refine List.pairwise_cons.2 ⟨?_, i2⟩
      intro r hm
      obtain ⟨r0, m0, q1, q2⟩ := hrest r hm
      have := (List.pairwise_cons.1 hd).1 r0 m0
      unfold relocs_disjoint at this ⊢
      rw [e2, hlen, q1, q2]
      exact this
    · intro r hr he
      rcases List.mem_cons.1 hr with rfl | hm
      · rw [e4 he]
        exact List.mem_cons_self _ _
      · exact List.mem_cons_of_mem _ (i3 r hm he)

theorem fixup_mem (syms : List symbol) (R : List reloc) (r : reloc)
    (hr : r ∈ macho_fixup_relocs syms R) :
    ∃ r0 ∈ R, r.addr = r0.addr ∧ patch_len r = patch_len r0 := by
  unfold macho_fixup_relocs at hr
  obtain ⟨r0, m0, rfl⟩ := List.mem_map.1 hr
  obtain ⟨r1, q1, q2, q3, -⟩ := fixup_one syms r0
  unfold macho_fixup_relocs at q1
  simp only [List.map_cons, List.map_nil, List.cons.injEq, and_true] at q1
  refine ⟨r0, m0, ?_, ?_⟩
  · rw [q1]; exact q2
  · unfold patch_len
    rw [q1, q3]

theorem saa_fread_mid (A X rest : List Nat) :
    saa_fread (A ++ X ++ rest) A.length X.length = X := by
  rw [saa_fread_eq _ _ _ (by simp only [List.length_append]; omega)]
  exact bytes_at_mid A X rest

theorem patch_value_local (st : State) (s : Section) (r : reloc) (x : Int) (a : Nat)
    (he : r.ext = 0) (hp : r.pcrel = 1) (h1 : 0 ≤ r.snum) (h2 : r.snum ≤ (st.seg_nsects : Int))
    (ha : sectstab_addr st r.snum.toNat = some a) :
    patch_value st s r x = some (x + a - s.addr) := by
  simp [patch_value, he, hp, h1, h2, ha]

theorem payload_arith (o p a sa : Int) (t : Nat) :
    ((((u64 (o - t + -p) % 2 ^ 32 : Nat) : Int) + (a - sa)) % 2 ^ (8 * 4)).toNat =
      (((a + o) - (sa + p + t)) % 2 ^ 32).toNat := by
  congr 1
  unfold u64
  have h : ((o - t + -p) % 2 ^ 64).toNat % 2 ^ 32 = (((o - t + -p) % 2 ^ 32).toNat) := by
    omega
  rw [h]
  norm_num
  omega

/-- C28 (amended): for either format, let a `OUT_REL4ADR` event with `wrt = NO_SEG`,
operand `o` and instruction-tail size `t` be emitted at position `p` of a section S that
is not zerofill, and refer to another listed section T (an even segment number).  If every
address event of the run carries 1, 2, 4 or 8 bytes, S is shorter than 2^31 bytes when
the run ends and there are at most 255 sections, then `macho_cleanup` returns, and in the
file it writes the four bytes at position `p` of the contents of S (file offset
`header_size + sizeofcmds + S.offset + p`) are the little-endian encoding of
`((T.addr + o) - (S.addr + p + t)) mod 2^32`, with the addresses of the sizing pass. -/
theorem rel4_payload_in_file (evs1 evs2 : List event) (st0 st st2 : State)
    (secto section_ : Int) (data : out_data) (t : Nat) (si ti : Nat) (S T : Section)
    (h0 : st0 = macho32_init program_start ∨ st0 = macho64_init program_start)
    (hrun1 : run evs1 st0 = some st)
    (hrun2 : run (.output secto data .OUT_REL4ADR t section_ NO_SEG :: evs2) st = some st2)
    (hsized : ∀ e ∈ evs1 ++ evs2, address_sized e)
    (hsec : secto ≠ NO_SEG) (hsi : get_section_by_index st secto = some si)
    (hS : st.sects[si]? = some S) (hnz : S.flags &&& SECTION_TYPE ≠ S_ZEROFILL)
    (hne : section_ ≠ secto) (href : section_ ≠ NO_SEG) (heven : section_ % 2 = 0)
    (hti : get_section_by_index st section_ = some ti) (hT : st.sects[ti]? = some T)
    (hn : st2.sects.length ≤ MAX_SECT)
    (hsmall : ∀ S2 ∈ st2.sects[si]?, S2.size < 2 ^ 31) :
    ∃ (st1 fin : State) (S1 T1 : Section),
      macho_calculate_sizes (fixup_all (macho_layout_symbols st2)) = some st1 ∧
      macho_cleanup st2 = some fin ∧ st1.sects[si]? = some S1 ∧ st1.sects[ti]? = some T1 ∧
      bytes_at fin.ofile (st2.fmt.header_size + st1.head_sizeofcmds + S1.offset + S.size)
        (le_bytes 4
          ((((T1.addr : Int) + data.int64) - ((S1.addr : Int) + S.size + t)) % 2 ^ 32).toNat) := by
  have hinv0 : run_inv st0 := by
    rcases h0 with rfl | rfl
    · exact run_inv_init32
    · exact run_inv_init64
  have hfit0 : fit_inv st0 := by
    have h00 : st0.sects = [] := by
      rcases h0 with rfl | rfl <;> rfl
    intro k s hs
    rw [h00] at hs
    simp at hs
  have hinv := run_inv_run evs1 st0 st hinv0 hrun1
  have hfit := fit_inv_run evs1 st0 st hinv0 hfit0
    (fun e he => hsized e (List.mem_append_left _ he)) hrun1
  have hinv2 := run_inv_run _ st st2 hinv hrun2
  have hfit2 := fit_inv_run _ st st2 hinv hfit
    (fun e he => by
      rcases List.mem_cons.1 he with rfl | hm
      · exact True.intro
      · exact hsized e (List.mem_append_right _ hm)) hrun2
  have hgrT := grown_run _ st st2 hinv hrun2
  have hemit := rel4_local_emit st hinv secto section_ data t si ti S T hsec hsi hS hnz hne
    href heven hti hT
  have hrun3 : run evs2 (sect_write (reloc_link st si
        { addr := S.size % 2 ^ 31, snum := (T.fileindex : Int), pcrel := 1,
          length := 2, ext := 0, type := st.fmt.reloc_rel } (-(S.size : Int))).1 si
        (le_bytes 4 (u64 (data.int64 - t + -(S.size : Int)))) 4) = some st2 := by
    have h := hrun2
    simp only [run, step] at h
    rw [hemit, Option.some_bind] at h
    exact h
  have hstep : step st (.output secto data .OUT_REL4ADR t section_ NO_SEG) =
      some (sect_write (reloc_link st si
        { addr := S.size % 2 ^ 31, snum := (T.fileindex : Int), pcrel := 1,
          length := 2, ext := 0, type := st.fmt.reloc_rel } (-(S.size : Int))).1 si
        (le_bytes 4 (u64 (data.int64 - t + -(S.size : Int)))) 4) := hemit
  have hinve := run_inv_step st _ _ hinv hstep
  have hSe : (sect_write (reloc_link st si
        { addr := S.size % 2 ^ 31, snum := (T.fileindex : Int), pcrel := 1,
          length := 2, ext := 0, type := st.fmt.reloc_rel } (-(S.size : Int))).1 si
        (le_bytes 4 (u64 (data.int64 - t + -(S.size : Int)))) 4).sects[si]? =
      some { S with
        relocs := { addr := S.size % 2 ^ 31, snum := (T.fileindex : Int), pcrel := 1,
                    length := 2, ext := 0, type := st.fmt.reloc_rel } :: S.relocs,
        extreloc := S.extreloc, nreloc := S.nreloc + 1,
        data := S.data ++ le_bytes 4 (u64 (data.int64 - t + -(S.size : Int))),
        size := S.size + 4 } := by
    show ((st.sects.modify _ si).modify _ si)[si]? = _
    rw [getElem?_modify_self _ _ si _ (getElem?_modify_self _ _ si S hS)]
    rfl
  obtain ⟨S2, hS2, ⟨rest, g1⟩, g2, g3, g4⟩ := grown_run evs2 _ st2 hinve hrun3 si _ hSe
  dsimp only at g1 g2 g3 g4
  obtain ⟨T2, hT2, -⟩ := hgrT ti T hT
  have hnz2 : S2.flags &&& SECTION_TYPE ≠ S_ZEROFILL := by rw [g3]; exact hnz
  have hp31 : S.size < 2 ^ 31 := by
    have := hsmall S2 hS2
    omega
  obtain ⟨f1, f2⟩ := hfit2 si S2 hS2 hnz2 (hsmall S2 hS2)
  have hSlen : S.data.length = S.size := (hinv.2.2.2.2.2.1 si S hS).2.2.2.1 hnz
  have hTfi : T.fileindex = ti + 1 := (hinv.2.2.2.2.2.1 ti T hT).1
  -- the passes
  obtain ⟨st1, stw, fin, off, c1, c2, c6, c5, hfile⟩ := file_section_data st2 hinv2 hn
  obtain ⟨z1, z2, z3, z4, z5, z6, z7, z8, z9, z10, z11, z12, -⟩ := sized_spec st2 st1 hinv2 c1
  have hok := sized_sects_ok st2 st1 hinv2 c1
  obtain ⟨v1, v2, v3⟩ := written_snums_valid st2 st1 stw off hinv2 c1 c2
  have hsi2 : si < st2.sects.length := (List.getElem?_eq_some_iff.1 hS2).1
  have hti2 : ti < st2.sects.length := (List.getElem?_eq_some_iff.1 hT2).1
  have hS1 : st1.sects[si]? = some (st1.sects.get ⟨si, by rw [z3]; exact hsi2⟩) :=
    List.getElem?_eq_getElem _
  have hT1 : st1.sects[ti]? = some (st1.sects.get ⟨ti, by rw [z3]; exact hti2⟩) :=
    List.getElem?_eq_getElem _
  generalize st1.sects.get ⟨si, by rw [z3]; exact hsi2⟩ = S1 at hS1
  generalize st1.sects.get ⟨ti, by rw [z3]; exact hti2⟩ = T1 at hT1
  obtain ⟨q1, q2, -, q4, -, q6, -⟩ := z11 si S2 S1 hS2 hS1
  obtain ⟨Sw, hSw, hcS⟩ := same_cores_get st1.sects stw.sects c6.2.2 si S1 hS1
  obtain ⟨Tw, hTw, hcT⟩ := same_cores_get st1.sects stw.sects c6.2.2 ti T1 hT1
  obtain ⟨a1, a2, a3, a4, a5, -, -, -, a9, -⟩ := core_fields Sw S1 hcS
  obtain ⟨-, -, b3, -⟩ := core_fields Tw T1 hcT
  have hnzw : Sw.flags &&& SECTION_TYPE ≠ S_ZEROFILL := by
    rw [a9, q4]; exact hnz2
  obtain ⟨P, p1, p2, p3⟩ := hfile si Sw hSw hnzw
  -- the relocations of S in the writer's state
  have hSwd : Sw.data = S.data ++ le_bytes 4 (u64 (data.int64 - t + -(S.size : Int))) ++ rest := by
    rw [a1, q1, ← g1]
  have hSwl : Sw.data.length = S2.size := by
    rw [a1, q1]
    exact (hinv2.2.2.2.2.2.1 si S2 hS2).2.2.2.1 hnz2
  obtain ⟨k1, k2, k3⟩ := fixup_keeps (macho_layout_symbols st2).syms S2.relocs S2.size f1 f2
  rw [← q6, ← a2] at k1 k2 k3
  have hr0 : (reloc.mk (S.size % 2 ^ 31) (T.fileindex : Int) 1 2 0 st.fmt.reloc_rel) ∈ Sw.relocs := by
    apply k3 _ _ rfl
    obtain ⟨pre, hpre⟩ := g2
    rw [← hpre]
    exact List.mem_append_right _ (List.mem_cons_self _ _)
  obtain ⟨D, d1, -, -, d4⟩ := patch_relocs_spec stw Sw Sw.relocs Sw.data
    (fun r hr => by rw [hSwl]; exact k1 r hr) k2
    (fun r hr l => patch_value_some stw Sw r l (fun he => by
      obtain ⟨m1, m2, m3, -⟩ := v3 Sw (List.getElem?_mem hSw) r hr he
      exact ⟨by omega, m2, m3⟩))
  rw [p1] at d1
  cases d1
  obtain ⟨l, hl, hrd⟩ := d4 _ hr0
  have hlen4 : patch_len (reloc.mk (S.size % 2 ^ 31) (T.fileindex : Int) 1 2 0 st.fmt.reloc_rel) = 4 := by rfl
  rw [hlen4] at hl hrd
  dsimp only at hl hrd
  rw [Nat.mod_eq_of_lt hp31] at hl hrd
  have hread : saa_fread Sw.data S.size 4 =
      le_bytes 4 (u64 (data.int64 - t + -(S.size : Int))) := by
    rw [hSwd]
    have := saa_fread_mid S.data (le_bytes 4 (u64 (data.int64 - t + -(S.size : Int)))) rest
    rw [hSlen, le_bytes_length] at this
    exact this
  rw [hread, le_value_le_bytes4] at hl
  have hsst : stw.sectstab =
      sectptr.absolute :: (List.range stw.sects.length).map (fun i => sectptr.real i) := by
    have hk := c6.1
    simp only [kept_by_writer, Prod.mk.injEq] at hk
    rw [hk.2.2.1, z12, same_cores_length _ _ c6.2.2]
  have haddr : sectstab_addr stw (T.fileindex : Int).toNat = some Tw.addr := by
    rw [hTfi]
    show sectstab_addr stw (ti + 1) = _
    rw [sectstab_addr_succ stw hsst ti, hTw]
    rfl
  have hpv := patch_value_local stw Sw
    (reloc.mk S.size (T.fileindex : Int) 1 2 0 st.fmt.reloc_rel)
    (to_int64 (u64 (data.int64 - t + -(S.size : Int)) % 2 ^ 32)) Tw.addr rfl rfl
    (by show (0 : Int) ≤ (T.fileindex : Int); omega)
    (by show (T.fileindex : Int) ≤ (stw.seg_nsects : Int); rw [v1, hTfi]; omega) haddr
  rw [hpv] at hl
  have hl2 := Option.some.inj hl
  rw [← hl2, add_sub_assoc, le_bytes_wrap 4 _ _ (Or.inr (Or.inr (Or.inl rfl))),
    payload_arith] at hrd
  have hne2 : st2.sects ≠ [] := List.length_pos.1 (by omega)
  refine ⟨st1, fin, S1, T1, c1, c5.2 hne2, hS1, hT1, ?_⟩
  rw [← a5, ← a3, ← b3]
  refine bytes_at_fread fin.ofile P _ S.size _ p3 ?_ ?_
  · rw [le_bytes_length]
    exact hrd
  · rw [le_bytes_length, p2, hSwl]
    have := f1 (reloc.mk (S.size % 2 ^ 31) (T.fileindex : Int) 1 2 0 st.fmt.reloc_rel) (by
      obtain ⟨pre, hpre⟩ := g2
      rw [← hpre]
      exact List.mem_append_right _ (List.mem_cons_self _ _))
    rw [hlen4] at this
    dsimp only at this
    rw [Nat.mod_eq_of_lt hp31] at this
    exact this

theorem file_unpatched (st2 : State) (hinv2 : run_inv st2) (hn : st2.sects.length ≤ MAX_SECT)
    (si : Nat) (S2 : Section) (hS2 : st2.sects[si]? = some S2)
    (hnz2 : S2.flags &&& SECTION_TYPE ≠ S_ZEROFILL) (hfit : relocs_fit S2)
    (p : Nat) (X : List Nat) (hX : saa_fread S2.data p X.length = X)
    (hb : p + X.length ≤ S2.size)
    (hfree : ∀ r ∈ S2.relocs, ∀ i, p ≤ i → i < p + X.length →
      i < r.addr ∨ r.addr + patch_len r ≤ i) :
    ∃ (st1 fin : State) (S1 : Section),
      macho_calculate_sizes (fixup_all (macho_layout_symbols st2)) = some st1 ∧
      macho_cleanup st2 = some fin ∧ st1.sects[si]? = some S1 ∧
      bytes_at fin.ofile (st2.fmt.header_size + st1.head_sizeofcmds + S1.offset + p) X := by
  obtain ⟨f1, f2⟩ := hfit
  obtain ⟨st1, stw, fin, off, c1, c2, c6, c5, hfile⟩ := file_section_data st2 hinv2 hn
  obtain ⟨z1, z2, z3, z4, z5, z6, z7, z8, z9, z10, z11, z12, -⟩ := sized_spec st2 st1 hinv2 c1
  obtain ⟨v1, v2, v3⟩ := written_snums_valid st2 st1 stw off hinv2 c1 c2
  have hsi2 : si < st2.sects.length := (List.getElem?_eq_some_iff.1 hS2).1
  have hS1 : st1.sects[si]? = some (st1.sects.get ⟨si, by rw [z3]; exact hsi2⟩) :=
    List.getElem?_eq_getElem _
  generalize st1.sects.get ⟨si, by rw [z3]; exact hsi2⟩ = S1 at hS1
  obtain ⟨q1, q2, -, q4, -, q6, -⟩ := z11 si S2 S1 hS2 hS1
  obtain ⟨Sw, hSw, hcS⟩ := same_cores_get st1.sects stw.sects c6.2.2 si S1 hS1
  obtain ⟨a1, a2, a3, a4, a5, -, -, -, a9, -⟩ := core_fields Sw S1 hcS
  have hnzw : Sw.flags &&& SECTION_TYPE ≠ S_ZEROFILL := by
    rw [a9, q4]; exact hnz2
  obtain ⟨P, p1, p2, p3⟩ := hfile si Sw hSw hnzw
  have hSwl : Sw.data.length = S2.size := by
    rw [a1, q1]
    exact (hinv2.2.2.2.2.2.1 si S2 hS2).2.2.2.1 hnz2
  obtain ⟨k1, k2, -⟩ := fixup_keeps (macho_layout_symbols st2).syms S2.relocs S2.size f1 f2
  rw [← q6, ← a2] at k1 k2
  obtain ⟨D, d1, -, d3, -⟩ := patch_relocs_spec stw Sw Sw.relocs Sw.data
    (fun r hr => by rw [hSwl]; exact k1 r hr) k2
    (fun r hr l => patch_value_some stw Sw r l (fun he => by
      obtain ⟨m1, m2, m3, -⟩ := v3 Sw (List.getElem?_mem hSw) r hr he
      exact ⟨by omega, m2, m3⟩))
  rw [p1] at d1
  cases d1
  refine ⟨st1, fin, S1, c1, c5.2 (List.length_pos.1 (by omega)), hS1, ?_⟩
  rw [← a5]
  refine bytes_at_fread fin.ofile P _ p X p3 ?_ (by rw [p2, hSwl]; exact hb)
  have key : saa_fread P p X.length = saa_fread Sw.data p X.length := by
    apply saa_fread_congr
    intro i h1 h2
    apply d3
    intro r hr
    rw [a2, q6] at hr
    obtain ⟨r0, m0, e1, e2⟩ := fixup_mem _ _ r hr
    rw [e1, e2]
    exact hfree r0 m0 i h1 h2
  rw [key, a1, q1]
  exact hX

/-- C28 (counterexample): in the 32-bit run `run_far` the `OUT_REL4ADR` event is emitted
at position 2^31 of `__text` (address 0, contents from file offset 220) and refers to
`__data`, which the sizing pass puts at address 2^31 + 4, with operand 0 and tail size 4.
The relocation is registered with `addr` 0, so the writer patches the bytes at position
0, and the four bytes at position 2^31 (file offset 220 + 2^31) stay as emitted,
`FC FF FF 7F`, while `((T.addr + o) - (S.addr + p + t)) mod 2^32` is 0. -/
theorem rel4_payload_beyond_2g :
    reachable run_far ∧
    run_far.sects.map (fun s => (s.size, s.relocs)) =
      [(2 ^ 31 + 4, [{ addr := 0, snum := 2, pcrel := 1, length := 2, ext := 0, type := 0 }]),
       (0, [])] ∧
    sized_far.sects.map (fun s => (s.addr, s.offset)) =
      [(0, 0), (2 ^ 31 + 4, 2 ^ 31 + 4)] ∧
    run_far.fmt.header_size + sized_far.head_sizeofcmds = 220 ∧
    bytes_at (emitted run_far) (220 + 2 ^ 31) [0xfc, 0xff, 0xff, 0x7f] ∧
    le_bytes 4 ((((2 ^ 31 + 4 : Int) + 0) - (0 + 2 ^ 31 + 4)) % 2 ^ 32).toNat = [0, 0, 0, 0] := by
  have hr : reachable run_far := ⟨events_far, Or.inl (by rfl)⟩
  refine ⟨hr, by decide, by decide, by decide, ?_, by decide⟩
  have hrel : (run_far.sects.getD 0 program_start.absolute_sect).relocs =
      [{ addr := 0, snum := 2, pcrel := 1, length := 2, ext := 0, type := 0 }] := by rfl
  have hdata : (run_far.sects.getD 0 program_start.absolute_sect).data =
      List.replicate (2 ^ 31) 0 ++ [0xfc, 0xff, 0xff, 0x7f] := by rfl
  have hsize : (run_far.sects.getD 0 program_start.absolute_sect).size = 2 ^ 31 + 4 := by rfl
  obtain ⟨st1, fin, S1, c1, c5, hS1, hb⟩ := file_unpatched run_far (reachable_inv run_far hr)
    (by decide) 0 (run_far.sects.getD 0 program_start.absolute_sect) (by rfl) (by decide)
    (by
      unfold relocs_fit
      rw [hrel, hsize]
      unfold relocs_disjoint
      decide)
    (2 ^ 31) [0xfc, 0xff, 0xff, 0x7f]
    (by
      rw [hdata]
      have := saa_fread_mid (List.replicate (2 ^ 31) 0) [0xfc, 0xff, 0xff, 0x7f] []
      rw [List.append_nil, List.length_replicate] at this
      exact this)
    (by rw [hsize]; decide)
    (by
      rw [hrel]
      intro r hr i h1 h2
      rw [List.mem_singleton.1 hr]
      right
      show 0 + 4 ≤ i
      have : (4 : Nat) ≤ 2 ^ 31 := by decide
      omega)
  have hsz : macho_calculate_sizes (fixup_all (macho_layout_symbols run_far)) =
      some sized_far := by rfl
  rw [hsz] at c1
  cases c1
  have hoff : S1.offset = 0 := by
    have h0 : sized_far.sects[0]? =
        some (sized_far.sects.getD 0 program_start.absolute_sect) := by rfl
    rw [h0] at hS1
    cases hS1
    rfl
  have hbase : run_far.fmt.header_size + sized_far.head_sizeofcmds = 220 := by decide
  rw [hoff, hbase, Nat.add_zero] at hb
  have hem : emitted run_far = fin.ofile := by
    unfold emitted
    rw [c5]
    rfl
  rw [hem]
  exact hb

set_option maxRecDepth 4000 in
set_option maxRecDepth 8000 in
/-- C28 (witness): the 64-bit run `run_aligned`, whose sections come from the section
directive: `.text` is aligned to 8 bytes by an alignment request and `.data` to 16 by its
attribute `align=16`, so the sizing pass places `.data` at address 16, after 11 bytes of
padding.  The `OUT_REL4ADR` event is emitted at position 1 of `.text` (address 0, contents
from file offset 264) with operand 16 and tail size 4 and refers to `.data`; the 32-bit
field at file offset 265 holds `(16 + 16) - (0 + 1 + 4) = 27`. -/
theorem rel4_payload_in_file_witness :
    field32 (emitted run_aligned) 265 = 27 ∧
    sized_aligned.sects.map (fun s => (s.align, s.addr, s.size, s.offset)) =
      [(3, 0, 5, 0), (4, 16, 20, 8)] ∧
    (before_aligned.sects.getD 0 program_start.absolute_sect).size = 1 ∧
    ∃ (st1 fin : State) (S1 T1 : Section),
      macho_calculate_sizes (fixup_all (macho_layout_symbols run_aligned)) = some st1 ∧
      macho_cleanup run_aligned = some fin ∧ st1.sects[0]? = some S1 ∧
      st1.sects[1]? = some T1 ∧
      bytes_at fin.ofile (run_aligned.fmt.header_size + st1.head_sizeofcmds + S1.offset +
          (before_aligned.sects.getD 0 program_start.absolute_sect).size)
        (le_bytes 4
          ((((T1.addr : Int) + (out_data.operand 16).int64) -
            ((S1.addr : Int) + (before_aligned.sects.getD 0 program_start.absolute_sect).size +
              (4 : Nat))) % 2 ^ 32).toNat) :=
  ⟨by decide, by decide, by decide,
    rel4_payload_in_file (events_aligned.take 4) (events_aligned.drop 5)
      (macho64_init program_start) before_aligned run_aligned 4 6 (.operand 16) 4 0 1
      (before_aligned.sects.getD 0 program_start.absolute_sect)
      (before_aligned.sects.getD 1 program_start.absolute_sect)
      (Or.inr rfl) (by rfl) (by rfl) (by decide) (by decide) (by rfl) (by rfl) (by decide)
      (by decide) (by decide) (by decide) (by rfl) (by rfl) (by decide) (by decide)⟩

/-! ### Operands that get no relocation -/

theorem sect_write_get (st : State) (si : Nat) (s : Section) (d : List Nat) (n : Nat)
    (hs : st.sects[si]? = some s) :
    (sect_write st si d n).sects[si]? =
        some { s with data := s.data ++ d, size := s.size + n } ∧
      (∀ j, j ≠ si → (sect_write st si d n).sects[j]? = st.sects[j]?) ∧
      (sect_write st si d n).errs = st.errs :=
  ⟨getElem?_modify_self _ _ si s hs, fun j hj => getElem?_modify_ne _ _ si j hj, rfl⟩

/-- C32: a `OUT_ADDRESS` event into a section that is not zerofill returns in each of
these cases.  When it refers to a segment (`section != NO_SEG`) and the segment number is
odd, or `wrt` is not `NO_SEG`, or the format is the 64-bit one and the width
`abs((int)size)` is not 8, one error is reported (for the section base, for the use of
WRT, for the 32-bit absolute address, in this order of precedence), no relocation is
registered, and the section gets the `abs((int)size)` low-order bytes of the operand,
least significant first, its size growing by as much.  When it refers to no segment the
same bytes are written, nothing is reported and no relocation is registered.  No other
section changes. -/
theorem address_without_reloc (st : State) (secto section_ wrt : Int) (data : out_data)
    (size : Nat) (si : Nat) (s : Section) (hsec : secto ≠ NO_SEG)
    (hsi : get_section_by_index st secto = some si) (hs : st.sects[si]? = some s)
    (hnz : s.flags &&& SECTION_TYPE ≠ S_ZEROFILL) :
    (section_ ≠ NO_SEG →
      section_ % 2 ≠ 0 ∨ wrt ≠ NO_SEG ∨ (st.fmt.ptrsize = 8 ∧ (to_int32 size).natAbs ≠ 8) →
      ∃ st1 d, macho_output st secto data .OUT_ADDRESS size section_ wrt = some st1 ∧
        d = (if section_ % 2 ≠ 0 then diag.section_base_ref
          else if wrt = NO_SEG then diag.abs32_on_64 else diag.wrt_unsupported) ∧
        d.is_error = true ∧ st1.errs = st.errs ++ [d] ∧
        st1.sects[si]? = some { s with
          data := s.data ++ le_bytes (to_int32 size).natAbs (u64 data.int64),
          size := s.size + (to_int32 size).natAbs } ∧
        ∀ j, j ≠ si → st1.sects[j]? = st.sects[j]?) ∧
    (section_ = NO_SEG →
      ∃ st1, macho_output st secto data .OUT_ADDRESS size section_ wrt = some st1 ∧
        st1.errs = st.errs ∧
        st1.sects[si]? = some { s with
          data := s.data ++ le_bytes (to_int32 size).natAbs (u64 data.int64),
          size := s.size + (to_int32 size).natAbs } ∧
        ∀ j, j ≠ si → st1.sects[j]? = st.sects[j]?) := by
  have hbss : ¬ (((s.flags &&& SECTION_TYPE) == S_ZEROFILL) = true ∧
      out_type.OUT_ADDRESS ≠ .OUT_RESERVE) := by
    intro h
    exact hnz (by simpa using h.1)
  have hout :
      macho_output st secto data .OUT_ADDRESS size section_ wrt =
        (if section_ ≠ NO_SEG then
          if section_ % 2 ≠ 0 then some (nasm_error st .section_base_ref)
          else if wrt = NO_SEG then
            if st.fmt.ptrsize = 8 ∧ (to_int32 size).natAbs ≠ 8 then
              some (nasm_error st .abs32_on_64)
            else (add_reloc st si section_ data.int64 .RL_ABS
              ((to_int32 size).natAbs : Nat)).map (fun p => p.1)
          else some (nasm_error st .wrt_unsupported)
        else some st).map (fun st => sect_write st si
          (le_bytes (to_int32 size).natAbs (u64 data.int64)) (to_int32 size).natAbs) := by
    unfold macho_output
    rw [if_neg hsec]
    simp only [hsi, hs]
    rw [if_neg hbss]
  have hfin : ∀ (d : diag), ∃ st1,
      some (sect_write (nasm_error st d) si
        (le_bytes (to_int32 size).natAbs (u64 data.int64)) (to_int32 size).natAbs) = some st1 ∧
      st1.errs = st.errs ++ [d] ∧
      st1.sects[si]? = some { s with
        data := s.data ++ le_bytes (to_int32 size).natAbs (u64 data.int64),
        size := s.size + (to_int32 size).natAbs } ∧
      ∀ j, j ≠ si → st1.sects[j]? = st.sects[j]? := by
    intro d
    obtain ⟨a, b, c⟩ := sect_write_get (nasm_error st d) si s
      (le_bytes (to_int32 size).natAbs (u64 data.int64)) (to_int32 size).natAbs hs
    exact ⟨_, rfl, c, a, b⟩
  refine ⟨?_, ?_⟩
  · intro href hc
    rw [hout, if_pos href]
    by_cases hodd : section_ % 2 ≠ 0
    · rw [if_pos hodd, if_pos hodd]
      obtain ⟨st1, e1, e2, e3, e4⟩ := hfin .section_base_ref
      exact ⟨st1, _, e1, rfl, rfl, e2, e3, e4⟩
    · rw [if_neg hodd, if_neg hodd]
      by_cases hw : wrt = NO_SEG
      · rw [if_pos hw, if_pos hw]
        have h64 : st.fmt.ptrsize = 8 ∧ (to_int32 size).natAbs ≠ 8 := by
          rcases hc with h | h | h
          · exact absurd h hodd
          · exact absurd hw h
          · exact h
        rw [if_pos h64]
        obtain ⟨st1, e1, e2, e3, e4⟩ := hfin .abs32_on_64
        exact ⟨st1, _, e1, rfl, rfl, e2, e3, e4⟩
      · rw [if_neg hw, if_neg hw]
        obtain ⟨st1, e1, e2, e3, e4⟩ := hfin .wrt_unsupported
        exact ⟨st1, _, e1, rfl, rfl, e2, e3, e4⟩
  · intro href
    rw [hout, if_neg (not_not.2 href)]
    obtain ⟨a, b, c⟩ := sect_write_get st si s
      (le_bytes (to_int32 size).natAbs (u64 data.int64)) (to_int32 size).natAbs hs
    exact ⟨_, rfl, c, a, b⟩

/-- C32 (witness): in the 64-bit run whose `__text` (segment number 4) holds the byte
`E8`, an address event of width 4 that refers to segment 6 reports the error for 32-bit
absolute addresses and appends the four operand bytes `34 12 00 00` without a
relocation. -/
theorem address_without_reloc_witness :
    (macho_output run_call 4 (.operand 0x1234) .OUT_ADDRESS 4 6 NO_SEG).map
      (fun st => (st.errs, st.sects.map (fun x => (x.data, x.size, x.relocs, x.nreloc)))) =
      some ([.abs32_on_64], [([0xe8, 0x34, 0x12, 0, 0], 5, [], 0)]) ∧
    ∃ st1 d, macho_output run_call 4 (.operand 0x1234) .OUT_ADDRESS 4 6 NO_SEG = some st1 ∧
      d = (if (6 : Int) % 2 ≠ 0 then diag.section_base_ref
        else if NO_SEG = NO_SEG then diag.abs32_on_64 else diag.wrt_unsupported) ∧
      d.is_error = true ∧ st1.errs = run_call.errs ++ [d] ∧
      st1.sects[0]? = some { (run_call.sects.getD 0 program_start.absolute_sect) with
        data := (run_call.sects.getD 0 program_start.absolute_sect).data ++
          le_bytes (to_int32 4).natAbs (u64 (out_data.operand 0x1234).int64),
        size := (run_call.sects.getD 0 program_start.absolute_sect).size +
          (to_int32 4).natAbs } ∧
      ∀ j, j ≠ 0 → st1.sects[j]? = run_call.sects[j]? :=
  ⟨by rfl,
    (address_without_reloc run_call 4 6 NO_SEG (.operand 0x1234) 4 0
      (run_call.sects.getD 0 program_start.absolute_sect) (by decide) (by rfl) (by rfl)
      (by decide)).1 (by decide) (Or.inr (Or.inr ⟨by decide, by decide⟩))⟩

theorem get_index_nasm_error (st : State) (d : diag) (x : Int) :
    get_section_by_index (nasm_error st d) x = get_section_by_index st x := rfl

/-- C31: what the code does, in a state the module reaches, with a relative event into
a section that is not zerofill, referring to an odd segment number other than `NO_SEG` and
other than the section's own.  A `OUT_REL2ADR` event reports the section-base error,
registers no relocation and appends two bytes, as the specification asks.  A
`OUT_REL4ADR` event reports the same error and then still calls `add_reloc` with kind
`RL_REL`, which the specification forbids: one relocation is registered at the head of
the section's chain (`pcrel` 1, `length` 2, `addr` the section size modulo 2^31), `nreloc`
grows by one and four bytes are appended. -/
theorem section_base_rel (st : State) (hr : reachable st) (secto section_ wrt : Int)
    (data : out_data) (size : Nat) (si : Nat) (s : Section) (hsec : secto ≠ NO_SEG)
    (hsi : get_section_by_index st secto = some si) (hs : st.sects[si]? = some s)
    (hnz : s.flags &&& SECTION_TYPE ≠ S_ZEROFILL)
    (hodd : section_ % 2 ≠ 0) (href : section_ ≠ NO_SEG) (hne : section_ ≠ secto) :
    (∃ st1 s1, macho_output st secto data .OUT_REL2ADR size section_ wrt = some st1 ∧
      st1.errs = st.errs ++ [.section_base_ref] ∧ st1.sects[si]? = some s1 ∧
      s1.relocs = s.relocs ∧ s1.nreloc = s.nreloc ∧ s1.size = s.size + 2) ∧
    (∃ st1 s1 r, macho_output st secto data .OUT_REL4ADR size section_ wrt = some st1 ∧
      st1.errs = st.errs ++ [.section_base_ref] ∧ st1.sects[si]? = some s1 ∧
      s1.relocs = r :: s.relocs ∧ s1.nreloc = s.nreloc + 1 ∧ s1.size = s.size + 4 ∧
      r.pcrel = 1 ∧ r.length = 2 ∧ r.addr = s.size % 2 ^ 31) := by
  have hinv := reachable_inv st hr
  have hinve : run_inv (nasm_error st .section_base_ref) :=
    run_inv_of_frame _ _ hinv (emit_frame_nasm_error st _)
  have hlog : ilog2_32 4 = 2 := by decide
  refine ⟨?_, ?_⟩
  · have hbss : ¬ (((s.flags &&& SECTION_TYPE) == S_ZEROFILL) = true ∧
        out_type.OUT_REL2ADR ≠ .OUT_RESERVE) := by
      intro h
      exact hnz (by simpa using h.1)
    have hout : macho_output st secto data .OUT_REL2ADR size section_ wrt =
        some (sect_write (nasm_error st .section_base_ref) si
          (le_bytes 2 (u64 (data.int64 - size))) 2) := by
      unfold macho_output
      rw [if_neg hsec]
      simp only [hsi, hs]
      rw [if_neg hbss]
      simp only [if_neg hne, if_pos (And.intro href hodd), Option.map_some']
    obtain ⟨a, -, c⟩ := sect_write_get (nasm_error st .section_base_ref) si s
      (le_bytes 2 (u64 (data.int64 - size))) 2 hs
    exact ⟨_, _, hout, c, a, rfl, rfl, rfl⟩
  · have hbss : ¬ (((s.flags &&& SECTION_TYPE) == S_ZEROFILL) = true ∧
        out_type.OUT_REL4ADR ≠ .OUT_RESERVE) := by
      intro h
      exact hnz (by simpa using h.1)
    have hout : macho_output st secto data .OUT_REL4ADR size section_ wrt =
        (add_reloc (nasm_error st .section_base_ref) si section_ data.int64 .RL_REL 4).map
          (fun p => sect_write p.1 si (le_bytes 4 (u64 (data.int64 - size + p.2))) 4) := by
      unfold macho_output
      rw [if_neg hsec]
      simp only [hsi, hs]
      rw [if_neg hbss]
      simp only [if_neg hne, if_pos (And.intro href hodd), Option.map_map]
      rfl
    have hmax := (kinds_allowed st hinv).2.1
    cases hg : get_section_by_index st section_ with
    | none =>
      have hadd := add_reloc_rel_external (nasm_error st .section_base_ref) si s section_
        data.int64 .RL_REL 4 (Or.inl rfl) hmax href hs hg
      rw [hout, hadd, hlog]
      have h1 := getElem?_modify_self st.sects (fun x => { x with extreloc := 1 }) si s hs
      have h2 := getElem?_modify_self _ (fun sc : Section => { sc with
          relocs := reloc.mk (s.size % 2 ^ 31) (raa_read st.extsyms section_) 1 2 1
            st.fmt.reloc_rel :: sc.relocs,
          extreloc := 1, nreloc := sc.nreloc + 1 }) si _ h1
      have hget := getElem?_modify_self _ (fun sc : Section => { sc with
          data := sc.data ++ le_bytes 4 (u64 (data.int64 - size +
            (if reltype.RL_REL = reltype.RL_REL ∧ st.fmt.reloc_rel = GENERIC_RELOC_VANILLA then
              -(s.size : Int) else 4))),
          size := sc.size + 4 }) si _ h2
      exact ⟨_, _, _, rfl, rfl, hget, rfl, rfl, rfl, rfl, rfl, rfl⟩
    | some j =>
      obtain ⟨t, ht, -, -⟩ := find_by_index_some section_ st.sects j hg
      have hfi : t.fileindex ≠ NO_SECT := by
        rw [(hinv.2.2.2.2.2.1 j _ ht).1]
        unfold NO_SECT
        omega
      have hadd := add_reloc_rel_local (nasm_error st .section_base_ref) si s section_
        data.int64 .RL_REL 4 j _ (Or.inl rfl) hmax href hs hg ht hfi
      rw [hout, hadd, hlog]
      have h1 := getElem?_modify_self st.sects (fun sc : Section => { sc with
          relocs := reloc.mk (s.size % 2 ^ 31) (t.fileindex : Int) 1 2 0
            st.fmt.reloc_rel :: sc.relocs,
          extreloc := sc.extreloc, nreloc := sc.nreloc + 1 }) si s hs
      have hget := getElem?_modify_self _ (fun sc : Section => { sc with
          data := sc.data ++ le_bytes 4 (u64 (data.int64 - size + -(s.size : Int))),
          size := sc.size + 4 }) si _ h1
      exact ⟨_, _, _, rfl, rfl, hget, rfl, rfl, rfl, rfl, rfl, rfl⟩

/-- C31 (failing input): in the 64-bit run whose `__text` (segment number 4) holds the
byte `E8`, a `OUT_REL4ADR` event that refers to the odd segment number 5 reports the
section-base error and registers a relocation all the same: the chain of `__text` goes
from empty to one entry and `nreloc` from 0 to 1. -/
theorem section_base_rel4_registers :
    reachable run_call ∧
    run_call.sects.map (fun x => (x.relocs, x.nreloc)) = [([], 0)] ∧
    (macho_output run_call 4 (.operand 0) .OUT_REL4ADR 4 5 NO_SEG).map
      (fun st => (st.errs, st.sects.map (fun x => (x.relocs, x.nreloc)))) =
      some ([.section_base_ref],
        [([{ addr := 1, snum := 0, pcrel := 1, length := 2, ext := 1, type := 1 }], 1)]) :=
  ⟨⟨events_call, Or.inr (by rfl)⟩, by rfl, by rfl⟩

/-- C31 (witness): the same run and the odd segment number 5: the statement holds of the
two events; the `OUT_REL2ADR` event leaves the chain of `__text` empty. -/
theorem section_base_rel_witness :
    (macho_output run_call 4 (.operand 0) .OUT_REL2ADR 2 5 NO_SEG).map
      (fun st => (st.errs, st.sects.map (fun x => (x.relocs, x.nreloc)))) =
      some ([.section_base_ref], [([], 0)]) ∧
    (∃ st1 s1, macho_output run_call 4 (.operand 0) .OUT_REL2ADR 2 5 NO_SEG = some st1 ∧
      st1.errs = run_call.errs ++ [.section_base_ref] ∧ st1.sects[0]? = some s1 ∧
      s1.relocs = (run_call.sects.getD 0 program_start.absolute_sect).relocs ∧
      s1.nreloc = (run_call.sects.getD 0 program_start.absolute_sect).nreloc ∧
      s1.size = (run_call.sects.getD 0 program_start.absolute_sect).size + 2) ∧
    (∃ st1 s1 r, macho_output run_call 4 (.operand 0) .OUT_REL4ADR 2 5 NO_SEG = some st1 ∧
      st1.errs = run_call.errs ++ [.section_base_ref] ∧ st1.sects[0]? = some s1 ∧
      s1.relocs = r :: (run_call.sects.getD 0 program_start.absolute_sect).relocs ∧
      s1.nreloc = (run_call.sects.getD 0 program_start.absolute_sect).nreloc + 1 ∧
      s1.size = (run_call.sects.getD 0 program_start.absolute_sect).size + 4 ∧
      r.pcrel = 1 ∧ r.length = 2 ∧
      r.addr = (run_call.sects.getD 0 program_start.absolute_sect).size % 2 ^ 31) :=
  ⟨by rfl,
    section_base_rel run_call ⟨events_call, Or.inr (by rfl)⟩ 4 5 NO_SEG (.operand 0) 2 0
      (run_call.sects.getD 0 program_start.absolute_sect) (by decide) (by rfl) (by rfl)
      (by decide) (by decide) (by decide) (by decide)⟩

/-! ### Section directives in a run -/
theorem run_inv_do_call (st st1 : State) (c : call) (hinv : run_inv st)
    (h : do_call st c = some st1) : run_inv st1 := by
  cases c with
  | section_ name bits =>
    simp only [do_call, Option.some.injEq] at h
    rw [← h]
    exact run_inv_macho_section st name bits hinv
  | sectalign seg value => exact run_inv_sectalign st st1 seg value hinv h
  | symdef name section_ offset is_global special =>
    exact run_inv_step st st1 (.symdef name section_ offset is_global special) hinv h
  | output secto data type size section_ wrt =>
    exact run_inv_step st st1 (.output secto data type size section_ wrt) hinv h

theorem run_inv_do_calls (cs : List call) (st st1 : State) (hinv : run_inv st)
    (h : do_calls cs st = some st1) : run_inv st1 := by
  induction cs generalizing st with
  | nil =>
    simp only [do_calls, Option.some.injEq] at h
    rw [← h]; exact hinv
  | cons c rest ih =>
    simp only [do_calls] at h
    cases hs : do_call st c with
    | none => rw [hs] at h; cases h
    | some a =>
      rw [hs] at h
      exact ih a (run_inv_do_call st a c hinv hs) h

theorem keyword_step (i : Nat) (new_seg : Bool) (st : State) (flags : Nat) (cur : List Nat)
    (f : Nat) (h : keyword_flags cur = some f) :
    section_attribute i new_seg (st, flags) cur =
      (if !new_seg ∧ (st.sects[i]?).map (fun s => s.flags) ≠ some f then
        (nasm_error st .inconsistent_section_attributes, f)
      else (update_sect st i (fun s => { s with flags := f }), f)) := by
  unfold keyword_flags at h
  unfold section_attribute
  dsimp only
  by_cases h0 : cur.head?.getD 0 = 0
  · rw [if_pos h0] at h; cases h
  · rw [if_neg h0] at h
    rw [if_pos h0]
    by_cases ha : nasm_strnicmp attr_align cur 6 = 0
    · rw [if_pos ha] at h; cases h
    · rw [if_neg ha] at h
      rw [if_neg ha]
      by_cases hd : nasm_stricmp attr_data cur = 0
      · rw [if_pos hd] at h
        rw [if_pos hd]
        cases h
        dsimp only
        rw [if_pos (by decide)]
      · rw [if_neg hd] at h
        rw [if_neg hd]
        by_cases hc : nasm_stricmp attr_code cur = 0 ∨ nasm_stricmp attr_text cur = 0
        · rw [if_pos hc] at h
          rw [if_pos hc]
          cases h
          dsimp only
          rw [if_pos (by decide)]
        · rw [if_neg hc] at h
          rw [if_neg hc]
          by_cases hm : nasm_stricmp attr_mixed cur = 0
          · rw [if_pos hm] at h
            rw [if_pos hm]
            cases h
            dsimp only
            rw [if_pos (by decide)]
          · rw [if_neg hm] at h
            rw [if_neg hm]
            by_cases hb : nasm_stricmp attr_bss cur = 0
            · rw [if_pos hb] at h
              rw [if_pos hb]
              cases h
              dsimp only
              rw [if_pos (by decide)]
            · rw [if_neg hb] at h
              cases h

theorem modify_self_flags (l : List Section) (i : Nat) (s : Section) (hs : l[i]? = some s) :
    l.modify (fun x => { x with flags := s.flags }) i = l := by
  apply List.ext_getElem?
  intro k
  by_cases hk : k = i
  · subst hk
    rw [getElem?_modify_self _ _ _ s hs, hs]
  · rw [getElem?_modify_ne _ _ _ _ hk]

/-- C34: `macho_section` leaves the flags of every section that existed before the call
as they were, so the type bits of a section are those the creating call gave it.  In the
attribute loop on an existing section (`new_seg` false), a token that stands for flags
(`data`, `code`, `text`, `mixed`, `bss`) other than the section's flags reports the error
for inconsistent attributes and changes no section; a token that stands for the section's
own flags reports nothing and changes no section. -/
theorem macho_section_flags (st : State) :
    (∀ (name : Option (List Nat)) (bits : Nat) (i : Nat) (s : Section),
      st.sects[i]? = some s →
      ∃ s1, (macho_section st name bits).1.sects[i]? = some s1 ∧ s1.flags = s.flags ∧
        s1.flags &&& SECTION_TYPE = s.flags &&& SECTION_TYPE) ∧
    (∀ (i : Nat) (s : Section) (flags : Nat) (cur : List Nat) (f : Nat),
      st.sects[i]? = some s → keyword_flags cur = some f →
      (f ≠ s.flags →
        (section_attribute i false (st, flags) cur).1.errs =
          st.errs ++ [.inconsistent_section_attributes] ∧
        (section_attribute i false (st, flags) cur).1.sects = st.sects) ∧
      (f = s.flags →
        (section_attribute i false (st, flags) cur).1.errs = st.errs ∧
        (section_attribute i false (st, flags) cur).1.sects = st.sects)) := by
  refine ⟨?_, ?_⟩
  · intro name bits i s hs
    obtain ⟨s1, e1, e2⟩ := macho_section_flags_kept st name bits i s hs
    exact ⟨s1, e1, e2, by rw [e2]⟩
  · intro i s flags cur f hs hk
    rw [keyword_step i false st flags cur f hk, hs]
    refine ⟨?_, ?_⟩
    · intro hne
      rw [if_pos ⟨by rfl, fun h => hne (Option.some.inj h).symm⟩]
      exact ⟨rfl, rfl⟩
    · intro he
      rw [if_neg (fun h => h.2 (by rw [he]; rfl))]
      refine ⟨rfl, ?_⟩
      rw [he]
      exact modify_self_flags st.sects i s hs

/-- C34 (witness): a fresh 64-bit module after the directive `.data`: the directive
`.data bss` leaves the flags of `__data` at `S_REGULAR` and reports the error for
inconsistent attributes, as the token `bss` does in the attribute loop. -/
theorem macho_section_flags_witness :
    state_data.sects.map (fun s => s.flags) = [S_REGULAR] ∧
    (macho_section state_data (some spec_data_bss) 64).1.sects.map (fun s => s.flags) =
      [S_REGULAR] ∧
    (macho_section state_data (some spec_data_bss) 64).1.errs =
      [.inconsistent_section_attributes] ∧
    keyword_flags attr_bss = some S_ZEROFILL ∧
    (section_attribute 0 false (state_data, 2 ^ 32 - 1) attr_bss).1.errs =
      state_data.errs ++ [.inconsistent_section_attributes] ∧
    (section_attribute 0 false (state_data, 2 ^ 32 - 1) attr_bss).1.sects = state_data.sects :=
  ⟨by decide, by decide, by decide, by decide,
    ((macho_section_flags state_data).2 0
      (state_data.sects.getD 0 program_start.absolute_sect) (2 ^ 32 - 1) attr_bss S_ZEROFILL
      (by rfl) (by decide)).1 (by decide)⟩

/-- C35: after any sequence of section directives, alignment requests, symbol definitions
and output events that returns, from either initialisation, a zerofill section has an
empty relocation chain and `nreloc` 0.  Hence, with at most 255 sections, the passes
before the writer return, no section with a relocation is zerofill in the state the
writer gets, the header and the load commands are written (no assertion of
`macho_write_segment` fails), and for every section the relocation bytes the segment
writer counts, which are 0 for a zerofill section, are `nreloc` entries. -/
theorem zerofill_no_reloc (cs : List call) (st0 st : State)
    (h0 : st0 = macho32_init program_start ∨ st0 = macho64_init program_start)
    (hrun : do_calls cs st0 = some st) :
    (∀ s ∈ st.sects, s.flags &&& SECTION_TYPE = S_ZEROFILL → s.relocs = [] ∧ s.nreloc = 0) ∧
    (st.sects.length ≤ MAX_SECT →
      ∃ (st1 st2 : State) (off : Nat),
        macho_calculate_sizes (fixup_all (macho_layout_symbols st)) = some st1 ∧
        (∀ s ∈ st1.sects, s.nreloc ≠ 0 → s.flags &&& SECTION_TYPE ≠ S_ZEROFILL) ∧
        write_load_commands st1 = some (st2, off) ∧
        ∀ s ∈ st1.sects, reloc_span s = s.nreloc * MACHO_RELINFO_SIZE) := by
  have hinv0 : run_inv st0 := by
    rcases h0 with rfl | rfl
    · exact run_inv_init32
    · exact run_inv_init64
  have hinv := run_inv_do_calls cs st0 st hinv0 hrun
  refine ⟨?_, ?_⟩
  · intro s hs hz
    obtain ⟨k, hk⟩ := List.getElem?_of_mem hs
    obtain ⟨-, q1, q2, -⟩ := hinv.2.2.2.2.2.1 k s hk
    have := q2 hz
    exact ⟨this, by rw [q1, this]; rfl⟩
  · intro hn
    obtain ⟨st1, st2, st3, st4, off, D, c1, c2, -⟩ := cleanup_spec st hinv hn
    have hok := sized_sects_ok st st1 hinv c1
    refine ⟨st1, st2, off, c1, ?_, c2, ?_⟩
    · intro s hs hne hz
      obtain ⟨o1, o2, -⟩ := hok s hs
      rw [o1, o2 hz] at hne
      exact hne rfl
    · intro s hs
      obtain ⟨o1, o2, -⟩ := hok s hs
      unfold reloc_span
      by_cases hz : s.flags &&& SECTION_TYPE = S_ZEROFILL
      · rw [if_neg (not_not.2 hz), o1, o2 hz]
        rfl
      · rw [if_pos hz]

/-- C35 (witness): the calls `calls_bss` of a 64-bit module: after a reserve and an
address event into `.bss`, the section holds 24 bytes and no relocation. -/
theorem zerofill_no_reloc_witness :
    state_bss.sects.map (fun s => (s.flags, s.size, s.relocs, s.nreloc)) =
      [(S_ZEROFILL, 24, [], 0), (S_REGULAR, 0, [], 0)] ∧
    (∀ s ∈ state_bss.sects, s.flags &&& SECTION_TYPE = S_ZEROFILL →
      s.relocs = [] ∧ s.nreloc = 0) ∧
    (state_bss.sects.length ≤ MAX_SECT →
      ∃ (st1 st2 : State) (off : Nat),
        macho_calculate_sizes (fixup_all (macho_layout_symbols state_bss)) = some st1 ∧
        (∀ s ∈ st1.sects, s.nreloc ≠ 0 → s.flags &&& SECTION_TYPE ≠ S_ZEROFILL) ∧
        write_load_commands st1 = some (st2, off) ∧
        ∀ s ∈ st1.sects, reloc_span s = s.nreloc * MACHO_RELINFO_SIZE) :=
  ⟨by rfl,
    zerofill_no_reloc calls_bss (macho64_init program_start) state_bss (Or.inr rfl) (by rfl)⟩

/-! ### Order of the relocation chain -/

theorem relocs_sorted_size (s s1 : Section) (h : relocs_sorted s) (hr : s1.relocs = s.relocs)
    (hs : s.size ≤ s1.size) : relocs_sorted s1 := by
  unfold relocs_sorted at *
  rw [hr]
  exact ⟨fun r hr => le_trans (h.1 r hr) hs, h.2⟩

theorem sorted_inv_modify (a b : State) (f : Section → Section) (i : Nat)
    (hb : b.sects = a.sects.modify f i) (ha : sorted_inv a)
    (hf : ∀ s, a.sects[i]? = some s → (f s).flags &&& SECTION_TYPE ≠ S_ZEROFILL →
      (f s).size < 2 ^ 31 → relocs_sorted (f s)) : sorted_inv b := by
  intro k x hx hnz hlt
  rw [hb] at hx
  by_cases hk : k = i
  · subst hk
    cases hs : a.sects[k]? with
    | none =>
      rw [List.getElem?_modify, hs] at hx
      cases hx
    | some s =>
      rw [getElem?_modify_self _ _ _ s hs] at hx
      cases hx
      exact hf s hs hnz hlt
  · rw [getElem?_modify_ne _ _ _ _ hk] at hx
    exact ha k x hx hnz hlt

theorem sorted_inv_output (st : State) (secto : Int) (data : out_data) (type : out_type)
    (size : Nat) (section_ wrt : Int) (st1 : State) (hinv : run_inv st)
    (hsz : address_sized (.output secto data type size section_ wrt))
    (h : macho_output st secto data type size section_ wrt = some st1)
    (hf : sorted_inv st) : sorted_inv st1 := by
  refine macho_output_ind_bytes (fun a b => sorted_inv a → sorted_inv b)
    (fun n => n ∈ [1, 2, 4, 8])
    (fun a h => h) (fun a b c h1 h2 h => h2 (h1 h)) (fun a d h => h)
    ?_ ?_ ?_ st secto data type size section_ wrt st1 (by decide) (by decide) ?_ hinv h hf
  · intro a si s n hs hz ha
    refine sorted_inv_modify a _ _ si rfl ha ?_
    intro s0 hs0 hnz _
    rw [hs] at hs0
    cases hs0
    exact absurd hz hnz
  · intro a si s d n _ hs hnz _ ha
    refine sorted_inv_modify a _ _ si rfl ha ?_
    intro s0 hs0 hnz0 hlt
    refine relocs_sorted_size s0 _ (ha si s0 hs0 hnz0 ?_) rfl (Nat.le_add_right _ _)
    exact lt_of_le_of_lt (Nat.le_add_right _ n) hlt
  · intro a si s section_ offset rt bytes a1 adj d hinva hs hnz hb hadd _ ha
    rcases add_reloc_sects a si s section_ offset rt bytes a1 adj hinva hs hadd with
      e | ⟨r, e, e2, e3⟩
    · refine sorted_inv_modify a _ _ si (by show (a1.sects.modify _ si) = _; rw [e]) ha ?_
      intro s0 hs0 hnz0 hlt
      refine relocs_sorted_size s0 _ (ha si s0 hs0 hnz0 ?_) rfl (Nat.le_add_right _ _)
      exact lt_of_le_of_lt (Nat.le_add_right _ bytes) hlt
    · have hb2 : (sect_write a1 si d bytes).sects = a.sects.modify (fun sc =>
          { sc with relocs := r :: sc.relocs,
                    extreloc := if r.ext ≠ 0 then 1 else sc.extreloc,
                    nreloc := sc.nreloc + 1,
                    data := sc.data ++ d, size := sc.size + bytes }) si := by
        show (a1.sects.modify _ si) = _
        rw [e]
        show ((a.sects.modify _ si).modify _ si) = _
        rw [List.modify_modify_eq]
        rfl
      refine sorted_inv_modify a _ _ si hb2 ha ?_
      intro s0 hs0 hnz0 hlt
      rw [hs] at hs0
      cases hs0
      have hlt0 : s.size < 2 ^ 31 := lt_of_le_of_lt (Nat.le_add_right _ bytes) hlt
      obtain ⟨f1, f2⟩ := ha si s hs hnz hlt0
      have haddr : r.addr = s.size := by rw [e2, Nat.mod_eq_of_lt hlt0]
      have hlen : patch_len r = bytes := patch_len_bytes r bytes hb e3
      refine ⟨?_, ?_⟩
      · intro r' hr'
        rcases List.mem_cons.1 hr' with rfl | hm
        · show r'.addr + patch_len r' ≤ s.size + bytes
          rw [haddr, hlen]
        · exact le_trans (f1 r' hm) (Nat.le_add_right _ _)
      · show (r :: s.relocs).Pairwise (fun a b => b.addr + patch_len b ≤ a.addr)
        refine List.pairwise_cons.2 ⟨?_, f2⟩
        intro r' hm
        rw [haddr]
        exact f1 r' hm
  · intro ht
    subst ht
    exact hsz

theorem sorted_inv_kept (a b : State) (h : sects_kept a b) (ha : sorted_inv a) :
    sorted_inv b := by
  intro k x hx hnz hlt
  by_cases hk : k < a.sects.length
  · obtain ⟨x', e1, -, q2, q3, q4⟩ := h.1 k _ (List.getElem?_eq_getElem hk)
    rw [hx] at e1
    cases e1
    exact relocs_sorted_size _ x
      (ha k _ (List.getElem?_eq_getElem hk) (by rw [← q4]; exact hnz) (by rw [← q3]; exact hlt))
      q2 (by rw [q3])
  · obtain ⟨-, q2, -⟩ := h.2 k x hx (by omega)
    unfold relocs_sorted
    rw [q2]
    exact ⟨fun r hr => (by cases hr), List.Pairwise.nil⟩

theorem sorted_inv_step (st st1 : State) (e : event) (hinv : run_inv st)
    (hsz : address_sized e) (h : step st e = some st1) (hf : sorted_inv st) :
    sorted_inv st1 := by
  cases e with
  | symdef name section_ offset is_global special =>
    simp only [step] at h
    have hm := symdef_sects st st1 name section_ offset is_global special h
    intro k x hx hnz hlt
    obtain ⟨s0, q0, q1, q2, q3, q4⟩ := strip_get st.sects st1.sects k x hm hx
    have := hf k s0 q0 (by rw [← q3]; exact hnz) (by rw [← q4]; exact hlt)
    exact relocs_sorted_size s0 x this q2 (by rw [q4])
  | output secto data type size section_ wrt =>
    exact sorted_inv_output st secto data type size section_ wrt st1 hinv hsz h hf
  | new_section segment sectname flags =>
    simp only [step, Option.some.injEq] at h
    rw [← h]
    obtain ⟨s0, e0, -, e2, -⟩ := new_section_sects st segment sectname flags
    intro k x hx hnz hlt
    rw [e0] at hx
    by_cases hk : k < st.sects.length
    · rw [List.getElem?_append_left hk] at hx
      exact hf k x hx hnz hlt
    · rw [List.getElem?_append_right (by omega)] at hx
      have hx0 : x = s0 := by
        cases hq : k - st.sects.length with
        | zero => rw [hq] at hx; simpa using hx.symm
        | succ j => rw [hq] at hx; simp at hx
      subst hx0
      unfold relocs_sorted
      rw [e2]
      exact ⟨fun r hr => (by cases hr), List.Pairwise.nil⟩
  | section_ name bits =>
    simp only [step, Option.some.injEq] at h
    rw [← h]
    exact sorted_inv_kept st _ (macho_section_kept st name bits) hf
  | sectalign seg value =>
    exact sorted_inv_kept st st1 (macho_sectalign_kept st st1 seg value h) hf

theorem sorted_inv_run (evs : List event) (a b : State) (ha : run_inv a) (hf : sorted_inv a)
    (he : ∀ e ∈ evs, address_sized e) (hr : run evs a = some b) : sorted_inv b := by
  induction evs generalizing a with
  | nil =>
    simp only [run, Option.some.injEq] at hr
    rw [← hr]
    exact hf
  | cons e rest ih =>
    simp only [run] at hr
    cases hs : step a e with
    | none => rw [hs] at hr; cases hr
    | some c =>
      rw [hs] at hr
      exact ih c (run_inv_step a c e ha hs)
        (sorted_inv_step a c e ha (he e (List.mem_cons_self _ _)) hs hf)
        (fun x hx => he x (List.mem_cons_of_mem _ hx)) hr

theorem sorted_inv_init (st0 : State)
    (h0 : st0 = macho32_init program_start ∨ st0 = macho64_init program_start) :
    sorted_inv st0 := by
  intro k s hs
  rcases h0 with rfl | rfl <;> cases k <;> cases hs

theorem fixup_addrs (syms : List symbol) (R : List reloc) :
    (macho_fixup_relocs syms R).map (fun r => r.addr) = R.map (fun r => r.addr) := by
  unfold macho_fixup_relocs
  rw [List.map_map]
  apply List.map_congr_left
  intro r _
  show (if r.ext ≠ 0 then _ else r).addr = r.addr
  split
  · split <;> rfl
  · rfl

/-- C33: in a state reached from either initialisation by events whose address widths
are 1, 2, 4 or 8, take a section shorter than 2^31 bytes.  Its relocation chain has
strictly decreasing `addr` from head to tail, each relocation starting at or after the
end of the bytes of every one behind it; every `addr` is below the section size and below
2^31, so that bit 31, the scattered bit, is clear; whatever events follow, the chain stays
a suffix of the later chain (new entries are put at the head); `macho_fixup_relocs` keeps
the `addr` values in place; and `macho_write_relocs` writes the entries of the chain, head
first. -/
theorem relocs_descending (evs : List event) (st0 st : State)
    (h0 : st0 = macho32_init program_start ∨ st0 = macho64_init program_start)
    (hrun : run evs st0 = some st) (hsized : ∀ e ∈ evs, address_sized e)
    (k : Nat) (s : Section) (hs : st.sects[k]? = some s) (hsmall : s.size < 2 ^ 31) :
    s.relocs.Pairwise (fun a b => b.addr < a.addr) ∧
    s.relocs.Pairwise (fun a b => b.addr + patch_len b ≤ a.addr) ∧
    (∀ r ∈ s.relocs, r.addr < s.size ∧ r.addr < 2 ^ 31 ∧ r.addr.testBit 31 = false) ∧
    (∀ (evs2 : List event) (st2 : State), run evs2 st = some st2 →
      ∃ s2, st2.sects[k]? = some s2 ∧ s.relocs <:+ s2.relocs) ∧
    (∀ (syms : List symbol),
      (macho_fixup_relocs syms s.relocs).map (fun r => r.addr) =
        s.relocs.map (fun r => r.addr)) ∧
    (∀ (stw : State) (syms : List symbol),
      macho_write_relocs stw (macho_fixup_relocs syms s.relocs) =
        nasm_write stw ((macho_fixup_relocs syms s.relocs).map reloc_entry).flatten) := by
  have hinv0 : run_inv st0 := by
    rcases h0 with rfl | rfl
    · exact run_inv_init32
    · exact run_inv_init64
  have hinv := run_inv_run evs st0 st hinv0 hrun
  have hsort : relocs_sorted s := by
    by_cases hz : s.flags &&& SECTION_TYPE = S_ZEROFILL
    · obtain ⟨-, -, q2, -⟩ := hinv.2.2.2.2.2.1 k s hs
      unfold relocs_sorted
      rw [q2 hz]
      exact ⟨fun r hr => (by cases hr), List.Pairwise.nil⟩
    · exact sorted_inv_run evs st0 st hinv0 (sorted_inv_init st0 h0) hsized hrun k s hs hz
        hsmall
  obtain ⟨f1, f2⟩ := hsort
  have hpos : ∀ r : reloc, 0 < patch_len r := by
    intro r
    rcases patch_len_cases r with h | h | h | h <;> omega
  refine ⟨?_, f2, ?_, ?_, fun syms => fixup_addrs syms s.relocs, ?_⟩
  · refine f2.imp ?_
    intro a b hab
    have := hpos b
    omega
  · intro r hr
    have h1 := f1 r hr
    have h2 := hpos r
    have h3 : r.addr < 2 ^ 31 := by omega
    exact ⟨by omega, h3, Nat.testBit_lt_two_pow h3⟩
  · intro evs2 st2 h2
    obtain ⟨s2, e2, -, g2, -⟩ := grown_run evs2 st st2 hinv h2 k s hs
    exact ⟨s2, e2, g2⟩
  · intro stw syms
    exact macho_write_relocs_eq stw _

set_option maxRecDepth 4000 in
/-- C33 (witness): the 64-bit module of `events_calls`: the chain of `__text` holds the
relocations of the address at 10, of the second call at 6 and of the first call at 1, in
this order. -/
theorem relocs_descending_witness :
    (run_calls.sects.getD 0 program_start.absolute_sect).relocs.map (fun r => r.addr) =
      [10, 6, 1] ∧
    (run_calls.sects.getD 0 program_start.absolute_sect).relocs.Pairwise
      (fun a b => b.addr < a.addr) :=
  ⟨by decide,
    (relocs_descending events_calls (macho64_init program_start) run_calls (Or.inr rfl)
      (by rfl) (by decide) 0 (run_calls.sects.getD 0 program_start.absolute_sect) (by rfl)
      (by decide)).1⟩

/-! ### Symbol numbers of relocations -/

theorem new_section_nums (st : State) (segment sectname : List Nat) (flags : Nat) :
    (new_section st segment sectname flags).1.nsyms = st.nsyms ∧
      (new_section st segment sectname flags).1.extsyms = st.extsyms := ⟨rfl, rfl⟩

theorem saa_fread_append_left (A B : List Nat) (p n : Nat) (h : p + n ≤ A.length) :
    saa_fread (A ++ B) p n = saa_fread A p n := by
  apply saa_fread_congr
  intro i _ h2
  rw [List.getElem?_append_left (by omega)]

theorem saa_fwrite_append_left (A B : List Nat) (p : Nat) (xs : List Nat)
    (h : p + xs.length ≤ A.length) : saa_fwrite (A ++ B) p xs = saa_fwrite A p xs ++ B := by
  apply List.ext_getElem?
  intro i
  by_cases hi : i < A.length
  · have e1 : (saa_fwrite A p xs ++ B)[i]? = (saa_fwrite A p xs)[i]? :=
      List.getElem?_append_left (by rw [saa_fwrite_length]; exact hi)
    have e2 : (A ++ B)[i]? = A[i]? := List.getElem?_append_left hi
    rw [e1, saa_fwrite_get, saa_fwrite_get, e2]
    by_cases hc : p ≤ i ∧ i < p + xs.length
    · rw [if_pos ⟨hc.1, hc.2, by rw [List.length_append]; omega⟩, if_pos ⟨hc.1, hc.2, hi⟩]
    · rw [if_neg (fun h => hc ⟨h.1, h.2.1⟩), if_neg (fun h => hc ⟨h.1, h.2.1⟩)]
  · have e1 : (saa_fwrite A p xs ++ B)[i]? = B[i - A.length]? := by
      rw [List.getElem?_append_right (by rw [saa_fwrite_length]; omega), saa_fwrite_length]
    have e2 : (A ++ B)[i]? = B[i - A.length]? :=
      List.getElem?_append_right (by omega)
    rw [e1, saa_fwrite_get, if_neg (by omega), e2]

theorem patch_relocs_append_left (st : State) (s : Section) (R : List reloc) (A B : List Nat)
    (h : ∀ r ∈ R, r.addr + patch_len r ≤ A.length) :
    patch_relocs st s R (A ++ B) = (patch_relocs st s R A).map (fun D => D ++ B) := by
  induction R generalizing A with
  | nil => rfl
  | cons r rest ih =>
    have hr := h r (List.mem_cons_self _ _)
    simp only [patch_relocs, patch_reloc]
    rw [saa_fread_append_left A B _ _ hr]
    cases hv : patch_value st s r (to_int64 (le_value (saa_fread A r.addr (patch_len r)))) with
    | none => rfl
    | some v =>
      simp only [Option.map_some', Option.some_bind]
      rw [saa_fwrite_append_left A B _ _ (by rw [le_bytes_length]; exact hr)]
      exact ih _ (fun q hq => by
        rw [saa_fwrite_length]
        exact h q (List.mem_cons_of_mem _ hq))

theorem file_patched_head (st2 : State) (hinv2 : run_inv st2)
    (hn : st2.sects.length ≤ MAX_SECT) (st1 : State)
    (hsz : macho_calculate_sizes (fixup_all (macho_layout_symbols st2)) = some st1)
    (si : Nat) (S1 : Section) (hS1 : st1.sects[si]? = some S1)
    (hnz : S1.flags &&& SECTION_TYPE ≠ S_ZEROFILL) (A B : List Nat) (hdata : S1.data = A ++ B)
    (hin : ∀ r ∈ S1.relocs, r.addr + patch_len r ≤ A.length) :
    ∃ (stw fin : State) (Sw : Section) (A1 : List Nat),
      macho_cleanup st2 = some fin ∧ Sw.addr = S1.addr ∧
      (∀ r ∈ S1.relocs, r.ext = 0 → ∃ T1, st1.sects[r.snum.toNat - 1]? = some T1 ∧
        ∀ x, patch_value stw Sw r x =
          some (if r.pcrel ≠ 0 then x + T1.addr - Sw.addr else x + T1.addr)) ∧
      patch_relocs stw Sw S1.relocs A = some A1 ∧
      bytes_at fin.ofile (st2.fmt.header_size + st1.head_sizeofcmds + S1.offset) A1 := by
  obtain ⟨st1', stw, fin, off, c1, c2, c6, c5, hfile⟩ := file_section_data st2 hinv2 hn
  rw [hsz] at c1
  cases c1
  obtain ⟨z1, z2, z3, z4, z5, z6, z7, z8, z9, z10, z11, z12, -⟩ := sized_spec st2 st1 hinv2 hsz
  obtain ⟨v1, v2, v3⟩ := written_snums_valid st2 st1 stw off hinv2 hsz c2
  have hsi : si < st1.sects.length := (List.getElem?_eq_some_iff.1 hS1).1
  have hne : st2.sects ≠ [] := List.length_pos.1 (by rw [← z3]; omega)
  obtain ⟨Sw, hSw, hcS⟩ := same_cores_get st1.sects stw.sects c6.2.2 si S1 hS1
  obtain ⟨a1, a2, a3, a4, a5, -, -, -, a9, -⟩ := core_fields Sw S1 hcS
  have hnzw : Sw.flags &&& SECTION_TYPE ≠ S_ZEROFILL := by rw [a9]; exact hnz
  obtain ⟨P, p1, p2, p3⟩ := hfile si Sw hSw hnzw
  have hsv : snums_valid stw S1.relocs := by
    intro r hr he
    obtain ⟨q1, q2, q3, -⟩ := v3 Sw (List.getElem?_mem hSw) r (a2 ▸ hr) he
    exact ⟨by omega, q2, q3⟩
  obtain ⟨A1, hA1, hlen⟩ := patch_relocs_some stw Sw S1.relocs A hsv
  have hP : P = A1 ++ B := by
    rw [a2, a1, hdata, patch_relocs_append_left stw Sw S1.relocs A B hin, hA1] at p1
    exact (Option.some.inj p1).symm
  have hsst : stw.sectstab =
      sectptr.absolute :: (List.range stw.sects.length).map (fun i => sectptr.real i) := by
    have hk := c6.1
    simp only [kept_by_writer, Prod.mk.injEq] at hk
    rw [hk.2.2.1, z12, same_cores_length _ _ c6.2.2]
  refine ⟨stw, fin, Sw, A1, c5.2 hne, a3, ?_, hA1, ?_⟩
  · intro r hr he
    obtain ⟨q1, q2, q3, sc, hsc, -⟩ := v3 Sw (List.getElem?_mem hSw) r (a2 ▸ hr) he
    have hj : r.snum.toNat - 1 < st1.sects.length := by
      rw [← same_cores_length _ _ c6.2.2]
      exact (List.getElem?_eq_some_iff.1 hsc).1
    obtain ⟨Tw, hTw, hcT⟩ := same_cores_get st1.sects stw.sects c6.2.2 _ _
      (List.getElem?_eq_getElem hj)
    refine ⟨_, List.getElem?_eq_getElem hj, ?_⟩
    intro x
    have hpos : r.snum.toNat - 1 + 1 = r.snum.toNat := by omega
    have haddr : sectstab_addr stw r.snum.toNat = some Tw.addr := by
      rw [← hpos, sectstab_addr_succ stw hsst, hTw]
      rfl
    have hb3 := (core_fields Tw _ hcT).2.2.1
    unfold patch_value
    rw [if_pos he, if_pos ⟨by omega, q2⟩, haddr, hb3]
    rfl
  · rw [hP] at p3
    rw [a5] at p3
    have := bytes_at_fread fin.ofile (A1 ++ B) _ 0 A1 p3
      (by
        have := saa_fread_mid [] A1 B
        simpa using this)
      (by rw [List.length_append]; omega)
    rw [Nat.add_zero] at this
    exact this

set_option maxRecDepth 4000 in
/-- C6 (counterexample): in the 32-bit run `run_twice` the section `__text` holds 2^31 + 4
bytes and two relocations with `ext = 0`, the second registered at position 2^31 and both
with `addr` 0, width 4 and the file index 2 of `__data`, whose address is 2^31 + 4.  The
four bytes at position 0 hold 0 before the write pass; in the file (contents of `__text`
from byte 220) they hold 8, the address having been added twice, while
`(V + sectstab[snum].addr) mod 2^32` is 2^31 + 4. -/
theorem overlapping_relocs_patched_twice :
    reachable run_twice ∧
    run_twice.sects.map (fun s => (s.size, s.relocs)) =
      [(2 ^ 31 + 4, [{ addr := 0, snum := 2, pcrel := 0, length := 2, ext := 0, type := 0 },
          { addr := 0, snum := 2, pcrel := 0, length := 2, ext := 0, type := 0 }]),
       (0, [])] ∧
    saa_fread (run_twice.sects.getD 0 program_start.absolute_sect).data 0 4 = [0, 0, 0, 0] ∧
    sized_twice.sects.map (fun s => (s.addr, s.offset)) =
      [(0, 0), (2 ^ 31 + 4, 2 ^ 31 + 4)] ∧
    run_twice.fmt.header_size + sized_twice.head_sizeofcmds = 220 ∧
    bytes_at (emitted run_twice) 220 [8, 0, 0, 0] ∧
    le_bytes 4 ((((0 : Int) + (2 ^ 31 + 4 : Nat) - 0) % 2 ^ (8 * 4)).toNat) =
      [4, 0, 0, 0x80] := by
  have hr : reachable run_twice := ⟨events_twice, Or.inl (by rfl)⟩
  refine ⟨hr, by decide, by rfl, by decide, by decide, ?_, by decide⟩
  have hsz : macho_calculate_sizes (fixup_all (macho_layout_symbols run_twice)) =
      some sized_twice := by rfl
  have hS1 : sized_twice.sects[0]? =
      some (sized_twice.sects.getD 0 program_start.absolute_sect) := by rfl
  have hrel : (sized_twice.sects.getD 0 program_start.absolute_sect).relocs =
      [{ addr := 0, snum := 2, pcrel := 0, length := 2, ext := 0, type := 0 },
        { addr := 0, snum := 2, pcrel := 0, length := 2, ext := 0, type := 0 }] := by rfl
  have hdata : (sized_twice.sects.getD 0 program_start.absolute_sect).data =
      [0, 0, 0, 0] ++ (sized_twice.sects.getD 0 program_start.absolute_sect).data.drop 4 := by
    have h4 : (sized_twice.sects.getD 0 program_start.absolute_sect).data.take 4 =
        [0, 0, 0, 0] := by rfl
    rw [← h4]
    exact (List.take_append_drop 4 _).symm
  obtain ⟨stw, fin, Sw, A1, c5, a3, hpv, hA1, hb⟩ := file_patched_head run_twice
    (reachable_inv run_twice hr) (by decide) sized_twice hsz 0 _ hS1 (by decide)
    [0, 0, 0, 0] _ hdata (by
      rw [hrel]
      intro r hr
      simp only [List.mem_cons, List.mem_singleton, List.not_mem_nil, or_false, or_self] at hr
      rw [hr]
      decide)
  rw [hrel] at hpv hA1
  obtain ⟨T1, hT1, hv⟩ := hpv _ (List.mem_cons_self _ _) rfl
  have hT : T1.addr = 2 ^ 31 + 4 := by
    have h1 : sized_twice.sects[1]? =
        some (sized_twice.sects.getD 1 program_start.absolute_sect) := by rfl
    have h2 : sized_twice.sects[(2 : Int).toNat - 1]? = sized_twice.sects[1]? := rfl
    rw [h2, h1] at hT1
    cases hT1
    rfl
  have hv2 : ∀ x : Int, patch_value stw Sw
      { addr := 0, snum := 2, pcrel := 0, length := 2, ext := 0, type := 0 } x =
      some (x + ((2 ^ 31 + 4 : Nat) : Int)) := by
    intro x
    rw [hv x, hT]
    rfl
  simp only [patch_relocs, patch_reloc, hv2, Option.map_some', Option.some_bind] at hA1
  have hA : A1 = [8, 0, 0, 0] := by
    rw [← Option.some.inj hA1]
    decide
  have hoff : (sized_twice.sects.getD 0 program_start.absolute_sect).offset = 0 := by rfl
  have hbase : run_twice.fmt.header_size + sized_twice.head_sizeofcmds = 220 := by decide
  rw [hoff, hbase, Nat.add_zero, hA] at hb
  have hem : emitted run_twice = fin.ofile := by
    unfold emitted
    rw [c5]
    rfl
  rw [hem]
  exact hb

end Macho
